import Mathlib

/-!
The `numbits` array engine: shape / stride utilities, the array container and the
broadcasting engine; and the array overloads of `catplot::Axes`.

A shallow embedding of `numbits/utils.hpp`, `numbits/ndarray.hpp`,
`numbits/broadcasting.hpp`, the binary element-wise operations,
`multiply_scalar` and the reductions `sum`, `mean`, `min`, `max` of
`numbits/operations.hpp`, `matmul`, `dot`, `transpose`, `determinant`, `inverse`
and `trace` of `numbits/linear_algebra.hpp`, `concatenate`, `stack`, `split`,
`repeat` and `tile` of `numbits/ndarray_manipulation.hpp`, `take`, `where`,
`advanced_indexing` and `slice_1d` of `numbits/indexing.hpp`, and `plot` and
`scatter` of `catplot/axes.hpp` and `axes.cpp`.

* `size_t` is the 64-bit unsigned integer type: every `size_t` product, sum and
  increment of the source is taken modulo `2 ^ 64` (`mulSz`, `addSz`).
* `std::vector<size_t>` is `List Nat`; a buffer pointer `T*` is the list of the
  elements that can be read through it (`nullptr` is the empty list).
* A C++ function that can throw, or whose behaviour is undefined on some input
  (out-of-bounds read or write, division by zero), returns `Except Error _`.
* Allocation (`new T[n]`) always succeeds, the rank of a shape is below `INT_MAX`
  (the loop counters of the source never wrap), and the scalar operators of the
  element type are total functions.
* The linear-algebra functions are read over exact arithmetic: the element type
  is a ring (`determinant`) or a linearly ordered field (`inverse`), and the
  literal `1e-10` is the rational `1 / 10000000000`.
* The reductions live in the namespace `reduction`, so that `min` and `max` keep
  their names; `static_cast<T>(arr.size())` is the cast of the element type.
-/

set_option autoImplicit false

namespace numbits

/-! ## Machine integers and failure -/

/-- The number of values of `size_t` (`std::size_t` is 64 bits wide). -/
def SIZE_T_MODULUS : Nat := 2 ^ 64

/-- Product of two `size_t` values, as `operator*` computes it. -/
def mulSz (a b : Nat) : Nat := (a * b) % SIZE_T_MODULUS

/-- Sum of two `size_t` values, as `operator+` computes it. -/
def addSz (a b : Nat) : Nat := (a + b) % SIZE_T_MODULUS

/-- How a call can fail: the two exception classes the library throws, and
undefined behaviour (a read or write outside a buffer, a division by zero). -/
inductive Error where
  | runtime_error
  | out_of_range
  | undefined
deriving DecidableEq, Repr

deriving instance DecidableEq for Except

abbrev Shape := List Nat
abbrev Strides := List Nat

/-- Read `buf[i]` through a raw pointer or an unchecked `std::vector::operator[]`;
outside the buffer the behaviour is undefined. -/
def readAt {α : Type} (buf : List α) (i : Nat) : Except Error α :=
  match buf[i]? with
  | some v => .ok v
  | none => .error .undefined

/-- Write `buf[i] = v` through a raw pointer or an unchecked `operator[]`. -/
def writeAt {α : Type} (buf : List α) (i : Nat) (v : α) : Except Error (List α) :=
  if i < buf.length then .ok (buf.set i v) else .error .undefined

/-! ## utils.hpp -/

/-- `compute_size`: 1 for the empty shape, otherwise `std::accumulate` with
`std::multiplies<size_t>` from `size_t(1)`. -/
def compute_size (shape : Shape) : Nat :=
  if shape.isEmpty then 1
  else shape.foldl (fun acc d => mulSz acc d) 1

/-- `compute_strides`: the vector is zero-initialised, its last entry set to 1 and
the loop `for (i = size - 2; i >= 0; --i) strides[i] = strides[i+1] * shape[i+1]`
runs from right to left. -/
def compute_strides (shape : Shape) : Strides :=
  if shape.isEmpty then []
  else
    let n := shape.length
    let strides := (List.replicate n 0).set (n - 1) 1
    (List.range (n - 1)).reverse.foldl
      (fun st i => st.set i (mulSz (st.getD (i + 1) 0) (shape.getD (i + 1) 0)))
      strides

/-- The loop of `flatten_index` from position `i` on: `flat_idx += indices[i] * strides[i]`.
The two vectors are walked in lockstep; `strides[i]` past the end of `strides`
is an out-of-bounds read. -/
def flatten_index_loop : Nat → List Nat → Strides → Except Error Nat
  | flat_idx, [], _ => .ok flat_idx
  | _, _ :: _, [] => .error .undefined
  | flat_idx, i :: indices, s :: strides =>
      flatten_index_loop (addSz flat_idx (mulSz i s)) indices strides

/-- `flatten_index(indices, strides)`. -/
def flatten_index (indices : List Nat) (strides : Strides) : Except Error Nat :=
  flatten_index_loop 0 indices strides

/-- `unravel_index(flat_idx, shape, strides)`: for each position `i` of `shape`,
`indices[i] = flat_idx / strides[i]; flat_idx %= strides[i]`. A zero stride is a
division by zero, a missing stride an out-of-bounds read. -/
def unravel_index : Nat → Shape → Strides → Except Error (List Nat)
  | _, [], _ => .ok []
  | _, _ :: _, [] => .error .undefined
  | flat_idx, _ :: shape, s :: strides =>
      if s = 0 then .error .undefined
      else
        match unravel_index (flat_idx % s) shape strides with
        | .ok rest => .ok (flat_idx / s :: rest)
        | .error e => .error e

/-- One iteration of the loop of `broadcast_shapes` (loop variable `i`, counted
from the trailing dimension). -/
def broadcast_shapes_step (shape1 shape2 : Shape) (ndim : Nat) (result : Shape) (i : Nat) :
    Except Error Shape :=
  let dim1 := if i < shape1.length then shape1.getD (shape1.length - 1 - i) 0 else 1
  let dim2 := if i < shape2.length then shape2.getD (shape2.length - 1 - i) 0 else 1
  if dim1 ≠ dim2 ∧ dim1 ≠ 1 ∧ dim2 ≠ 1 then .error .runtime_error
  else .ok (result.set (ndim - 1 - i) (max dim1 dim2))

/-- `broadcast_shapes(shape1, shape2)`; the `std::runtime_error` is the only failure. -/
def broadcast_shapes (shape1 shape2 : Shape) : Except Error Shape :=
  let ndim := max shape1.length shape2.length
  (List.range ndim).foldlM (broadcast_shapes_step shape1 shape2 ndim) (List.replicate ndim 0)

/-- `can_broadcast`: true unless `broadcast_shapes` throws. -/
def can_broadcast (shape1 shape2 : Shape) : Bool :=
  match broadcast_shapes shape1 shape2 with
  | .ok _ => true
  | .error _ => false

/-! ## ndarray.hpp -/

/-- `ndarray<T>`: the private members `shape_`, `strides_`, `data_`, `size_`,
`owns_data_`. `data_` lists the elements readable through the pointer. -/
structure ndarray (T : Type) where
  shape_ : Shape
  strides_ : Strides
  data_ : List T
  size_ : Nat
  owns_data_ : Bool
deriving DecidableEq, Repr

namespace ndarray

variable {T : Type}

/-- `ndarray()`: the default constructor. -/
def ctor_default : ndarray T :=
  { shape_ := [], strides_ := [], data_ := [], size_ := 0, owns_data_ := false }

/-- `explicit ndarray(const Shape& shape)`: zero-filled. -/
def ctor_shape [Zero T] (shape : Shape) : ndarray T :=
  let size := compute_size shape
  { shape_ := shape
    strides_ := compute_strides shape
    data_ := if size > 0 then List.replicate size 0 else []
    size_ := size
    owns_data_ := true }

/-- `ndarray(const Shape& shape, const std::vector<T>& data)`. -/
def ctor_data (shape : Shape) (data : List T) : Except Error (ndarray T) :=
  let size := compute_size shape
  if data.length ≠ size then .error .runtime_error
  else
    .ok { shape_ := shape
          strides_ := compute_strides shape
          data_ := if size > 0 then data else []
          size_ := size
          owns_data_ := true }

/-- `ndarray(const ndarray& other)`: the copy constructor; `std::copy` reads
`size_` elements through `other.data_`. -/
def ctor_copy (other : ndarray T) : Except Error (ndarray T) :=
  if other.size_ > 0 then
    if other.data_.length < other.size_ then .error .undefined
    else
      .ok { shape_ := other.shape_
            strides_ := other.strides_
            data_ := other.data_.take other.size_
            size_ := other.size_
            owns_data_ := true }
  else
    .ok { shape_ := other.shape_
          strides_ := other.strides_
          data_ := []
          size_ := other.size_
          owns_data_ := true }

/-- `ndarray(ndarray&& other)`: the move constructor. Returns the new container
and the state `other` is left in (its vectors are moved from, hence empty). -/
def ctor_move (other : ndarray T) : ndarray T × ndarray T :=
  ({ shape_ := other.shape_
     strides_ := other.strides_
     data_ := other.data_
     size_ := other.size_
     owns_data_ := other.owns_data_ },
   { shape_ := []
     strides_ := []
     data_ := []
     size_ := 0
     owns_data_ := false })

def shape (a : ndarray T) : Shape := a.shape_
def strides (a : ndarray T) : Strides := a.strides_
def size (a : ndarray T) : Nat := a.size_
def ndim (a : ndarray T) : Nat := a.shape_.length
def data (a : ndarray T) : List T := a.data_

/-- `operator[](size_t index)`, read. -/
def get (a : ndarray T) (index : Nat) : Except Error T :=
  if index ≥ a.size_ then .error .out_of_range
  else readAt a.data_ index

/-- `operator[](size_t index)`, followed by an assignment through the reference. -/
def set (a : ndarray T) (index : Nat) (v : T) : Except Error (ndarray T) :=
  if index ≥ a.size_ then .error .out_of_range
  else
    match writeAt a.data_ index v with
    | .ok d => .ok { a with data_ := d }
    | .error e => .error e

/-- `at(const std::vector<size_t>& indices)`, read. -/
def «at» (a : ndarray T) (indices : List Nat) : Except Error T :=
  if indices.length ≠ a.shape_.length then .error .runtime_error
  else if (indices.zip a.shape_).any (fun p => decide (p.1 ≥ p.2)) then .error .out_of_range
  else
    match flatten_index indices a.strides_ with
    | .ok flat => readAt a.data_ flat
    | .error e => .error e

/-- `fill(value)`: `std::fill` writes `size_` elements through `data_`. -/
def fill (a : ndarray T) (value : T) : Except Error (ndarray T) :=
  if a.data_.length < a.size_ then .error .undefined
  else .ok { a with data_ := List.replicate a.size_ value ++ a.data_.drop a.size_ }

def zeros [Zero T] (shape : Shape) : Except Error (ndarray T) :=
  (ctor_shape shape : ndarray T).fill 0

def ones [Zero T] [One T] (shape : Shape) : Except Error (ndarray T) :=
  (ctor_shape shape : ndarray T).fill 1

def full [Zero T] (shape : Shape) (value : T) : Except Error (ndarray T) :=
  (ctor_shape shape : ndarray T).fill value

/-- `create_view(new_shape, new_strides, new_data)`: starts from a default
constructed container and assigns the members. -/
def create_view (new_shape : Shape) (new_strides : Strides) (new_data : List T) : ndarray T :=
  let view : ndarray T := ctor_default
  { view with
    shape_ := new_shape
    strides_ := new_strides
    data_ := new_data
    size_ := compute_size new_shape
    owns_data_ := false }

/-- `reshape(new_shape)`: throws on a size mismatch, otherwise copies `size_`
elements into a fresh buffer. -/
def reshape (a : ndarray T) (new_shape : Shape) : Except Error (ndarray T) :=
  let new_size := compute_size new_shape
  if new_size ≠ a.size_ then .error .runtime_error
  else
    let new_strides := compute_strides new_shape
    let result : ndarray T := ctor_default
    if a.data_.length < a.size_ then .error .undefined
    else
      .ok { result with
            shape_ := new_shape
            strides_ := new_strides
            size_ := new_size
            owns_data_ := true
            data_ := a.data_.take a.size_ }

/-- `flatten()`. -/
def flatten (a : ndarray T) : Except Error (ndarray T) :=
  a.reshape [a.size_]

end ndarray

/-! ## broadcasting.hpp -/

/-- `BroadcastIterator<T>`: its private members. -/
structure BroadcastIterator (T : Type) where
  ndarray_ : ndarray T
  target_shape_ : Shape
  target_strides_ : Strides
  ndarray_strides_ : Strides
  expanded_shape_ : Shape
  expanded_strides_ : Strides
  current_index_ : List Nat
  flat_index_ : Nat

namespace BroadcastIterator

variable {T : Type}

/-- The constructor. `expanded_shape_` is resized to the target rank with 1s and
`arr.shape()[i]` is written at `offset + i`; when the array has more dimensions
than the target, `offset` wraps around and the first write is out of bounds. -/
def ctor (arr : ndarray T) (target_shape : Shape) : Except Error (BroadcastIterator T) :=
  if target_shape.length < arr.ndim then .error .undefined
  else
    let offset := target_shape.length - arr.ndim
    match (List.range arr.ndim).foldlM
        (fun es i => writeAt es (offset + i) (arr.shape_.getD i 0))
        (List.replicate target_shape.length 1) with
    | .error e => .error e
    | .ok expanded_shape =>
      .ok { ndarray_ := arr
            target_shape_ := target_shape
            target_strides_ := compute_strides target_shape
            ndarray_strides_ := arr.strides_
            expanded_shape_ := expanded_shape
            expanded_strides_ := compute_strides expanded_shape
            current_index_ := List.replicate target_shape.length 0
            flat_index_ := 0 }

/-- The loop of `get_value` over the positions of `target_shape_`, walking
`current_index_`, `expanded_shape_` and `expanded_strides_` in lockstep. -/
def get_value_loop : Nat → Shape → List Nat → Shape → Strides → Except Error Nat
  | ndarray_index, [], _, _, _ => .ok ndarray_index
  | ndarray_index, _ :: target, c :: current, e :: expanded, s :: strides =>
      let dim_index := if e = 1 then 0 else c
      get_value_loop (addSz ndarray_index (mulSz dim_index s)) target current expanded strides
  | _, _ :: _, _, _, _ => .error .undefined

/-- `get_value()`. -/
def get_value (it : BroadcastIterator T) : Except Error T :=
  match get_value_loop 0 it.target_shape_ it.current_index_ it.expanded_shape_
      it.expanded_strides_ with
  | .ok ndarray_index => readAt it.ndarray_.data_ ndarray_index
  | .error e => .error e

/-- The loop of `increment`, with `k = i + 1` positions left to visit:
`current_index_[i]++`, stop if it is below `target_shape_[i]`, else reset it to 0
and carry into position `i - 1`. -/
def increment_loop (target_shape : Shape) : Nat → List Nat → List Nat
  | 0, current => current
  | i + 1, current =>
      let current1 := current.set i (addSz (current.getD i 0) 1)
      if current1.getD i 0 < target_shape.getD i 0 then current1
      else increment_loop target_shape i (current1.set i 0)

/-- `increment()`. -/
def increment (it : BroadcastIterator T) : BroadcastIterator T :=
  { it with
    current_index_ := increment_loop it.target_shape_ it.target_shape_.length it.current_index_
    flat_index_ := addSz it.flat_index_ 1 }

def is_end (it : BroadcastIterator T) : Bool :=
  decide (it.flat_index_ ≥ compute_size it.target_shape_)

def flat_index (it : BroadcastIterator T) : Nat := it.flat_index_

end BroadcastIterator

/-- One iteration of the loop of `broadcast_to`: `result[i] = it.get_value(); it.increment();`. -/
def broadcast_to_step {T : Type} (st : ndarray T × BroadcastIterator T) (i : Nat) :
    Except Error (ndarray T × BroadcastIterator T) :=
  match st.2.get_value with
  | .error e => .error e
  | .ok v =>
    match st.1.set i v with
    | .error e => .error e
    | .ok r => .ok (r, st.2.increment)

/-- `broadcast_to(arr, target_shape)`. -/
def broadcast_to {T : Type} [Zero T] (arr : ndarray T) (target_shape : Shape) :
    Except Error (ndarray T) :=
  match broadcast_shapes arr.shape_ target_shape with
  | .error e => .error e
  | .ok broadcasted_shape =>
    let result : ndarray T := ndarray.ctor_shape broadcasted_shape
    match BroadcastIterator.ctor arr broadcasted_shape with
    | .error e => .error e
    | .ok it =>
      match (List.range result.size_).foldlM broadcast_to_step (result, it) with
      | .error e => .error e
      | .ok st => .ok st.1

/-! ## operations.hpp -/

/-- One iteration of the binary `std::transform`: `*d_first++ = op(*first1++, *first2++)`. -/
def transform2_step {T U : Type} (op : T → T → U) (first1 first2 : List T) (out : List U)
    (k : Nat) : Except Error (List U) :=
  match readAt first1 k with
  | .error e => .error e
  | .ok x =>
    match readAt first2 k with
    | .error e => .error e
    | .ok y => writeAt out k (op x y)

/-- The binary `std::transform(first1, last1, first2, d_first, op)` over raw
pointers: `n = last1 - first1` elements are read from both inputs and written
to the output. -/
def transform2 {T U : Type} (op : T → T → U) (first1 : List T) (n : Nat) (first2 : List T)
    (d_first : List U) : Except Error (List U) :=
  (List.range n).foldlM (transform2_step op first1 first2) d_first

/-- The common body of the ten binary element-wise functions: resolve the shape,
allocate the result, broadcast both operands, transform. -/
def binary_elementwise {T U : Type} [Zero T] [Zero U] (op : T → T → U) (a b : ndarray T) :
    Except Error (ndarray U) :=
  match broadcast_shapes a.shape_ b.shape_ with
  | .error e => .error e
  | .ok result_shape =>
    let result : ndarray U := ndarray.ctor_shape result_shape
    match broadcast_to a result_shape with
    | .error e => .error e
    | .ok a_broadcast =>
      match broadcast_to b result_shape with
      | .error e => .error e
      | .ok b_broadcast =>
        match transform2 op a_broadcast.data_ a_broadcast.size_ b_broadcast.data_
            result.data_ with
        | .error e => .error e
        | .ok out => .ok { result with data_ := out }

section operations

variable {T : Type} [Zero T]

def add [Add T] (a b : ndarray T) : Except Error (ndarray T) :=
  binary_elementwise (fun x y => x + y) a b

def subtract [Sub T] (a b : ndarray T) : Except Error (ndarray T) :=
  binary_elementwise (fun x y => x - y) a b

def multiply [Mul T] (a b : ndarray T) : Except Error (ndarray T) :=
  binary_elementwise (fun x y => x * y) a b

def divide [Div T] (a b : ndarray T) : Except Error (ndarray T) :=
  binary_elementwise (fun x y => x / y) a b

def equal [DecidableEq T] (a b : ndarray T) : Except Error (ndarray Bool) :=
  binary_elementwise (fun x y => decide (x = y)) a b

def not_equal [DecidableEq T] (a b : ndarray T) : Except Error (ndarray Bool) :=
  binary_elementwise (fun x y => decide (x ≠ y)) a b

def less [LT T] [DecidableRel (fun x y : T => x < y)] (a b : ndarray T) :
    Except Error (ndarray Bool) :=
  binary_elementwise (fun x y => decide (x < y)) a b

def greater [LT T] [DecidableRel (fun x y : T => x < y)] (a b : ndarray T) :
    Except Error (ndarray Bool) :=
  binary_elementwise (fun x y => decide (x > y)) a b

def less_equal [LE T] [DecidableRel (fun x y : T => x ≤ y)] (a b : ndarray T) :
    Except Error (ndarray Bool) :=
  binary_elementwise (fun x y => decide (x ≤ y)) a b

def greater_equal [LE T] [DecidableRel (fun x y : T => x ≤ y)] (a b : ndarray T) :
    Except Error (ndarray Bool) :=
  binary_elementwise (fun x y => decide (x ≥ y)) a b

end operations

namespace ndarray

variable {T : Type}

/-- `ndarray(std::initializer_list<T> data) : ndarray(Shape{data.size()}, data)`: the
1D constructor. It is also what a declaration `ndarray<T> x({a, b})` with one braced
argument calls: converting the braced list to `std::initializer_list<T>` is a standard
conversion of its elements, converting it to `const Shape&` is a user-defined
conversion, and overload resolution prefers the former. -/
def ctor_list (data : List T) : Except Error (ndarray T) :=
  ctor_data [data.length] data

/-- The non-const `at(indices)`, followed by an assignment through the returned
reference. -/
def at_set (a : ndarray T) (indices : List Nat) (v : T) : Except Error (ndarray T) :=
  if indices.length ≠ a.shape_.length then .error .runtime_error
  else if (indices.zip a.shape_).any (fun p => decide (p.1 ≥ p.2)) then .error .out_of_range
  else
    match flatten_index indices a.strides_ with
    | .error e => .error e
    | .ok flat =>
      match writeAt a.data_ flat v with
      | .error e => .error e
      | .ok d => .ok { a with data_ := d }

end ndarray

/-! ## operations.hpp: scalar variants -/

/-- One iteration of the unary `std::transform`: `*d_first++ = op(*first1++)`. -/
def transform1_step {T U : Type} (op : T → U) (first1 : List T) (out : List U) (k : Nat) :
    Except Error (List U) :=
  match readAt first1 k with
  | .error e => .error e
  | .ok x => writeAt out k (op x)

/-- The unary `std::transform(first1, last1, d_first, op)` over raw pointers. -/
def transform1 {T U : Type} (op : T → U) (first1 : List T) (n : Nat) (d_first : List U) :
    Except Error (List U) :=
  (List.range n).foldlM (transform1_step op first1) d_first

/-- `multiply_scalar(a, scalar)`. -/
def multiply_scalar {T : Type} [Zero T] [Mul T] (a : ndarray T) (scalar : T) :
    Except Error (ndarray T) :=
  let result : ndarray T := ndarray.ctor_shape a.shape_
  match transform1 (fun val => val * scalar) a.data_ a.size_ result.data_ with
  | .error e => .error e
  | .ok out => .ok { result with data_ := out }

/-! ## linear_algebra.hpp -/

section linear_algebra

variable {T : Type}

/-- The body of the `k` loop of `matmul`: `sum += a.at({i, k}) * b.at({k, j})`. -/
def matmul_inner [Add T] [Mul T] (a b : ndarray T) (i j : Nat) (sum : T) (k : Nat) :
    Except Error T :=
  match a.at [i, k] with
  | .error e => .error e
  | .ok x =>
    match b.at [k, j] with
    | .error e => .error e
    | .ok y => .ok (sum + x * y)

/-- The body of the `j` loop of `matmul`: the `k` loop from `T{0}`, then
`result.at({i, j}) = sum`. -/
def matmul_col [Zero T] [Add T] [Mul T] (a b : ndarray T) (n i : Nat) (result : ndarray T)
    (j : Nat) : Except Error (ndarray T) :=
  match (List.range n).foldlM (matmul_inner a b i j) 0 with
  | .error e => .error e
  | .ok sum => result.at_set [i, j] sum

/-- The body of the `i` loop of `matmul`. -/
def matmul_row [Zero T] [Add T] [Mul T] (a b : ndarray T) (n p : Nat) (result : ndarray T)
    (i : Nat) : Except Error (ndarray T) :=
  (List.range p).foldlM (matmul_col a b n i) result

/-- `matmul(a, b)`; the result is built with `ndarray<T> result(Shape{m, p})`. -/
def matmul [Zero T] [Add T] [Mul T] (a b : ndarray T) : Except Error (ndarray T) :=
  if a.ndim ≠ 2 ∨ b.ndim ≠ 2 then .error .runtime_error
  else if a.shape_.getD 1 0 ≠ b.shape_.getD 0 0 then .error .runtime_error
  else
    let m := a.shape_.getD 0 0
    let n := a.shape_.getD 1 0
    let p := b.shape_.getD 1 0
    let result : ndarray T := ndarray.ctor_shape [m, p]
    (List.range m).foldlM (matmul_row a b n p) result

/-- The body of the `j` loop of `transpose`: `result.at({j, i}) = arr.at({i, j})`. -/
def transpose_cell (arr : ndarray T) (i : Nat) (result : ndarray T) (j : Nat) :
    Except Error (ndarray T) :=
  match arr.at [i, j] with
  | .error e => .error e
  | .ok v => result.at_set [j, i] v

/-- The body of the `i` loop of `transpose`. -/
def transpose_row (arr : ndarray T) (n : Nat) (result : ndarray T) (i : Nat) :
    Except Error (ndarray T) :=
  (List.range n).foldlM (transpose_cell arr i) result

/-- `transpose(arr)`; the result is built from the named `Shape shape = {n, m}`. -/
def transpose [Zero T] (arr : ndarray T) : Except Error (ndarray T) :=
  if arr.ndim ≠ 2 then .error .runtime_error
  else
    let m := arr.shape_.getD 0 0
    let n := arr.shape_.getD 1 0
    let result : ndarray T := ndarray.ctor_shape [n, m]
    (List.range m).foldlM (transpose_row arr n) result

/-- The body of the `k` loop of `determinant` that fills row `i - 1` of the
submatrix; the state is the submatrix and `col_idx`:
`if (k != j) { submatrix.at({i - 1, col_idx}) = arr.at({i, k}); col_idx++; }`. -/
def determinant_fill_step (arr : ndarray T) (j i : Nat) (st : ndarray T × Nat) (k : Nat) :
    Except Error (ndarray T × Nat) :=
  if k ≠ j then
    match arr.at [i, k] with
    | .error e => .error e
    | .ok v =>
      match st.1.at_set [i - 1, st.2] v with
      | .error e => .error e
      | .ok submatrix => .ok (submatrix, addSz st.2 1)
  else .ok st

/-- The body of the `i` loop of `determinant` (`i` runs from 1). -/
def determinant_fill_row (arr : ndarray T) (n j : Nat) (submatrix : ndarray T) (i : Nat) :
    Except Error (ndarray T) :=
  match (List.range n).foldlM (determinant_fill_step arr j i) (submatrix, 0) with
  | .error e => .error e
  | .ok st => .ok st.1

/-- The body of the `j` loop of `determinant`. `ndarray<T> submatrix({n - 1, n - 1})`
has one braced argument, so it calls the 1D constructor with the two values
`T(n - 1)`; `self` is the recursive call `determinant(submatrix)`. -/
def determinant_step [Ring T] (self : ndarray T → Except Error T) (arr : ndarray T) (n : Nat)
    (det : T) (j : Nat) : Except Error T :=
  match ndarray.ctor_list [((n - 1 : Nat) : T), ((n - 1 : Nat) : T)] with
  | .error e => .error e
  | .ok submatrix0 =>
    match (List.range' 1 (n - 1)).foldlM (determinant_fill_row arr n j) submatrix0 with
    | .error e => .error e
    | .ok submatrix =>
      let sign : T := if j % 2 = 0 then 1 else -1
      match arr.at [0, j] with
      | .error e => .error e
      | .ok a0j =>
        match self submatrix with
        | .error e => .error e
        | .ok d => .ok (det + sign * a0j * d)

/-- The 2x2 closed form `arr.at({0,0}) * arr.at({1,1}) - arr.at({0,1}) * arr.at({1,0})`. -/
def determinant_two [Ring T] (arr : ndarray T) : Except Error T :=
  match arr.at [0, 0] with
  | .error e => .error e
  | .ok a00 =>
    match arr.at [1, 1] with
    | .error e => .error e
    | .ok a11 =>
      match arr.at [0, 1] with
      | .error e => .error e
      | .ok a01 =>
        match arr.at [1, 0] with
        | .error e => .error e
        | .ok a10 => .ok (a00 * a11 - a01 * a10)

/-- `determinant(arr)` with a bound on the depth of the recursion. -/
def determinant_fuel [Ring T] : Nat → ndarray T → Except Error T
  | 0, _ => .error .undefined
  | fuel + 1, arr =>
    if arr.ndim ≠ 2 ∨ arr.shape_.getD 0 0 ≠ arr.shape_.getD 1 0 then .error .runtime_error
    else if arr.shape_.getD 0 0 = 1 then arr.at [0, 0]
    else if arr.shape_.getD 0 0 = 2 then determinant_two arr
    else
      let n := arr.shape_.getD 0 0
      (List.range n).foldlM (determinant_step (determinant_fuel fuel) arr n) 0

/-- `determinant(arr)`: each recursive call is on a matrix with one row less, so
`shape[0] + 1` levels of recursion are enough. -/
def determinant [Ring T] (arr : ndarray T) : Except Error T :=
  determinant_fuel (arr.shape_.getD 0 0 + 1) arr

/-- The body of the `jj` loop of `inverse`; the state is the cofactor matrix and
`col_idx`: `if (jj == j) continue; cofactor.at({row_idx, col_idx}) = arr.at({ii, jj});
col_idx++;`. -/
def inverse_fill_step (arr : ndarray T) (j ii row_idx : Nat) (st : ndarray T × Nat)
    (jj : Nat) : Except Error (ndarray T × Nat) :=
  if jj = j then .ok st
  else
    match arr.at [ii, jj] with
    | .error e => .error e
    | .ok v =>
      match st.1.at_set [row_idx, st.2] v with
      | .error e => .error e
      | .ok cofactor => .ok (cofactor, addSz st.2 1)

/-- The body of the `ii` loop of `inverse`; the state is the cofactor matrix and
`row_idx`. -/
def inverse_fill_row (arr : ndarray T) (n i j : Nat) (st : ndarray T × Nat) (ii : Nat) :
    Except Error (ndarray T × Nat) :=
  if ii = i then .ok st
  else
    match (List.range n).foldlM (inverse_fill_step arr j ii st.2) (st.1, 0) with
    | .error e => .error e
    | .ok st2 => .ok (st2.1, addSz st.2 1)

/-- The body of the `j` loop of the adjugate method: `ndarray<T> cofactor({n - 1, n - 1})`
(the 1D constructor again), the two fill loops, then
`adjugate.at({j, i}) = sign * determinant(cofactor)`. -/
def inverse_cell [Ring T] (arr : ndarray T) (n i : Nat) (adjugate : ndarray T) (j : Nat) :
    Except Error (ndarray T) :=
  match ndarray.ctor_list [((n - 1 : Nat) : T), ((n - 1 : Nat) : T)] with
  | .error e => .error e
  | .ok cofactor0 =>
    match (List.range n).foldlM (inverse_fill_row arr n i j) (cofactor0, 0) with
    | .error e => .error e
    | .ok st =>
      let sign : T := if (addSz i j) % 2 = 0 then 1 else -1
      match determinant st.1 with
      | .error e => .error e
      | .ok d => adjugate.at_set [j, i] (sign * d)

/-- The body of the `i` loop of the adjugate method. -/
def inverse_row [Ring T] (arr : ndarray T) (n : Nat) (adjugate : ndarray T) (i : Nat) :
    Except Error (ndarray T) :=
  (List.range n).foldlM (inverse_cell arr n i) adjugate

/-- The 2x2 branch of `inverse`: `ndarray<T> result({2, 2})` calls the 1D constructor
with the two values `T(2)`; each assignment evaluates its right operand first. -/
def inverse_two [Field T] (arr : ndarray T) (det : T) : Except Error (ndarray T) :=
  match ndarray.ctor_list [(2 : T), (2 : T)] with
  | .error e => .error e
  | .ok result =>
    let inv_det : T := 1 / det
    match arr.at [1, 1] with
    | .error e => .error e
    | .ok a11 =>
      match result.at_set [0, 0] (a11 * inv_det) with
      | .error e => .error e
      | .ok r1 =>
        match arr.at [0, 1] with
        | .error e => .error e
        | .ok a01 =>
          match r1.at_set [0, 1] (-a01 * inv_det) with
          | .error e => .error e
          | .ok r2 =>
            match arr.at [1, 0] with
            | .error e => .error e
            | .ok a10 =>
              match r2.at_set [1, 0] (-a10 * inv_det) with
              | .error e => .error e
              | .ok r3 =>
                match arr.at [0, 0] with
                | .error e => .error e
                | .ok a00 => r3.at_set [1, 1] (a00 * inv_det)

/-- `inverse(arr)`, in exact arithmetic: `std::abs(det) < 1e-10` compares with the
exact value `1 / 10 ^ 10`. The 1x1 branch calls the shape+data constructor
`ndarray<T>({1, 1}, {T{1} / arr.at({0, 0})})`; `ndarray<T> adjugate({n, n})` calls
the 1D constructor. -/
def inverse [LinearOrderedField T] (arr : ndarray T) : Except Error (ndarray T) :=
  if arr.ndim ≠ 2 ∨ arr.shape_.getD 0 0 ≠ arr.shape_.getD 1 0 then .error .runtime_error
  else
    match determinant arr with
    | .error e => .error e
    | .ok det =>
      if |det| < 1 / 10000000000 then .error .runtime_error
      else
        let n := arr.shape_.getD 0 0
        if n = 1 then
          match arr.at [0, 0] with
          | .error e => .error e
          | .ok a00 => ndarray.ctor_data [1, 1] [1 / a00]
        else if n = 2 then inverse_two arr det
        else
          match ndarray.ctor_list [((n : Nat) : T), ((n : Nat) : T)] with
          | .error e => .error e
          | .ok adjugate0 =>
            match (List.range n).foldlM (inverse_row arr n) adjugate0 with
            | .error e => .error e
            | .ok adjugate => multiply_scalar adjugate (1 / det)

end linear_algebra

/-! ## ndarray_manipulation.hpp -/

section manipulation

variable {T : Type}

/-- The body of the verification loop of `concatenate` for one array: every
dimension other than `axis` must equal the first array's, then
`total_axis_size += arr.shape()[axis]`. -/
def concatenate_check (result_shape : Shape) (ndim axis : Nat) (total_axis_size : Nat)
    (arr : ndarray T) : Except Error Nat :=
  if (List.range ndim).any
      (fun i => decide (i ≠ axis ∧ arr.shape_.getD i 0 ≠ result_shape.getD i 0)) then
    .error .runtime_error
  else .ok (addSz total_axis_size (arr.shape_.getD axis 0))

/-- The body of the element loop of `concatenate`: unravel `i` in the source,
shift the `axis` coordinate by `result_offset`, flatten in the result and, if the
flat index is inside the result, `result[dst_idx] = arr[i]`. -/
def concatenate_copy_step (arr : ndarray T) (axis result_offset : Nat) (result : ndarray T)
    (i : Nat) : Except Error (ndarray T) :=
  match unravel_index i arr.shape_ arr.strides_ with
  | .error e => .error e
  | .ok src_indices =>
    match readAt src_indices axis with
    | .error e => .error e
    | .ok c =>
      let dst_indices := src_indices.set axis (addSz c result_offset)
      match flatten_index dst_indices result.strides_ with
      | .error e => .error e
      | .ok dst_idx =>
        if dst_idx < result.size_ then
          match arr.get i with
          | .error e => .error e
          | .ok v => result.set dst_idx v
        else .ok result

/-- The body of the copy loop of `concatenate` for one array; the state is the
result and `result_offset`. -/
def concatenate_copy (axis : Nat) (st : ndarray T × Nat) (arr : ndarray T) :
    Except Error (ndarray T × Nat) :=
  let axis_size := arr.shape_.getD axis 0
  match (List.range arr.size_).foldlM (concatenate_copy_step arr axis st.2) st.1 with
  | .error e => .error e
  | .ok result => .ok (result, addSz st.2 axis_size)

/-- `concatenate(ndarrays, axis)`. A single array is returned (copied) before any
check of `axis`. -/
def concatenate [Zero T] (ndarrays : List (ndarray T)) (axis : Nat) :
    Except Error (ndarray T) :=
  match ndarrays with
  | [] => .error .runtime_error
  | [a] => ndarray.ctor_copy a
  | first :: _ =>
    let ndim := first.ndim
    if ndarrays.any (fun arr => decide (arr.ndim ≠ ndim)) then .error .runtime_error
    else if axis ≥ ndim then .error .runtime_error
    else
      match ndarrays.foldlM (concatenate_check first.shape_ ndim axis) 0 with
      | .error e => .error e
      | .ok total_axis_size =>
        let result_shape := first.shape_.set axis total_axis_size
        let result : ndarray T := ndarray.ctor_shape result_shape
        match ndarrays.foldlM (concatenate_copy axis) (result, 0) with
        | .error e => .error e
        | .ok st => .ok st.1

/-- The body of the element loop of `stack`: unravel `i` in the source, insert
`arr_idx` at position `axis` (past the end of the index vector the insertion is
undefined), flatten in the result and, if inside, `result[result_idx] = arr[i]`. -/
def stack_copy_step (arr : ndarray T) (axis arr_idx : Nat) (result : ndarray T) (i : Nat) :
    Except Error (ndarray T) :=
  match unravel_index i arr.shape_ arr.strides_ with
  | .error e => .error e
  | .ok src_indices =>
    if axis > src_indices.length then .error .undefined
    else
      let dst_indices := src_indices.insertIdx axis arr_idx
      match flatten_index dst_indices result.strides_ with
      | .error e => .error e
      | .ok result_idx =>
        if result_idx < result.size_ then
          match arr.get i with
          | .error e => .error e
          | .ok v => result.set result_idx v
        else .ok result

/-- The body of the array loop of `stack`; the state is the result and `arr_idx`. -/
def stack_copy (axis elements_per_ndarray : Nat) (st : ndarray T × Nat) (arr : ndarray T) :
    Except Error (ndarray T × Nat) :=
  match (List.range elements_per_ndarray).foldlM (stack_copy_step arr axis st.2) st.1 with
  | .error e => .error e
  | .ok result => .ok (result, st.2 + 1)

/-- `stack(ndarrays, axis)`. There is no check of `axis`: the first loop reads
`base_shape[i]` for every `i < axis`, which is outside the vector when
`axis > base_shape.size()`; the second loop pushes `base_shape[i]` for
`axis <= i < base_shape.size()`. -/
def stack [Zero T] (ndarrays : List (ndarray T)) (axis : Nat) : Except Error (ndarray T) :=
  match ndarrays with
  | [] => .error .runtime_error
  | first :: _ =>
    let base_shape := first.shape_
    if ndarrays.any (fun arr => decide (arr.shape_ ≠ base_shape)) then .error .runtime_error
    else if axis > base_shape.length then .error .undefined
    else
      let result_shape := base_shape.take axis ++ [ndarrays.length] ++ base_shape.drop axis
      let result : ndarray T := ndarray.ctor_shape result_shape
      let elements_per_ndarray := first.size_
      match ndarrays.foldlM (stack_copy axis elements_per_ndarray) (result, 0) with
      | .error e => .error e
      | .ok st => .ok st.1

end manipulation

/-! ## Machine integers: subtraction -/

/-- Difference of two `size_t` values, as `operator-` computes it (it wraps below 0). -/
def subSz (a b : Nat) : Nat := (a + SIZE_T_MODULUS - b % SIZE_T_MODULUS) % SIZE_T_MODULUS

/-! ## ndarray_manipulation.hpp: split, repeat, tile -/

section manipulation2

variable {T : Type}

/-- The body of the element loop of `split`: unravel `j` in the result shape,
shift the `axis` coordinate by `start`, flatten with the strides of `arr` and, if
both flat indices are inside, `result[j] = arr[src_idx]`. -/
def split_copy_step (arr : ndarray T) (axis start : Nat) (result_shape : Shape)
    (result_strides : Strides) (result : ndarray T) (j : Nat) : Except Error (ndarray T) :=
  match unravel_index j result_shape result_strides with
  | .error e => .error e
  | .ok dst_indices =>
    match readAt dst_indices axis with
    | .error e => .error e
    | .ok c =>
      let src_indices := dst_indices.set axis (addSz c start)
      match flatten_index src_indices arr.strides_ with
      | .error e => .error e
      | .ok src_idx =>
        if src_idx < arr.size_ ∧ j < result.size_ then
          match arr.get src_idx with
          | .error e => .error e
          | .ok v => result.set j v
        else .ok result

/-- The body of the segment loop of `split`: segment `i` runs from
`split_points[i]` to `split_points[i + 1]`; the finished array is moved into
`results`. -/
def split_segment [Zero T] (arr : ndarray T) (axis : Nat) (split_points : List Nat)
    (results : List (ndarray T)) (i : Nat) : Except Error (List (ndarray T)) :=
  match readAt split_points i with
  | .error e => .error e
  | .ok start =>
    match readAt split_points (i + 1) with
    | .error e => .error e
    | .ok stop =>
      let length := subSz stop start
      let result_shape := arr.shape_.set axis length
      let result : ndarray T := ndarray.ctor_shape result_shape
      let copy_size := compute_size result_shape
      let result_strides := compute_strides result_shape
      match (List.range copy_size).foldlM
          (split_copy_step arr axis start result_shape result_strides) result with
      | .error e => .error e
      | .ok filled => .ok (results ++ [(ndarray.ctor_move filled).1])

/-- `split(arr, axis, indices)`: the boundaries are 0, the given indices and the
extent of `axis`. -/
def split [Zero T] (arr : ndarray T) (axis : Nat) (indices : List Nat) :
    Except Error (List (ndarray T)) :=
  if axis ≥ arr.ndim then .error .runtime_error
  else
    let split_points := (0 :: indices) ++ [arr.shape_.getD axis 0]
    (List.range (split_points.length - 1)).foldlM (split_segment arr axis split_points) []

/-- The body of the element loop of `repeat`: unravel `i` in the source, move the
`axis` coordinate to `src_indices[axis] + r * axis_size`, flatten in the result
and, if inside, `result[result_idx] = arr[i]`. -/
def repeat_copy_step (arr : ndarray T) (axis r axis_size : Nat) (result : ndarray T)
    (i : Nat) : Except Error (ndarray T) :=
  match unravel_index i arr.shape_ arr.strides_ with
  | .error e => .error e
  | .ok src_indices =>
    match readAt src_indices axis with
    | .error e => .error e
    | .ok c =>
      let dst_indices := src_indices.set axis (addSz c (mulSz r axis_size))
      match flatten_index dst_indices result.strides_ with
      | .error e => .error e
      | .ok result_idx =>
        if result_idx < result.size_ then
          match arr.get i with
          | .error e => .error e
          | .ok v => result.set result_idx v
        else .ok result

/-- The body of the `r` loop of `repeat`: one pass over the source. -/
def repeat_block (arr : ndarray T) (axis axis_size : Nat) (result : ndarray T) (r : Nat) :
    Except Error (ndarray T) :=
  (List.range arr.size_).foldlM (repeat_copy_step arr axis r axis_size) result

/-- `repeat(arr, repeats, axis)`. -/
def «repeat» [Zero T] (arr : ndarray T) (repeats : Nat) (axis : Nat) :
    Except Error (ndarray T) :=
  if axis ≥ arr.ndim then .error .runtime_error
  else
    let result_shape := arr.shape_.set axis (mulSz (arr.shape_.getD axis 0) repeats)
    let result : ndarray T := ndarray.ctor_shape result_shape
    let axis_size := arr.shape_.getD axis 0
    (List.range repeats).foldlM (repeat_block arr axis axis_size) result

/-- The loop `arr_indices[j] %= arr.shape()[j]` of `tile`, over all positions of
the index vector; a zero dimension is a division by zero, a missing dimension an
out-of-bounds read. -/
def tile_mod : List Nat → Shape → Except Error (List Nat)
  | [], _ => .ok []
  | _ :: _, [] => .error .undefined
  | c :: cs, d :: ds =>
      if d = 0 then .error .undefined
      else
        match tile_mod cs ds with
        | .ok rest => .ok (c % d :: rest)
        | .error e => .error e

/-- The body of the element loop of `tile`: unravel `i` in the result, reduce
every coordinate modulo the source dimension, flatten with the strides of `arr`,
`result[i] = arr[arr_idx]`. -/
def tile_copy_step (arr : ndarray T) (result_shape : Shape) (result : ndarray T) (i : Nat) :
    Except Error (ndarray T) :=
  match unravel_index i result_shape result.strides_ with
  | .error e => .error e
  | .ok result_indices =>
    match tile_mod result_indices arr.shape_ with
    | .error e => .error e
    | .ok arr_indices =>
      match flatten_index arr_indices arr.strides_ with
      | .error e => .error e
      | .ok arr_idx =>
        match arr.get arr_idx with
        | .error e => .error e
        | .ok v => result.set i v

/-- `tile(arr, reps)`; after the length check `result_shape[i] *= reps[i]` runs
over every dimension. -/
def tile [Zero T] (arr : ndarray T) (reps : List Nat) : Except Error (ndarray T) :=
  if reps.length ≠ arr.ndim then .error .runtime_error
  else
    let result_shape := List.zipWith mulSz arr.shape_ reps
    let result : ndarray T := ndarray.ctor_shape result_shape
    (List.range result.size_).foldlM (tile_copy_step arr result_shape) result

end manipulation2

/-! ## indexing.hpp -/

section indexing

variable {T : Type}

/-- The body of the `j` loop of `take`: unravel the flat index
`i * (result.size() / indices.size()) + j` in the result, overwrite the `axis`
coordinate with `idx`, flatten both index vectors,
`result[result_idx] = arr[arr_idx]`. -/
def take_copy_step (arr : ndarray T) (axis idx i block : Nat) (result_shape : Shape)
    (result : ndarray T) (j : Nat) : Except Error (ndarray T) :=
  match unravel_index (addSz (mulSz i block) j) result_shape result.strides_ with
  | .error e => .error e
  | .ok result_indices =>
    match writeAt result_indices axis idx with
    | .error e => .error e
    | .ok arr_indices =>
      match flatten_index arr_indices arr.strides_ with
      | .error e => .error e
      | .ok arr_idx =>
        match flatten_index result_indices result.strides_ with
        | .error e => .error e
        | .ok result_idx =>
          match arr.get arr_idx with
          | .error e => .error e
          | .ok v => result.set result_idx v

/-- The body of the `i` loop of `take`: the bounds check of `indices[i]`, then
the `j` loop over `result.size() / indices.size()` elements. -/
def take_index (arr : ndarray T) (indices : List Nat) (axis : Nat) (result_shape : Shape)
    (result : ndarray T) (i : Nat) : Except Error (ndarray T) :=
  match readAt indices i with
  | .error e => .error e
  | .ok idx =>
    if idx ≥ arr.shape_.getD axis 0 then .error .out_of_range
    else
      let block := result.size_ / indices.length
      (List.range block).foldlM (take_copy_step arr axis idx i block result_shape) result

/-- `take(arr, indices, axis)`. -/
def take [Zero T] (arr : ndarray T) (indices : List Nat) (axis : Nat) :
    Except Error (ndarray T) :=
  if axis ≥ arr.ndim then .error .runtime_error
  else
    let result_shape := arr.shape_.set axis indices.length
    let result : ndarray T := ndarray.ctor_shape result_shape
    (List.range indices.length).foldlM (take_index arr indices axis result_shape) result

/-- The body of the loop of `where`:
`result[i] = cond_broadcast[i] ? x_broadcast[i] : y_broadcast[i]`. -/
def where_step (cond_broadcast : ndarray Bool) (x_broadcast y_broadcast : ndarray T)
    (result : ndarray T) (i : Nat) : Except Error (ndarray T) :=
  match cond_broadcast.get i with
  | .error e => .error e
  | .ok c =>
    match (if c then x_broadcast.get i else y_broadcast.get i) with
    | .error e => .error e
    | .ok v => result.set i v

/-- `where(condition, x, y)`. -/
def «where» [Zero T] (condition : ndarray Bool) (x y : ndarray T) : Except Error (ndarray T) :=
  if x.shape_ ≠ y.shape_ then .error .runtime_error
  else
    match broadcast_shapes condition.shape_ x.shape_ with
    | .error e => .error e
    | .ok broadcast_shape =>
      match broadcast_to condition broadcast_shape with
      | .error e => .error e
      | .ok cond_broadcast =>
        match broadcast_to x broadcast_shape with
        | .error e => .error e
        | .ok x_broadcast =>
          match broadcast_to y broadcast_shape with
          | .error e => .error e
          | .ok y_broadcast =>
            let result : ndarray T := ndarray.ctor_shape broadcast_shape
            (List.range result.size_).foldlM
              (where_step cond_broadcast x_broadcast y_broadcast) result

/-- The loop `coords.push_back(idx_arr[i])` of `advanced_indexing` over the index
lists. -/
def advanced_indexing_coords : List (List Nat) → Nat → Except Error (List Nat)
  | [], _ => .ok []
  | idx_arr :: rest, i =>
      match readAt idx_arr i with
      | .error e => .error e
      | .ok c =>
        match advanced_indexing_coords rest i with
        | .error e => .error e
        | .ok coords => .ok (c :: coords)

/-- The body of the loop of `advanced_indexing`: `result[i] = arr.at(coords)`. -/
def advanced_indexing_step (arr : ndarray T) (indices : List (List Nat)) (result : ndarray T)
    (i : Nat) : Except Error (ndarray T) :=
  match advanced_indexing_coords indices i with
  | .error e => .error e
  | .ok coords =>
    match arr.at coords with
    | .error e => .error e
    | .ok v => result.set i v

/-- `advanced_indexing(arr, indices)`. The result is declared as
`ndarray<T> result({result_size})`, one braced argument: the 1D constructor,
which builds the one-element array holding `result_size` converted to `T`. -/
def advanced_indexing [NatCast T] (arr : ndarray T) (indices : List (List Nat)) :
    Except Error (ndarray T) :=
  if indices.length ≠ arr.ndim then .error .runtime_error
  else
    match indices with
    | [] => .ok ndarray.ctor_default
    | first :: _ =>
      let result_size := first.length
      if indices.any (fun idx_arr => decide (idx_arr.length ≠ result_size)) then
        .error .runtime_error
      else
        match ndarray.ctor_list [((result_size : Nat) : T)] with
        | .error e => .error e
        | .ok result =>
          (List.range result_size).foldlM (advanced_indexing_step arr indices) result

/-- The body of the loop of `slice_1d`; the state is the result and whether
`break` has been executed: `idx = start + i * step; if (idx >= stop) break;
result[i] = arr[idx];`. -/
def slice_1d_step (arr : ndarray T) (start stop step : Nat) (st : ndarray T × Bool) (i : Nat) :
    Except Error (ndarray T × Bool) :=
  if st.2 then .ok st
  else
    let idx := addSz start (mulSz i step)
    if idx ≥ stop then .ok (st.1, true)
    else
      match arr.get idx with
      | .error e => .error e
      | .ok v =>
        match st.1.set i v with
        | .error e => .error e
        | .ok result => .ok (result, false)

/-- `slice_1d(arr, start, stop, step)`. Both results are built with one braced
argument, `ndarray<T>({0})` and `ndarray<T> result({result_size})`: the 1D
constructor, which builds a one-element array holding the value. -/
def slice_1d [NatCast T] (arr : ndarray T) (start stop step : Nat) :
    Except Error (ndarray T) :=
  if arr.ndim ≠ 1 then .error .runtime_error
  else
    let stop := if stop > arr.size_ then arr.size_ else stop
    if start ≥ stop then ndarray.ctor_list [((0 : Nat) : T)]
    else if step = 0 then .error .undefined
    else
      let result_size := subSz (addSz (subSz stop start) step) 1 / step
      match ndarray.ctor_list [((result_size : Nat) : T)] with
      | .error e => .error e
      | .ok result =>
        match (List.range result_size).foldlM (slice_1d_step arr start stop step)
            (result, false) with
        | .error e => .error e
        | .ok st => .ok st.1

end indexing

/-! ## linear_algebra.hpp: dot, trace -/

section linear_algebra2

variable {T : Type}

/-- The body of the loop of the vector branch of `dot`: `result += a[i] * b[i]`. -/
def dot_vector_step [Add T] [Mul T] (a b : ndarray T) (result : T) (i : Nat) :
    Except Error T :=
  match a.get i with
  | .error e => .error e
  | .ok x =>
    match b.get i with
    | .error e => .error e
    | .ok y => .ok (result + x * y)

/-- The body of the `j` loop of the matrix-vector branch of `dot`:
`sum += a.at({i, j}) * b[j]`. -/
def dot_matvec_inner [Add T] [Mul T] (a b : ndarray T) (i : Nat) (sum : T) (j : Nat) :
    Except Error T :=
  match a.at [i, j] with
  | .error e => .error e
  | .ok x =>
    match b.get j with
    | .error e => .error e
    | .ok y => .ok (sum + x * y)

/-- The body of the `i` loop of the matrix-vector branch of `dot`: the `j` loop
from `T{0}`, then `result[i] = sum`. -/
def dot_matvec_row [Zero T] [Add T] [Mul T] (a b : ndarray T) (n : Nat) (result : ndarray T)
    (i : Nat) : Except Error (ndarray T) :=
  match (List.range n).foldlM (dot_matvec_inner a b i) 0 with
  | .error e => .error e
  | .ok sum => result.set i sum

/-- `dot(a, b)`. The vector branch returns `ndarray<T>({1}, {result})` (shape and
data); the matrix-vector branch declares `ndarray<T> result({a.shape()[0]})`, one
braced argument: the 1D constructor, which builds the one-element array holding
`a.shape()[0]` converted to `T`. -/
def dot [Zero T] [Add T] [Mul T] [NatCast T] (a b : ndarray T) : Except Error (ndarray T) :=
  if a.ndim = 1 ∧ b.ndim = 1 then
    if a.size_ ≠ b.size_ then .error .runtime_error
    else
      match (List.range a.size_).foldlM (dot_vector_step a b) 0 with
      | .error e => .error e
      | .ok result => ndarray.ctor_data [1] [result]
  else if a.ndim = 2 ∧ b.ndim = 2 then matmul a b
  else if a.ndim = 2 ∧ b.ndim = 1 then
    if a.shape_.getD 1 0 ≠ b.size_ then .error .runtime_error
    else
      match ndarray.ctor_list [((a.shape_.getD 0 0 : Nat) : T)] with
      | .error e => .error e
      | .ok result =>
        (List.range (a.shape_.getD 0 0)).foldlM
          (dot_matvec_row a b (a.shape_.getD 1 0)) result
  else .error .runtime_error

/-- The body of the loop of `trace`: `result += arr.at({i, i})`. -/
def trace_step [Add T] (arr : ndarray T) (result : T) (i : Nat) : Except Error T :=
  match arr.at [i, i] with
  | .error e => .error e
  | .ok v => .ok (result + v)

/-- `trace(arr)`. -/
def trace [Zero T] [Add T] (arr : ndarray T) : Except Error T :=
  if arr.ndim ≠ 2 ∨ arr.shape_.getD 0 0 ≠ arr.shape_.getD 1 0 then .error .runtime_error
  else (List.range (arr.shape_.getD 0 0)).foldlM (trace_step arr) 0

end linear_algebra2

/-! ## operations.hpp: reductions -/

namespace reduction

variable {T : Type}

/-- One step of `std::accumulate(arr.begin(), arr.end(), T{0})`: the iterator is
`data_ + i` and the accumulator becomes `acc + *first`. -/
def sum_step [Add T] (arr : ndarray T) (acc : T) (i : Nat) : Except Error T :=
  match readAt arr.data_ i with
  | .ok v => .ok (acc + v)
  | .error e => .error e

/-- `sum(arr)`: `std::accumulate` over the `size_` elements from `begin()` to
`end()`, starting from `T{0}`. -/
def sum [Zero T] [Add T] (arr : ndarray T) : Except Error T :=
  (List.range arr.size_).foldlM (sum_step arr) 0

/-- `mean(arr)`: `T{0}` for a zero-size array, otherwise
`sum(arr) / static_cast<T>(arr.size())`. -/
def mean [Zero T] [Add T] [Div T] [NatCast T] (arr : ndarray T) : Except Error T :=
  if arr.size_ = 0 then .ok 0
  else
    match sum arr with
    | .ok s => .ok (s / ((arr.size_ : Nat) : T))
    | .error e => .error e

/-- One step of the loop of `std::min_element`:
`if (*first < *smallest) smallest = first`, both iterators given as offsets from
`begin()`. -/
def min_element_step [LT T] [DecidableRel (fun x y : T => x < y)] (arr : ndarray T)
    (smallest first : Nat) : Except Error Nat :=
  match readAt arr.data_ first with
  | .error e => .error e
  | .ok f =>
    match readAt arr.data_ smallest with
    | .error e => .error e
    | .ok s => .ok (if f < s then first else smallest)

/-- `std::min_element(arr.begin(), arr.end())` as an offset from `begin()`: `last`
for the empty range, otherwise `smallest` starts at `first` and the loop runs over
the offsets `1, ..., size_ - 1`. -/
def min_element [LT T] [DecidableRel (fun x y : T => x < y)] (arr : ndarray T) :
    Except Error Nat :=
  if arr.size_ = 0 then .ok arr.size_
  else
    (List.range (arr.size_ - 1)).foldlM
      (fun smallest k => min_element_step arr smallest (k + 1)) 0

/-- One step of the loop of `std::max_element`:
`if (*largest < *first) largest = first`. -/
def max_element_step [LT T] [DecidableRel (fun x y : T => x < y)] (arr : ndarray T)
    (largest first : Nat) : Except Error Nat :=
  match readAt arr.data_ first with
  | .error e => .error e
  | .ok f =>
    match readAt arr.data_ largest with
    | .error e => .error e
    | .ok l => .ok (if l < f then first else largest)

/-- `std::max_element(arr.begin(), arr.end())` as an offset from `begin()`. -/
def max_element [LT T] [DecidableRel (fun x y : T => x < y)] (arr : ndarray T) :
    Except Error Nat :=
  if arr.size_ = 0 then .ok arr.size_
  else
    (List.range (arr.size_ - 1)).foldlM
      (fun largest k => max_element_step arr largest (k + 1)) 0

/-- `min(arr)`: throws on a zero-size array, otherwise dereferences the iterator
`std::min_element` returns. -/
def min [LT T] [DecidableRel (fun x y : T => x < y)] (arr : ndarray T) : Except Error T :=
  if arr.size_ = 0 then .error .runtime_error
  else
    match min_element arr with
    | .ok i => readAt arr.data_ i
    | .error e => .error e

/-- `max(arr)`: throws on a zero-size array, otherwise dereferences the iterator
`std::max_element` returns. -/
def max [LT T] [DecidableRel (fun x y : T => x < y)] (arr : ndarray T) : Except Error T :=
  if arr.size_ = 0 then .error .runtime_error
  else
    match max_element arr with
    | .ok i => readAt arr.data_ i
    | .error e => .error e

end reduction

end numbits

namespace catplot

/-! ## catplot/axes.hpp, axes.cpp

`double` is an abstract type `D`; `static_cast<double>` from the element type of
the arrays is a function `T → D` the two array overloads take as their first
argument. -/

/-- How a call of `Axes` can fail: `std::invalid_argument`, and undefined
behaviour (a read outside a buffer). -/
inductive Failure where
  | invalid_argument
  | undefined
deriving DecidableEq, Repr

/-- `struct Rgba`. -/
structure Rgba (D : Type) where
  r : D
  g : D
  b : D
  a : D
deriving DecidableEq, Repr

/-- `struct Axes::LineSeries`. -/
structure LineSeries (D : Type) where
  x : List D
  y : List D
  color : Rgba D
  widthPx : D
  label : String
deriving DecidableEq, Repr

/-- `struct Axes::ScatterSeries`. -/
structure ScatterSeries (D : Type) where
  x : List D
  y : List D
  radiusPx : D
  color : Rgba D
  label : String
deriving DecidableEq, Repr

/-- `class Axes`: its private members. -/
structure Axes (D : Type) where
  widthPx : Int
  heightPx : Int
  marginLeft : Int
  marginRight : Int
  marginTop : Int
  marginBottom : Int
  lines : List (LineSeries D)
  scatters : List (ScatterSeries D)
  title : String
  xlabel : String
  ylabel : String
  showGrid : Bool
  showLegend : Bool
deriving DecidableEq, Repr

namespace Axes

variable {T D : Type}

/-- `Axes(int figureWidthPx, int figureHeightPx)`, with the default member initialisers. -/
def ctor (figureWidthPx figureHeightPx : Int) : Axes D :=
  { widthPx := figureWidthPx
    heightPx := figureHeightPx
    marginLeft := 70
    marginRight := 20
    marginTop := 30
    marginBottom := 60
    lines := []
    scatters := []
    title := ""
    xlabel := ""
    ylabel := ""
    showGrid := false
    showLegend := false }

/-- `plot(const std::vector<double>& x, const std::vector<double>& y, color,
lineWidthPx, label)` of `axes.cpp`. -/
def plot_vector (ax : Axes D) (x y : List D) (color : Rgba D) (lineWidthPx : D)
    (label : String) : Except Failure (Axes D) :=
  if x.length ≠ y.length then .error .invalid_argument
  else .ok { ax with lines := ax.lines ++ [⟨x, y, color, lineWidthPx, label⟩] }

/-- `scatter(const std::vector<double>& x, const std::vector<double>& y, radiusPx,
color, label)` of `axes.cpp`. -/
def scatter_vector (ax : Axes D) (x y : List D) (radiusPx : D) (color : Rgba D)
    (label : String) : Except Failure (Axes D) :=
  if x.length ≠ y.length then .error .invalid_argument
  else .ok { ax with scatters := ax.scatters ++ [⟨x, y, radiusPx, color, label⟩] }

/-- One iteration of the conversion loop of the array overloads:
`x_vec.push_back(static_cast<double>(x_data[i]));` and the same for `y`, through
the raw pointers `x.data()` and `y.data()`. -/
def convert_step (cast : T → D) (x_data y_data : List T) (st : List D × List D) (i : Nat) :
    Except Failure (List D × List D) :=
  match x_data[i]? with
  | none => .error .undefined
  | some xv =>
    match y_data[i]? with
    | none => .error .undefined
    | some yv => .ok (st.1 ++ [cast xv], st.2 ++ [cast yv])

/-- `plot(const numbits::ndarray<T>& x, const numbits::ndarray<T>& y, color,
lineWidthPx, label)`: the array overload of `axes.hpp`. -/
def plot (cast : T → D) (ax : Axes D) (x y : numbits.ndarray T) (color : Rgba D)
    (lineWidthPx : D) (label : String) : Except Failure (Axes D) :=
  if x.ndim ≠ 1 then .error .invalid_argument
  else if y.ndim ≠ 1 then .error .invalid_argument
  else if x.size ≠ y.size then .error .invalid_argument
  else if x.size = 0 then .error .invalid_argument
  else
    let n := x.size
    match (List.range n).foldlM (convert_step cast x.data y.data) ([], []) with
    | .error e => .error e
    | .ok vecs => ax.plot_vector vecs.1 vecs.2 color lineWidthPx label

/-- `scatter(const numbits::ndarray<T>& x, const numbits::ndarray<T>& y, radiusPx,
color, label)`: the array overload of `axes.hpp`. -/
def scatter (cast : T → D) (ax : Axes D) (x y : numbits.ndarray T) (radiusPx : D)
    (color : Rgba D) (label : String) : Except Failure (Axes D) :=
  if x.ndim ≠ 1 then .error .invalid_argument
  else if y.ndim ≠ 1 then .error .invalid_argument
  else if x.size ≠ y.size then .error .invalid_argument
  else if x.size = 0 then .error .invalid_argument
  else
    let n := x.size
    match (List.range n).foldlM (convert_step cast x.data y.data) ([], []) with
    | .error e => .error e
    | .ok vecs => ax.scatter_vector vecs.1 vecs.2 radiusPx color label

end Axes

end catplot

namespace numbits

/-! ## Specification-side and proof-support definitions -/

open BroadcastIterator

/-- The right-to-left loop of `compute_strides`, as a function of the index list. -/
def stridesLoop (shape : Shape) (l : List Nat) (init : Strides) : Strides :=
  l.foldr (fun i st => st.set i (mulSz (st.getD (i + 1) 0) (shape.getD (i + 1) 0))) init

/-- The operand dimension the loop of `broadcast_shapes` reads at step `i`. -/
def dimFromRight (s : Shape) (i : Nat) : Nat :=
  if i < s.length then s.getD (s.length - 1 - i) 0 else 1

/-- The dimension of `s` at position `j` once `s` is right-aligned in rank `n`,
missing leading dimensions read as 1 (the wording of the specification). -/
def alignedDim (n : Nat) (s : Shape) (j : Nat) : Nat :=
  (List.replicate (n - s.length) 1 ++ s).getD j 1

def bsBad (a b : Shape) (i : Nat) : Prop :=
  dimFromRight a i ≠ dimFromRight b i ∧ dimFromRight a i ≠ 1 ∧ dimFromRight b i ≠ 1

def bsPartial (a b : Shape) (n k : Nat) : Shape :=
  (List.range n).map (fun j =>
    if n - k ≤ j then max (dimFromRight a (n - 1 - j)) (dimFromRight b (n - 1 - j)) else 0)

/-- The shape `broadcast_shapes` returns when no aligned pair is incompatible. -/
def bsResult (a b : Shape) : Shape :=
  bsPartial a b (max a.length b.length) (max a.length b.length)

/-- The exact (unbounded) dot product of an index vector and a stride vector. -/
def dotNat : List Nat → List Nat → Nat
  | i :: is, s :: ss => i * s + dotNat is ss
  | _, _ => 0

/-- The loop of `increment` together with its carry out of position 0. -/
def incrementCarry (target_shape : Shape) : Nat → List Nat → List Nat × Bool
  | 0, current => (current, true)
  | i + 1, current =>
      let current1 := current.set i (addSz (current.getD i 0) 1)
      if current1.getD i 0 < target_shape.getD i 0 then (current1, false)
      else incrementCarry target_shape i (current1.set i 0)

/-- The index `get_value` uses: 0 where the expanded dimension is 1. -/
def maskIndex (expanded : Shape) (current : List Nat) : List Nat :=
  List.zipWith (fun e c => if e = 1 then 0 else c) expanded current

/-- The multi-index of the source array a target position `p` is projected to:
the leading `len(p) - rank` coordinates are dropped and every coordinate whose
dimension in the source shape is 1 is replaced by 0. -/
def projectIndex (shape : Shape) (p : List Nat) : List Nat :=
  List.zipWith (fun d c => if d = 1 then 0 else c) shape (p.drop (p.length - shape.length))

/-- The partially written `expanded_shape_` after `k` iterations of the constructor loop. -/
def expandedPartial (sh : Shape) (n off k : Nat) : Shape :=
  (List.range n).map (fun j => if off ≤ j ∧ j < off + k then sh.getD (j - off) 0 else 1)

/-- The iterator the constructor builds when the array's rank does not exceed the target's. -/
def iteratorOf {T : Type} (arr : ndarray T) (t : Shape) : BroadcastIterator T :=
  { ndarray_ := arr
    target_shape_ := t
    target_strides_ := compute_strides t
    ndarray_strides_ := arr.strides_
    expanded_shape_ := List.replicate (t.length - arr.shape_.length) 1 ++ arr.shape_
    expanded_strides_ :=
      compute_strides (List.replicate (t.length - arr.shape_.length) 1 ++ arr.shape_)
    current_index_ := List.replicate t.length 0
    flat_index_ := 0 }

/-- An expanded source dimension `e` against a target dimension `d`: stretched
from 1 or equal, the target dimension being positive. -/
def expandsTo (e d : Nat) : Prop := (e = 1 ∨ e = d) ∧ 0 < d

/-- A container as the shape constructors and every operation build it: it owns
its buffer, carries the row-major strides of its shape, `size_` is
`compute_size` of the shape and the buffer holds exactly `size_` elements. -/
def ndarray.IsRowMajorOwner {T : Type} (a : ndarray T) : Prop :=
  a.owns_data_ = true ∧ a.strides_ = compute_strides a.shape_ ∧
    a.size_ = compute_size a.shape_ ∧ a.data_.length = a.size_

/-- The value `get_value` reads at the `k`-th position of the traversal. -/
def srcVal {T : Type} [Zero T] (a : ndarray T) (t : Shape) (k : Nat) : T :=
  a.data_.getD
    (dotNat
      (maskIndex (List.replicate (t.length - a.shape_.length) 1 ++ a.shape_)
        (increment^[k] (iteratorOf a t)).current_index_)
      (compute_strides (List.replicate (t.length - a.shape_.length) 1 ++ a.shape_))) 0

/-- What the specification says of one binary element-wise function `fn` with
scalar operator `op`: it throws exactly when `broadcast_shapes` throws; on
row-major owning operands without zero-sized dimensions whose resolved shape `r`
has an element count that fits `size_t`, it returns an array of shape `r` whose
element at every multi-index `p` of `r` is `op` applied to the elements of the
operands at `p` projected onto each of them. -/
def BinaryOpSpec {T U : Type} (op : T → T → U)
    (fn : ndarray T → ndarray T → Except Error (ndarray U)) : Prop :=
  ∀ a b : ndarray T,
    (fn a b = .error .runtime_error ↔
      broadcast_shapes a.shape_ b.shape_ = .error .runtime_error) ∧
    (a.IsRowMajorOwner → b.IsRowMajorOwner →
      (∀ d ∈ a.shape_, d ≠ 0) → (∀ d ∈ b.shape_, d ≠ 0) →
      ∀ r, broadcast_shapes a.shape_ b.shape_ = .ok r → r.prod < SIZE_T_MODULUS →
        ∃ c, fn a b = .ok c ∧ c.shape_ = r ∧
          ∀ p, List.Forall₂ (fun i d => i < d) p r →
            ∃ x y, a.at (projectIndex a.shape_ p) = .ok x ∧
              b.at (projectIndex b.shape_ p) = .ok y ∧ c.at p = .ok (op x y))

/-- A dense row-major container of shape `s`: the strides are those of `s`, the
buffer holds exactly the `s.prod` elements and that count fits `size_t`. -/
def ndarray.IsDense {T : Type} (r : ndarray T) (s : Shape) : Prop :=
  r.shape_ = s ∧ r.strides_ = compute_strides s ∧ r.data_.length = s.prod ∧
    s.prod < SIZE_T_MODULUS

/-- Total size along `axis` of the first `k` arrays of the list. -/
def axisOffset {T : Type} (arrays : List (ndarray T)) (axis k : Nat) : Nat :=
  ((arrays.take k).map (fun a => a.shape_.getD axis 0)).sum

/-- The multi-index `p` with its `axis` coordinate increased by `off`. -/
def shiftAxis (axis off : Nat) (p : List Nat) : List Nat :=
  p.set axis (p.getD axis 0 + off)

/-- Every in-range multi-index of `a` flattens, with the strides of `a`, to a
position below `size()` that lies inside the buffer: every element can be read
through `at` and through `operator[]`. -/
def ndarray.InBounds {T : Type} (a : ndarray T) : Prop :=
  ∀ q, List.Forall₂ (fun i d => i < d) q a.shape_ →
    ∃ f, flatten_index q a.strides_ = .ok f ∧ f < a.size_ ∧ f < a.data_.length

/-- The boundaries `split` uses: 0, the cut points, the extent of `axis`. -/
def splitBounds {T : Type} (a : ndarray T) (axis : Nat) (cuts : List Nat) : List Nat :=
  (0 :: cuts) ++ [a.shape_.getD axis 0]

/-- The source offset `get_value` computes (`ndarray_index`) at the `k`-th step of
the loop of `broadcast_to`: the iterator built over the resolved shape `r`,
incremented `k` times. -/
def readOffset {T : Type} (a : ndarray T) (r : Shape) (k : Nat) : Except Error Nat :=
  match BroadcastIterator.ctor a r with
  | .error e => .error e
  | .ok it =>
    get_value_loop 0 (increment^[k] it).target_shape_ (increment^[k] it).current_index_
      (increment^[k] it).expanded_shape_ (increment^[k] it).expanded_strides_

/-! ## Lemmas and the settled claims -/

variable {T U : Type}

theorem SIZE_T_MODULUS_pos : 0 < SIZE_T_MODULUS := by
  unfold SIZE_T_MODULUS; decide

theorem mulSz_lt (a b : Nat) : mulSz a b < SIZE_T_MODULUS :=
  Nat.mod_lt _ SIZE_T_MODULUS_pos

theorem mulSz_le (a b : Nat) : mulSz a b ≤ a * b := Nat.mod_le _ _

theorem mulSz_comm (a b : Nat) : mulSz a b = mulSz b a := by
  unfold mulSz; rw [Nat.mul_comm]

theorem mulSz_of_lt {a b : Nat} (h : a * b < SIZE_T_MODULUS) : mulSz a b = a * b :=
  Nat.mod_eq_of_lt h

theorem addSz_lt (a b : Nat) : addSz a b < SIZE_T_MODULUS :=
  Nat.mod_lt _ SIZE_T_MODULUS_pos

theorem addSz_of_lt {a b : Nat} (h : a + b < SIZE_T_MODULUS) : addSz a b = a + b :=
  Nat.mod_eq_of_lt h

theorem foldl_mulSz (l : List Nat) (a : Nat) (ha : a < SIZE_T_MODULUS) :
    l.foldl (fun acc d => mulSz acc d) a = (a * l.prod) % SIZE_T_MODULUS := by
  induction l generalizing a with
  | nil => simp [Nat.mod_eq_of_lt ha]
  | cons d ds ih =>
    simp only [List.foldl_cons, List.prod_cons]
    rw [ih _ (mulSz_lt _ _)]
    unfold mulSz
    rw [Nat.mul_mod, Nat.mod_mod, ← Nat.mul_mod, Nat.mul_assoc]

theorem one_lt_SIZE_T_MODULUS : 1 < SIZE_T_MODULUS := by
  unfold SIZE_T_MODULUS; decide

theorem compute_size_eq (shape : Shape) : compute_size shape = shape.prod % SIZE_T_MODULUS := by
  unfold compute_size
  cases shape with
  | nil => simp [Nat.mod_eq_of_lt one_lt_SIZE_T_MODULUS]
  | cons d ds =>
    simp only [List.isEmpty_cons, Bool.false_eq_true, if_false]
    rw [foldl_mulSz _ _ one_lt_SIZE_T_MODULUS, Nat.one_mul]

theorem compute_size_lt (shape : Shape) : compute_size shape < SIZE_T_MODULUS := by
  rw [compute_size_eq]; exact Nat.mod_lt _ SIZE_T_MODULUS_pos

theorem compute_size_cons (d : Nat) (ds : Shape) :
    compute_size (d :: ds) = mulSz d (compute_size ds) := by
  rw [compute_size_eq, compute_size_eq, List.prod_cons]
  unfold mulSz
  rw [Nat.mul_mod d (ds.prod % SIZE_T_MODULUS), Nat.mod_mod, ← Nat.mul_mod]

theorem compute_size_nil : compute_size [] = 1 := rfl

theorem compute_strides_eq_loop (d : Nat) (ds : Shape) :
    compute_strides (d :: ds) =
      stridesLoop (d :: ds) (List.range ds.length)
        ((List.replicate (ds.length + 1) 0).set ds.length 1) := by
  unfold compute_strides stridesLoop
  simp only [List.isEmpty_cons, Bool.false_eq_true, if_false, List.length_cons,
    Nat.add_sub_cancel, List.foldl_reverse]

theorem stridesLoop_shift (d : Nat) (sh : Shape) (x : Nat) (l : List Nat) (st0 : Strides) :
    stridesLoop (d :: sh) (l.map Nat.succ) (x :: st0) = x :: stridesLoop sh l st0 := by
  induction l with
  | nil => rfl
  | cons i l ih =>
    unfold stridesLoop at ih ⊢
    simp only [List.map_cons, List.foldr_cons]
    rw [ih]
    simp [List.getD_cons_succ]

theorem compute_strides_cons2 (d d2 : Nat) (rest : Shape) :
    compute_strides (d :: d2 :: rest) =
      mulSz ((compute_strides (d2 :: rest)).getD 0 0) d2 :: compute_strides (d2 :: rest) := by
  rw [compute_strides_eq_loop, compute_strides_eq_loop]
  simp only [List.length_cons]
  rw [List.range_succ_eq_map]
  have hinit : (List.replicate (rest.length + 1 + 1) 0).set (rest.length + 1) 1
      = 0 :: (List.replicate (rest.length + 1) 0).set rest.length 1 := by
    simp [List.replicate_succ]
  rw [hinit]
  show stridesLoop (d :: d2 :: rest) (0 :: (List.range rest.length).map Nat.succ) _ = _
  unfold stridesLoop
  rw [List.foldr_cons]
  have := stridesLoop_shift d (d2 :: rest) 0 (List.range rest.length)
    ((List.replicate (rest.length + 1) 0).set rest.length 1)
  unfold stridesLoop at this
  rw [this]
  simp

theorem compute_strides_nil : compute_strides [] = [] := rfl

theorem compute_strides_single (d : Nat) : compute_strides [d] = [1] := rfl

/-- Every stride is the `size_t` product of the dimensions to its right. -/
theorem compute_strides_cons (d : Nat) (ds : Shape) :
    compute_strides (d :: ds) = compute_size ds :: compute_strides ds := by
  induction ds generalizing d with
  | nil => rfl
  | cons d2 rest ih =>
    rw [compute_strides_cons2, ih d2]
    simp only [List.getD_cons_zero]
    rw [compute_size_cons, mulSz_comm]

theorem compute_strides_length (shape : Shape) :
    (compute_strides shape).length = shape.length := by
  induction shape with
  | nil => rfl
  | cons d ds ih => rw [compute_strides_cons]; simp [ih]

theorem broadcast_shapes_step_bad (a b : Shape) (n : Nat) (r : Shape) (i : Nat)
    (h : bsBad a b i) : broadcast_shapes_step a b n r i = .error .runtime_error := by
  unfold bsBad dimFromRight at h
  unfold broadcast_shapes_step
  simp only [h, ne_eq, not_false_eq_true, and_self, if_true]

theorem broadcast_shapes_step_good (a b : Shape) (n : Nat) (r : Shape) (i : Nat)
    (h : ¬ bsBad a b i) :
    broadcast_shapes_step a b n r i =
      .ok (r.set (n - 1 - i) (max (dimFromRight a i) (dimFromRight b i))) := by
  unfold bsBad dimFromRight at h
  unfold broadcast_shapes_step dimFromRight
  simp only [ne_eq]
  rw [if_neg h]

theorem foldlM_range_succ {α : Type} (f : α → Nat → Except Error α) (init : α) (k : Nat) :
    (List.range (k + 1)).foldlM f init =
      (match (List.range k).foldlM f init with
        | .ok r => f r k
        | .error e => .error e) := by
  rw [List.range_succ, List.foldlM_append]
  cases h : List.foldlM f init (List.range k) with
  | error e => rfl
  | ok r =>
    show (List.foldlM f r [k]) = f r k
    rw [List.foldlM_cons]
    cases h2 : f r k with
    | error e => rfl
    | ok r2 => rfl

theorem bsPartial_zero (a b : Shape) (n : Nat) : bsPartial a b n 0 = List.replicate n 0 := by
  unfold bsPartial
  apply List.ext_getElem
  · simp
  · intro j h1 h2
    simp at h1
    simp [h1]

theorem bsPartial_succ (a b : Shape) (n k : Nat) (hk : k < n) :
    (bsPartial a b n k).set (n - 1 - k) (max (dimFromRight a k) (dimFromRight b k)) =
      bsPartial a b n (k + 1) := by
  unfold bsPartial
  apply List.ext_getElem
  · simp
  · intro j h1 h2
    simp at h1
    simp only [List.getElem_set, List.getElem_map, List.getElem_range]
    by_cases hj : n - 1 - k = j
    · have h3 : n - 1 - j = k := by omega
      have h4 : n - (k + 1) ≤ j := by omega
      simp only [hj, h3, h4, if_true]
    · simp only [hj, if_false]
      by_cases hj2 : n - k ≤ j
      · have : n - (k + 1) ≤ j := by omega
        simp [hj2, this]
      · have : ¬ n - (k + 1) ≤ j := by omega
        simp [hj2, this]

theorem broadcast_fold_ok (a b : Shape) (n k : Nat) (hk : k ≤ n)
    (h : ∀ i, i < k → ¬ bsBad a b i) :
    (List.range k).foldlM (broadcast_shapes_step a b n) (List.replicate n 0) =
      .ok (bsPartial a b n k) := by
  induction k with
  | zero => simp [bsPartial_zero]; rfl
  | succ k ih =>
    rw [foldlM_range_succ, ih (by omega) (fun i hi => h i (by omega))]
    show broadcast_shapes_step a b n _ k = _
    rw [broadcast_shapes_step_good _ _ _ _ _ (h k (by omega)), bsPartial_succ _ _ _ _ (by omega)]

theorem broadcast_fold_err (a b : Shape) (n k : Nat) (hk : k ≤ n)
    (h : ∃ i, i < k ∧ bsBad a b i) :
    (List.range k).foldlM (broadcast_shapes_step a b n) (List.replicate n 0) =
      .error .runtime_error := by
  induction k with
  | zero => obtain ⟨i, hi, _⟩ := h; omega
  | succ k ih =>
    rw [foldlM_range_succ]
    by_cases h2 : ∃ i, i < k ∧ bsBad a b i
    · rw [ih (by omega) h2]
    · have hall : ∀ i, i < k → ¬ bsBad a b i := fun i hi hb => h2 ⟨i, hi, hb⟩
      rw [broadcast_fold_ok a b n k (by omega) hall]
      obtain ⟨i, hi, hb⟩ := h
      have : i = k := by
        by_contra hne
        exact hall i (by omega) hb
      subst this
      exact broadcast_shapes_step_bad _ _ _ _ _ hb

theorem alignedDim_eq (n : Nat) (s : Shape) (j : Nat) (hs : s.length ≤ n) (hj : j < n) :
    alignedDim n s j = dimFromRight s (n - 1 - j) := by
  unfold alignedDim dimFromRight
  rw [List.getD_eq_getElem?_getD, List.getD_eq_getElem?_getD]
  by_cases h : j < n - s.length
  · rw [List.getElem?_append_left (by simpa using h)]
    have : ¬ n - 1 - j < s.length := by omega
    simp [this, h]
  · rw [List.getElem?_append_right (by simpa using h)]
    have h3 : n - 1 - j < s.length := by omega
    simp only [List.length_replicate, h3, if_true]
    have h4 : j - (n - s.length) < s.length := by omega
    have h5 : s.length - 1 - (n - 1 - j) = j - (n - s.length) := by omega
    rw [h5, List.getElem?_eq_getElem h4]
    rfl

theorem broadcast_shapes_ok (a b : Shape)
    (h : ∀ i, i < max a.length b.length → ¬ bsBad a b i) :
    broadcast_shapes a b = .ok (bsResult a b) := by
  unfold broadcast_shapes bsResult
  exact broadcast_fold_ok a b _ _ (Nat.le_refl _) h

theorem broadcast_shapes_err (a b : Shape)
    (h : ∃ i, i < max a.length b.length ∧ bsBad a b i) :
    broadcast_shapes a b = .error .runtime_error := by
  unfold broadcast_shapes
  exact broadcast_fold_err a b _ _ (Nat.le_refl _) h

theorem bsResult_length (a b : Shape) : (bsResult a b).length = max a.length b.length := by
  simp [bsResult, bsPartial]

theorem bsResult_getElem? (a b : Shape) (j : Nat) (hj : j < max a.length b.length) :
    (bsResult a b)[j]? =
      some (max (alignedDim (max a.length b.length) a j) (alignedDim (max a.length b.length) b j)) := by
  rw [alignedDim_eq _ _ _ (Nat.le_max_left _ _) hj, alignedDim_eq _ _ _ (Nat.le_max_right _ _) hj]
  unfold bsResult bsPartial
  rw [List.getElem?_eq_getElem (by simpa using hj)]
  simp

theorem bsBad_iff_aligned (a b : Shape) :
    (∃ i, i < max a.length b.length ∧ bsBad a b i) ↔
      ∃ j, j < max a.length b.length ∧
        alignedDim (max a.length b.length) a j ≠ alignedDim (max a.length b.length) b j ∧
        alignedDim (max a.length b.length) a j ≠ 1 ∧
        alignedDim (max a.length b.length) b j ≠ 1 := by
  constructor
  · rintro ⟨i, hi, hb⟩
    refine ⟨max a.length b.length - 1 - i, by omega, ?_⟩
    rw [alignedDim_eq _ _ _ (Nat.le_max_left _ _) (by omega),
      alignedDim_eq _ _ _ (Nat.le_max_right _ _) (by omega)]
    have : max a.length b.length - 1 - (max a.length b.length - 1 - i) = i := by omega
    rw [this]
    exact hb
  · rintro ⟨j, hj, hb⟩
    refine ⟨max a.length b.length - 1 - j, by omega, ?_⟩
    rw [alignedDim_eq _ _ _ (Nat.le_max_left _ _) hj,
      alignedDim_eq _ _ _ (Nat.le_max_right _ _) hj] at hb
    exact hb

theorem flatten_index_loop_eq (idx : List Nat) (str : Strides) (acc : Nat)
    (hlen : idx.length ≤ str.length) (hacc : acc < SIZE_T_MODULUS) :
    flatten_index_loop acc idx str = .ok ((acc + dotNat idx str) % SIZE_T_MODULUS) := by
  induction idx generalizing str acc with
  | nil => simp [flatten_index_loop, dotNat, Nat.mod_eq_of_lt hacc]
  | cons i is ih =>
    cases str with
    | nil => simp at hlen
    | cons s ss =>
      simp only [List.length_cons, Nat.add_le_add_iff_right] at hlen
      rw [flatten_index_loop, ih ss _ hlen (addSz_lt _ _)]
      simp only [dotNat, addSz, mulSz]
      congr 1
      rw [Nat.add_mod, Nat.mod_mod, Nat.add_mod acc, Nat.mod_mod, ← Nat.add_mod acc, ← Nat.add_mod,
        Nat.add_assoc]

theorem flatten_index_eq (idx : List Nat) (str : Strides) (hlen : idx.length ≤ str.length) :
    flatten_index idx str = .ok (dotNat idx str % SIZE_T_MODULUS) := by
  unfold flatten_index
  rw [flatten_index_loop_eq idx str 0 hlen SIZE_T_MODULUS_pos, Nat.zero_add]

/-- Unravelling a flat index below `compute_size shape` succeeds, stays below
the shape in every component, and the exact dot product with the strides gives
the flat index back. -/
theorem unravel_index_spec (shape : Shape) (f : Nat) (hf : f < compute_size shape) :
    ∃ idx, unravel_index f shape (compute_strides shape) = .ok idx ∧
      List.Forall₂ (fun i d => i < d) idx shape ∧
      dotNat idx (compute_strides shape) = f := by
  induction shape generalizing f with
  | nil =>
    refine ⟨[], rfl, List.Forall₂.nil, ?_⟩
    rw [compute_size_nil] at hf
    simp [dotNat]; omega
  | cons d ds ih =>
    rw [compute_strides_cons]
    rw [compute_size_cons] at hf
    have hle : f < d * compute_size ds := Nat.lt_of_lt_of_le hf (mulSz_le _ _)
    have hs : 0 < compute_size ds := by
      rcases Nat.eq_zero_or_pos (compute_size ds) with h0 | h0
      · rw [h0] at hle; omega
      · exact h0
    obtain ⟨rest, hr, hrange, hdot⟩ := ih (f % compute_size ds) (Nat.mod_lt _ hs)
    refine ⟨f / compute_size ds :: rest, ?_, ?_, ?_⟩
    · rw [unravel_index, if_neg (by omega), hr]
    · exact List.Forall₂.cons ((Nat.div_lt_iff_lt_mul hs).2 hle) hrange
    · simp only [dotNat, hdot]
      exact Nat.div_add_mod' f (compute_size ds)

theorem prod_tail_le (d : Nat) (ds : Shape) (hd : 0 < d) : ds.prod ≤ (d :: ds).prod := by
  rw [List.prod_cons]
  exact Nat.le_mul_of_pos_left _ hd

theorem compute_size_of_lt (shape : Shape) (h : shape.prod < SIZE_T_MODULUS) :
    compute_size shape = shape.prod := by
  rw [compute_size_eq, Nat.mod_eq_of_lt h]

/-- Without overflow the exact dot product of an in-range index with the strides
is below the number of elements. -/
theorem dotNat_lt (shape : Shape) (idx : List Nat) (hprod : shape.prod < SIZE_T_MODULUS)
    (hidx : List.Forall₂ (fun i d => i < d) idx shape) :
    dotNat idx (compute_strides shape) < shape.prod := by
  induction hidx with
  | nil => simp [dotNat]
  | @cons i d is ds hid _ ih =>
    have hd : 0 < d := by omega
    have hds : ds.prod < SIZE_T_MODULUS := Nat.lt_of_le_of_lt (prod_tail_le d ds hd) hprod
    rw [compute_strides_cons, compute_size_of_lt ds hds]
    simp only [dotNat, List.prod_cons]
    have := ih hds
    calc i * ds.prod + dotNat is (compute_strides ds) < i * ds.prod + ds.prod := by omega
      _ = (i + 1) * ds.prod := by ring
      _ ≤ d * ds.prod := Nat.mul_le_mul_right _ hid

theorem unravel_dotNat (shape : Shape) (idx : List Nat) (hprod : shape.prod < SIZE_T_MODULUS)
    (hidx : List.Forall₂ (fun i d => i < d) idx shape) :
    unravel_index (dotNat idx (compute_strides shape)) shape (compute_strides shape) = .ok idx := by
  induction hidx with
  | nil => rfl
  | @cons i d is ds hid htl ih =>
    have hd : 0 < d := by omega
    have hds : ds.prod < SIZE_T_MODULUS := Nat.lt_of_le_of_lt (prod_tail_le d ds hd) hprod
    have hlt := dotNat_lt ds is hds htl
    rw [compute_strides_cons, compute_size_of_lt ds hds]
    simp only [dotNat]
    have hpos : 0 < ds.prod := by omega
    rw [unravel_index, if_neg (by omega)]
    have h1 : (i * ds.prod + dotNat is (compute_strides ds)) % ds.prod
        = dotNat is (compute_strides ds) := by
      rw [Nat.add_comm, Nat.add_mul_mod_self_right, Nat.mod_eq_of_lt hlt]
    have h2 : (i * ds.prod + dotNat is (compute_strides ds)) / ds.prod = i := by
      rw [Nat.add_comm, Nat.add_mul_div_right _ _ hpos, Nat.div_eq_of_lt hlt, Nat.zero_add]
    rw [h1, h2, ih hds]

theorem forall₂_length_eq {idx shape : List Nat}
    (h : List.Forall₂ (fun i d => i < d) idx shape) : idx.length = shape.length :=
  List.Forall₂.length_eq h

theorem flatten_index_in_range (shape : Shape) (idx : List Nat)
    (hprod : shape.prod < SIZE_T_MODULUS)
    (hidx : List.Forall₂ (fun i d => i < d) idx shape) :
    flatten_index idx (compute_strides shape) = .ok (dotNat idx (compute_strides shape)) := by
  rw [flatten_index_eq _ _ (by rw [compute_strides_length, List.Forall₂.length_eq hidx]),
    Nat.mod_eq_of_lt (Nat.lt_trans (dotNat_lt shape idx hprod hidx) hprod)]

theorem increment_loop_eq_carry (t : Shape) (k : Nat) (cur : List Nat) :
    increment_loop t k cur = (incrementCarry t k cur).1 := by
  induction k generalizing cur with
  | zero => rfl
  | succ i ih =>
    simp only [increment_loop, incrementCarry]
    split
    · rfl
    · exact ih _

theorem incrementCarry_succ (t : Shape) (i : Nat) (cur : List Nat) :
    incrementCarry t (i + 1) cur =
      (if (cur.set i (addSz (cur.getD i 0) 1)).getD i 0 < t.getD i 0 then
        (cur.set i (addSz (cur.getD i 0) 1), false)
      else incrementCarry t i ((cur.set i (addSz (cur.getD i 0) 1)).set i 0)) := rfl

theorem incrementCarry_cons (d : Nat) (ds : Shape) (c : Nat) (cs : List Nat) (k : Nat) :
    incrementCarry (d :: ds) (k + 1) (c :: cs) =
      (if (incrementCarry ds k cs).2 then
        incrementCarry (d :: ds) 1 (c :: (incrementCarry ds k cs).1)
      else (c :: (incrementCarry ds k cs).1, false)) := by
  induction k generalizing cs with
  | zero => simp [incrementCarry]
  | succ j ih =>
    rw [incrementCarry_succ (d :: ds) (j + 1), incrementCarry_succ ds j]
    simp only [List.set_cons_succ, List.getD_cons_succ]
    split
    · simp
    · rw [ih]

theorem incrementCarry_one (d : Nat) (ds : Shape) (c : Nat) (cs : List Nat) :
    incrementCarry (d :: ds) 1 (c :: cs) =
      (if addSz c 1 < d then (addSz c 1 :: cs, false) else (0 :: cs, true)) := by
  simp [incrementCarry]

/-- One `increment` on an in-range cursor: the result is in range, its exact flat
position is the successor modulo the number of positions, and the carry tells
whether it wrapped around. -/
theorem incrementCarry_spec (t : Shape) (cur : List Nat) (hprod : t.prod < SIZE_T_MODULUS)
    (hcur : List.Forall₂ (fun i d => i < d) cur t) :
    List.Forall₂ (fun i d => i < d) (incrementCarry t t.length cur).1 t ∧
    dotNat (incrementCarry t t.length cur).1 (compute_strides t) =
      (dotNat cur (compute_strides t) + 1) % t.prod ∧
    ((incrementCarry t t.length cur).2 = true ↔ dotNat cur (compute_strides t) + 1 = t.prod) := by
  induction hcur with
  | nil => simp [incrementCarry, dotNat]
  | @cons c d cs ds hcd htl ih =>
    have hd : 0 < d := by omega
    have hds : ds.prod < SIZE_T_MODULUS := Nat.lt_of_le_of_lt (prod_tail_le d ds hd) hprod
    obtain ⟨ih1, ih2, ih3⟩ := ih hds
    have hr := dotNat_lt ds cs hds htl
    have hP : 0 < ds.prod := by omega
    have hdM : d < SIZE_T_MODULUS := by
      have : d * 1 ≤ d * ds.prod := Nat.mul_le_mul_left d hP
      rw [List.prod_cons] at hprod
      omega
    have hc1 : addSz c 1 = c + 1 := addSz_of_lt (by omega)
    rw [List.length_cons, incrementCarry_cons, compute_strides_cons, compute_size_of_lt ds hds]
    simp only [dotNat, List.prod_cons]
    have hcP : c * ds.prod + ds.prod ≤ d * ds.prod := by
      calc c * ds.prod + ds.prod = (c + 1) * ds.prod := by ring
        _ ≤ d * ds.prod := Nat.mul_le_mul_right _ hcd
    cases hcarry : (incrementCarry ds ds.length cs).2 with
    | false =>
      have hne : dotNat cs (compute_strides ds) + 1 ≠ ds.prod := by
        intro h; rw [ih3.2 h] at hcarry; cases hcarry
      have hlt : dotNat cs (compute_strides ds) + 1 < ds.prod := by omega
      simp only [Bool.false_eq_true, if_false, dotNat]
      rw [ih2, Nat.mod_eq_of_lt hlt]
      refine ⟨List.Forall₂.cons hcd ih1, ?_, ?_⟩
      · rw [Nat.mod_eq_of_lt (by omega)]; omega
      · simp; omega
    | true =>
      have heq : dotNat cs (compute_strides ds) + 1 = ds.prod := ih3.1 hcarry
      have h0 : dotNat (incrementCarry ds ds.length cs).1 (compute_strides ds) = 0 := by
        rw [ih2, heq, Nat.mod_self]
      simp only [if_true]
      rw [incrementCarry_one, hc1]
      by_cases hlt : c + 1 < d
      · simp only [hlt, if_true, dotNat, h0]
        have h2 : (c + 1) * ds.prod ≤ d * ds.prod - ds.prod := by
          have : (c + 1 + 1) * ds.prod ≤ d * ds.prod := Nat.mul_le_mul_right _ hlt
          have e : (c + 1 + 1) * ds.prod = (c + 1) * ds.prod + ds.prod := by ring
          omega
        have e2 : (c + 1) * ds.prod = c * ds.prod + ds.prod := by ring
        refine ⟨List.Forall₂.cons hlt ih1, ?_, ?_⟩
        · rw [Nat.mod_eq_of_lt (by omega)]; omega
        · simp; omega
      · have hcd2 : c + 1 = d := by omega
        simp only [hlt, if_false, dotNat, h0]
        have e2 : d * ds.prod = c * ds.prod + ds.prod := by rw [← hcd2]; ring
        refine ⟨List.Forall₂.cons hd ih1, ?_, ?_⟩
        · have : c * ds.prod + dotNat cs (compute_strides ds) + 1 = d * ds.prod := by omega
          rw [this, Nat.mod_self]
          simp
        · simp; omega

theorem get_value_loop_eq (t : Shape) (cur : List Nat) (e : Shape) (s : Strides) (acc : Nat)
    (hc : cur.length = t.length) (he : e.length = t.length) (hs : s.length = t.length)
    (hacc : acc < SIZE_T_MODULUS) :
    get_value_loop acc t cur e s = .ok ((acc + dotNat (maskIndex e cur) s) % SIZE_T_MODULUS) := by
  induction t generalizing cur e s acc with
  | nil =>
    cases cur with
    | nil => simp [get_value_loop, maskIndex, dotNat, Nat.mod_eq_of_lt hacc]
    | cons _ _ => simp at hc
  | cons d ds ih =>
    cases cur with
    | nil => simp at hc
    | cons c cs =>
      cases e with
      | nil => simp at he
      | cons e0 es =>
        cases s with
        | nil => simp at hs
        | cons s0 ss =>
          simp only [List.length_cons, Nat.add_right_cancel_iff] at hc he hs
          rw [get_value_loop]
          rw [ih cs es ss _ hc he hs (addSz_lt _ _)]
          simp only [maskIndex, List.zipWith_cons_cons, dotNat, addSz, mulSz]
          congr 1
          rw [Nat.add_mod, Nat.mod_mod, Nat.add_mod acc, Nat.mod_mod, ← Nat.add_mod acc,
            ← Nat.add_mod, Nat.add_assoc]

theorem expandedPartial_zero (sh : Shape) (n off : Nat) :
    expandedPartial sh n off 0 = List.replicate n 1 := by
  unfold expandedPartial
  apply List.ext_getElem
  · simp
  · intro j h1 h2
    simp at h1
    simp

theorem expandedPartial_succ (sh : Shape) (n off k : Nat) :
    (expandedPartial sh n off k).set (off + k) (sh.getD k 0) = expandedPartial sh n off (k + 1) := by
  unfold expandedPartial
  apply List.ext_getElem
  · simp
  · intro j h1 h2
    simp at h1
    simp only [List.getElem_set, List.getElem_map, List.getElem_range]
    by_cases hj : off + k = j
    · have h3 : j - off = k := by omega
      have h4 : off ≤ j ∧ j < off + (k + 1) := by omega
      simp only [hj, h3, h4, if_true, and_self]
    · simp only [hj, if_false]
      by_cases hj2 : off ≤ j ∧ j < off + k
      · have : off ≤ j ∧ j < off + (k + 1) := by omega
        simp only [hj2, this, and_self, if_true]
      · have : ¬ (off ≤ j ∧ j < off + (k + 1)) := by omega
        simp only [hj2, this, if_false]

theorem expandedPartial_full (sh : Shape) (off : Nat) :
    expandedPartial sh (off + sh.length) off sh.length = List.replicate off 1 ++ sh := by
  unfold expandedPartial
  apply List.ext_getElem
  · simp
  · intro j h1 h2
    simp at h1
    simp only [List.getElem_map, List.getElem_range]
    by_cases hj : j < off
    · rw [List.getElem_append_left (by simpa using hj)]
      have : ¬ (off ≤ j ∧ j < off + sh.length) := by omega
      simp [this]
    · rw [List.getElem_append_right (by simpa using hj)]
      have : off ≤ j ∧ j < off + sh.length := by omega
      simp only [this, and_self, if_true, List.length_replicate]
      rw [List.getD_eq_getElem?_getD, List.getElem?_eq_getElem (by omega)]
      rfl

theorem expanded_fold (sh : Shape) (n off k : Nat) (hk : off + k ≤ n) :
    (List.range k).foldlM (fun es i => writeAt es (off + i) (sh.getD i 0)) (List.replicate n 1)
      = .ok (expandedPartial sh n off k) := by
  induction k with
  | zero => simp [expandedPartial_zero]; rfl
  | succ k ih =>
    rw [foldlM_range_succ, ih (by omega)]
    show writeAt _ _ _ = _
    unfold writeAt
    rw [if_pos (by simp [expandedPartial]; omega), expandedPartial_succ]

theorem ctor_eq {T : Type} (arr : ndarray T) (t : Shape) (h : arr.shape_.length ≤ t.length) :
    BroadcastIterator.ctor arr t = .ok (iteratorOf arr t) := by
  unfold BroadcastIterator.ctor ndarray.ndim
  rw [if_neg (by omega)]
  simp only []
  rw [expanded_fold arr.shape_ t.length (t.length - arr.shape_.length) arr.shape_.length (by omega)]
  have hn : t.length = (t.length - arr.shape_.length) + arr.shape_.length := by omega
  have := expandedPartial_full arr.shape_ (t.length - arr.shape_.length)
  rw [← hn] at this
  simp only [this]
  rfl

theorem iterate_increment_fields {T : Type} (it : BroadcastIterator T) (k : Nat) :
    (increment^[k] it).ndarray_ = it.ndarray_ ∧
    (increment^[k] it).target_shape_ = it.target_shape_ ∧
    (increment^[k] it).expanded_shape_ = it.expanded_shape_ ∧
    (increment^[k] it).expanded_strides_ = it.expanded_strides_ := by
  induction k with
  | zero => simp
  | succ k ih =>
    rw [Function.iterate_succ_apply']
    obtain ⟨h1, h2, h3, h4⟩ := ih
    exact ⟨h1, h2, h3, h4⟩

theorem dotNat_replicate_zero (n : Nat) (s : List Nat) : dotNat (List.replicate n 0) s = 0 := by
  induction n generalizing s with
  | zero => simp [dotNat]
  | succ n ih =>
    cases s with
    | nil => simp [dotNat, List.replicate_succ]
    | cons s0 ss => simp [dotNat, List.replicate_succ, ih]

theorem forall₂_replicate_zero (t : Shape) (h : ∀ d ∈ t, 0 < d) :
    List.Forall₂ (fun i d => i < d) (List.replicate t.length 0) t := by
  induction t with
  | nil => exact List.Forall₂.nil
  | cons d ds ih =>
    simp only [List.length_cons, List.replicate_succ]
    exact List.Forall₂.cons (h d (by simp)) (ih (fun x hx => h x (by simp [hx])))

/-- The cursor after `k` increments is the in-range multi-index whose exact
row-major position is `k`. -/
theorem cursor_spec {T : Type} (arr : ndarray T) (t : Shape) (hprod : t.prod < SIZE_T_MODULUS)
    (hpos : ∀ d ∈ t, 0 < d) (k : Nat) (hk : k < t.prod) :
    List.Forall₂ (fun i d => i < d) (increment^[k] (iteratorOf arr t)).current_index_ t ∧
    dotNat (increment^[k] (iteratorOf arr t)).current_index_ (compute_strides t) = k := by
  induction k with
  | zero =>
    exact ⟨forall₂_replicate_zero t hpos, dotNat_replicate_zero _ _⟩
  | succ k ih =>
    obtain ⟨h1, h2⟩ := ih (by omega)
    rw [Function.iterate_succ_apply']
    have ht : (increment^[k] (iteratorOf arr t)).target_shape_ = t :=
      (iterate_increment_fields (iteratorOf arr t) k).2.1
    have hcur : (increment (increment^[k] (iteratorOf arr t))).current_index_ =
        (incrementCarry t t.length (increment^[k] (iteratorOf arr t)).current_index_).1 := by
      show increment_loop (increment^[k] (iteratorOf arr t)).target_shape_
        (increment^[k] (iteratorOf arr t)).target_shape_.length _ = _
      rw [ht]
      exact increment_loop_eq_carry _ _ _
    rw [hcur]
    obtain ⟨g1, g2, _⟩ := incrementCarry_spec t _ hprod h1
    refine ⟨g1, ?_⟩
    rw [g2, h2, Nat.mod_eq_of_lt hk]

theorem broadcast_shapes_ok_inv (s t r : Shape) (h : broadcast_shapes s t = .ok r) :
    (∀ i, i < max s.length t.length → ¬ bsBad s t i) ∧ r = bsResult s t := by
  by_cases hb : ∃ i, i < max s.length t.length ∧ bsBad s t i
  · rw [broadcast_shapes_err s t hb] at h; cases h
  · have hall : ∀ i, i < max s.length t.length → ¬ bsBad s t i := fun i hi hbad => hb ⟨i, hi, hbad⟩
    rw [broadcast_shapes_ok s t hall] at h
    injection h with h
    exact ⟨hall, h.symm⟩

theorem alignedDim_self (t : Shape) (j : Nat) (hj : j < t.length) :
    alignedDim t.length t j = t[j] := by
  unfold alignedDim
  simp [List.getD_eq_getElem?_getD, List.getElem?_eq_getElem hj]

theorem alignedDim_getElem (n : Nat) (s : Shape) (j : Nat)
    (hj : j < (List.replicate (n - s.length) 1 ++ s).length) :
    alignedDim n s j = (List.replicate (n - s.length) 1 ++ s)[j] := by
  unfold alignedDim
  rw [List.getD_eq_getElem?_getD, List.getElem?_eq_getElem hj]
  rfl

theorem resolved_expandsTo (s t : Shape) (h : broadcast_shapes s t = .ok t)
    (hz : ∀ d ∈ s, d ≠ 0) :
    s.length ≤ t.length ∧
    List.Forall₂ expandsTo (List.replicate (t.length - s.length) 1 ++ s) t := by
  obtain ⟨hall, hres⟩ := broadcast_shapes_ok_inv s t t h
  have hlen : max s.length t.length = t.length := by
    have := bsResult_length s t
    rw [← hres] at this
    exact this.symm
  have hle : s.length ≤ t.length := by omega
  refine ⟨hle, ?_⟩
  rw [List.forall₂_iff_get]
  refine ⟨by simp; omega, ?_⟩
  intro j h1 h2
  rw [List.get_eq_getElem, List.get_eq_getElem]
  have hj : j < max s.length t.length := by omega
  have hget := bsResult_getElem? s t j hj
  rw [← hres, hlen, List.getElem?_eq_getElem h2, alignedDim_self t j h2,
    alignedDim_getElem t.length s j h1] at hget
  injection hget with hget
  have hnb : ¬ (alignedDim (max s.length t.length) s j ≠ alignedDim (max s.length t.length) t j ∧
      alignedDim (max s.length t.length) s j ≠ 1 ∧ alignedDim (max s.length t.length) t j ≠ 1) := by
    intro hb
    exact (fun hx => (hall _ hx.choose_spec.1) hx.choose_spec.2)
      ((bsBad_iff_aligned s t).2 ⟨j, hj, hb⟩)
  rw [hlen, alignedDim_self t j h2, alignedDim_getElem t.length s j h1] at hnb
  have hne : (List.replicate (t.length - s.length) 1 ++ s)[j] ≠ 0 := by
    have hmem : (List.replicate (t.length - s.length) 1 ++ s)[j] ∈
        List.replicate (t.length - s.length) 1 ++ s := List.getElem_mem _
    rcases List.mem_append.1 hmem with hm | hm
    · rw [(List.mem_replicate.1 hm).2]; decide
    · exact hz _ hm
  generalize (List.replicate (t.length - s.length) 1 ++ s)[j] = e at hget hnb hne
  generalize t[j] = d at hget hnb
  unfold expandsTo
  have hmax : e ≤ d := by rw [hget]; exact Nat.le_max_left _ _
  by_cases he1 : e = 1
  · exact ⟨Or.inl he1, by omega⟩
  · by_cases hed : e = d
    · exact ⟨Or.inr hed, by omega⟩
    · exfalso
      apply hnb
      refine ⟨hed, he1, ?_⟩
      omega

theorem expandsTo_pos {e t : Shape} (h : List.Forall₂ expandsTo e t) : ∀ d ∈ t, 0 < d := by
  induction h with
  | nil => simp
  | cons h1 _ ih =>
    intro d hd
    rcases List.mem_cons.1 hd with rfl | hd
    · exact h1.2
    · exact ih d hd

theorem expandsTo_prod_le {e t : Shape} (h : List.Forall₂ expandsTo e t) : e.prod ≤ t.prod := by
  induction h with
  | nil => simp
  | @cons a b l1 l2 h1 _ ih =>
    simp only [List.prod_cons]
    have hab : a ≤ b := by
      rcases h1.1 with h | h
      · have := h1.2; omega
      · omega
    exact Nat.mul_le_mul hab ih

theorem maskIndex_in_range {e t : Shape} (h : List.Forall₂ expandsTo e t) (p : List Nat)
    (hp : List.Forall₂ (fun i d => i < d) p t) :
    List.Forall₂ (fun i d => i < d) (maskIndex e p) e := by
  induction h generalizing p with
  | nil =>
    cases hp
    exact List.Forall₂.nil
  | @cons a b l1 l2 h1 _ ih =>
    cases hp with
    | @cons c _ cs _ hc hcs =>
      simp only [maskIndex, List.zipWith_cons_cons]
      refine List.Forall₂.cons ?_ (ih cs hcs)
      rcases h1.1 with h | h
      · simp [h]
      · by_cases ha : a = 1
        · simp [ha]
        · simp only [ha, if_false]; omega

theorem dotNat_mask_pad (s : Shape) (pre q : List Nat) :
    dotNat (maskIndex (List.replicate pre.length 1 ++ s) (pre ++ q))
      (compute_strides (List.replicate pre.length 1 ++ s)) =
    dotNat (maskIndex s q) (compute_strides s) := by
  induction pre with
  | nil => simp
  | cons c cs ih =>
    simp only [List.length_cons, List.replicate_succ, List.cons_append, compute_strides_cons,
      maskIndex, List.zipWith_cons_cons, dotNat, if_true, Nat.zero_mul, Nat.zero_add]
    exact ih

theorem projectIndex_eq (s : Shape) (pre q : List Nat) (hq : q.length = s.length) :
    projectIndex s (pre ++ q) = maskIndex s q := by
  unfold projectIndex maskIndex
  have : (pre ++ q).length - s.length = pre.length := by simp; omega
  rw [this, List.drop_left]

theorem any_ge_false {idx shape : List Nat} (h : List.Forall₂ (fun i d => i < d) idx shape) :
    (idx.zip shape).any (fun p => decide (p.1 ≥ p.2)) = false := by
  induction h with
  | nil => rfl
  | cons h1 _ ih =>
    simp only [List.zip_cons_cons, List.any_cons, ih, Bool.or_false, decide_eq_false_iff_not]
    omega

theorem readAt_of_lt [Zero T] (l : List T) (i : Nat) (h : i < l.length) :
    readAt l i = .ok (l.getD i 0) := by
  unfold readAt
  rw [List.getD_eq_getElem?_getD, List.getElem?_eq_getElem h]
  rfl

theorem at_of_in_range [Zero T] (a : ndarray T) (q : List Nat)
    (hstr : a.strides_ = compute_strides a.shape_) (hlen : a.data_.length = a.shape_.prod)
    (hprod : a.shape_.prod < SIZE_T_MODULUS)
    (hq : List.Forall₂ (fun i d => i < d) q a.shape_) :
    a.at q = .ok (a.data_.getD (dotNat q (compute_strides a.shape_)) 0) := by
  unfold ndarray.at
  rw [if_neg (by simp [List.Forall₂.length_eq hq]), any_ge_false hq]
  simp only [Bool.false_eq_true, if_false]
  rw [hstr, flatten_index_in_range _ _ hprod hq]
  exact readAt_of_lt _ _ (by rw [hlen]; exact dotNat_lt _ _ hprod hq)

theorem prod_pad (k : Nat) (s : Shape) : (List.replicate k 1 ++ s).prod = s.prod := by
  simp

theorem get_value_iterate [Zero T] (a : ndarray T) (t : Shape)
    (hlen : a.data_.length = a.shape_.prod)
    (hz : ∀ d ∈ a.shape_, d ≠ 0) (hres : broadcast_shapes a.shape_ t = .ok t)
    (hprod : t.prod < SIZE_T_MODULUS) (k : Nat) (hk : k < t.prod) :
    (increment^[k] (iteratorOf a t)).get_value = .ok (srcVal a t k) := by
  obtain ⟨hle, hexp⟩ := resolved_expandsTo a.shape_ t hres hz
  obtain ⟨hc1, _⟩ := cursor_spec a t hprod (expandsTo_pos hexp) k hk
  obtain ⟨f1, f2, f3, f4⟩ := iterate_increment_fields (iteratorOf a t) k
  unfold get_value
  rw [f1, f2, f3, f4]
  show (match get_value_loop 0 t _ (List.replicate (t.length - a.shape_.length) 1 ++ a.shape_)
      (compute_strides (List.replicate (t.length - a.shape_.length) 1 ++ a.shape_)) with
    | .ok i => readAt a.data_ i
    | .error e => .error e) = _
  have hmask := maskIndex_in_range hexp _ hc1
  have hep : (List.replicate (t.length - a.shape_.length) 1 ++ a.shape_).prod < SIZE_T_MODULUS :=
    Nat.lt_of_le_of_lt (expandsTo_prod_le hexp) hprod
  have hdot := dotNat_lt _ _ hep hmask
  rw [get_value_loop_eq t _ _ _ 0 (List.Forall₂.length_eq hc1) (List.Forall₂.length_eq hexp)
    (by rw [compute_strides_length]; exact List.Forall₂.length_eq hexp) SIZE_T_MODULUS_pos,
    Nat.zero_add, Nat.mod_eq_of_lt (Nat.lt_trans hdot hep)]
  simp only []
  rw [prod_pad] at hdot
  exact readAt_of_lt _ _ (by rw [hlen]; exact hdot)

theorem broadcast_loop (res0 : ndarray T) (it0 : BroadcastIterator T) (g : Nat → T) (n : Nat)
    (hsize : res0.size_ = n) (hlen : res0.data_.length = n)
    (hg : ∀ j, j < n → (increment^[j] it0).get_value = .ok (g j)) (k : Nat) (hk : k ≤ n) :
    (List.range k).foldlM broadcast_to_step (res0, it0) =
      .ok ({ res0 with data_ := (List.range k).map g ++ res0.data_.drop k }, increment^[k] it0) := by
  induction k with
  | zero => simp; rfl
  | succ k ih =>
    rw [foldlM_range_succ, ih (by omega)]
    show broadcast_to_step _ k = _
    unfold broadcast_to_step
    simp only []
    rw [hg k (by omega)]
    simp only [ndarray.set, writeAt]
    rw [if_neg (by omega), if_pos (by simp; omega)]
    simp only [Function.iterate_succ_apply']
    congr 3
    rw [List.set_append_right _ _ (by simp), List.range_succ, List.map_append,
      List.append_assoc]
    congr 1
    simp only [List.length_map, List.length_range, Nat.sub_self, List.map_cons, List.map_nil,
      List.singleton_append]
    rw [List.drop_eq_getElem_cons (by omega : k < res0.data_.length)]
    rfl

/-- The array `broadcast_to` returns for a row-major owning source without
zero-sized dimensions and a resolved target whose element count fits `size_t`. -/
theorem broadcast_to_eq [Zero T] (a : ndarray T) (t : Shape)
    (hlen : a.data_.length = a.shape_.prod)
    (hz : ∀ d ∈ a.shape_, d ≠ 0) (hres : broadcast_shapes a.shape_ t = .ok t)
    (hprod : t.prod < SIZE_T_MODULUS) :
    broadcast_to a t =
      .ok { shape_ := t, strides_ := compute_strides t,
            data_ := (List.range t.prod).map (srcVal a t), size_ := t.prod, owns_data_ := true } := by
  obtain ⟨hle, hexp⟩ := resolved_expandsTo a.shape_ t hres hz
  unfold broadcast_to
  rw [hres]
  simp only []
  rw [ctor_eq a t hle]
  simp only []
  have hsz : compute_size t = t.prod := compute_size_of_lt t hprod
  have hdata : (ndarray.ctor_shape t : ndarray T).data_ = List.replicate t.prod 0 := by
    unfold ndarray.ctor_shape
    simp only [hsz]
    split
    · rfl
    · have : t.prod = 0 := by omega
      rw [this]; rfl
  have hsize : (ndarray.ctor_shape t : ndarray T).size_ = t.prod := by
    unfold ndarray.ctor_shape; exact hsz
  rw [hsize, broadcast_loop (ndarray.ctor_shape t) (iteratorOf a t) (srcVal a t) t.prod hsize
    (by rw [hdata]; simp) (fun j hj => get_value_iterate a t hlen hz hres hprod j hj) t.prod
    (Nat.le_refl _)]
  simp only [hdata]
  unfold ndarray.ctor_shape
  simp [hsz]

theorem broadcast_shapes_error_kind (a b : Shape) (e : Error)
    (h : broadcast_shapes a b = .error e) : e = .runtime_error := by
  by_cases hb : ∃ i, i < max a.length b.length ∧ bsBad a b i
  · rw [broadcast_shapes_err a b hb] at h
    injection h with h
    exact h.symm
  · have hall : ∀ i, i < max a.length b.length → ¬ bsBad a b i := fun i hi hbad => hb ⟨i, hi, hbad⟩
    rw [broadcast_shapes_ok a b hall] at h
    cases h

/-- The resolved shape is resolved against each operand: `broadcast_shapes(a, r) = r`. -/
theorem broadcast_shapes_absorb (a b r : Shape) (h : broadcast_shapes a b = .ok r) :
    broadcast_shapes a r = .ok r := by
  obtain ⟨hall, hres⟩ := broadcast_shapes_ok_inv a b r h
  have hrlen : r.length = max a.length b.length := by rw [hres]; exact bsResult_length a b
  have hmax : max a.length r.length = r.length := by omega
  have hnb : ∀ j, j < r.length →
      ¬ (alignedDim r.length a j ≠ alignedDim r.length b j ∧
        alignedDim r.length a j ≠ 1 ∧ alignedDim r.length b j ≠ 1) := by
    intro j hj hb
    rw [hrlen] at hj hb
    have hx := (bsBad_iff_aligned a b).2 ⟨j, hj, hb⟩
    exact (hall _ hx.choose_spec.1) hx.choose_spec.2
  have hr : ∀ j (hj : j < r.length), r[j] =
      max (alignedDim r.length a j) (alignedDim r.length b j) := by
    intro j hj
    have := bsResult_getElem? a b j (by omega)
    rw [← hres, List.getElem?_eq_getElem hj, ← hrlen] at this
    injection this with this
  have hgood : ∀ i, i < max a.length r.length → ¬ bsBad a r i := by
    intro i hi hbad
    have hx := (bsBad_iff_aligned a r).1 ⟨i, hi, hbad⟩
    obtain ⟨j, hj, h1, h2, h3⟩ := hx
    rw [hmax] at hj h1 h2 h3
    rw [alignedDim_self r j hj, hr j hj] at h1 h3
    have h4 := hnb j hj
    generalize alignedDim r.length a j = x at h1 h2 h3 h4
    generalize alignedDim r.length b j = y at h1 h3 h4
    apply h4
    refine ⟨?_, h2, ?_⟩
    · intro hxy; apply h1; rw [hxy]; simp
    · intro hy; rw [hy] at h1 h3
      rcases Nat.le_total x 1 with hle | hle
      · rw [Nat.max_eq_right hle] at h3; exact h3 rfl
      · rw [Nat.max_eq_left hle] at h1; exact h1 rfl
  rw [broadcast_shapes_ok a r hgood]
  congr 1
  apply List.ext_getElem?
  intro j
  by_cases hj : j < r.length
  · rw [bsResult_getElem? a r j (by omega), hmax, alignedDim_self r j hj,
      List.getElem?_eq_getElem hj, hr j hj]
    simp
  · rw [List.getElem?_eq_none (by rw [bsResult_length]; omega), List.getElem?_eq_none (by omega)]

theorem bsBad_symm (a b : Shape) (i : Nat) (h : bsBad a b i) : bsBad b a i :=
  ⟨Ne.symm h.1, h.2.2, h.2.1⟩

theorem broadcast_shapes_comm (a b : Shape) : broadcast_shapes a b = broadcast_shapes b a := by
  have hstep : ∀ n, broadcast_shapes_step a b n = broadcast_shapes_step b a n := by
    intro n
    funext r i
    by_cases h : bsBad a b i
    · rw [broadcast_shapes_step_bad _ _ _ _ _ h, broadcast_shapes_step_bad _ _ _ _ _ (bsBad_symm _ _ _ h)]
    · rw [broadcast_shapes_step_good _ _ _ _ _ h,
        broadcast_shapes_step_good _ _ _ _ _ (fun h2 => h (bsBad_symm _ _ _ h2)), Nat.max_comm]
  unfold broadcast_shapes
  simp only [Nat.max_comm a.length b.length, hstep]

theorem broadcast_shapes_absorb_right (a b r : Shape) (h : broadcast_shapes a b = .ok r) :
    broadcast_shapes b r = .ok r := by
  rw [broadcast_shapes_comm] at h
  exact broadcast_shapes_absorb b a r h

theorem transform2_loop (op : T → T → U) (gA gB : Nat → T) (n : Nat) (out : List U)
    (hout : out.length = n) (k : Nat) (hk : k ≤ n) :
    (List.range k).foldlM
      (transform2_step op ((List.range n).map gA) ((List.range n).map gB)) out =
      .ok ((List.range k).map (fun i => op (gA i) (gB i)) ++ out.drop k) := by
  induction k with
  | zero => simp; rfl
  | succ k ih =>
    rw [foldlM_range_succ, ih (by omega)]
    have hA : readAt ((List.range n).map gA) k = .ok (gA k) := by
      unfold readAt
      rw [List.getElem?_map, List.getElem?_range (by omega)]; rfl
    have hB : readAt ((List.range n).map gB) k = .ok (gB k) := by
      unfold readAt
      rw [List.getElem?_map, List.getElem?_range (by omega)]; rfl
    simp only [transform2_step, hA, hB, writeAt]
    rw [if_pos (by simp; omega)]
    congr 1
    rw [List.set_append_right _ _ (by simp), List.range_succ, List.map_append,
      List.append_assoc]
    congr 1
    simp only [List.length_map, List.length_range, Nat.sub_self, List.map_cons, List.map_nil,
      List.singleton_append]
    rw [List.drop_eq_getElem_cons (by omega : k < out.length)]
    rfl

theorem transform2_eq (op : T → T → U) (gA gB : Nat → T) (n : Nat) (out : List U)
    (hout : out.length = n) :
    transform2 op ((List.range n).map gA) n ((List.range n).map gB) out =
      .ok ((List.range n).map (fun i => op (gA i) (gB i))) := by
  unfold transform2
  rw [transform2_loop op gA gB n out hout n (Nat.le_refl _)]
  simp [← hout]

theorem forall₂_lt_pos {p t : List Nat} (h : List.Forall₂ (fun i d => i < d) p t) :
    ∀ d ∈ t, 0 < d := by
  induction h with
  | nil => simp
  | cons h1 _ ih =>
    intro d hd
    rcases List.mem_cons.1 hd with rfl | hd
    · omega
    · exact ih d hd

theorem cursor_eq (a : ndarray T) (t : Shape) (hprod : t.prod < SIZE_T_MODULUS)
    (p : List Nat) (hp : List.Forall₂ (fun i d => i < d) p t) :
    (increment^[dotNat p (compute_strides t)] (iteratorOf a t)).current_index_ = p := by
  obtain ⟨h1, h2⟩ := cursor_spec a t hprod (forall₂_lt_pos hp) _ (dotNat_lt t p hprod hp)
  have e1 := unravel_dotNat t _ hprod h1
  have e2 := unravel_dotNat t p hprod hp
  rw [h2, e2] at e1
  injection e1 with e1
  exact e1.symm

theorem srcVal_at [Zero T] (a : ndarray T) (t : Shape) (hle : a.shape_.length ≤ t.length)
    (hprod : t.prod < SIZE_T_MODULUS)
    (p : List Nat) (hp : List.Forall₂ (fun i d => i < d) p t) :
    srcVal a t (dotNat p (compute_strides t)) =
      a.data_.getD (dotNat (projectIndex a.shape_ p) (compute_strides a.shape_)) 0 := by
  unfold srcVal
  rw [cursor_eq a t hprod p hp]
  have hpl : p.length = t.length := List.Forall₂.length_eq hp
  have hsplit : p = p.take (t.length - a.shape_.length) ++ p.drop (t.length - a.shape_.length) :=
    (List.take_append_drop _ _).symm
  have htake : (p.take (t.length - a.shape_.length)).length = t.length - a.shape_.length := by
    rw [List.length_take]; omega
  have hdrop : (p.drop (t.length - a.shape_.length)).length = a.shape_.length := by
    rw [List.length_drop]; omega
  have h1 := dotNat_mask_pad a.shape_ (p.take (t.length - a.shape_.length))
    (p.drop (t.length - a.shape_.length))
  rw [htake, ← hsplit] at h1
  have h2 := projectIndex_eq a.shape_ (p.take (t.length - a.shape_.length))
    (p.drop (t.length - a.shape_.length)) hdrop
  rw [← hsplit] at h2
  rw [h1, h2]

theorem projectIndex_in_range {s t : Shape} (hle : s.length ≤ t.length)
    (hexp : List.Forall₂ expandsTo (List.replicate (t.length - s.length) 1 ++ s) t)
    (p : List Nat) (hp : List.Forall₂ (fun i d => i < d) p t) :
    List.Forall₂ (fun i d => i < d) (projectIndex s p) s := by
  have hpl : p.length = t.length := List.Forall₂.length_eq hp
  have hdrop : (p.drop (t.length - s.length)).length = s.length := by
    rw [List.length_drop]; omega
  have hsplit : p = p.take (t.length - s.length) ++ p.drop (t.length - s.length) :=
    (List.take_append_drop _ _).symm
  have h2 := projectIndex_eq s (p.take (t.length - s.length)) (p.drop (t.length - s.length)) hdrop
  rw [← hsplit] at h2
  rw [h2]
  have h3 := List.forall₂_drop (t.length - s.length) hexp
  have h4 := List.forall₂_drop (t.length - s.length) hp
  rw [List.drop_left' (by simp)] at h3
  exact maskIndex_in_range h3 _ h4

/-- Reading the broadcast result at an in-range multi-index gives the element of
the source at the projected multi-index. -/
theorem broadcast_to_at [Zero T] (a : ndarray T) (t : Shape) (hwf : a.IsRowMajorOwner)
    (hz : ∀ d ∈ a.shape_, d ≠ 0) (hres : broadcast_shapes a.shape_ t = .ok t)
    (hprod : t.prod < SIZE_T_MODULUS) (p : List Nat)
    (hp : List.Forall₂ (fun i d => i < d) p t) :
    a.at (projectIndex a.shape_ p) = .ok (srcVal a t (dotNat p (compute_strides t))) ∧
    dotNat p (compute_strides t) < t.prod := by
  obtain ⟨hle, hexp⟩ := resolved_expandsTo a.shape_ t hres hz
  obtain ⟨_, hstr, hsize, hlen⟩ := hwf
  have hap : a.shape_.prod < SIZE_T_MODULUS := by
    have := expandsTo_prod_le hexp
    rw [prod_pad] at this
    omega
  have hlen2 : a.data_.length = a.shape_.prod := by
    rw [hlen, hsize, compute_size_of_lt _ hap]
  refine ⟨?_, dotNat_lt t p hprod hp⟩
  rw [srcVal_at a t hle hprod p hp]
  exact at_of_in_range a _ hstr hlen2 hap (projectIndex_in_range hle hexp p hp)

theorem row_major_owner_len (a : ndarray T) (t : Shape) (hwf : a.IsRowMajorOwner)
    (hz : ∀ d ∈ a.shape_, d ≠ 0) (hres : broadcast_shapes a.shape_ t = .ok t)
    (hprod : t.prod < SIZE_T_MODULUS) : a.data_.length = a.shape_.prod := by
  obtain ⟨hle, hexp⟩ := resolved_expandsTo a.shape_ t hres hz
  obtain ⟨_, hstr, hsize, hlen⟩ := hwf
  have hap : a.shape_.prod < SIZE_T_MODULUS := by
    have := expandsTo_prod_le hexp
    rw [prod_pad] at this
    omega
  rw [hlen, hsize, compute_size_of_lt _ hap]

theorem at_of_map [Zero T] (t : Shape) (g : Nat → T) (hprod : t.prod < SIZE_T_MODULUS)
    (p : List Nat) (hp : List.Forall₂ (fun i d => i < d) p t) :
    ndarray.at { shape_ := t, strides_ := compute_strides t,
                 data_ := (List.range t.prod).map g, size_ := t.prod, owns_data_ := true } p =
      .ok (g (dotNat p (compute_strides t))) := by
  rw [at_of_in_range _ p rfl (by simp) hprod hp]
  have := dotNat_lt t p hprod hp
  simp only [List.getD_eq_getElem?_getD]
  rw [List.getElem?_map, List.getElem?_range this]
  rfl

theorem get_of_map [Zero T] (t : Shape) (g : Nat → T) (k : Nat) (hk : k < t.prod) :
    ndarray.get { shape_ := t, strides_ := compute_strides t,
                  data_ := (List.range t.prod).map g, size_ := t.prod, owns_data_ := true } k =
      .ok (g k) := by
  unfold ndarray.get readAt
  simp only []
  rw [if_neg (by omega), List.getElem?_map, List.getElem?_range hk]
  rfl

theorem bs_result_pos (a b r : Shape) (h : broadcast_shapes a b = .ok r)
    (ha : ∀ d ∈ a, d ≠ 0) : ∀ d ∈ r, 0 < d :=
  expandsTo_pos (resolved_expandsTo a r (broadcast_shapes_absorb a b r h) ha).2

theorem ctor_shape_data [Zero T] (t : Shape) :
    (ndarray.ctor_shape t : ndarray T).data_ = List.replicate (compute_size t) 0 := by
  unfold ndarray.ctor_shape
  simp only []
  split
  · rfl
  · have : compute_size t = 0 := by omega
    rw [this]; rfl

/-- The result of a binary element-wise function on row-major owning operands
without zero-sized dimensions whose resolved shape fits `size_t`. -/
theorem binary_elementwise_eq [Zero T] [Zero U] (op : T → T → U) (a b : ndarray T) (r : Shape)
    (ha : a.IsRowMajorOwner) (hb : b.IsRowMajorOwner)
    (hza : ∀ d ∈ a.shape_, d ≠ 0) (hzb : ∀ d ∈ b.shape_, d ≠ 0)
    (h : broadcast_shapes a.shape_ b.shape_ = .ok r) (hprod : r.prod < SIZE_T_MODULUS) :
    binary_elementwise op a b =
      .ok { shape_ := r, strides_ := compute_strides r,
            data_ := (List.range r.prod).map (fun k => op (srcVal a r k) (srcVal b r k)),
            size_ := r.prod, owns_data_ := true } := by
  have hra := broadcast_shapes_absorb _ _ _ h
  have hrb := broadcast_shapes_absorb_right _ _ _ h
  unfold binary_elementwise
  rw [h]
  simp only []
  rw [broadcast_to_eq a r (row_major_owner_len a r ha hza hra hprod) hza hra hprod,
    broadcast_to_eq b r (row_major_owner_len b r hb hzb hrb hprod) hzb hrb hprod]
  simp only []
  rw [ctor_shape_data, compute_size_of_lt r hprod,
    transform2_eq op (srcVal a r) (srcVal b r) r.prod _ (by simp)]
  simp [ndarray.ctor_shape, compute_size_of_lt r hprod]

theorem get_value_loop_error (t : Shape) (cur : List Nat) (e : Shape) (s : Strides) (acc : Nat)
    (x : Error) (h : get_value_loop acc t cur e s = .error x) : x = .undefined := by
  induction t generalizing cur e s acc with
  | nil => simp [get_value_loop] at h
  | cons d ds ih =>
    cases cur with
    | nil => simp [get_value_loop] at h; exact h.symm
    | cons c cs =>
      cases e with
      | nil => simp [get_value_loop] at h; exact h.symm
      | cons e0 es =>
        cases s with
        | nil => simp [get_value_loop] at h; exact h.symm
        | cons s0 ss =>
          rw [get_value_loop] at h
          exact ih _ _ _ _ h

theorem readAt_error {α : Type} (l : List α) (i : Nat) (x : Error) (h : readAt l i = .error x) :
    x = .undefined := by
  unfold readAt at h
  split at h
  · cases h
  · injection h with h; exact h.symm

theorem writeAt_error {α : Type} (l : List α) (i : Nat) (v : α) (x : Error)
    (h : writeAt l i v = .error x) : x = .undefined := by
  unfold writeAt at h
  split at h
  · cases h
  · injection h with h; exact h.symm

theorem get_value_error (it : BroadcastIterator T) (x : Error) (h : it.get_value = .error x) :
    x = .undefined := by
  unfold get_value at h
  split at h
  · exact readAt_error _ _ _ h
  · rename_i e he
    injection h with h
    rw [← h]
    exact get_value_loop_error _ _ _ _ _ _ he

theorem broadcast_to_step_ne (st : ndarray T × BroadcastIterator T) (i : Nat) :
    broadcast_to_step st i ≠ .error .runtime_error := by
  intro h
  unfold broadcast_to_step at h
  split at h
  · rename_i e he
    injection h with h
    have := get_value_error _ _ he
    rw [h] at this; cases this
  · split at h
    · rename_i e he
      injection h with h
      unfold ndarray.set at he
      split at he
      · injection he with he; rw [h] at he; cases he
      · split at he
        · cases he
        · rename_i e2 he2
          injection he with he
          have := writeAt_error _ _ _ _ he2
          rw [he, h] at this; cases this
    · cases h

theorem foldlM_ne_runtime {α : Type} (f : α → Nat → Except Error α)
    (hf : ∀ s i, f s i ≠ .error .runtime_error) (l : List Nat) (init : α) :
    l.foldlM f init ≠ .error .runtime_error := by
  induction l generalizing init with
  | nil => intro h; cases h
  | cons i l ih =>
    rw [List.foldlM_cons]
    cases hs : f init i with
    | error e =>
      intro h
      have : e = .runtime_error := by
        injection h
      rw [this] at hs
      exact hf _ _ hs
    | ok s => exact ih s

theorem broadcast_to_ne_runtime [Zero T] (a : ndarray T) (t r : Shape)
    (h : broadcast_shapes a.shape_ t = .ok r) :
    broadcast_to a t ≠ .error .runtime_error := by
  have hlen : a.shape_.length ≤ r.length := by
    rw [(broadcast_shapes_ok_inv _ _ _ h).2, bsResult_length]; omega
  unfold broadcast_to
  rw [h]
  simp only []
  rw [ctor_eq a r hlen]
  simp only []
  intro hx
  split at hx
  · rename_i e he
    injection hx with hx
    rw [hx] at he
    exact foldlM_ne_runtime _ broadcast_to_step_ne _ _ he
  · cases hx

theorem transform2_step_ne (op : T → T → U) (f1 f2 : List T) (out : List U) (k : Nat) :
    transform2_step op f1 f2 out k ≠ .error .runtime_error := by
  intro h
  unfold transform2_step at h
  split at h
  · rename_i e he
    injection h with h
    have := readAt_error _ _ _ he
    rw [h] at this; cases this
  · split at h
    · rename_i e he
      injection h with h
      have := readAt_error _ _ _ he
      rw [h] at this; cases this
    · have := writeAt_error _ _ _ _ h
      cases this

/-- A binary element-wise function throws exactly when `broadcast_shapes` does. -/
theorem binary_elementwise_throws_iff [Zero T] [Zero U] (op : T → T → U) (a b : ndarray T) :
    binary_elementwise op a b = .error .runtime_error ↔
      broadcast_shapes a.shape_ b.shape_ = .error .runtime_error := by
  constructor
  · intro h
    cases hbs : broadcast_shapes a.shape_ b.shape_ with
    | error e => rw [broadcast_shapes_error_kind _ _ _ hbs]
    | ok r =>
      exfalso
      unfold binary_elementwise at h
      rw [hbs] at h
      simp only [] at h
      split at h
      · rename_i e he
        injection h with h
        rw [h] at he
        exact broadcast_to_ne_runtime a r r (broadcast_shapes_absorb _ _ _ hbs) he
      · split at h
        · rename_i e he
          injection h with h
          rw [h] at he
          exact broadcast_to_ne_runtime b r r (broadcast_shapes_absorb_right _ _ _ hbs) he
        · split at h
          · rename_i e he
            injection h with h
            rw [h] at he
            exact foldlM_ne_runtime _ (transform2_step_ne op _ _) _ _ he
          · cases h
  · intro h
    unfold binary_elementwise
    rw [h]

theorem foldlM_invariant {α : Type} (f : α → Nat → Except Error α) (P : α → Prop)
    (hf : ∀ s i s2, P s → f s i = .ok s2 → P s2) (l : List Nat) (init s2 : α)
    (h0 : P init) (h : l.foldlM f init = .ok s2) : P s2 := by
  induction l generalizing init with
  | nil =>
    have : init = s2 := by
      have h2 : (pure init : Except Error α) = .ok s2 := h
      injection h2
    rw [← this]; exact h0
  | cons i l ih =>
    rw [List.foldlM_cons] at h
    cases hs : f init i with
    | error e => rw [hs] at h; cases h
    | ok s => rw [hs] at h; exact ih s (hf _ _ _ h0 hs) h

theorem broadcast_to_step_inv (sh : Shape) (str : Strides) (n : Nat)
    (st : ndarray T × BroadcastIterator T) (i : Nat) (st2 : ndarray T × BroadcastIterator T)
    (hP : st.1.shape_ = sh ∧ st.1.strides_ = str ∧ st.1.size_ = n ∧ st.1.data_.length = n ∧
      st.1.owns_data_ = true)
    (h : broadcast_to_step st i = .ok st2) :
    st2.1.shape_ = sh ∧ st2.1.strides_ = str ∧ st2.1.size_ = n ∧ st2.1.data_.length = n ∧
      st2.1.owns_data_ = true := by
  unfold broadcast_to_step at h
  split at h
  · cases h
  · split at h
    · cases h
    · rename_i v hv r hr
      injection h with h
      rw [← h]
      unfold ndarray.set at hr
      split at hr
      · cases hr
      · split at hr
        · rename_i d hd
          injection hr with hr
          rw [← hr]
          unfold writeAt at hd
          split at hd
          · injection hd with hd
            rw [← hd]
            simpa using hP
          · cases hd
        · cases hr

/-- What `broadcast_to` returns when it returns: a row-major owning container
whose shape is the shape `broadcast_shapes` resolves. -/
theorem broadcast_to_ok_inv [Zero T] (a : ndarray T) (t : Shape) (r : ndarray T)
    (h : broadcast_to a t = .ok r) :
    broadcast_shapes a.shape_ t = .ok r.shape_ ∧ r.IsRowMajorOwner := by
  unfold broadcast_to at h
  split at h
  · cases h
  · rename_i bsh hbs
    simp only [] at h
    split at h
    · cases h
    · split at h
      · cases h
      · rename_i it hit st hst
        injection h with h
        have hinv := foldlM_invariant broadcast_to_step
          (fun st => st.1.shape_ = bsh ∧ st.1.strides_ = compute_strides bsh ∧
            st.1.size_ = compute_size bsh ∧ st.1.data_.length = compute_size bsh ∧
            st.1.owns_data_ = true)
          (fun s i s2 hP hs => broadcast_to_step_inv _ _ _ s i s2 hP hs) _ _ st
          ⟨rfl, rfl, rfl, by rw [ctor_shape_data]; simp, rfl⟩ hst
        have hinv2 : r.shape_ = bsh ∧ r.strides_ = compute_strides bsh ∧
            r.size_ = compute_size bsh ∧ r.data_.length = compute_size bsh ∧
            r.owns_data_ = true := by
          rw [← h]; exact hinv
        obtain ⟨h1, h2, h3, h4, h5⟩ := hinv2
        refine ⟨by rw [h1, hbs], h5, by rw [h2, h1], by rw [h3, h1], by rw [h4, h3]⟩

theorem binary_elementwise_spec {T U : Type} [Zero T] [Zero U] (op : T → T → U) :
    BinaryOpSpec op (binary_elementwise op) := by
  intro a b
  refine ⟨binary_elementwise_throws_iff op a b, ?_⟩
  intro ha hb hza hzb r hr hprod
  refine ⟨_, binary_elementwise_eq op a b r ha hb hza hzb hr hprod, rfl, ?_⟩
  intro p hp
  have h1 := broadcast_to_at a r ha hza (broadcast_shapes_absorb _ _ _ hr) hprod p hp
  have h2 := broadcast_to_at b r hb hzb (broadcast_shapes_absorb_right _ _ _ hr) hprod p hp
  exact ⟨_, _, h1.1, h2.1,
    at_of_map r (fun k => op (srcVal a r k) (srcVal b r k)) hprod p hp⟩

/-- C1: `broadcast_shapes(a, b)` throws if and only if some right-aligned pair of
dimensions (missing leading dimensions read as 1) is unequal with neither equal
to 1; it succeeds in every other case; and when it succeeds the result has
length `max(len(a), len(b))` and each dimension is the maximum of the aligned pair. -/
theorem broadcast_shapes_spec (a b : Shape) :
    (broadcast_shapes a b = .error .runtime_error ↔
      ∃ j, j < max a.length b.length ∧
        alignedDim (max a.length b.length) a j ≠ alignedDim (max a.length b.length) b j ∧
        alignedDim (max a.length b.length) a j ≠ 1 ∧
        alignedDim (max a.length b.length) b j ≠ 1) ∧
    ((∃ r, broadcast_shapes a b = .ok r) ↔
      ¬ ∃ j, j < max a.length b.length ∧
        alignedDim (max a.length b.length) a j ≠ alignedDim (max a.length b.length) b j ∧
        alignedDim (max a.length b.length) a j ≠ 1 ∧
        alignedDim (max a.length b.length) b j ≠ 1) ∧
    (∀ r, broadcast_shapes a b = .ok r →
      r.length = max a.length b.length ∧
      ∀ j, j < max a.length b.length →
        r[j]? = some (max (alignedDim (max a.length b.length) a j)
          (alignedDim (max a.length b.length) b j))) := by
  have hok : ∀ r, broadcast_shapes a b = .ok r →
      r.length = max a.length b.length ∧
      ∀ j, j < max a.length b.length →
        r[j]? = some (max (alignedDim (max a.length b.length) a j)
          (alignedDim (max a.length b.length) b j)) := by
    intro r hr
    obtain ⟨_, hres⟩ := broadcast_shapes_ok_inv a b r hr
    rw [hres]
    exact ⟨bsResult_length a b, fun j hj => bsResult_getElem? a b j hj⟩
  rw [← bsBad_iff_aligned]
  refine ⟨⟨?_, broadcast_shapes_err a b⟩, ⟨?_, ?_⟩, hok⟩
  · intro h
    by_contra hb
    rw [broadcast_shapes_ok a b (fun i hi hbad => hb ⟨i, hi, hbad⟩)] at h
    cases h
  · rintro ⟨r, hr⟩ hb
    rw [broadcast_shapes_err a b hb] at hr
    cases hr
  · intro hb
    exact ⟨_, broadcast_shapes_ok a b (fun i hi hbad => hb ⟨i, hi, hbad⟩)⟩

/-- Witness for C1: shapes `(2, 1, 3)` and `(4, 1)` resolve to `(2, 4, 3)`, of length 3,
whose middle dimension is the maximum of the aligned pair. -/
theorem broadcast_shapes_spec_witness :
    ([2, 4, 3] : Shape).length = max ([2, 1, 3] : Shape).length ([4, 1] : Shape).length ∧
    ([2, 4, 3] : Shape)[1]? = some (max (alignedDim 3 [2, 1, 3] 1) (alignedDim 3 [4, 1] 1)) :=
  ⟨((broadcast_shapes_spec [2, 1, 3] [4, 1]).2.2 [2, 4, 3] (by decide)).1,
   ((broadcast_shapes_spec [2, 1, 3] [4, 1]).2.2 [2, 4, 3] (by decide)).2 1 (by decide)⟩

/-- C2: `broadcast_shapes(s1, s2)` and `broadcast_shapes(s2, s1)` either both
throw or both succeed with the same shape. -/
theorem broadcast_shapes_symmetric (s1 s2 : Shape) :
    broadcast_shapes s1 s2 = broadcast_shapes s2 s1 :=
  broadcast_shapes_comm s1 s2

/-- C3 (amended): each of the ten binary element-wise functions throws exactly
when `broadcast_shapes` of the operand shapes throws; for row-major owning
operands without zero-sized dimensions whose resolved shape `r` has an element
count below `2 ^ 64`, it returns an array of shape `r` whose element at every
multi-index `p` of `r` is the scalar operator applied to the operands' elements
at `p` projected onto each operand. -/
theorem binary_ops_spec {T : Type} [Zero T] [Add T] [Sub T] [Mul T] [Div T] [DecidableEq T]
    [LT T] [LE T] [DecidableRel (fun x y : T => x < y)] [DecidableRel (fun x y : T => x ≤ y)] :
    BinaryOpSpec (fun x y : T => x + y) add ∧
    BinaryOpSpec (fun x y : T => x - y) subtract ∧
    BinaryOpSpec (fun x y : T => x * y) multiply ∧
    BinaryOpSpec (fun x y : T => x / y) divide ∧
    BinaryOpSpec (fun x y : T => decide (x = y)) equal ∧
    BinaryOpSpec (fun x y : T => decide (x ≠ y)) not_equal ∧
    BinaryOpSpec (fun x y : T => decide (x < y)) less ∧
    BinaryOpSpec (fun x y : T => decide (x > y)) greater ∧
    BinaryOpSpec (fun x y : T => decide (x ≤ y)) less_equal ∧
    BinaryOpSpec (fun x y : T => decide (x ≥ y)) greater_equal :=
  ⟨binary_elementwise_spec _, binary_elementwise_spec _, binary_elementwise_spec _,
   binary_elementwise_spec _, binary_elementwise_spec _, binary_elementwise_spec _,
   binary_elementwise_spec _, binary_elementwise_spec _, binary_elementwise_spec _,
   binary_elementwise_spec _⟩

/-- Witness for C3: `[[1,2,3],[4,5,6]] + [10,20,30] = [[11,22,33],[14,25,36]]`; the element
at `(1, 2)` is `6 + 30`. -/
theorem binary_ops_spec_witness :
    add (⟨[2, 3], [3, 1], [1, 2, 3, 4, 5, 6], 6, true⟩ : ndarray Int)
        ⟨[3], [1], [10, 20, 30], 3, true⟩ =
      .ok ⟨[2, 3], [3, 1], [11, 22, 33, 14, 25, 36], 6, true⟩ ∧
    ∃ c : ndarray Int,
      add (⟨[2, 3], [3, 1], [1, 2, 3, 4, 5, 6], 6, true⟩ : ndarray Int)
        ⟨[3], [1], [10, 20, 30], 3, true⟩ = .ok c ∧ c.shape_ = [2, 3] ∧
      c.at [1, 2] = .ok (6 + 30) := by
  refine ⟨by decide, ?_⟩
  obtain ⟨c, hc, hs, hel⟩ :=
    ((binary_ops_spec (T := Int)).1 ⟨[2, 3], [3, 1], [1, 2, 3, 4, 5, 6], 6, true⟩
      ⟨[3], [1], [10, 20, 30], 3, true⟩).2
      (by unfold ndarray.IsRowMajorOwner; decide) (by unfold ndarray.IsRowMajorOwner; decide)
      (by decide) (by decide) [2, 3] (by decide) (by decide)
  obtain ⟨x, y, hx, hy, hxy⟩ := hel [1, 2]
    (List.Forall₂.cons (by decide) (List.Forall₂.cons (by decide) List.Forall₂.nil))
  have hx2 : x = 6 := by
    have : (Except.ok x : Except Error Int) = .ok 6 := by rw [← hx]; decide
    injection this
  have hy2 : y = 30 := by
    have : (Except.ok y : Except Error Int) = .ok 30 := by rw [← hy]; decide
    injection this
  rw [hx2, hy2] at hxy
  exact ⟨c, hc, hs, hxy⟩

/-- Counterexample for C3 as stated: (1) an owning copy `c` of a view with strides `(1, 2)`
added to a zero array gives 2 at `(0, 1)` although `c` holds 3 there; (2) two owning
arrays of shape `(2^63 + 1, 2)`, whose `size_t` element count is 2, add to an array that
has no element at the in-range multi-index `(1, 0)`. -/
theorem binary_ops_counterexample :
    (∃ c z s : ndarray Int,
      ndarray.ctor_copy (ndarray.create_view [2, 2] [1, 2] [1, 2, 3, 4]) = .ok c ∧
      c.owns_data_ = true ∧ (∀ d ∈ c.shape_, d ≠ 0) ∧
      z = ndarray.ctor_shape [2, 2] ∧
      broadcast_shapes c.shape_ z.shape_ = .ok [2, 2] ∧
      add c z = .ok s ∧
      c.at (projectIndex c.shape_ [0, 1]) = .ok 3 ∧
      z.at (projectIndex z.shape_ [0, 1]) = .ok 0 ∧
      s.at [0, 1] = .ok 2 ∧ (2 : Int) ≠ 3 + 0) ∧
    (∃ a s : ndarray Int,
      ndarray.ctor_data [9223372036854775809, 2] [7, 8] = .ok a ∧
      a.owns_data_ = true ∧ (∀ d ∈ a.shape_, d ≠ 0) ∧
      broadcast_shapes a.shape_ a.shape_ = .ok [9223372036854775809, 2] ∧
      add a a = .ok s ∧
      List.Forall₂ (fun i d => i < d) [1, 0] [9223372036854775809, 2] ∧
      s.at [1, 0] = .error .undefined) := by
  refine ⟨⟨⟨[2, 2], [1, 2], [1, 2, 3, 4], 4, true⟩, ⟨[2, 2], [2, 1], [0, 0, 0, 0], 4, true⟩,
    ⟨[2, 2], [2, 1], [1, 2, 3, 4], 4, true⟩, ?_⟩,
    ⟨⟨[9223372036854775809, 2], [2, 1], [7, 8], 2, true⟩,
     ⟨[9223372036854775809, 2], [2, 1], [14, 16], 2, true⟩, ?_⟩⟩
  · decide
  · refine ⟨by decide, by decide, by decide, by decide, by decide, ?_, by decide⟩
    exact List.Forall₂.cons (by decide) (List.Forall₂.cons (by decide) List.Forall₂.nil)

/-- C4 (amended): for a row-major owning array `a` without zero-sized dimensions
and a target shape `t` already resolved against `a` whose element count is
below `2 ^ 64`, `broadcast_to(a, t)` succeeds with shape `t`; the cursor after
`k` increments is the `k`-th multi-index of `t` in row-major order (what
`unravel_index` gives for `k`) and the flat element `k` of the result is what
`get_value` reads there; and the element of the result at every multi-index `p`
of `t` is the element of `a` at `p` projected onto `a`. -/
theorem broadcast_to_row_major {T : Type} [Zero T] (a : ndarray T) (t : Shape)
    (ha : a.IsRowMajorOwner) (hz : ∀ d ∈ a.shape_, d ≠ 0)
    (hres : broadcast_shapes a.shape_ t = .ok t) (hprod : t.prod < SIZE_T_MODULUS) :
    ∃ r it, broadcast_to a t = .ok r ∧ BroadcastIterator.ctor a t = .ok it ∧ r.shape_ = t ∧
      (∀ k, k < compute_size t →
        unravel_index k t (compute_strides t) = .ok (increment^[k] it).current_index_ ∧
        r.get k = (increment^[k] it).get_value) ∧
      (∀ p, List.Forall₂ (fun i d => i < d) p t →
        ∃ v, r.at p = .ok v ∧ a.at (projectIndex a.shape_ p) = .ok v) := by
  obtain ⟨hle, hexp⟩ := resolved_expandsTo a.shape_ t hres hz
  have hlen := row_major_owner_len a t ha hz hres hprod
  refine ⟨_, iteratorOf a t, broadcast_to_eq a t hlen hz hres hprod, ctor_eq a t hle, rfl, ?_, ?_⟩
  · intro k hk
    rw [compute_size_of_lt t hprod] at hk
    obtain ⟨h1, h2⟩ := cursor_spec a t hprod (expandsTo_pos hexp) k hk
    have h3 := unravel_dotNat t _ hprod h1
    rw [h2] at h3
    refine ⟨h3, ?_⟩
    rw [get_of_map t (srcVal a t) k hk, get_value_iterate a t hlen hz hres hprod k hk]
  · intro p hp
    exact ⟨_, at_of_map t (srcVal a t) hprod p hp, (broadcast_to_at a t ha hz hres hprod p hp).1⟩

/-- Witness for C4: broadcasting `[10, 20, 30]` to shape `(2, 3)`; the element at `(1, 2)`
is the source element at `(2)`. -/
theorem broadcast_to_row_major_witness :
    ∃ r : ndarray Int,
      broadcast_to (⟨[3], [1], [10, 20, 30], 3, true⟩ : ndarray Int) [2, 3] = .ok r ∧
      r.shape_ = [2, 3] ∧
      ∃ v, r.at [1, 2] = .ok v ∧
        (⟨[3], [1], [10, 20, 30], 3, true⟩ : ndarray Int).at (projectIndex [3] [1, 2]) = .ok v := by
  obtain ⟨r, _, hr, _, hs, _, hel⟩ :=
    broadcast_to_row_major (⟨[3], [1], [10, 20, 30], 3, true⟩ : ndarray Int) [2, 3]
      (by unfold ndarray.IsRowMajorOwner; decide) (by decide) (by decide) (by decide)
  exact ⟨r, hr, hs, hel [1, 2]
    (List.Forall₂.cons (by decide) (List.Forall₂.cons (by decide) List.Forall₂.nil))⟩

/-- Counterexample for C4 as stated: (1) an owning copy `c` of a view with strides `(1, 2)`
broadcast to its own shape holds 6 at `(0, 1)` although `c` holds 7 there; (2) an owning
array of shape `(2^63 + 1, 2)`, whose `size_t` element count is 2, broadcast to its own
shape has no element at the in-range multi-index `(1, 0)`. -/
theorem broadcast_to_row_major_counterexample :
    (∃ c r : ndarray Int,
      ndarray.ctor_copy (ndarray.create_view [2, 2] [1, 2] [5, 6, 7, 8]) = .ok c ∧
      c.owns_data_ = true ∧ (∀ d ∈ c.shape_, d ≠ 0) ∧
      broadcast_shapes c.shape_ [2, 2] = .ok [2, 2] ∧
      broadcast_to c [2, 2] = .ok r ∧
      r.at [0, 1] = .ok 6 ∧
      c.at (projectIndex c.shape_ [0, 1]) = .ok 7) ∧
    (∃ a r : ndarray Int,
      ndarray.ctor_data [9223372036854775809, 2] [7, 8] = .ok a ∧
      a.owns_data_ = true ∧ (∀ d ∈ a.shape_, d ≠ 0) ∧
      broadcast_shapes a.shape_ [9223372036854775809, 2] = .ok [9223372036854775809, 2] ∧
      broadcast_to a [9223372036854775809, 2] = .ok r ∧
      List.Forall₂ (fun i d => i < d) [1, 0] [9223372036854775809, 2] ∧
      r.at [1, 0] = .error .undefined) := by
  refine ⟨⟨⟨[2, 2], [1, 2], [5, 6, 7, 8], 4, true⟩, ⟨[2, 2], [2, 1], [5, 6, 7, 8], 4, true⟩, ?_⟩,
    ⟨⟨[9223372036854775809, 2], [2, 1], [7, 8], 2, true⟩,
     ⟨[9223372036854775809, 2], [2, 1], [7, 8], 2, true⟩, ?_⟩⟩
  · decide
  · refine ⟨by decide, by decide, by decide, by decide, by decide, ?_, by decide⟩
    exact List.Forall₂.cons (by decide) (List.Forall₂.cons (by decide) List.Forall₂.nil)

/-- C5 (amended): when `broadcast_to(a, t)` succeeds, the returned array has the
shape `broadcast_shapes(a.shape, t)` resolves, which is `t` when `t` is already
resolved against `a.shape`; it owns a row-major buffer with one element per
flat position (`size() = compute_size(shape)` elements). -/
theorem broadcast_to_shape {T : Type} [Zero T] (a : ndarray T) (t : Shape) (r : ndarray T)
    (h : broadcast_to a t = .ok r) :
    broadcast_shapes a.shape_ t = .ok r.shape_ ∧
    r.size_ = compute_size r.shape_ ∧ r.data_.length = r.size_ ∧
    r.strides_ = compute_strides r.shape_ ∧ r.owns_data_ = true ∧
    (broadcast_shapes a.shape_ t = .ok t → r.shape_ = t) := by
  obtain ⟨h1, h2, h3, h4, h5⟩ := broadcast_to_ok_inv a t r h
  refine ⟨h1, h4, h5, h3, h2, ?_⟩
  intro ht
  rw [ht] at h1
  injection h1 with h1
  exact h1.symm

/-- Witness for C5: broadcasting a shape `(3)` array to `(2, 3)` returns shape `(2, 3)` with
6 elements. -/
theorem broadcast_to_shape_witness :
    broadcast_shapes [3] [2, 3] = .ok [2, 3] ∧
    (6 : Nat) = compute_size [2, 3] ∧
    ([10, 20, 30, 10, 20, 30] : List Int).length = 6 :=
  ⟨(broadcast_to_shape (⟨[3], [1], [10, 20, 30], 3, true⟩ : ndarray Int) [2, 3]
      ⟨[2, 3], [3, 1], [10, 20, 30, 10, 20, 30], 6, true⟩ (by decide)).1,
   (broadcast_to_shape (⟨[3], [1], [10, 20, 30], 3, true⟩ : ndarray Int) [2, 3]
      ⟨[2, 3], [3, 1], [10, 20, 30, 10, 20, 30], 6, true⟩ (by decide)).2.1,
   (broadcast_to_shape (⟨[3], [1], [10, 20, 30], 3, true⟩ : ndarray Int) [2, 3]
      ⟨[2, 3], [3, 1], [10, 20, 30, 10, 20, 30], 6, true⟩ (by decide)).2.2.1⟩

/-- Counterexample for C5 as stated: `broadcast_to` of a shape `(3)` array to target `(1)`
succeeds and returns shape `(3)`, not `(1)`. -/
theorem broadcast_to_shape_counterexample :
    broadcast_to (⟨[3], [1], [10, 20, 30], 3, true⟩ : ndarray Int) [1] =
      .ok ⟨[3], [1], [10, 20, 30], 3, true⟩ ∧
    ([3] : Shape) ≠ [1] := by
  decide

theorem readAt_take {α : Type} (l : List α) (n i : Nat) (h : i < n) :
    readAt (l.take n) i = readAt l i := by
  unfold readAt
  rw [List.getElem?_take_of_lt h]

theorem compute_strides_getLast (shape : Shape) (h : shape ≠ []) :
    (compute_strides shape).getLast? = some 1 := by
  induction shape with
  | nil => exact absurd rfl h
  | cons d ds ih =>
    cases ds with
    | nil => rfl
    | cons d1 rest =>
      rw [compute_strides_cons]
      have := ih (by simp)
      rw [compute_strides_cons] at this ⊢
      rw [List.getLast?_cons_cons]
      exact this

theorem compute_strides_step (shape : Shape) (i : Nat) (hi : i + 1 < shape.length) :
    ∃ s0 s1 d1, (compute_strides shape)[i]? = some s0 ∧
      (compute_strides shape)[i + 1]? = some s1 ∧ shape[i + 1]? = some d1 ∧
      s0 = mulSz s1 d1 := by
  induction shape generalizing i with
  | nil => simp at hi
  | cons d ds ih =>
    cases i with
    | zero =>
      cases ds with
      | nil => simp at hi
      | cons d1 rest =>
        refine ⟨compute_size (d1 :: rest), compute_size rest, d1, ?_, ?_, ?_, ?_⟩
        · rw [compute_strides_cons]; simp
        · rw [compute_strides_cons, compute_strides_cons]; simp
        · simp
        · rw [compute_size_cons, mulSz_comm]
    | succ i =>
      obtain ⟨s0, s1, d1, h0, h1, h2, h3⟩ := ih i (by simpa using hi)
      refine ⟨s0, s1, d1, ?_, ?_, ?_, h3⟩
      · rw [compute_strides_cons, List.getElem?_cons_succ]; exact h0
      · rw [compute_strides_cons, List.getElem?_cons_succ]; exact h1
      · rw [List.getElem?_cons_succ]; exact h2

/-- C6 (amended): `size() == compute_size(shape())` holds for the container the
shape constructor builds, for the one the shape+data constructor builds when it
succeeds, for `create_view` and for the result of `reshape`; the copy
constructor and the destination of the move constructor have it whenever their
source has it. The default constructor and the moved-from source have size 0
and the empty shape. -/
theorem size_invariant {T : Type} [Zero T] :
    (∀ shape : Shape, (ndarray.ctor_shape shape : ndarray T).size =
      compute_size (ndarray.ctor_shape shape : ndarray T).shape) ∧
    (∀ (shape : Shape) (data : List T) (a : ndarray T),
      ndarray.ctor_data shape data = .ok a → a.size = compute_size a.shape) ∧
    (∀ (new_shape : Shape) (new_strides : Strides) (new_data : List T),
      (ndarray.create_view new_shape new_strides new_data).size =
        compute_size (ndarray.create_view new_shape new_strides new_data).shape) ∧
    (∀ (a r : ndarray T) (new_shape : Shape),
      a.reshape new_shape = .ok r → r.size = compute_size r.shape) ∧
    (∀ a c : ndarray T, ndarray.ctor_copy a = .ok c →
      a.size = compute_size a.shape → c.size = compute_size c.shape) ∧
    (∀ a : ndarray T, a.size = compute_size a.shape →
      (ndarray.ctor_move a).1.size = compute_size (ndarray.ctor_move a).1.shape) ∧
    ((ndarray.ctor_default : ndarray T).size = 0 ∧
      (ndarray.ctor_default : ndarray T).shape = []) ∧
    (∀ a : ndarray T, (ndarray.ctor_move a).2.size = 0 ∧ (ndarray.ctor_move a).2.shape = []) := by
  refine ⟨fun _ => rfl, ?_, fun _ _ _ => rfl, ?_, ?_, fun _ h => h, ⟨rfl, rfl⟩,
    fun _ => ⟨rfl, rfl⟩⟩
  · intro shape data a h
    unfold ndarray.ctor_data at h
    simp only [] at h
    split at h
    · cases h
    · injection h with h
      rw [← h]; rfl
  · intro a r new_shape h
    unfold ndarray.reshape at h
    simp only [] at h
    split at h
    · cases h
    · split at h
      · cases h
      · injection h with h
        rw [← h]; rfl
  · intro a c h ha
    unfold ndarray.ctor_copy at h
    split at h
    · split at h
      · cases h
      · injection h with h
        rw [← h]; exact ha
    · injection h with h
      rw [← h]; exact ha

/-- Witness for C6: the container built from shape `(2, 2)` and four values has size 4. -/
theorem size_invariant_witness :
    (⟨[2, 2], [2, 1], [1, 2, 3, 4], 4, true⟩ : ndarray Int).size =
      compute_size (⟨[2, 2], [2, 1], [1, 2, 3, 4], 4, true⟩ : ndarray Int).shape :=
  (size_invariant (T := Int)).2.1 [2, 2] [1, 2, 3, 4] ⟨[2, 2], [2, 1], [1, 2, 3, 4], 4, true⟩
    (by decide)

/-- Counterexample for C6 as stated: the default-constructed container, the moved-from
source of a move and a copy of the default-constructed container have size 0 while
`compute_size` of their empty shape is 1. -/
theorem size_invariant_counterexample :
    (ndarray.ctor_default : ndarray Int).size ≠
      compute_size (ndarray.ctor_default : ndarray Int).shape ∧
    (ndarray.ctor_move (ndarray.ctor_shape [2, 3] : ndarray Int)).2.size ≠
      compute_size (ndarray.ctor_move (ndarray.ctor_shape [2, 3] : ndarray Int)).2.shape ∧
    (∃ c : ndarray Int, ndarray.ctor_copy (ndarray.ctor_default : ndarray Int) = .ok c ∧
      c.size ≠ compute_size c.shape) := by
  refine ⟨by decide, by decide, ⟨[], [], [], 0, true⟩, by decide, by decide⟩

/-- C7 (amended): for every array `a` with `size() == compute_size(shape())`
whose buffer holds at least `size()` elements, `a.reshape(a.shape())` succeeds
with the shape and size of `a` and the same element at every flat index; when
`a` moreover has the row-major strides of its shape and a buffer of exactly
`size()` elements, the result also agrees with `a` at every multi-index. -/
theorem reshape_own_shape {T : Type} (a : ndarray T)
    (hsize : a.size = compute_size a.shape) (hbuf : a.size ≤ a.data.length) :
    ∃ r, a.reshape a.shape = .ok r ∧ r.shape = a.shape ∧ r.size = a.size ∧
      (∀ i, r.get i = a.get i) ∧
      (a.strides = compute_strides a.shape → a.data.length = a.size →
        ∀ idx, r.at idx = a.at idx) := by
  simp only [ndarray.size, ndarray.shape, ndarray.data, ndarray.strides] at hsize hbuf ⊢
  refine ⟨{ shape_ := a.shape_, strides_ := compute_strides a.shape_,
            data_ := a.data_.take a.size_, size_ := compute_size a.shape_,
            owns_data_ := true }, ?_, rfl, hsize.symm, ?_, ?_⟩
  · unfold ndarray.reshape
    rw [if_neg (by simp [hsize])]
    simp only []
    rw [if_neg (by omega)]
  · intro i
    unfold ndarray.get
    simp only [← hsize]
    by_cases hi : i ≥ a.size_
    · rw [if_pos hi, if_pos hi]
    · rw [if_neg hi, if_neg hi]
      exact readAt_take _ _ _ (by omega)
  · intro hstr hlen idx
    unfold ndarray.at
    simp only [← hstr, ← hlen, List.take_length]

/-- Witness for C7: reshaping a `(2, 3)` array to `(2, 3)`. -/
theorem reshape_own_shape_witness :
    ∃ r : ndarray Int,
      (⟨[2, 3], [3, 1], [1, 2, 3, 4, 5, 6], 6, true⟩ : ndarray Int).reshape [2, 3] = .ok r ∧
      r.shape = [2, 3] ∧ r.get 4 = .ok 5 := by
  obtain ⟨r, h1, h2, _, h4, _⟩ :=
    reshape_own_shape (⟨[2, 3], [3, 1], [1, 2, 3, 4, 5, 6], 6, true⟩ : ndarray Int)
      (by decide) (by decide)
  exact ⟨r, h1, h2, by rw [h4 4]; decide⟩

/-- Counterexample for C7 as stated: reshaping the default-constructed container to its own
(empty) shape throws. -/
theorem reshape_own_shape_counterexample :
    (ndarray.ctor_default : ndarray Int).reshape (ndarray.ctor_default : ndarray Int).shape =
      .error .runtime_error := by
  decide

/-- C8 (amended): for every shape whose dimensions are all positive and whose
element count (the exact product of the dimensions) is below `2 ^ 64`, with
`strides = compute_strides(shape)`, and every multi-index `idx` of the same
length with `idx[i] < shape[i]` for all `i`: `flatten_index(idx, strides)`
returns a flat index `f` and `unravel_index(f, shape, strides) = idx`. -/
theorem unravel_flatten_roundtrip (shape : Shape) (idx : List Nat)
    (hpos : ∀ d ∈ shape, 0 < d) (hprod : shape.prod < SIZE_T_MODULUS)
    (hidx : List.Forall₂ (fun i d => i < d) idx shape) :
    ∃ f, flatten_index idx (compute_strides shape) = .ok f ∧
      unravel_index f shape (compute_strides shape) = .ok idx :=
  have _ := hpos
  ⟨_, flatten_index_in_range shape idx hprod hidx, unravel_dotNat shape idx hprod hidx⟩

/-- Witness for C8: shape `(2, 3, 4)`, multi-index `(1, 2, 3)`. -/
theorem unravel_flatten_roundtrip_witness :
    ∃ f, flatten_index [1, 2, 3] (compute_strides [2, 3, 4]) = .ok f ∧
      unravel_index f [2, 3, 4] (compute_strides [2, 3, 4]) = .ok [1, 2, 3] :=
  unravel_flatten_roundtrip [2, 3, 4] [1, 2, 3] (by decide) (by decide)
    (List.Forall₂.cons (by decide)
      (List.Forall₂.cons (by decide) (List.Forall₂.cons (by decide) List.Forall₂.nil)))

/-- Counterexample for C8 as stated: the shape `(3, 2^63 + 1, 2)` has positive dimensions
and `size_t` strides `(2, 2, 1)`; the in-range multi-index `(0, 1, 0)` flattens to 2,
which unravels to `(1, 0, 0)`. -/
theorem unravel_flatten_roundtrip_counterexample :
    (∀ d ∈ ([3, 9223372036854775809, 2] : Shape), 0 < d) ∧
    List.Forall₂ (fun i d => i < d) [0, 1, 0] [3, 9223372036854775809, 2] ∧
    compute_strides [3, 9223372036854775809, 2] = [2, 2, 1] ∧
    flatten_index [0, 1, 0] (compute_strides [3, 9223372036854775809, 2]) = .ok 2 ∧
    unravel_index 2 [3, 9223372036854775809, 2] (compute_strides [3, 9223372036854775809, 2]) =
      .ok [1, 0, 0] ∧
    ([1, 0, 0] : List Nat) ≠ [0, 1, 0] := by
  refine ⟨by decide, ?_, by decide, by decide, by decide, by decide⟩
  exact List.Forall₂.cons (by decide)
    (List.Forall₂.cons (by decide) (List.Forall₂.cons (by decide) List.Forall₂.nil))

/-- C9: for every shape and every flat index `f < compute_size(shape)`, with
`strides = compute_strides(shape)`: `unravel_index(f, shape, strides)` returns a
multi-index of the length of `shape` whose every component is smaller than the
dimension at its position, and `flatten_index` of it with `strides` is `f`. -/
theorem flatten_unravel_roundtrip (shape : Shape) (f : Nat) (hf : f < compute_size shape) :
    ∃ idx, unravel_index f shape (compute_strides shape) = .ok idx ∧
      List.Forall₂ (fun i d => i < d) idx shape ∧
      flatten_index idx (compute_strides shape) = .ok f := by
  obtain ⟨idx, h1, h2, h3⟩ := unravel_index_spec shape f hf
  refine ⟨idx, h1, h2, ?_⟩
  rw [flatten_index_eq _ _ (by rw [compute_strides_length, List.Forall₂.length_eq h2]), h3,
    Nat.mod_eq_of_lt (Nat.lt_trans hf (compute_size_lt shape))]

/-- Witness for C9: shape `(2, 3, 4)`, flat index 17. -/
theorem flatten_unravel_roundtrip_witness :
    ∃ idx, unravel_index 17 [2, 3, 4] (compute_strides [2, 3, 4]) = .ok idx ∧
      List.Forall₂ (fun i d => i < d) idx [2, 3, 4] ∧
      flatten_index idx (compute_strides [2, 3, 4]) = .ok 17 :=
  flatten_unravel_roundtrip [2, 3, 4] 17 (by decide)

/-- C10: for every shape, `compute_strides(shape)` has the length of `shape`
(empty for the empty shape), its last entry is 1, and for every
`i < len(shape) - 1`, `strides[i] = strides[i+1] * shape[i+1]`, the product
being the `size_t` product the code computes (the exact product whenever that
is below `2 ^ 64`). -/
theorem compute_strides_row_major (shape : Shape) :
    (compute_strides shape).length = shape.length ∧
    (shape = [] → compute_strides shape = []) ∧
    (shape ≠ [] → (compute_strides shape).getLast? = some 1) ∧
    (∀ i, i + 1 < shape.length →
      ∃ s0 s1 d1, (compute_strides shape)[i]? = some s0 ∧
        (compute_strides shape)[i + 1]? = some s1 ∧ shape[i + 1]? = some d1 ∧
        s0 = mulSz s1 d1 ∧ (s1 * d1 < SIZE_T_MODULUS → s0 = s1 * d1)) := by
  refine ⟨compute_strides_length shape, ?_, compute_strides_getLast shape, ?_⟩
  · intro h; rw [h]; rfl
  · intro i hi
    obtain ⟨s0, s1, d1, h0, h1, h2, h3⟩ := compute_strides_step shape i hi
    exact ⟨s0, s1, d1, h0, h1, h2, h3, fun hlt => by rw [h3, mulSz_of_lt hlt]⟩

/-- Witness for C10: shape `(2, 3, 4)` has last stride 1 and `strides[0] = strides[1] *
shape[1]`. -/
theorem compute_strides_row_major_witness :
    (compute_strides [2, 3, 4]).getLast? = some 1 ∧
    ∃ s0 s1 d1, (compute_strides [2, 3, 4])[0]? = some s0 ∧
      (compute_strides [2, 3, 4])[0 + 1]? = some s1 ∧ ([2, 3, 4] : Shape)[0 + 1]? = some d1 ∧
      s0 = mulSz s1 d1 ∧ (s1 * d1 < SIZE_T_MODULUS → s0 = s1 * d1) :=
  ⟨(compute_strides_row_major [2, 3, 4]).2.2.1 (by decide),
   (compute_strides_row_major [2, 3, 4]).2.2.2 0 (by decide)⟩

theorem foldlM_range_inv {α : Type} (f : α → Nat → Except Error α) (Inv : Nat → α → Prop)
    (n : Nat) (init : α) (h0 : Inv 0 init)
    (hstep : ∀ k s, k < n → Inv k s → ∃ s2, f s k = .ok s2 ∧ Inv (k + 1) s2) :
    ∃ s2, (List.range n).foldlM f init = .ok s2 ∧ Inv n s2 := by
  induction n with
  | zero => exact ⟨init, rfl, h0⟩
  | succ n ih =>
    obtain ⟨s1, h1, hi1⟩ := ih (fun k s hk hs => hstep k s (by omega) hs)
    obtain ⟨s2, h2, hi2⟩ := hstep n s1 (by omega) hi1
    refine ⟨s2, ?_, hi2⟩
    rw [foldlM_range_succ, h1]
    exact h2

theorem foldlM_list_inv {α β : Type} (f : α → β → Except Error α) (Inv : Nat → α → Prop)
    (l : List β) (init : α) (h0 : Inv 0 init)
    (hstep : ∀ k (hk : k < l.length) s, Inv k s →
      ∃ s2, f s (l.get ⟨k, hk⟩) = .ok s2 ∧ Inv (k + 1) s2) :
    ∃ s2, l.foldlM f init = .ok s2 ∧ Inv l.length s2 := by
  induction l generalizing Inv init with
  | nil => exact ⟨init, rfl, h0⟩
  | cons x xs ih =>
    obtain ⟨s1, h1, hi1⟩ := hstep 0 (by simp) init h0
    obtain ⟨s2, h2, hi2⟩ := ih (fun k s => Inv (k + 1) s) s1 hi1
      (fun k hk s hs => hstep (k + 1) (by simpa using hk) s hs)
    refine ⟨s2, ?_, hi2⟩
    rw [List.foldlM_cons]
    have h1' : f init x = .ok s1 := h1
    rw [h1']
    exact h2

theorem foldlM_cons_error {α β : Type} (f : α → β → Except Error α) (init : α) (x : β)
    (l : List β) (e : Error) (h : f init x = .error e) :
    (x :: l).foldlM f init = .error e := by
  rw [List.foldlM_cons, h]; rfl

theorem foldlM_cons_ok {α β : Type} (f : α → β → Except Error α) (init s : α) (x : β)
    (l : List β) (h : f init x = .ok s) :
    (x :: l).foldlM f init = l.foldlM f s := by
  rw [List.foldlM_cons, h]; rfl

theorem foldlM_range_error_first {α : Type} (f : α → Nat → Except Error α) (init : α)
    (n : Nat) (e : Error) (hn : 0 < n) (h : f init 0 = .error e) :
    (List.range n).foldlM f init = .error e := by
  cases n with
  | zero => omega
  | succ n =>
    rw [List.range_succ_eq_map]
    exact foldlM_cons_error f init 0 _ e h

theorem foldlM_range_error_second {α : Type} (f : α → Nat → Except Error α) (init s : α)
    (n : Nat) (e : Error) (hn : 2 ≤ n) (h0 : f init 0 = .ok s) (h1 : f s 1 = .error e) :
    (List.range n).foldlM f init = .error e := by
  obtain ⟨k, rfl⟩ : ∃ k, n = k + 2 := ⟨n - 2, by omega⟩
  rw [List.range_succ_eq_map, List.range_succ_eq_map, List.map_cons,
    foldlM_cons_ok f init s 0 _ h0]
  exact foldlM_cons_error f s 1 _ e h1

theorem foldlM_ne_runtime_inv {α β : Type} (f : α → β → Except Error α) (P : α → Prop)
    (hP : ∀ s x s2, P s → f s x = .ok s2 → P s2)
    (hf : ∀ s x, P s → f s x ≠ .error .runtime_error) (l : List β) (init : α)
    (h0 : P init) : l.foldlM f init ≠ .error .runtime_error := by
  induction l generalizing init with
  | nil => intro h; cases h
  | cons x l ih =>
    rw [List.foldlM_cons]
    cases hs : f init x with
    | error e =>
      intro h
      have : e = .runtime_error := by injection h
      rw [this] at hs
      exact hf _ _ h0 hs
    | ok s => exact ih s (hP _ _ _ h0 hs)

theorem dotNat_inj (s : Shape) (p q : List Nat) (hprod : s.prod < SIZE_T_MODULUS)
    (hp : List.Forall₂ (fun i d => i < d) p s) (hq : List.Forall₂ (fun i d => i < d) q s)
    (h : dotNat p (compute_strides s) = dotNat q (compute_strides s)) : p = q := by
  have e1 := unravel_dotNat s p hprod hp
  have e2 := unravel_dotNat s q hprod hq
  rw [h, e2] at e1
  injection e1 with e1
  exact e1.symm

theorem isDense_at [Zero T] (r : ndarray T) (s : Shape) (hr : r.IsDense s) (q : List Nat)
    (hq : List.Forall₂ (fun i d => i < d) q s) :
    r.at q = .ok (r.data_.getD (dotNat q (compute_strides s)) 0) := by
  obtain ⟨h1, h2, h3, h4⟩ := hr
  subst h1
  exact at_of_in_range r q h2 h3 h4 hq

/-- Writing through `at` into a dense container: the write succeeds, the
container stays dense, the written cell holds the value and every other cell is
unchanged. -/
theorem isDense_at_set [Zero T] (r : ndarray T) (s : Shape) (hr : r.IsDense s)
    (idx : List Nat) (hidx : List.Forall₂ (fun i d => i < d) idx s) (v : T) :
    ∃ r2, r.at_set idx v = .ok r2 ∧ r2.IsDense s ∧ r2.size_ = r.size_ ∧
      r2.owns_data_ = r.owns_data_ ∧ r2.at idx = .ok v ∧
      ∀ q, List.Forall₂ (fun i d => i < d) q s → q ≠ idx → r2.at q = r.at q := by
  have hr0 := hr
  obtain ⟨h1, h2, h3, h4⟩ := hr
  subst h1
  have hlt := dotNat_lt r.shape_ idx h4 hidx
  have hset : r.at_set idx v =
      .ok { r with data_ := r.data_.set (dotNat idx (compute_strides r.shape_)) v } := by
    unfold ndarray.at_set
    rw [if_neg (by simp [List.Forall₂.length_eq hidx]), any_ge_false hidx]
    simp only [Bool.false_eq_true, if_false]
    rw [h2, flatten_index_in_range _ _ h4 hidx]
    simp only [writeAt]
    rw [if_pos (by rw [h3]; exact hlt)]
  have hd2 : ndarray.IsDense
      ({ r with data_ := r.data_.set (dotNat idx (compute_strides r.shape_)) v } : ndarray T)
      r.shape_ := ⟨rfl, h2, by simp [h3], h4⟩
  refine ⟨_, hset, hd2, rfl, rfl, ?_, ?_⟩
  · rw [isDense_at _ _ hd2 idx hidx]
    simp only [List.getD_eq_getElem?_getD]
    rw [List.getElem?_set]
    simp [h3, hlt]
  · intro q hq hne
    rw [isDense_at _ _ hd2 q hq, isDense_at _ _ hr0 q hq]
    simp only [List.getD_eq_getElem?_getD]
    rw [List.getElem?_set]
    have : dotNat idx (compute_strides r.shape_) ≠ dotNat q (compute_strides r.shape_) := by
      intro h
      exact hne (dotNat_inj r.shape_ q idx h4 hq hidx h.symm)
    simp [this]

theorem ctor_shape_isDense [Zero T] (s : Shape) (h : s.prod < SIZE_T_MODULUS) :
    (ndarray.ctor_shape s : ndarray T).IsDense s := by
  refine ⟨rfl, rfl, ?_, h⟩
  rw [ctor_shape_data, compute_size_of_lt s h]
  simp

theorem forall₂_pair {i j m n : Nat} (hi : i < m) (hj : j < n) :
    List.Forall₂ (fun i d => i < d) [i, j] [m, n] :=
  List.Forall₂.cons hi (List.Forall₂.cons hj List.Forall₂.nil)

theorem pair_ne_left {i j i2 j2 : Nat} (h : i ≠ i2) : [i, j] ≠ [i2, j2] := by
  intro e; injection e with e1 _; exact h e1

theorem pair_ne_right {i j i2 j2 : Nat} (h : j ≠ j2) : [i, j] ≠ [i2, j2] := by
  intro e; injection e with _ e2; injection e2 with e2 _; exact h e2

/-- The inner loop of `transpose` for row `i` of a readable source. -/
theorem transpose_row_spec [Zero T] (arr : ndarray T) (m n : Nat) (A : Nat → Nat → T)
    (hA : ∀ i j, i < m → j < n → arr.at [i, j] = .ok (A i j)) (i : Nat) (hi : i < m)
    (r : ndarray T) (hr : r.IsDense [n, m])
    (hprev : ∀ i2 j, i2 < i → j < n → r.at [j, i2] = .ok (A i2 j)) :
    ∃ r2, transpose_row arr n r i = .ok r2 ∧ r2.IsDense [n, m] ∧
      r2.size_ = r.size_ ∧ r2.owns_data_ = r.owns_data_ ∧
      ∀ i2 j, i2 < i + 1 → j < n → r2.at [j, i2] = .ok (A i2 j) := by
  obtain ⟨r2, h1, h2, h3, h4, h5, h6⟩ := foldlM_range_inv (transpose_cell arr i)
    (fun j s => s.IsDense [n, m] ∧ s.size_ = r.size_ ∧ s.owns_data_ = r.owns_data_ ∧
      (∀ i2 j2, i2 < i → j2 < n → s.at [j2, i2] = .ok (A i2 j2)) ∧
      (∀ j2, j2 < j → s.at [j2, i] = .ok (A i j2)))
    n r ⟨hr, rfl, rfl, hprev, fun j2 hj2 => absurd hj2 (Nat.not_lt_zero _)⟩
    (by
      intro j s hj ⟨hs, hsz, hown, hp, hc⟩
      obtain ⟨s2, e1, e2, e3, e4, e5, e6⟩ :=
        isDense_at_set s [n, m] hs [j, i] (forall₂_pair hj hi) (A i j)
      refine ⟨s2, ?_, e2, by rw [e3, hsz], by rw [e4, hown], ?_, ?_⟩
      · unfold transpose_cell
        rw [hA i j hi hj]
        exact e1
      · intro i2 j2 hi2 hj2
        rw [e6 [j2, i2] (forall₂_pair hj2 (by omega)) (pair_ne_right (by omega))]
        exact hp i2 j2 hi2 hj2
      · intro j2 hj2
        by_cases hjj : j2 = j
        · subst hjj; exact e5
        · rw [e6 [j2, i] (forall₂_pair (by omega) hi) (pair_ne_left hjj)]
          exact hc j2 (by omega))
  refine ⟨r2, h1, h2, h3, h4, ?_⟩
  intro i2 j hi2 hj
  by_cases hii : i2 = i
  · subst hii; exact h6 j hj
  · exact h5 i2 j (by omega) hj

/-- `transpose` of a readable `m × n` source whose element count fits `size_t`. -/
theorem transpose_ok [Zero T] (arr : ndarray T) (m n : Nat) (A : Nat → Nat → T)
    (hshape : arr.shape_ = [m, n]) (hprod : m * n < SIZE_T_MODULUS)
    (hA : ∀ i j, i < m → j < n → arr.at [i, j] = .ok (A i j)) :
    ∃ r, transpose arr = .ok r ∧ r.IsDense [n, m] ∧ r.size_ = n * m ∧ r.owns_data_ = true ∧
      ∀ i j, i < m → j < n → r.at [j, i] = .ok (A i j) := by
  have hp2 : ([n, m] : Shape).prod < SIZE_T_MODULUS := by
    simp only [List.prod_cons, List.prod_nil, Nat.mul_one]; rw [Nat.mul_comm]; exact hprod
  obtain ⟨r, h1, h2, h3, h4, h5⟩ := foldlM_range_inv (transpose_row arr n)
    (fun i s => s.IsDense [n, m] ∧ s.size_ = n * m ∧ s.owns_data_ = true ∧
      ∀ i2 j, i2 < i → j < n → s.at [j, i2] = .ok (A i2 j))
    m (ndarray.ctor_shape [n, m])
    ⟨ctor_shape_isDense _ hp2, by
        show compute_size [n, m] = n * m
        rw [compute_size_of_lt _ hp2]; simp,
      rfl, fun i2 j hi2 _ => absurd hi2 (Nat.not_lt_zero _)⟩
    (by
      intro i s hi ⟨hs, hsz, hown, hp⟩
      obtain ⟨s2, e1, e2, e3, e4, e5⟩ := transpose_row_spec arr m n A hA i hi s hs hp
      exact ⟨s2, e1, e2, by rw [e3, hsz], by rw [e4, hown], e5⟩)
  refine ⟨r, ?_, h2, h3, h4, fun i j hi hj => h5 i j hi hj⟩
  unfold transpose ndarray.ndim
  rw [if_neg (by simp [hshape])]
  simp only [hshape, List.getD_cons_zero, List.getD_cons_succ]
  exact h1

theorem flatten_index_loop_error (idx : List Nat) (str : Strides) (acc : Nat) (e : Error)
    (h : flatten_index_loop acc idx str = .error e) : e = .undefined := by
  induction idx generalizing str acc with
  | nil => simp [flatten_index_loop] at h
  | cons i is ih =>
    cases str with
    | nil => simp [flatten_index_loop] at h; exact h.symm
    | cons s ss =>
      rw [flatten_index_loop] at h
      exact ih _ _ h

theorem at_ne_runtime (a : ndarray T) (idx : List Nat) (hlen : idx.length = a.shape_.length) :
    a.at idx ≠ .error .runtime_error := by
  intro h
  unfold ndarray.at at h
  rw [if_neg (by simp [hlen])] at h
  split at h
  · cases h
  · split at h
    · have := readAt_error _ _ _ h
      cases this
    · rename_i e he
      injection h with h
      have := flatten_index_loop_error _ _ _ _ he
      rw [h] at this; cases this

theorem at_set_ne_runtime (a : ndarray T) (idx : List Nat) (v : T)
    (hlen : idx.length = a.shape_.length) : a.at_set idx v ≠ .error .runtime_error := by
  intro h
  unfold ndarray.at_set at h
  rw [if_neg (by simp [hlen])] at h
  split at h
  · cases h
  · split at h
    · rename_i e he
      injection h with h
      have := flatten_index_loop_error _ _ _ _ he
      rw [h] at this; cases this
    · split at h
      · rename_i e he
        injection h with h
        have := writeAt_error _ _ _ _ he
        rw [h] at this; cases this
      · cases h

theorem at_set_shape (a r : ndarray T) (idx : List Nat) (v : T) (h : a.at_set idx v = .ok r) :
    r.shape_ = a.shape_ ∧ r.strides_ = a.strides_ ∧ r.size_ = a.size_ ∧
      r.owns_data_ = a.owns_data_ := by
  unfold ndarray.at_set at h
  split at h
  · cases h
  · split at h
    · cases h
    · split at h
      · cases h
      · split at h
        · cases h
        · injection h with h
          rw [← h]
          exact ⟨rfl, rfl, rfl, rfl⟩

theorem at_set_runtime_of_length (a : ndarray T) (idx : List Nat) (v : T)
    (hlen : idx.length ≠ a.shape_.length) : a.at_set idx v = .error .runtime_error := by
  unfold ndarray.at_set
  rw [if_pos hlen]

theorem transpose_cell_ne (arr : ndarray T) (harr : arr.shape_.length = 2) (i : Nat)
    (s : ndarray T) (j : Nat) (hs : s.shape_.length = 2) :
    transpose_cell arr i s j ≠ .error .runtime_error := by
  intro h
  unfold transpose_cell at h
  split at h
  · rename_i e he
    injection h with h
    rw [h] at he
    exact at_ne_runtime arr [i, j] (by simp [harr]) he
  · exact at_set_ne_runtime s [j, i] _ (by simp [hs]) h

theorem transpose_cell_shape (arr : ndarray T) (i : Nat) (s s2 : ndarray T) (j : Nat)
    (h : transpose_cell arr i s j = .ok s2) : s2.shape_ = s.shape_ := by
  unfold transpose_cell at h
  split at h
  · cases h
  · exact (at_set_shape _ _ _ _ h).1

theorem foldlM_preserves {α β : Type} (f : α → β → Except Error α) (P : α → Prop)
    (hf : ∀ s x s2, P s → f s x = .ok s2 → P s2) (l : List β) (init s2 : α)
    (h0 : P init) (h : l.foldlM f init = .ok s2) : P s2 := by
  induction l generalizing init with
  | nil =>
    have : init = s2 := by
      have h2 : (pure init : Except Error α) = .ok s2 := h
      injection h2
    rw [← this]; exact h0
  | cons i l ih =>
    rw [List.foldlM_cons] at h
    cases hs : f init i with
    | error e => rw [hs] at h; cases h
    | ok s => rw [hs] at h; exact ih s (hf _ _ _ h0 hs) h

theorem transpose_row_shape (arr : ndarray T) (n : Nat) (s s2 : ndarray T) (i : Nat)
    (hs : s.shape_.length = 2) (h : transpose_row arr n s i = .ok s2) :
    s2.shape_.length = 2 := by
  unfold transpose_row at h
  exact foldlM_preserves (transpose_cell arr i) (fun s => s.shape_.length = 2)
    (fun s j s2 hs hj => by
      show s2.shape_.length = 2
      rw [transpose_cell_shape arr i s s2 j hj]; exact hs) _ s s2 hs h

theorem transpose_row_ne (arr : ndarray T) (harr : arr.shape_.length = 2) (n : Nat)
    (s : ndarray T) (i : Nat) (hs : s.shape_.length = 2) :
    transpose_row arr n s i ≠ .error .runtime_error := by
  unfold transpose_row
  exact foldlM_ne_runtime_inv (transpose_cell arr i) (fun s => s.shape_.length = 2)
    (fun s j s2 hs hj => by
      show s2.shape_.length = 2
      rw [transpose_cell_shape arr i s s2 j hj]; exact hs)
    (fun s j hs => transpose_cell_ne arr harr i s j hs) _ s hs

/-- `transpose` throws exactly when the array is not of rank 2. -/
theorem transpose_throws_iff [Zero T] (arr : ndarray T) :
    transpose arr = .error .runtime_error ↔ arr.ndim ≠ 2 := by
  constructor
  · intro h
    by_contra hnd
    have hnd2 : arr.shape_.length = 2 := hnd
    unfold transpose ndarray.ndim at h
    rw [if_neg (by simp [hnd2])] at h
    simp only [] at h
    exact foldlM_ne_runtime_inv (transpose_row arr (arr.shape_.getD 1 0))
      (fun s => s.shape_.length = 2)
      (fun s x s2 hs hx => transpose_row_shape arr _ s s2 x hs hx)
      (fun s x hs => transpose_row_ne arr hnd2 _ s x hs) _
      (ndarray.ctor_shape [arr.shape_.getD 1 0, arr.shape_.getD 0 0]) rfl h
  · intro h
    unfold transpose
    rw [if_pos h]

/-- The `k` loop of `matmul` on readable operands is the sum of the products. -/
theorem matmul_inner_spec [Semiring T] (a b : ndarray T) (m n p : Nat) (A B : Nat → Nat → T)
    (hA : ∀ i k, i < m → k < n → a.at [i, k] = .ok (A i k))
    (hB : ∀ k j, k < n → j < p → b.at [k, j] = .ok (B k j))
    (i j : Nat) (hi : i < m) (hj : j < p) :
    (List.range n).foldlM (matmul_inner a b i j) 0 =
      .ok (∑ k in Finset.range n, A i k * B k j) := by
  obtain ⟨s, h1, h2⟩ := foldlM_range_inv (matmul_inner a b i j)
    (fun k s => s = ∑ k2 in Finset.range k, A i k2 * B k2 j) n 0 (by simp)
    (by
      intro k s hk hs
      refine ⟨s + A i k * B k j, ?_, ?_⟩
      · unfold matmul_inner
        rw [hA i k hi hk, hB k j hk hj]
      · show s + A i k * B k j = ∑ k2 in Finset.range (k + 1), A i k2 * B k2 j
        rw [Finset.sum_range_succ, hs])
  rw [h1, h2]

theorem matmul_row_spec [Semiring T] (a b : ndarray T) (m n p : Nat) (A B : Nat → Nat → T)
    (hA : ∀ i k, i < m → k < n → a.at [i, k] = .ok (A i k))
    (hB : ∀ k j, k < n → j < p → b.at [k, j] = .ok (B k j))
    (i : Nat) (hi : i < m) (r : ndarray T) (hr : r.IsDense [m, p])
    (hprev : ∀ i2 j, i2 < i → j < p →
      r.at [i2, j] = .ok (∑ k in Finset.range n, A i2 k * B k j)) :
    ∃ r2, matmul_row a b n p r i = .ok r2 ∧ r2.IsDense [m, p] ∧
      r2.size_ = r.size_ ∧ r2.owns_data_ = r.owns_data_ ∧
      ∀ i2 j, i2 < i + 1 → j < p →
        r2.at [i2, j] = .ok (∑ k in Finset.range n, A i2 k * B k j) := by
  obtain ⟨r2, h1, h2, h3, h4, h5, h6⟩ := foldlM_range_inv (matmul_col a b n i)
    (fun j s => s.IsDense [m, p] ∧ s.size_ = r.size_ ∧ s.owns_data_ = r.owns_data_ ∧
      (∀ i2 j2, i2 < i → j2 < p →
        s.at [i2, j2] = .ok (∑ k in Finset.range n, A i2 k * B k j2)) ∧
      (∀ j2, j2 < j → s.at [i, j2] = .ok (∑ k in Finset.range n, A i k * B k j2)))
    p r ⟨hr, rfl, rfl, hprev, fun j2 hj2 => absurd hj2 (Nat.not_lt_zero _)⟩
    (by
      intro j s hj ⟨hs, hsz, hown, hp, hc⟩
      obtain ⟨s2, e1, e2, e3, e4, e5, e6⟩ :=
        isDense_at_set s [m, p] hs [i, j] (forall₂_pair hi hj)
          (∑ k in Finset.range n, A i k * B k j)
      refine ⟨s2, ?_, e2, by rw [e3, hsz], by rw [e4, hown], ?_, ?_⟩
      · unfold matmul_col
        rw [matmul_inner_spec a b m n p A B hA hB i j hi hj]
        exact e1
      · intro i2 j2 hi2 hj2
        rw [e6 [i2, j2] (forall₂_pair (by omega) hj2) (pair_ne_left (by omega))]
        exact hp i2 j2 hi2 hj2
      · intro j2 hj2
        by_cases hjj : j2 = j
        · subst hjj; exact e5
        · rw [e6 [i, j2] (forall₂_pair hi (by omega)) (pair_ne_right hjj)]
          exact hc j2 (by omega))
  refine ⟨r2, h1, h2, h3, h4, ?_⟩
  intro i2 j hi2 hj
  by_cases hii : i2 = i
  · subst hii; exact h6 j hj
  · exact h5 i2 j (by omega) hj

/-- `matmul` of readable operands of shapes `(m, n)` and `(n, p)` whose result
element count `m * p` fits `size_t`. -/
theorem matmul_ok [Semiring T] (a b : ndarray T) (m n p : Nat) (A B : Nat → Nat → T)
    (ha : a.shape_ = [m, n]) (hb : b.shape_ = [n, p]) (hprod : m * p < SIZE_T_MODULUS)
    (hA : ∀ i k, i < m → k < n → a.at [i, k] = .ok (A i k))
    (hB : ∀ k j, k < n → j < p → b.at [k, j] = .ok (B k j)) :
    ∃ r, matmul a b = .ok r ∧ r.IsDense [m, p] ∧ r.size_ = m * p ∧ r.owns_data_ = true ∧
      ∀ i j, i < m → j < p → r.at [i, j] = .ok (∑ k in Finset.range n, A i k * B k j) := by
  have hp2 : ([m, p] : Shape).prod < SIZE_T_MODULUS := by
    simp only [List.prod_cons, List.prod_nil, Nat.mul_one]; exact hprod
  obtain ⟨r, h1, h2, h3, h4, h5⟩ := foldlM_range_inv (matmul_row a b n p)
    (fun i s => s.IsDense [m, p] ∧ s.size_ = m * p ∧ s.owns_data_ = true ∧
      ∀ i2 j, i2 < i → j < p →
        s.at [i2, j] = .ok (∑ k in Finset.range n, A i2 k * B k j))
    m (ndarray.ctor_shape [m, p])
    ⟨ctor_shape_isDense _ hp2, by
        show compute_size [m, p] = m * p
        rw [compute_size_of_lt _ hp2]; simp,
      rfl, fun i2 j hi2 _ => absurd hi2 (Nat.not_lt_zero _)⟩
    (by
      intro i s hi ⟨hs, hsz, hown, hp⟩
      obtain ⟨s2, e1, e2, e3, e4, e5⟩ := matmul_row_spec a b m n p A B hA hB i hi s hs hp
      exact ⟨s2, e1, e2, by rw [e3, hsz], by rw [e4, hown], e5⟩)
  refine ⟨r, ?_, h2, h3, h4, fun i j hi hj => h5 i j hi hj⟩
  unfold matmul ndarray.ndim
  rw [if_neg (by simp [ha, hb]), if_neg (by simp [ha, hb])]
  simp only [ha, hb, List.getD_cons_zero, List.getD_cons_succ]
  exact h1

theorem matmul_inner_ne [Add T] [Mul T] (a b : ndarray T) (ha : a.shape_.length = 2)
    (hb : b.shape_.length = 2) (i j : Nat) (s : T) (k : Nat) :
    matmul_inner a b i j s k ≠ .error .runtime_error := by
  intro h
  unfold matmul_inner at h
  split at h
  · rename_i e he
    injection h with h
    rw [h] at he
    exact at_ne_runtime a [i, k] (by simp [ha]) he
  · split at h
    · rename_i e he
      injection h with h
      rw [h] at he
      exact at_ne_runtime b [k, j] (by simp [hb]) he
    · cases h

theorem matmul_col_ne [Zero T] [Add T] [Mul T] (a b : ndarray T) (ha : a.shape_.length = 2)
    (hb : b.shape_.length = 2) (n i : Nat) (s : ndarray T) (j : Nat)
    (hs : s.shape_.length = 2) : matmul_col a b n i s j ≠ .error .runtime_error := by
  intro h
  unfold matmul_col at h
  split at h
  · rename_i e he
    injection h with h
    rw [h] at he
    exact foldlM_ne_runtime_inv (matmul_inner a b i j) (fun _ => True)
      (fun _ _ _ _ _ => trivial) (fun s k _ => matmul_inner_ne a b ha hb i j s k) _ _ trivial he
  · exact at_set_ne_runtime s [i, j] _ (by simp [hs]) h

theorem matmul_col_shape [Zero T] [Add T] [Mul T] (a b : ndarray T) (n i : Nat)
    (s s2 : ndarray T) (j : Nat) (h : matmul_col a b n i s j = .ok s2) :
    s2.shape_ = s.shape_ := by
  unfold matmul_col at h
  split at h
  · cases h
  · exact (at_set_shape _ _ _ _ h).1

theorem matmul_row_shape [Zero T] [Add T] [Mul T] (a b : ndarray T) (n p : Nat)
    (s s2 : ndarray T) (i : Nat) (hs : s.shape_.length = 2)
    (h : matmul_row a b n p s i = .ok s2) : s2.shape_.length = 2 := by
  unfold matmul_row at h
  exact foldlM_preserves (matmul_col a b n i) (fun s => s.shape_.length = 2)
    (fun s j s2 hs hj => by
      show s2.shape_.length = 2
      rw [matmul_col_shape a b n i s s2 j hj]; exact hs) _ s s2 hs h

theorem matmul_row_ne [Zero T] [Add T] [Mul T] (a b : ndarray T) (ha : a.shape_.length = 2)
    (hb : b.shape_.length = 2) (n p : Nat) (s : ndarray T) (i : Nat)
    (hs : s.shape_.length = 2) : matmul_row a b n p s i ≠ .error .runtime_error := by
  unfold matmul_row
  exact foldlM_ne_runtime_inv (matmul_col a b n i) (fun s => s.shape_.length = 2)
    (fun s j s2 hs hj => by
      show s2.shape_.length = 2
      rw [matmul_col_shape a b n i s s2 j hj]; exact hs)
    (fun s j hs => matmul_col_ne a b ha hb n i s j hs) _ s hs

/-- `matmul` throws exactly when an operand is not of rank 2 or the inner
dimensions differ. -/
theorem matmul_throws_iff [Zero T] [Add T] [Mul T] (a b : ndarray T) :
    matmul a b = .error .runtime_error ↔
      (a.ndim ≠ 2 ∨ b.ndim ≠ 2 ∨ a.shape_.getD 1 0 ≠ b.shape_.getD 0 0) := by
  constructor
  · intro h
    by_contra hcon
    have ha : a.shape_.length = 2 := by
      by_contra h2; exact hcon (Or.inl h2)
    have hb : b.shape_.length = 2 := by
      by_contra h2; exact hcon (Or.inr (Or.inl h2))
    have hn : a.shape_.getD 1 0 = b.shape_.getD 0 0 := by
      by_contra h2; exact hcon (Or.inr (Or.inr h2))
    unfold matmul ndarray.ndim at h
    rw [if_neg (by simp [ha, hb]), if_neg (fun h2 => h2 hn)] at h
    simp only [] at h
    exact foldlM_ne_runtime_inv (matmul_row a b (a.shape_.getD 1 0) (b.shape_.getD 1 0))
      (fun s => s.shape_.length = 2)
      (fun s x s2 hs hx => matmul_row_shape a b _ _ s s2 x hs hx)
      (fun s x hs => matmul_row_ne a b ha hb _ _ s x hs) _
      (ndarray.ctor_shape [a.shape_.getD 0 0, b.shape_.getD 1 0]) rfl h
  · intro h
    unfold matmul
    rcases h with h | h | h
    · rw [if_pos (Or.inl h)]
    · rw [if_pos (Or.inr h)]
    · by_cases h2 : a.ndim ≠ 2 ∨ b.ndim ≠ 2
      · rw [if_pos h2]
      · rw [if_neg h2, if_pos h]

theorem ctor_list_pair (x y : T) :
    ndarray.ctor_list [x, y] = .ok ⟨[2], [1], [x, y], 2, true⟩ := by
  rfl

/-- The first row the `i` loop of `determinant` fills already fails: the
submatrix has rank 1 and is written with two indices. -/
theorem determinant_fill_row_throws (arr : ndarray T) (n j : Nat) (hn : 2 ≤ n) (x y v w : T)
    (h10 : arr.at [1, 0] = .ok v) (h11 : arr.at [1, 1] = .ok w) :
    determinant_fill_row arr n j ⟨[2], [1], [x, y], 2, true⟩ 1 = .error .runtime_error := by
  unfold determinant_fill_row
  by_cases hj : j = 0
  · have h0 : determinant_fill_step arr j 1 (⟨[2], [1], [x, y], 2, true⟩, 0) 0 =
        .ok (⟨[2], [1], [x, y], 2, true⟩, 0) := by
      unfold determinant_fill_step
      rw [if_neg (by simp [hj])]
    have h1 : determinant_fill_step arr j 1 (⟨[2], [1], [x, y], 2, true⟩, 0) 1 =
        .error .runtime_error := by
      unfold determinant_fill_step
      rw [if_pos (by simp [hj]), h11]
      simp only []
      rw [at_set_runtime_of_length _ _ _ (by simp)]
    rw [foldlM_range_error_second _ _ _ n _ hn h0 h1]
  · have h0 : determinant_fill_step arr j 1 (⟨[2], [1], [x, y], 2, true⟩, 0) 0 =
        .error .runtime_error := by
      unfold determinant_fill_step
      rw [if_pos (by intro h; exact hj h.symm), h10]
      simp only []
      rw [at_set_runtime_of_length _ _ _ (by simp)]
    rw [foldlM_range_error_first _ _ n _ (by omega) h0]

theorem determinant_step_throws [Ring T] (self : ndarray T → Except Error T) (arr : ndarray T)
    (n : Nat) (hn : 2 ≤ n) (det : T) (j : Nat) (v w : T)
    (h10 : arr.at [1, 0] = .ok v) (h11 : arr.at [1, 1] = .ok w) :
    determinant_step self arr n det j = .error .runtime_error := by
  unfold determinant_step
  rw [ctor_list_pair]
  simp only []
  obtain ⟨k, hk⟩ : ∃ k, n - 1 = k + 1 := ⟨n - 2, by omega⟩
  rw [hk, List.range'_succ,
    foldlM_cons_error _ _ _ _ _ (determinant_fill_row_throws arr n j hn _ _ v w h10 h11)]

/-- For every square matrix with three or more rows whose elements `(1, 0)` and
`(1, 1)` can be read, `determinant` throws. -/
theorem determinant_throws_of_three [Ring T] (arr : ndarray T) (n : Nat) (hn : 3 ≤ n)
    (hshape : arr.shape_ = [n, n]) (v w : T)
    (h10 : arr.at [1, 0] = .ok v) (h11 : arr.at [1, 1] = .ok w) :
    determinant arr = .error .runtime_error := by
  unfold determinant
  simp only [hshape, List.getD_cons_zero]
  rw [determinant_fuel]
  simp only [ndarray.ndim, hshape, List.getD_cons_zero, List.getD_cons_succ, List.length_cons,
    List.length_nil]
  rw [if_neg (by simp), if_neg (by omega), if_neg (by omega)]
  exact foldlM_range_error_first _ _ n _ (by omega)
    (determinant_step_throws _ arr n (by omega) 0 0 v w h10 h11)

theorem determinant_one [Ring T] (arr : ndarray T) (hshape : arr.shape_ = [1, 1]) :
    determinant arr = arr.at [0, 0] := by
  unfold determinant
  simp only [hshape, List.getD_cons_zero]
  rw [determinant_fuel]
  simp [ndarray.ndim, hshape]

theorem determinant_two_eq [Ring T] (arr : ndarray T) (hshape : arr.shape_ = [2, 2]) :
    determinant arr = determinant_two arr := by
  unfold determinant
  simp only [hshape, List.getD_cons_zero]
  rw [determinant_fuel]
  simp [ndarray.ndim, hshape]

theorem determinant_two_ok [Ring T] (arr : ndarray T) (a00 a01 a10 a11 : T)
    (h00 : arr.at [0, 0] = .ok a00) (h01 : arr.at [0, 1] = .ok a01)
    (h10 : arr.at [1, 0] = .ok a10) (h11 : arr.at [1, 1] = .ok a11) :
    determinant_two arr = .ok (a00 * a11 - a01 * a10) := by
  unfold determinant_two
  rw [h00, h11, h01, h10]

theorem inverse_two_throws [Field T] (arr : ndarray T) (det a11 : T)
    (h11 : arr.at [1, 1] = .ok a11) : inverse_two arr det = .error .runtime_error := by
  unfold inverse_two
  rw [ctor_list_pair]
  simp only []
  rw [h11]
  simp only []
  rw [at_set_runtime_of_length _ _ _ (by simp)]

/-- `inverse` throws when the array is not a square matrix. -/
theorem inverse_not_square [LinearOrderedField T] (arr : ndarray T)
    (h : arr.ndim ≠ 2 ∨ arr.shape_.getD 0 0 ≠ arr.shape_.getD 1 0) :
    inverse arr = .error .runtime_error := by
  unfold inverse
  rw [if_pos h]

/-- `inverse` throws when the determinant has absolute value below `1e-10`. -/
theorem inverse_singular [LinearOrderedField T] (arr : ndarray T) (d : T)
    (hd : determinant arr = .ok d) (hsmall : |d| < 1 / 10000000000) :
    inverse arr = .error .runtime_error := by
  unfold inverse
  split
  · rfl
  · rw [hd]
    simp only []
    rw [if_pos hsmall]

/-- `inverse` of a 1x1 matrix `[[v]]` with `|v| >= 1e-10` is `[[1 / v]]`. -/
theorem inverse_one [LinearOrderedField T] (arr : ndarray T) (v : T)
    (hshape : arr.shape_ = [1, 1]) (hv : arr.at [0, 0] = .ok v)
    (hbig : ¬ |v| < 1 / 10000000000) :
    inverse arr = .ok ⟨[1, 1], [1, 1], [1 / v], 1, true⟩ := by
  unfold inverse
  rw [if_neg (by simp [ndarray.ndim, hshape]), determinant_one arr hshape, hv]
  simp only []
  rw [if_neg hbig]
  simp only [hshape, List.getD_cons_zero, if_true]
  rfl

/-- `inverse` throws on every readable square matrix with two or more rows: in
the 2x2 branch and in the adjugate branch the result (or the submatrix of
`determinant`) is built by the 1D constructor and then written with two indices. -/
theorem inverse_throws_of_two [LinearOrderedField T] (arr : ndarray T) (n : Nat) (hn : 2 ≤ n)
    (hshape : arr.shape_ = [n, n])
    (hread : ∀ i j, i < n → j < n → ∃ v, arr.at [i, j] = .ok v) :
    inverse arr = .error .runtime_error := by
  obtain ⟨a00, h00⟩ := hread 0 0 (by omega) (by omega)
  obtain ⟨a01, h01⟩ := hread 0 1 (by omega) (by omega)
  obtain ⟨a10, h10⟩ := hread 1 0 (by omega) (by omega)
  obtain ⟨a11, h11⟩ := hread 1 1 (by omega) (by omega)
  by_cases h2 : n = 2
  · subst h2
    unfold inverse
    rw [if_neg (by simp [ndarray.ndim, hshape]), determinant_two_eq arr hshape,
      determinant_two_ok arr _ _ _ _ h00 h01 h10 h11]
    simp only []
    split
    · rfl
    · simp only [hshape, List.getD_cons_zero]
      rw [if_neg (by decide), if_pos trivial]
      exact inverse_two_throws arr _ a11 h11
  · unfold inverse
    rw [if_neg (by simp [ndarray.ndim, hshape]),
      determinant_throws_of_three arr n (by omega) hshape a10 a11 h10 h11]

theorem matmul_unfold [Zero T] [Add T] [Mul T] (a b : ndarray T) (m n p : Nat)
    (ha : a.shape_ = [m, n]) (hb : b.shape_ = [n, p]) :
    matmul a b = (List.range m).foldlM (matmul_row a b n p) (ndarray.ctor_shape [m, p]) := by
  unfold matmul ndarray.ndim
  rw [if_neg (by simp [ha, hb]), if_neg (by simp [ha, hb])]
  simp only [ha, hb, List.getD_cons_zero, List.getD_cons_succ]

theorem transpose_unfold [Zero T] (arr : ndarray T) (m n : Nat) (ha : arr.shape_ = [m, n]) :
    transpose arr = (List.range m).foldlM (transpose_row arr n) (ndarray.ctor_shape [n, m]) := by
  unfold transpose ndarray.ndim
  rw [if_neg (by simp [ha])]
  simp only [ha, List.getD_cons_zero, List.getD_cons_succ]

/-- Every element of a view with strides `(0, 0)` over a one-element buffer can
be read. -/
theorem zero_stride_view_at (m n : Nat) (x : T) (i j : Nat) (hi : i < m) (hj : j < n) :
    (ndarray.create_view [m, n] [0, 0] [x] : ndarray T).at [i, j] = .ok x := by
  unfold ndarray.at ndarray.create_view
  simp only [List.length_cons, List.length_nil, ne_eq, not_true_eq_false, if_false]
  have hany : (List.zip [i, j] [m, n]).any (fun p => decide (p.1 ≥ p.2)) = false := by
    simp; omega
  rw [hany]
  simp [flatten_index, flatten_index_loop, mulSz, addSz, readAt]

theorem set_eq_at_set (r : ndarray T) (rs : Shape) (hr : r.IsDense rs) (hsz : r.size_ = rs.prod)
    (q : List Nat) (hq : List.Forall₂ (fun i d => i < d) q rs) (v : T) :
    r.set (dotNat q (compute_strides rs)) v = r.at_set q v := by
  obtain ⟨h1, h2, h3, h4⟩ := hr
  subst h1
  have hlt := dotNat_lt r.shape_ q h4 hq
  unfold ndarray.set ndarray.at_set
  rw [if_neg (by omega), if_neg (by simp [List.Forall₂.length_eq hq]), any_ge_false hq]
  simp only [Bool.false_eq_true, if_false]
  rw [h2, flatten_index_in_range _ _ h4 hq]
  simp only [writeAt]
  rw [if_pos (by rw [h3]; exact hlt)]

theorem get_of_isDense [Zero T] (a : ndarray T) (ha : a.IsDense a.shape_)
    (hsz : a.size_ = a.shape_.prod) (i : Nat) (hi : i < a.shape_.prod) :
    a.get i = .ok (a.data_.getD i 0) := by
  unfold ndarray.get
  rw [if_neg (by omega)]
  exact readAt_of_lt _ _ (by rw [ha.2.2.1]; exact hi)

/-- A loop that writes, for every flat index `i` of a dense source `a`, the
element `a[i]` into the cell `φ p` of a dense result, where `p` is the
multi-index of `i` and `φ` is injective: afterwards every cell `φ p` holds
`a.at p` and every other cell is unchanged. -/
theorem scatter_loop [Zero T] (rs : Shape) (a : ndarray T) (ha : a.IsDense a.shape_)
    (φ : List Nat → List Nat)
    (hinj : ∀ p q, List.Forall₂ (fun i d => i < d) p a.shape_ →
      List.Forall₂ (fun i d => i < d) q a.shape_ → φ p = φ q → p = q)
    (hφ : ∀ p, List.Forall₂ (fun i d => i < d) p a.shape_ →
      List.Forall₂ (fun i d => i < d) (φ p) rs)
    (step : ndarray T → Nat → Except Error (ndarray T))
    (hstep : ∀ r i, r.IsDense rs → r.size_ = rs.prod → i < a.shape_.prod →
      ∃ p, List.Forall₂ (fun i d => i < d) p a.shape_ ∧
        dotNat p (compute_strides a.shape_) = i ∧
        step r i = r.at_set (φ p) (a.data_.getD i 0))
    (r : ndarray T) (hr : r.IsDense rs) (hrsz : r.size_ = rs.prod) :
    ∃ r2, (List.range a.shape_.prod).foldlM step r = .ok r2 ∧ r2.IsDense rs ∧
      r2.size_ = r.size_ ∧ r2.owns_data_ = r.owns_data_ ∧
      (∀ p, List.Forall₂ (fun i d => i < d) p a.shape_ → r2.at (φ p) = a.at p) ∧
      (∀ q, List.Forall₂ (fun i d => i < d) q rs →
        (∀ p, List.Forall₂ (fun i d => i < d) p a.shape_ → q ≠ φ p) → r2.at q = r.at q) := by
  obtain ⟨r2, h1, h2, h3, h4, h5, h6⟩ := foldlM_range_inv step
    (fun i s => s.IsDense rs ∧ s.size_ = r.size_ ∧ s.owns_data_ = r.owns_data_ ∧
      (∀ p, List.Forall₂ (fun i d => i < d) p a.shape_ →
        dotNat p (compute_strides a.shape_) < i →
        s.at (φ p) = .ok (a.data_.getD (dotNat p (compute_strides a.shape_)) 0)) ∧
      (∀ q, List.Forall₂ (fun i d => i < d) q rs →
        (∀ p, List.Forall₂ (fun i d => i < d) p a.shape_ → q ≠ φ p) → s.at q = r.at q))
    a.shape_.prod r
    ⟨hr, rfl, rfl, fun p _ hp => absurd hp (Nat.not_lt_zero _), fun _ _ _ => rfl⟩
    (by
      intro i s hi ⟨hs, hsz, hown, hdone, hout⟩
      obtain ⟨p, hp, hdot, hst⟩ := hstep s i hs (by rw [hsz, hrsz]) hi
      obtain ⟨s2, e1, e2, e3, e4, e5, e6⟩ :=
        isDense_at_set s rs hs (φ p) (hφ p hp) (a.data_.getD i 0)
      refine ⟨s2, by rw [hst]; exact e1, e2, by rw [e3, hsz], by rw [e4, hown], ?_, ?_⟩
      · intro q hq hlt
        by_cases hqi : dotNat q (compute_strides a.shape_) = i
        · have hqp : q = p := dotNat_inj a.shape_ q p ha.2.2.2 hq hp (by rw [hqi, hdot])
          rw [hqp, hdot]
          exact e5
        · rw [e6 (φ q) (hφ q hq) (by
            intro h
            have := hinj q p hq hp h
            rw [this, hdot] at hqi
            exact hqi rfl)]
          exact hdone q hq (by omega)
      · intro q hq hnot
        rw [e6 q hq (hnot p hp)]
        exact hout q hq hnot)
  refine ⟨r2, h1, h2, h3, h4, ?_, h6⟩
  intro p hp
  rw [isDense_at a a.shape_ ha p hp]
  exact h5 p hp (dotNat_lt a.shape_ p ha.2.2.2 hp)

/-- The loop over the arrays of `concatenate` and `stack`: array `k` is scattered
into the cells `φ k p`; the images of different arrays are disjoint. Afterwards
every cell `φ k p` of the result holds the element of array `k` at `p`. -/
theorem scatter_arrays [Zero T] (rs : Shape) (l : List (ndarray T))
    (hl : ∀ a ∈ l, a.IsDense a.shape_)
    (φ : Nat → List Nat → List Nat) (C : Nat → Nat)
    (hφ : ∀ k (hk : k < l.length) p,
      List.Forall₂ (fun i d => i < d) p (l.get ⟨k, hk⟩).shape_ →
      List.Forall₂ (fun i d => i < d) (φ k p) rs)
    (hinj : ∀ k k2 (hk : k < l.length) (hk2 : k2 < l.length) p q,
      List.Forall₂ (fun i d => i < d) p (l.get ⟨k, hk⟩).shape_ →
      List.Forall₂ (fun i d => i < d) q (l.get ⟨k2, hk2⟩).shape_ →
      φ k p = φ k2 q → k = k2 ∧ p = q)
    (f : ndarray T × Nat → ndarray T → Except Error (ndarray T × Nat))
    (hf : ∀ k (hk : k < l.length) r, r.IsDense rs → r.size_ = rs.prod →
      ∃ step : ndarray T → Nat → Except Error (ndarray T),
        (∀ r2 i, r2.IsDense rs → r2.size_ = rs.prod → i < (l.get ⟨k, hk⟩).shape_.prod →
          ∃ p, List.Forall₂ (fun i d => i < d) p (l.get ⟨k, hk⟩).shape_ ∧
            dotNat p (compute_strides (l.get ⟨k, hk⟩).shape_) = i ∧
            step r2 i = r2.at_set (φ k p) ((l.get ⟨k, hk⟩).data_.getD i 0)) ∧
        f (r, C k) (l.get ⟨k, hk⟩) =
          ((List.range (l.get ⟨k, hk⟩).shape_.prod).foldlM step r).map
            (fun r2 => (r2, C (k + 1))))
    (r0 : ndarray T) (hr0 : r0.IsDense rs) (hr0sz : r0.size_ = rs.prod) :
    ∃ st, l.foldlM f (r0, C 0) = .ok st ∧ st.1.IsDense rs ∧ st.1.size_ = r0.size_ ∧
      st.1.owns_data_ = r0.owns_data_ ∧
      ∀ k (hk : k < l.length) p,
        List.Forall₂ (fun i d => i < d) p (l.get ⟨k, hk⟩).shape_ →
        st.1.at (φ k p) = (l.get ⟨k, hk⟩).at p := by
  obtain ⟨st, h1, h2, h3, h4, h5, h6⟩ := foldlM_list_inv f
    (fun k st => st.2 = C k ∧ st.1.IsDense rs ∧ st.1.size_ = r0.size_ ∧
      st.1.owns_data_ = r0.owns_data_ ∧
      ∀ k2 (hk2 : k2 < l.length), k2 < k → ∀ p,
        List.Forall₂ (fun i d => i < d) p (l.get ⟨k2, hk2⟩).shape_ →
        st.1.at (φ k2 p) = (l.get ⟨k2, hk2⟩).at p)
    l (r0, C 0)
    ⟨rfl, hr0, rfl, rfl, fun k2 _ hlt => absurd hlt (Nat.not_lt_zero _)⟩
    (by
      intro k hk st ⟨hc, hd, hsz, hown, hprev⟩
      obtain ⟨step, hstep, hfeq⟩ := hf k hk st.1 hd (by rw [hsz, hr0sz])
      obtain ⟨r2, e1, e2, e3, e4, e5, e6⟩ := scatter_loop rs (l.get ⟨k, hk⟩)
        (hl _ (List.get_mem l k hk)) (φ k)
        (fun p q hp hq h => (hinj k k hk hk p q hp hq h).2)
        (fun p hp => hφ k hk p hp) step hstep st.1 hd (by rw [hsz, hr0sz])
      refine ⟨(r2, C (k + 1)), ?_, rfl, e2, by rw [e3, hsz], by rw [e4, hown], ?_⟩
      · have hst : st = (st.1, C k) := by rw [← hc]
        rw [hst, hfeq, e1]
        rfl
      · intro k2 hk2 hlt p hp
        by_cases hkk : k2 = k
        · subst hkk
          exact e5 p hp
        · show r2.at (φ k2 p) = _
          rw [e6 (φ k2 p) (hφ k2 hk2 p hp)
            (fun q hq h => hkk (hinj k2 k hk2 hk p q hp hq h).1)]
          exact hprev k2 hk2 (by omega) p hp)
  exact ⟨st, h1, h3, h4, h5, fun k hk p hp => h6 k hk hk p hp⟩

theorem axisOffset_succ (l : List (ndarray T)) (axis k : Nat) (hk : k < l.length) :
    axisOffset l axis (k + 1) = axisOffset l axis k + (l.get ⟨k, hk⟩).shape_.getD axis 0 := by
  unfold axisOffset
  rw [List.take_succ, List.getElem?_eq_getElem hk]
  simp only [Option.toList, List.map_append, List.sum_append, List.map_cons, List.map_nil,
    List.sum_cons, List.sum_nil, List.get_eq_getElem, Nat.add_zero]

theorem axisOffset_mono (l : List (ndarray T)) (axis : Nat) {j k : Nat} (h : j ≤ k) :
    axisOffset l axis j ≤ axisOffset l axis k := by
  unfold axisOffset
  have h1 : l.take j = (l.take k).take j := by rw [List.take_take, Nat.min_eq_left h]
  have h2 := List.take_append_drop j (l.take k)
  rw [h1]
  conv_rhs => rw [← h2]
  simp only [List.map_append, List.sum_append]
  exact Nat.le_add_right _ _

theorem axisOffset_zero (l : List (ndarray T)) (axis : Nat) : axisOffset l axis 0 = 0 := by
  simp [axisOffset]

theorem isDense_of_owner (a : ndarray T) (h : a.IsRowMajorOwner)
    (hp : a.shape_.prod < SIZE_T_MODULUS) : a.IsDense a.shape_ ∧ a.size_ = a.shape_.prod := by
  obtain ⟨_, h2, h3, h4⟩ := h
  have hs : a.size_ = a.shape_.prod := by rw [h3, compute_size_of_lt _ hp]
  exact ⟨⟨rfl, h2, by rw [h4, hs], hp⟩, hs⟩

theorem concatenate_check_loop (l : List (ndarray T)) (s : Shape) (ndim axis : Nat)
    (hdims : ∀ a ∈ l, ∀ i, i < ndim → i ≠ axis → a.shape_.getD i 0 = s.getD i 0)
    (htot : axisOffset l axis l.length < SIZE_T_MODULUS) :
    l.foldlM (concatenate_check s ndim axis) 0 = .ok (axisOffset l axis l.length) := by
  obtain ⟨t, h1, h2⟩ := foldlM_list_inv (concatenate_check s ndim axis)
    (fun k t => t = axisOffset l axis k) l 0 (axisOffset_zero l axis).symm
    (by
      intro k hk t ht
      refine ⟨axisOffset l axis (k + 1), ?_, rfl⟩
      unfold concatenate_check
      have hany : (List.range ndim).any (fun i => decide (i ≠ axis ∧
          (l.get ⟨k, hk⟩).shape_.getD i 0 ≠ s.getD i 0)) = false := by
        rw [List.any_eq_false]
        intro i hi
        rw [List.mem_range] at hi
        simp only [decide_eq_true_eq, not_and, not_not]
        intro hne
        exact hdims _ (List.get_mem l k hk) i hi hne
      rw [hany]
      simp only [Bool.false_eq_true, if_false]
      rw [ht, axisOffset_succ l axis k hk, addSz_of_lt]
      rw [← axisOffset_succ l axis k hk]
      exact Nat.lt_of_le_of_lt (axisOffset_mono l axis (by omega)) htot)
  rw [h1, h2]

theorem forall₂_getD_lt {p s : List Nat} (h : List.Forall₂ (fun i d => i < d) p s)
    (axis : Nat) (hax : axis < s.length) : p.getD axis 0 < s.getD axis 0 := by
  rw [List.forall₂_iff_get] at h
  have hpl : axis < p.length := by omega
  have := h.2 axis hpl hax
  rw [List.getD_eq_getElem _ _ hpl, List.getD_eq_getElem _ _ hax]
  simpa using this

theorem shiftAxis_in_range {p s s2 : List Nat} {axis off t : Nat}
    (hp : List.Forall₂ (fun i d => i < d) p s) (hax : axis < s.length)
    (hlen : s.length = s2.length)
    (hag : ∀ i, i < s.length → i ≠ axis → s.getD i 0 = s2.getD i 0)
    (hoff : off + s.getD axis 0 ≤ t) :
    List.Forall₂ (fun i d => i < d) (shiftAxis axis off p) (s2.set axis t) := by
  have hlt := forall₂_getD_lt hp axis hax
  rw [List.forall₂_iff_get] at hp ⊢
  unfold shiftAxis
  refine ⟨by simp [hp.1, hlen], ?_⟩
  intro i h1 h2
  simp only [List.length_set] at h1 h2
  simp only [List.get_eq_getElem, List.getElem_set]
  by_cases hi : axis = i
  · rw [if_pos hi, if_pos hi]
    omega
  · rw [if_neg hi, if_neg hi]
    have h3 := hp.2 i h1 (by omega)
    have h4 := hag i (by omega) (fun h => hi h.symm)
    rw [List.getD_eq_getElem _ _ (by omega), List.getD_eq_getElem _ _ h2] at h4
    simp only [List.get_eq_getElem] at h3
    omega

theorem shiftAxis_getD {p : List Nat} {axis off : Nat} (hax : axis < p.length) :
    (shiftAxis axis off p).getD axis 0 = p.getD axis 0 + off := by
  unfold shiftAxis
  rw [List.getD_eq_getElem _ _ (by simpa using hax)]
  simp

theorem shiftAxis_inj {p q : List Nat} {axis off : Nat} (hp : axis < p.length)
    (hq : axis < q.length) (h : shiftAxis axis off p = shiftAxis axis off q) : p = q := by
  have hlen : p.length = q.length := by
    have := congrArg List.length h
    simpa [shiftAxis] using this
  apply List.ext_getElem hlen
  intro i h1 h2
  by_cases hi : axis = i
  · subst hi
    have e := congrArg (fun l => l.getD axis 0) h
    simp only [shiftAxis_getD hp, shiftAxis_getD hq] at e
    rw [List.getD_eq_getElem _ _ hp, List.getD_eq_getElem _ _ hq] at e
    omega
  · have e := congrArg (fun l => l[i]?) h
    simp only [shiftAxis, List.getElem?_set_ne hi] at e
    rw [List.getElem?_eq_getElem h1, List.getElem?_eq_getElem h2] at e
    exact Option.some.inj e

theorem concatenate_copy_step_eq [Zero T] (a r : ndarray T) (rs : Shape) (axis off : Nat)
    (ha : a.IsDense a.shape_) (hasz : a.size_ = a.shape_.prod)
    (hr : r.IsDense rs) (hrsz : r.size_ = rs.prod) (hax : axis < a.shape_.length)
    (hoff : off + a.shape_.getD axis 0 < SIZE_T_MODULUS)
    (hφ : ∀ p, List.Forall₂ (fun i d => i < d) p a.shape_ →
      List.Forall₂ (fun i d => i < d) (shiftAxis axis off p) rs)
    (i : Nat) (hi : i < a.shape_.prod) :
    ∃ p, List.Forall₂ (fun i d => i < d) p a.shape_ ∧
      dotNat p (compute_strides a.shape_) = i ∧
      concatenate_copy_step a axis off r i =
        r.at_set (shiftAxis axis off p) (a.data_.getD i 0) := by
  obtain ⟨p, hun, hp, hdot⟩ := unravel_index_spec a.shape_ i
    (by rw [compute_size_of_lt _ ha.2.2.2]; exact hi)
  refine ⟨p, hp, hdot, ?_⟩
  have hpl : axis < p.length := by rw [List.Forall₂.length_eq hp]; exact hax
  have hc := forall₂_getD_lt hp axis hax
  have hq : List.Forall₂ (fun i d => i < d) (p.set axis (p.getD axis 0 + off)) rs := hφ p hp
  unfold concatenate_copy_step
  rw [ha.2.1, hun]
  simp only
  rw [readAt_of_lt p axis hpl]
  simp only
  rw [addSz_of_lt (by omega), hr.2.1, flatten_index_in_range rs _ hr.2.2.2 hq]
  simp only
  rw [if_pos (by rw [hrsz]; exact dotNat_lt rs _ hr.2.2.2 hq), get_of_isDense a ha hasz i hi]
  simp only
  exact set_eq_at_set r rs hr hrsz _ hq _

theorem concatenate_copy_eq (axis : Nat) (r a : ndarray T) (c c2 : Nat)
    (hc : addSz c (a.shape_.getD axis 0) = c2) :
    concatenate_copy axis (r, c) a =
      ((List.range a.size_).foldlM (concatenate_copy_step a axis c) r).map
        (fun r2 => (r2, c2)) := by
  unfold concatenate_copy
  simp only
  rw [hc]
  cases (List.range a.size_).foldlM (concatenate_copy_step a axis c) r <;> rfl

/-- The destination indices of `concatenate` determine the source array and the
source index. -/
theorem concatenate_index_inj (l : List (ndarray T)) (s : Shape) (axis : Nat)
    (hrank : ∀ a ∈ l, a.shape_.length = s.length) (hax : axis < s.length)
    (k k2 : Nat) (hk : k < l.length) (hk2 : k2 < l.length) (p q : List Nat)
    (hp : List.Forall₂ (fun i d => i < d) p (l.get ⟨k, hk⟩).shape_)
    (hq : List.Forall₂ (fun i d => i < d) q (l.get ⟨k2, hk2⟩).shape_)
    (h : shiftAxis axis (axisOffset l axis k) p = shiftAxis axis (axisOffset l axis k2) q) :
    k = k2 ∧ p = q := by
  have hm := List.get_mem l k hk
  have hm2 := List.get_mem l k2 hk2
  have hpa : axis < p.length := by
    rw [List.Forall₂.length_eq hp, hrank _ hm]; exact hax
  have hqa : axis < q.length := by
    rw [List.Forall₂.length_eq hq, hrank _ hm2]; exact hax
  have hpc := forall₂_getD_lt hp axis (by rw [hrank _ hm]; exact hax)
  have hqc := forall₂_getD_lt hq axis (by rw [hrank _ hm2]; exact hax)
  have e := congrArg (fun x => x.getD axis 0) h
  simp only [shiftAxis_getD hpa, shiftAxis_getD hqa] at e
  have hkk : k = k2 := by
    rcases Nat.lt_trichotomy k k2 with hlt | heq | hgt
    · have h1 := axisOffset_mono l axis (Nat.succ_le_of_lt hlt)
      rw [axisOffset_succ l axis k hk] at h1
      omega
    · exact heq
    · have h1 := axisOffset_mono l axis (Nat.succ_le_of_lt hgt)
      rw [axisOffset_succ l axis k2 hk2] at h1
      omega
  subst hkk
  exact ⟨rfl, shiftAxis_inj hpa hqa h⟩

theorem axisOffset_find (l : List (ndarray T)) (axis c n : Nat) (hn : n ≤ l.length)
    (hc : c < axisOffset l axis n) :
    ∃ k, k < n ∧ axisOffset l axis k ≤ c ∧ c < axisOffset l axis (k + 1) := by
  induction n with
  | zero => rw [axisOffset_zero] at hc; omega
  | succ n ih =>
    by_cases h : c < axisOffset l axis n
    · obtain ⟨k, h1, h2, h3⟩ := ih (by omega) h
      exact ⟨k, by omega, h2, h3⟩
    · exact ⟨n, by omega, by omega, hc⟩

/-- Every in-range index of the result of `concatenate` is the destination of
some source element. -/
theorem concatenate_cover (l : List (ndarray T)) (s : Shape) (axis : Nat)
    (hrank : ∀ a ∈ l, a.shape_.length = s.length) (hax : axis < s.length)
    (hdims : ∀ a ∈ l, ∀ i, i < s.length → i ≠ axis → a.shape_.getD i 0 = s.getD i 0)
    (q : List Nat)
    (hq : List.Forall₂ (fun i d => i < d) q (s.set axis (axisOffset l axis l.length))) :
    ∃ k, ∃ hk : k < l.length, ∃ p,
      List.Forall₂ (fun i d => i < d) p (l.get ⟨k, hk⟩).shape_ ∧
      q = shiftAxis axis (axisOffset l axis k) p := by
  have hqa := forall₂_getD_lt hq axis (by simpa using hax)
  have hset : (s.set axis (axisOffset l axis l.length)).getD axis 0 =
      axisOffset l axis l.length := by
    rw [List.getD_eq_getElem _ _ (by simpa using hax), List.getElem_set_self]
  rw [hset] at hqa
  obtain ⟨k, hk, hlo, hhi⟩ := axisOffset_find l axis _ l.length (Nat.le_refl _) hqa
  rw [axisOffset_succ l axis k hk] at hhi
  have hm := List.get_mem l k hk
  have hql : q.length = s.length := by
    rw [List.Forall₂.length_eq hq, List.length_set]
  refine ⟨k, hk, q.set axis (q.getD axis 0 - axisOffset l axis k), ?_, ?_⟩
  · rw [List.forall₂_iff_get] at hq ⊢
    refine ⟨by rw [List.length_set, hql, hrank _ hm], ?_⟩
    intro i h1 h2
    have h1q : i < q.length := by simpa using h1
    have hrk := hrank _ hm
    show (q.set axis (q.getD axis 0 - axisOffset l axis k))[i] < ((l.get ⟨k, hk⟩).shape_)[i]
    rw [List.getElem_set]
    by_cases hi : axis = i
    · rw [if_pos hi]
      subst hi
      rw [List.getD_eq_getElem _ _ h2] at hhi
      omega
    · rw [if_neg hi]
      have h3 : q[i] < (s.set axis (axisOffset l axis l.length))[i] :=
        hq.2 i h1q (by rw [List.length_set]; omega)
      rw [List.getElem_set, if_neg hi] at h3
      have h4 := hdims _ hm i (by omega) (fun h => hi h.symm)
      rw [List.getD_eq_getElem _ _ h2, List.getD_eq_getElem _ _ (by omega)] at h4
      omega
  · unfold shiftAxis
    apply List.ext_getElem (by simp)
    intro i h1 h2
    simp only [List.getElem_set]
    by_cases hi : axis = i
    · rw [if_pos hi]
      subst hi
      have hqe : q.getD axis 0 = q[axis] := List.getD_eq_getElem _ _ h1
      rw [List.getD_eq_getElem _ _ (by simpa using h1), List.getElem_set_self]
      omega
    · rw [if_neg hi, if_neg hi]

/-- The copy loops of `concatenate` over dense arrays that agree with `s` outside
`axis`, into a dense result of shape `s` with the summed axis size. -/
theorem concatenate_loops [Zero T] (l : List (ndarray T)) (s : Shape) (axis : Nat)
    (hown : ∀ a ∈ l, a.IsRowMajorOwner ∧ a.shape_.prod < SIZE_T_MODULUS)
    (hrank : ∀ a ∈ l, a.shape_.length = s.length)
    (hax : axis < s.length)
    (hdims : ∀ a ∈ l, ∀ i, i < s.length → i ≠ axis → a.shape_.getD i 0 = s.getD i 0)
    (htot : axisOffset l axis l.length < SIZE_T_MODULUS)
    (hprod : (s.set axis (axisOffset l axis l.length)).prod < SIZE_T_MODULUS) :
    ∃ st, l.foldlM (concatenate_copy axis)
        ((ndarray.ctor_shape (s.set axis (axisOffset l axis l.length)) : ndarray T), 0) = .ok st ∧
      st.1.IsDense (s.set axis (axisOffset l axis l.length)) ∧
      st.1.size_ = (s.set axis (axisOffset l axis l.length)).prod ∧
      st.1.owns_data_ = true ∧
      ∀ k (hk : k < l.length) p,
        List.Forall₂ (fun i d => i < d) p (l.get ⟨k, hk⟩).shape_ →
        st.1.at (shiftAxis axis (axisOffset l axis k) p) = (l.get ⟨k, hk⟩).at p := by
  have hbound : ∀ k (hk : k < l.length),
      axisOffset l axis k + (l.get ⟨k, hk⟩).shape_.getD axis 0 ≤
        axisOffset l axis l.length := by
    intro k hk
    rw [← axisOffset_succ l axis k hk]
    exact axisOffset_mono l axis (by omega)
  have hφ : ∀ k (hk : k < l.length) p,
      List.Forall₂ (fun i d => i < d) p (l.get ⟨k, hk⟩).shape_ →
      List.Forall₂ (fun i d => i < d) (shiftAxis axis (axisOffset l axis k) p)
        (s.set axis (axisOffset l axis l.length)) := by
    intro k hk p hp
    have hm := List.get_mem l k hk
    exact shiftAxis_in_range hp (by rw [hrank _ hm]; exact hax) (hrank _ hm)
      (fun i hi hne => hdims _ hm i (by rw [← hrank _ hm]; exact hi) hne) (hbound k hk)
  have hr0 := ctor_shape_isDense (T := T) _ hprod
  have hsz0 : (ndarray.ctor_shape (s.set axis (axisOffset l axis l.length)) : ndarray T).size_ =
      (s.set axis (axisOffset l axis l.length)).prod := compute_size_of_lt _ hprod
  obtain ⟨st, h1, h2, h3, h4, h5⟩ := scatter_arrays (s.set axis (axisOffset l axis l.length)) l
    (fun a ha => (isDense_of_owner a (hown a ha).1 (hown a ha).2).1)
    (fun k p => shiftAxis axis (axisOffset l axis k) p) (fun k => axisOffset l axis k) hφ
    (fun k k2 hk hk2 p q hp hq h =>
      concatenate_index_inj l s axis hrank hax k k2 hk hk2 p q hp hq h)
    (concatenate_copy axis)
    (by
      intro k hk r hr hrsz
      have hm := List.get_mem l k hk
      obtain ⟨hd, hs⟩ := isDense_of_owner _ (hown _ hm).1 (hown _ hm).2
      refine ⟨concatenate_copy_step (l.get ⟨k, hk⟩) axis (axisOffset l axis k), ?_, ?_⟩
      · intro r2 i hr2 hr2sz hi
        exact concatenate_copy_step_eq _ r2 _ axis _ hd hs hr2 hr2sz
          (by rw [hrank _ hm]; exact hax)
          (Nat.lt_of_le_of_lt (hbound k hk) htot) (fun p hp => hφ k hk p hp) i hi
      · rw [← hs]
        exact concatenate_copy_eq axis r _ _ _
          (by show addSz (axisOffset l axis k) _ = axisOffset l axis (k + 1)
              rw [axisOffset_succ l axis k hk]
              exact addSz_of_lt (Nat.lt_of_le_of_lt (hbound k hk) htot)))
    _ hr0 hsz0
  rw [axisOffset_zero] at h1
  exact ⟨st, h1, h2, by rw [h3, hsz0], by rw [h4]; rfl, h5⟩

theorem set_getD_self (l : List Nat) (i : Nat) : l.set i (l.getD i 0) = l := by
  apply List.ext_getElem (by simp)
  intro j h1 h2
  rw [List.getElem_set]
  by_cases hi : i = j
  · rw [if_pos hi]
    subst hi
    exact List.getD_eq_getElem _ _ h2
  · rw [if_neg hi]

theorem shiftAxis_zero (axis : Nat) (p : List Nat) : shiftAxis axis 0 p = p := by
  unfold shiftAxis
  rw [Nat.add_zero]
  exact set_getD_self p axis

theorem axisOffset_single (a : ndarray T) (axis : Nat) :
    axisOffset [a] axis 1 = a.shape_.getD axis 0 := by
  simp [axisOffset]

theorem ctor_copy_owner (a : ndarray T) (ha : a.IsRowMajorOwner) :
    ndarray.ctor_copy a = .ok a := by
  obtain ⟨h1, h2, h3, h4⟩ := ha
  unfold ndarray.ctor_copy
  cases a with
  | mk shape strides data size owns =>
    simp only at h1 h4 ⊢
    subst h1
    subst h4
    by_cases hs : data.length > 0
    · rw [if_pos hs, if_neg (Nat.lt_irrefl _), List.take_length]
    · rw [if_neg hs]
      have hd : data = [] := List.length_eq_zero.mp (by omega)
      rw [hd]

/-- `concatenate` of two or more row-major owners. -/
theorem concatenate_many [Zero T] (first second : ndarray T) (rest : List (ndarray T))
    (axis : Nat)
    (hown : ∀ a ∈ first :: second :: rest, a.IsRowMajorOwner ∧ a.shape_.prod < SIZE_T_MODULUS)
    (hrank : ∀ a ∈ first :: second :: rest, a.ndim = first.ndim)
    (hax : axis < first.ndim)
    (hdims : ∀ a ∈ first :: second :: rest, ∀ i, i < first.ndim → i ≠ axis →
      a.shape_.getD i 0 = first.shape_.getD i 0)
    (htot : axisOffset (first :: second :: rest) axis (first :: second :: rest).length <
      SIZE_T_MODULUS)
    (hprod : (first.shape_.set axis
      (axisOffset (first :: second :: rest) axis (first :: second :: rest).length)).prod <
      SIZE_T_MODULUS) :
    ∃ r, concatenate (first :: second :: rest) axis = .ok r ∧
      r.shape_ = first.shape_.set axis
        (axisOffset (first :: second :: rest) axis (first :: second :: rest).length) ∧
      ∀ k (hk : k < (first :: second :: rest).length) p,
        List.Forall₂ (fun i d => i < d) p ((first :: second :: rest).get ⟨k, hk⟩).shape_ →
        r.at (shiftAxis axis (axisOffset (first :: second :: rest) axis k) p) =
          ((first :: second :: rest).get ⟨k, hk⟩).at p := by
  obtain ⟨st, h1, h2, _, _, h5⟩ := concatenate_loops (first :: second :: rest) first.shape_ axis
    hown hrank hax hdims htot hprod
  refine ⟨st.1, ?_, h2.1, h5⟩
  unfold concatenate
  simp only
  have hany : (first :: second :: rest).any (fun arr => decide (arr.ndim ≠ first.ndim)) =
      false := by
    rw [List.any_eq_false]
    intro a ha
    simp only [decide_eq_true_eq, not_not]
    exact hrank a ha
  rw [hany]
  simp only [Bool.false_eq_true, if_false]
  rw [if_neg (by omega), concatenate_check_loop _ _ _ _ hdims htot]
  simp only
  rw [h1]

theorem forall₂_insertIdx {p s : List Nat} {k n : Nat} (axis : Nat)
    (hp : List.Forall₂ (fun i d => i < d) p s) (hax : axis ≤ s.length) (hk : k < n) :
    List.Forall₂ (fun i d => i < d) (p.insertIdx axis k)
      (s.take axis ++ [n] ++ s.drop axis) := by
  induction axis generalizing p s with
  | zero =>
    rw [List.insertIdx_zero]
    simp only [List.take_zero, List.nil_append, List.drop_zero, List.singleton_append]
    exact List.Forall₂.cons hk hp
  | succ a ih =>
    cases hp with
    | nil => simp at hax
    | @cons x d xs ds hx hxs =>
      rw [List.insertIdx_succ_cons]
      simp only [List.take_succ_cons, List.drop_succ_cons, List.cons_append]
      exact List.Forall₂.cons hx (ih hxs (by simpa using hax))

theorem insertIdx_inj {p q : List Nat} {k k2 : Nat} (axis : Nat) (hp : axis ≤ p.length)
    (hq : axis ≤ q.length) (h : p.insertIdx axis k = q.insertIdx axis k2) :
    k = k2 ∧ p = q := by
  induction axis generalizing p q with
  | zero =>
    rw [List.insertIdx_zero, List.insertIdx_zero] at h
    injection h with h1 h2
    exact ⟨h1, h2⟩
  | succ a ih =>
    cases p with
    | nil => simp at hp
    | cons x xs =>
      cases q with
      | nil => simp at hq
      | cons y ys =>
        rw [List.insertIdx_succ_cons, List.insertIdx_succ_cons] at h
        injection h with h1 h2
        obtain ⟨e1, e2⟩ := ih (by simpa using hp) (by simpa using hq) h2
        exact ⟨e1, by rw [h1, e2]⟩

theorem prod_insert (s : List Nat) (axis n : Nat) :
    (s.take axis ++ [n] ++ s.drop axis).prod = n * s.prod := by
  rw [List.prod_append, List.prod_append, List.prod_singleton]
  conv_rhs => rw [← List.prod_take_mul_prod_drop s axis]
  ring

theorem stack_copy_step_eq [Zero T] (a r : ndarray T) (rs : Shape) (axis k : Nat)
    (ha : a.IsDense a.shape_) (hasz : a.size_ = a.shape_.prod)
    (hr : r.IsDense rs) (hrsz : r.size_ = rs.prod) (hax : axis ≤ a.shape_.length)
    (hφ : ∀ p, List.Forall₂ (fun i d => i < d) p a.shape_ →
      List.Forall₂ (fun i d => i < d) (p.insertIdx axis k) rs)
    (i : Nat) (hi : i < a.shape_.prod) :
    ∃ p, List.Forall₂ (fun i d => i < d) p a.shape_ ∧
      dotNat p (compute_strides a.shape_) = i ∧
      stack_copy_step a axis k r i = r.at_set (p.insertIdx axis k) (a.data_.getD i 0) := by
  obtain ⟨p, hun, hp, hdot⟩ := unravel_index_spec a.shape_ i
    (by rw [compute_size_of_lt _ ha.2.2.2]; exact hi)
  refine ⟨p, hp, hdot, ?_⟩
  have hpl : ¬ axis > p.length := by rw [List.Forall₂.length_eq hp]; omega
  have hq := hφ p hp
  unfold stack_copy_step
  rw [ha.2.1, hun]
  simp only
  rw [if_neg hpl, hr.2.1, flatten_index_in_range rs _ hr.2.2.2 hq]
  simp only
  rw [if_pos (by rw [hrsz]; exact dotNat_lt rs _ hr.2.2.2 hq), get_of_isDense a ha hasz i hi]
  simp only
  exact set_eq_at_set r rs hr hrsz _ hq _

theorem stack_copy_eq (axis e : Nat) (r a : ndarray T) (c : Nat) :
    stack_copy axis e (r, c) a =
      ((List.range e).foldlM (stack_copy_step a axis c) r).map (fun r2 => (r2, c + 1)) := by
  unfold stack_copy
  simp only
  cases (List.range e).foldlM (stack_copy_step a axis c) r <;> rfl

/-- `stack` of row-major owners of one shape `s` along an axis not beyond the
rank, when the element count of the result fits `size_t`. -/
theorem stack_ok [Zero T] (first : ndarray T) (rest : List (ndarray T)) (s : Shape)
    (axis : Nat)
    (hown : ∀ a ∈ first :: rest, a.IsRowMajorOwner ∧ a.shape_ = s)
    (hax : axis ≤ s.length)
    (hprod : (first :: rest).length * s.prod < SIZE_T_MODULUS) :
    ∃ r, stack (first :: rest) axis = .ok r ∧
      r.shape_ = s.take axis ++ [(first :: rest).length] ++ s.drop axis ∧
      ∀ k (hk : k < (first :: rest).length) p,
        List.Forall₂ (fun i d => i < d) p s →
        r.at (p.insertIdx axis k) = ((first :: rest).get ⟨k, hk⟩).at p := by
  have hsp : s.prod < SIZE_T_MODULUS := by
    have : s.prod ≤ (first :: rest).length * s.prod :=
      Nat.le_mul_of_pos_left _ (by simp)
    omega
  have hrp : (s.take axis ++ [(first :: rest).length] ++ s.drop axis).prod < SIZE_T_MODULUS := by
    rw [prod_insert]; exact hprod
  have hsh : ∀ a ∈ first :: rest, a.shape_ = s := fun a ha => (hown a ha).2
  have hdense : ∀ a ∈ first :: rest, a.IsDense a.shape_ ∧ a.size_ = a.shape_.prod :=
    fun a ha => isDense_of_owner a (hown a ha).1 (by rw [hsh a ha]; exact hsp)
  have hfirst := hsh first (List.mem_cons_self _ _)
  have hfsz : first.size_ = s.prod := by
    rw [(hdense first (List.mem_cons_self _ _)).2, hfirst]
  have hr0 := ctor_shape_isDense (T := T) _ hrp
  have hsz0 : (ndarray.ctor_shape
      (s.take axis ++ [(first :: rest).length] ++ s.drop axis) : ndarray T).size_ =
      (s.take axis ++ [(first :: rest).length] ++ s.drop axis).prod :=
    compute_size_of_lt _ hrp
  obtain ⟨st, h1, h2, _, _, h5⟩ := scatter_arrays
    (s.take axis ++ [(first :: rest).length] ++ s.drop axis) (first :: rest)
    (fun a ha => (hdense a ha).1)
    (fun k p => p.insertIdx axis k) (fun k => k)
    (by
      intro k hk p hp
      rw [hsh _ (List.get_mem _ k hk)] at hp
      exact forall₂_insertIdx axis hp hax hk)
    (by
      intro k k2 hk hk2 p q hp hq h
      rw [hsh _ (List.get_mem _ k hk)] at hp
      rw [hsh _ (List.get_mem _ k2 hk2)] at hq
      exact insertIdx_inj axis (by rw [List.Forall₂.length_eq hp]; exact hax)
        (by rw [List.Forall₂.length_eq hq]; exact hax) h)
    (stack_copy axis first.size_)
    (by
      intro k hk r hr hrsz
      have hm := List.get_mem (first :: rest) k hk
      obtain ⟨hd, hs⟩ := hdense _ hm
      refine ⟨stack_copy_step ((first :: rest).get ⟨k, hk⟩) axis k, ?_, ?_⟩
      · intro r2 i hr2 hr2sz hi
        exact stack_copy_step_eq _ r2 _ axis k hd hs hr2 hr2sz
          (by rw [hsh _ hm]; exact hax)
          (fun p hp => by
            rw [hsh _ hm] at hp
            exact forall₂_insertIdx axis hp hax hk) i hi
      · rw [hsh _ hm, ← hfsz]
        exact stack_copy_eq axis _ r _ k)
    _ hr0 hsz0
  refine ⟨st.1, ?_, h2.1, ?_⟩
  · unfold stack
    simp only
    have hany : (first :: rest).any (fun arr => decide (arr.shape_ ≠ first.shape_)) = false := by
      rw [List.any_eq_false]
      intro a ha
      simp only [decide_eq_true_eq, not_not]
      rw [hsh a ha, hfirst]
    rw [hany]
    simp only [Bool.false_eq_true, if_false]
    rw [if_neg (by rw [hfirst]; omega), hfirst]
    rw [h1]
  · intro k hk p hp
    exact h5 k hk p (by rw [hsh _ (List.get_mem _ k hk)]; exact hp)

theorem foldlM_ne_mem {α β : Type} (e : Error) (f : α → β → Except Error α) (P : α → Prop)
    (l : List β) (hP : ∀ s x s2, x ∈ l → P s → f s x = .ok s2 → P s2)
    (hf : ∀ s x, x ∈ l → P s → f s x ≠ .error e) (init : α) (h0 : P init) :
    l.foldlM f init ≠ .error e := by
  induction l generalizing init with
  | nil => intro h; cases h
  | cons x l ih =>
    rw [List.foldlM_cons]
    cases hs : f init x with
    | error e2 =>
      intro h
      have : e2 = e := by injection h
      rw [this] at hs
      exact hf init x (List.mem_cons_self _ _) h0 hs
    | ok s2 =>
      exact ih (fun s y s3 hy => hP s y s3 (List.mem_cons_of_mem _ hy))
        (fun s y hy => hf s y (List.mem_cons_of_mem _ hy)) s2
        (hP init x s2 (List.mem_cons_self _ _) h0 hs)

theorem at_ne_out_of_range (a : ndarray T) (idx : List Nat)
    (h : List.Forall₂ (fun i d => i < d) idx a.shape_) : a.at idx ≠ .error .out_of_range := by
  intro he
  unfold ndarray.at at he
  rw [if_neg (by simp [List.Forall₂.length_eq h]), any_ge_false h] at he
  simp only [Bool.false_eq_true, if_false] at he
  split at he
  · cases readAt_error _ _ _ he
  · rename_i e h2
    injection he with he
    rw [he] at h2
    cases flatten_index_loop_error _ _ _ _ h2

theorem at_set_ne_out_of_range (a : ndarray T) (idx : List Nat) (v : T)
    (h : List.Forall₂ (fun i d => i < d) idx a.shape_) :
    a.at_set idx v ≠ .error .out_of_range := by
  intro he
  unfold ndarray.at_set at he
  rw [if_neg (by simp [List.Forall₂.length_eq h]), any_ge_false h] at he
  simp only [Bool.false_eq_true, if_false] at he
  split at he
  · rename_i e h2
    injection he with he
    rw [he] at h2
    cases flatten_index_loop_error _ _ _ _ h2
  · split at he
    · rename_i e h2
      injection he with he
      rw [he] at h2
      cases writeAt_error _ _ _ _ h2
    · cases he

theorem matmul_inner_ne_range [Add T] [Mul T] (a b : ndarray T) (m n p : Nat)
    (ha : a.shape_ = [m, n]) (hb : b.shape_ = [n, p]) (i j : Nat) (s : T) (k : Nat)
    (hi : i < m) (hj : j < p) (hk : k < n) :
    matmul_inner a b i j s k ≠ .error .out_of_range := by
  intro h
  unfold matmul_inner at h
  split at h
  · rename_i e he
    injection h with h
    rw [h] at he
    exact at_ne_out_of_range a [i, k] (by rw [ha]; exact forall₂_pair hi hk) he
  · split at h
    · rename_i e he
      injection h with h
      rw [h] at he
      exact at_ne_out_of_range b [k, j] (by rw [hb]; exact forall₂_pair hk hj) he
    · cases h

theorem matmul_col_ne_range [Zero T] [Add T] [Mul T] (a b : ndarray T) (m n p : Nat)
    (ha : a.shape_ = [m, n]) (hb : b.shape_ = [n, p]) (i : Nat) (s : ndarray T) (j : Nat)
    (hs : s.shape_ = [m, p]) (hi : i < m) (hj : j < p) :
    matmul_col a b n i s j ≠ .error .out_of_range := by
  intro h
  unfold matmul_col at h
  split at h
  · rename_i e he
    injection h with h
    rw [h] at he
    exact foldlM_ne_mem .out_of_range (matmul_inner a b i j) (fun _ => True) _
      (fun _ _ _ _ _ _ => trivial)
      (fun s k hk _ => matmul_inner_ne_range a b m n p ha hb i j s k hi hj
        (List.mem_range.mp hk)) _ trivial he
  · exact at_set_ne_out_of_range _ _ _ (by rw [hs]; exact forall₂_pair hi hj) h

theorem matmul_ne_out_of_range [Zero T] [Add T] [Mul T] (a b : ndarray T) :
    matmul a b ≠ .error .out_of_range := by
  intro h
  by_cases hc : a.ndim ≠ 2 ∨ b.ndim ≠ 2 ∨ a.shape_.getD 1 0 ≠ b.shape_.getD 0 0
  · rw [(matmul_throws_iff a b).mpr hc] at h
    cases h
  · simp only [not_or, not_not, ndarray.ndim] at hc
    obtain ⟨hla, hlb, hin⟩ := hc
    obtain ⟨m, n, ha⟩ : ∃ m n, a.shape_ = [m, n] := by
      match hsa : a.shape_, hla with
      | [x, y], _ => exact ⟨x, y, rfl⟩
    obtain ⟨n2, p, hb⟩ : ∃ n2 p, b.shape_ = [n2, p] := by
      match hsb : b.shape_, hlb with
      | [x, y], _ => exact ⟨x, y, rfl⟩
    have hn : n2 = n := by
      rw [ha, hb] at hin
      simpa using hin.symm
    subst hn
    rw [matmul_unfold a b m n2 p ha hb] at h
    exact foldlM_ne_mem .out_of_range (matmul_row a b n2 p) (fun s => s.shape_ = [m, p]) _
      (fun s i s2 _ hs hstep => by
        unfold matmul_row at hstep
        exact foldlM_preserves (matmul_col a b n2 i) (fun s => s.shape_ = [m, p])
          (fun s j s2 hs hj => by
            show s2.shape_ = [m, p]
            rw [matmul_col_shape a b n2 i s s2 j hj]; exact hs) _ s s2 hs hstep)
      (fun s i hi hs => by
        unfold matmul_row
        exact foldlM_ne_mem .out_of_range (matmul_col a b n2 i) (fun s => s.shape_ = [m, p]) _
          (fun s j s2 _ hs hj => by
            show s2.shape_ = [m, p]
            rw [matmul_col_shape a b n2 i s s2 j hj]; exact hs)
          (fun s j hj hs => matmul_col_ne_range a b m n2 p ha hb i s j hs
            (List.mem_range.mp hi) (List.mem_range.mp hj)) s hs)
      _ rfl h

theorem transpose_cell_ne_range (arr : ndarray T) (m n : Nat) (harr : arr.shape_ = [m, n])
    (i : Nat) (s : ndarray T) (j : Nat) (hs : s.shape_ = [n, m]) (hi : i < m) (hj : j < n) :
    transpose_cell arr i s j ≠ .error .out_of_range := by
  intro h
  unfold transpose_cell at h
  split at h
  · rename_i e he
    injection h with h
    rw [h] at he
    exact at_ne_out_of_range arr [i, j] (by rw [harr]; exact forall₂_pair hi hj) he
  · exact at_set_ne_out_of_range _ _ _ (by rw [hs]; exact forall₂_pair hj hi) h

theorem transpose_ne_out_of_range [Zero T] (arr : ndarray T) :
    transpose arr ≠ .error .out_of_range := by
  intro h
  by_cases hc : arr.ndim ≠ 2
  · rw [(transpose_throws_iff arr).mpr hc] at h
    cases h
  · simp only [not_not, ndarray.ndim] at hc
    obtain ⟨m, n, ha⟩ : ∃ m n, arr.shape_ = [m, n] := by
      match hsa : arr.shape_, hc with
      | [x, y], _ => exact ⟨x, y, rfl⟩
    rw [transpose_unfold arr m n ha] at h
    exact foldlM_ne_mem .out_of_range (transpose_row arr n) (fun s => s.shape_ = [n, m]) _
      (fun s i s2 _ hs hstep => by
        unfold transpose_row at hstep
        exact foldlM_preserves (transpose_cell arr i) (fun s => s.shape_ = [n, m])
          (fun s j s2 hs hj => by
            show s2.shape_ = [n, m]
            rw [transpose_cell_shape arr i s s2 j hj]; exact hs) _ s s2 hs hstep)
      (fun s i hi hs => by
        unfold transpose_row
        exact foldlM_ne_mem .out_of_range (transpose_cell arr i) (fun s => s.shape_ = [n, m]) _
          (fun s j s2 _ hs hj => by
            show s2.shape_ = [n, m]
            rw [transpose_cell_shape arr i s s2 j hj]; exact hs)
          (fun s j hj hs => transpose_cell_ne_range arr m n ha i s j hs
            (List.mem_range.mp hi) (List.mem_range.mp hj)) s hs)
      _ rfl h

/-- C11 (amended): `matmul(a, b)` throws if and only if `a` is not of rank 2, or
`b` is not of rank 2, or `a.shape[1] != b.shape[0]` (a `std::runtime_error`; it
never throws `std::out_of_range`); for operands of shapes
`(m, n)` and `(n, p)` whose elements can all be read through `at` and whose
result element count `m * p` is below `2 ^ 64`, it returns an array of shape
`(m, p)` whose element `(i, j)` is the sum over `k < n` of `a[i][k] * b[k][j]`. -/
theorem matmul_spec [Semiring T] (a b : ndarray T) :
    (matmul a b = .error .runtime_error ↔
      (a.ndim ≠ 2 ∨ b.ndim ≠ 2 ∨ a.shape_.getD 1 0 ≠ b.shape_.getD 0 0)) ∧
    matmul a b ≠ .error .out_of_range ∧
    ∀ (m n p : Nat) (A B : Nat → Nat → T),
      a.shape_ = [m, n] → b.shape_ = [n, p] → m * p < SIZE_T_MODULUS →
      (∀ i k, i < m → k < n → a.at [i, k] = .ok (A i k)) →
      (∀ k j, k < n → j < p → b.at [k, j] = .ok (B k j)) →
      ∃ r, matmul a b = .ok r ∧ r.shape_ = [m, p] ∧
        ∀ i j, i < m → j < p →
          r.at [i, j] = .ok (∑ k in Finset.range n, A i k * B k j) := by
  refine ⟨matmul_throws_iff a b, matmul_ne_out_of_range a b, ?_⟩
  intro m n p A B ha hb hprod hA hB
  obtain ⟨r, h1, h2, _, _, h5⟩ := matmul_ok a b m n p A B ha hb hprod hA hB
  exact ⟨r, h1, h2.1, h5⟩

/-- Witness for C11: `matmul([[1,2,3],[4,5,6]], [[1,2],[3,4],[5,6]])` is
`[[22,28],[49,64]]`. -/
theorem matmul_spec_witness :
    ∃ r : ndarray Int,
      matmul (⟨[2, 3], [3, 1], [1, 2, 3, 4, 5, 6], 6, true⟩ : ndarray Int)
        ⟨[3, 2], [2, 1], [1, 2, 3, 4, 5, 6], 6, true⟩ = .ok r ∧
      r.shape_ = [2, 2] ∧ r.at [0, 0] = .ok 22 ∧ r.at [0, 1] = .ok 28 ∧
      r.at [1, 0] = .ok 49 ∧ r.at [1, 1] = .ok 64 := by
  obtain ⟨r, h1, h2, h3⟩ :=
    (matmul_spec (⟨[2, 3], [3, 1], [1, 2, 3, 4, 5, 6], 6, true⟩ : ndarray Int)
      ⟨[3, 2], [2, 1], [1, 2, 3, 4, 5, 6], 6, true⟩).2.2 2 3 2
      (fun i k => ([1, 2, 3, 4, 5, 6] : List Int).getD (i * 3 + k) 0)
      (fun k j => ([1, 2, 3, 4, 5, 6] : List Int).getD (k * 2 + j) 0)
      rfl rfl (by decide)
      (by intro i k hi hk; interval_cases i <;> interval_cases k <;> rfl)
      (by intro k j hk hj; interval_cases k <;> interval_cases j <;> rfl)
  refine ⟨r, h1, h2, ?_, ?_, ?_, ?_⟩
  · rw [h3 0 0 (by decide) (by decide)]; rfl
  · rw [h3 0 1 (by decide) (by decide)]; rfl
  · rw [h3 1 0 (by decide) (by decide)]; rfl
  · rw [h3 1 1 (by decide) (by decide)]; rfl

/-- Counterexample for C11 as stated: the zero-filled owning arrays of shapes
`(2^32, 0)` and `(0, 2^32)` are of rank 2 with matching inner dimensions, yet
`matmul` returns no array: the `size_t` element count of the `(2^32, 2^32)`
result wraps to 0 and the first write lands outside the empty buffer. -/
theorem matmul_counterexample :
    (ndarray.ctor_shape [4294967296, 0] : ndarray Int).ndim = 2 ∧
    (ndarray.ctor_shape [0, 4294967296] : ndarray Int).ndim = 2 ∧
    (ndarray.ctor_shape [4294967296, 0] : ndarray Int).shape_.getD 1 0 =
      (ndarray.ctor_shape [0, 4294967296] : ndarray Int).shape_.getD 0 0 ∧
    matmul (ndarray.ctor_shape [4294967296, 0] : ndarray Int)
      (ndarray.ctor_shape [0, 4294967296]) = .error .undefined := by
  refine ⟨rfl, rfl, rfl, ?_⟩
  rw [matmul_unfold _ _ 4294967296 0 4294967296 rfl rfl]
  apply foldlM_range_error_first _ _ _ _ (by decide)
  unfold matmul_row
  apply foldlM_range_error_first _ _ _ _ (by decide)
  decide

/-- C12: on a square matrix of shape `(n, n)` whose elements can all be read,
`determinant` returns the Leibniz determinant for `n = 1` and `n = 2` (the two
closed forms), and throws for every `n >= 3`: the submatrix of the Laplace
expansion is built by the one-dimensional constructor and then written with two
indices. -/
theorem determinant_small_and_large [CommRing T] (arr : ndarray T) (n : Nat)
    (A : Matrix (Fin n) (Fin n) T) (hshape : arr.shape_ = [n, n])
    (hA : ∀ i j : Fin n, arr.at [i.val, j.val] = .ok (A i j)) :
    (n = 1 ∨ n = 2 → determinant arr = .ok A.det) ∧
    (3 ≤ n → determinant arr = .error .runtime_error) := by
  constructor
  · rintro (h | h)
    · subst h
      rw [determinant_one arr hshape, Matrix.det_fin_one]
      exact hA 0 0
    · subst h
      rw [determinant_two_eq arr hshape,
        determinant_two_ok arr _ _ _ _ (hA 0 0) (hA 0 1) (hA 1 0) (hA 1 1),
        Matrix.det_fin_two]
  · intro h
    exact determinant_throws_of_three arr n h hshape _ _
      (hA ⟨1, by omega⟩ ⟨0, by omega⟩) (hA ⟨1, by omega⟩ ⟨1, by omega⟩)

/-- Witness for C12: `determinant` of the 3x3 identity matrix throws, while its
Leibniz determinant is 1. -/
theorem determinant_small_and_large_witness :
    determinant (⟨[3, 3], [3, 1], [1, 0, 0, 0, 1, 0, 0, 0, 1], 9, true⟩ : ndarray Int) =
      .error .runtime_error ∧
    (1 : Matrix (Fin 3) (Fin 3) Int).det = 1 :=
  ⟨(determinant_small_and_large
      (⟨[3, 3], [3, 1], [1, 0, 0, 0, 1, 0, 0, 0, 1], 9, true⟩ : ndarray Int) 3
      (1 : Matrix (Fin 3) (Fin 3) Int) rfl (by decide)).2 (by decide),
    Matrix.det_one⟩

/-- C13: on a readable square matrix of shape `(n, n)`: for `n = 1` with
`|a[0][0]| >= 1e-10`, `inverse` succeeds and `matmul(m, inverse(m))` is the 1x1
identity matrix; for every `n >= 2`, `inverse` throws, because the 2x2 result
(and, for larger matrices, the submatrix inside `determinant`) is built by the
one-dimensional constructor and then written with two indices. -/
theorem inverse_matmul_identity [LinearOrderedField T] (arr : ndarray T) (n : Nat)
    (hshape : arr.shape_ = [n, n])
    (hread : ∀ i j, i < n → j < n → ∃ v, arr.at [i, j] = .ok v) :
    (n = 1 → ∀ v, arr.at [0, 0] = .ok v → ¬ |v| < 1 / 10000000000 →
      ∃ inv r, inverse arr = .ok inv ∧ matmul arr inv = .ok r ∧ r.shape_ = [1, 1] ∧
        r.at [0, 0] = .ok 1) ∧
    (2 ≤ n → inverse arr = .error .runtime_error) := by
  constructor
  · intro h1 v hv hbig
    subst h1
    have hv0 : v ≠ 0 := by
      intro h0
      apply hbig
      rw [h0, abs_zero]
      norm_num
    obtain ⟨r, e1, e2, _, _, e5⟩ := matmul_ok arr
      (⟨[1, 1], [1, 1], [1 / v], 1, true⟩ : ndarray T) 1 1 1 (fun _ _ => v)
      (fun _ _ => 1 / v) hshape rfl (by decide)
      (by
        intro i k hi hk
        have hi0 : i = 0 := by omega
        have hk0 : k = 0 := by omega
        rw [hi0, hk0]
        exact hv)
      (by
        intro k j hk hj
        have hj0 : j = 0 := by omega
        have hk0 : k = 0 := by omega
        rw [hj0, hk0]
        rfl)
    refine ⟨_, r, inverse_one arr v hshape hv hbig, e1, e2.1, ?_⟩
    rw [e5 0 0 (by decide) (by decide)]
    simp [hv0]
  · intro h2
    exact inverse_throws_of_two arr n h2 hshape hread

/-- Witness for C13: `inverse([[4, 7], [2, 6]])`, whose determinant is 10, throws. -/
theorem inverse_matmul_identity_witness :
    inverse (⟨[2, 2], [2, 1], [4, 7, 2, 6], 4, true⟩ : ndarray ℚ) = .error .runtime_error ∧
    determinant (⟨[2, 2], [2, 1], [4, 7, 2, 6], 4, true⟩ : ndarray ℚ) = .ok 10 := by
  have hread : ∀ i j, i < 2 → j < 2 →
      ∃ v, (⟨[2, 2], [2, 1], [4, 7, 2, 6], 4, true⟩ : ndarray ℚ).at [i, j] = .ok v := by
    intro i j hi hj
    exact ⟨_, isDense_at (⟨[2, 2], [2, 1], [4, 7, 2, 6], 4, true⟩ : ndarray ℚ) [2, 2]
      ⟨rfl, rfl, rfl, by decide⟩ [i, j] (forall₂_pair hi hj)⟩
  refine ⟨(inverse_matmul_identity _ 2 rfl hread).2 (by decide), ?_⟩
  rw [determinant_two_eq _ rfl,
    determinant_two_ok (⟨[2, 2], [2, 1], [4, 7, 2, 6], 4, true⟩ : ndarray ℚ) 4 7 2 6
      rfl rfl rfl rfl]
  norm_num

/-- C14 (amended): `inverse(a)` throws when `a` is not a square rank-2 matrix and
when its determinant has absolute value below `1e-10` (strictly); a 1x1 matrix
`[[v]]` is inverted to `[[1 / v]]` exactly when `|v| >= 1e-10`, the value `1e-10`
included. -/
theorem inverse_failure_conditions [LinearOrderedField T] (arr : ndarray T) :
    ((arr.ndim ≠ 2 ∨ arr.shape_.getD 0 0 ≠ arr.shape_.getD 1 0) →
      inverse arr = .error .runtime_error) ∧
    (∀ d, determinant arr = .ok d → |d| < 1 / 10000000000 →
      inverse arr = .error .runtime_error) ∧
    (∀ v, arr.shape_ = [1, 1] → arr.at [0, 0] = .ok v →
      (inverse arr = .ok ⟨[1, 1], [1, 1], [1 / v], 1, true⟩ ↔ ¬ |v| < 1 / 10000000000)) := by
  refine ⟨inverse_not_square arr, fun d hd hs => inverse_singular arr d hd hs, ?_⟩
  intro v hshape hv
  constructor
  · intro h hsmall
    have hd : determinant arr = .ok v := by rw [determinant_one arr hshape, hv]
    rw [inverse_singular arr v hd hsmall] at h
    cases h
  · intro hbig
    exact inverse_one arr v hshape hv hbig

/-- Witness for C14: `inverse([[2]])` is `[[1/2]]`, and `inverse([[0]])` throws. -/
theorem inverse_failure_conditions_witness :
    inverse (⟨[1, 1], [1, 1], [2], 1, true⟩ : ndarray ℚ) =
      .ok ⟨[1, 1], [1, 1], [1 / 2], 1, true⟩ ∧
    inverse (⟨[1, 1], [1, 1], [0], 1, true⟩ : ndarray ℚ) = .error .runtime_error := by
  constructor
  · exact ((inverse_failure_conditions
      (⟨[1, 1], [1, 1], [2], 1, true⟩ : ndarray ℚ)).2.2 2 rfl rfl).2 (by norm_num)
  · exact (inverse_failure_conditions
      (⟨[1, 1], [1, 1], [0], 1, true⟩ : ndarray ℚ)).2.1 0
      (by rw [determinant_one _ rfl]; rfl) (by norm_num)

/-- Counterexample for C14 as stated: the 1x1 matrix `[[1e-10]]` has a determinant
of absolute value exactly `1e-10`, which does not exceed the threshold, and
`inverse` succeeds with `[[1e10]]`. -/
theorem inverse_failure_conditions_counterexample :
    determinant (⟨[1, 1], [1, 1], [1 / 10000000000], 1, true⟩ : ndarray ℚ) =
      .ok (1 / 10000000000) ∧
    |(1 / 10000000000 : ℚ)| = 1 / 10000000000 ∧
    inverse (⟨[1, 1], [1, 1], [1 / 10000000000], 1, true⟩ : ndarray ℚ) =
      .ok ⟨[1, 1], [1, 1], [10000000000], 1, true⟩ := by
  refine ⟨by rw [determinant_one _ rfl]; rfl, by norm_num [abs_of_pos], ?_⟩
  rw [inverse_one (⟨[1, 1], [1, 1], [1 / 10000000000], 1, true⟩ : ndarray ℚ)
    (1 / 10000000000) rfl rfl (by norm_num [abs_of_pos])]
  norm_num

/-- C15 (amended): for every array of shape `(m, n)` whose elements can all be
read through `at` and whose element count `m * n` is below `2 ^ 64`,
`transpose(transpose(a))` succeeds, has the shape of `a` and holds the element
of `a` at every `(i, j)`. -/
theorem transpose_involution [Zero T] (arr : ndarray T) (m n : Nat) (A : Nat → Nat → T)
    (hshape : arr.shape_ = [m, n]) (hprod : m * n < SIZE_T_MODULUS)
    (hA : ∀ i j, i < m → j < n → arr.at [i, j] = .ok (A i j)) :
    ∃ t r, transpose arr = .ok t ∧ transpose t = .ok r ∧ r.shape_ = arr.shape_ ∧
      ∀ i j, i < m → j < n → r.at [i, j] = arr.at [i, j] := by
  obtain ⟨t, h1, h2, _, _, h5⟩ := transpose_ok arr m n A hshape hprod hA
  obtain ⟨r, e1, e2, _, _, e5⟩ := transpose_ok t n m (fun j i => A i j) h2.1
    (by rw [Nat.mul_comm]; exact hprod) (fun j i hj hi => h5 i j hi hj)
  refine ⟨t, r, h1, e1, by rw [e2.1, hshape], ?_⟩
  intro i j hi hj
  rw [e5 j i hj hi, hA i j hi hj]

/-- Witness for C15: transposing `[[1,2,3],[4,5,6]]` twice gives it back. -/
theorem transpose_involution_witness :
    ∃ t : ndarray Int,
      transpose (⟨[2, 3], [3, 1], [1, 2, 3, 4, 5, 6], 6, true⟩ : ndarray Int) = .ok t ∧
      transpose t = .ok ⟨[2, 3], [3, 1], [1, 2, 3, 4, 5, 6], 6, true⟩ ∧
      ∃ r, transpose t = .ok r ∧ ∀ i j, i < 2 → j < 3 →
        r.at [i, j] = (⟨[2, 3], [3, 1], [1, 2, 3, 4, 5, 6], 6, true⟩ : ndarray Int).at [i, j] := by
  obtain ⟨t, r, h1, h2, _, h4⟩ := transpose_involution
    (⟨[2, 3], [3, 1], [1, 2, 3, 4, 5, 6], 6, true⟩ : ndarray Int) 2 3
    (fun i j => ([1, 2, 3, 4, 5, 6] : List Int).getD (i * 3 + j) 0) rfl (by decide)
    (by intro i j hi hj; interval_cases i <;> interval_cases j <;> rfl)
  have ht : t = ⟨[3, 2], [2, 1], [1, 4, 2, 5, 3, 6], 6, true⟩ := by
    have : transpose (⟨[2, 3], [3, 1], [1, 2, 3, 4, 5, 6], 6, true⟩ : ndarray Int) =
        .ok ⟨[3, 2], [2, 1], [1, 4, 2, 5, 3, 6], 6, true⟩ := by decide
    rw [this] at h1
    injection h1 with h1
    exact h1.symm
  refine ⟨t, h1, ?_, r, h2, h4⟩
  rw [ht]
  decide

/-- Counterexample for C15 as stated: the rank-2 view of shape `(2^32, 2^32)` with
strides `(0, 0)` over a one-element buffer can be read at every index, but
`transpose` of it returns no array (the `size_t` element count of the result
wraps to 0 and the first write lands outside the empty buffer), so
`transpose(transpose(a))` has no value. -/
theorem transpose_involution_counterexample :
    (ndarray.create_view [4294967296, 4294967296] [0, 0] [7] : ndarray Int).ndim = 2 ∧
    (ndarray.create_view [4294967296, 4294967296] [0, 0] [7] : ndarray Int).at [0, 0] =
      .ok 7 ∧
    transpose (ndarray.create_view [4294967296, 4294967296] [0, 0] [7] : ndarray Int) =
      .error .undefined := by
  refine ⟨rfl, by decide, ?_⟩
  rw [transpose_unfold _ 4294967296 4294967296 rfl]
  apply foldlM_range_error_first _ _ _ _ (by decide)
  unfold transpose_row
  apply foldlM_range_error_first _ _ _ _ (by decide)
  decide

/-- C16 (amended): `transpose(a)` throws if and only if `a` is not of rank 2 (a
`std::runtime_error`; it never throws `std::out_of_range`); for
`a` of shape `(m, n)` whose elements can all be read through `at` and whose
element count `m * n` is below `2 ^ 64`, the result has shape `(n, m)` and its
element `(j, i)` is the element `(i, j)` of `a` for all `i < m`, `j < n`. -/
theorem transpose_spec [Zero T] (arr : ndarray T) :
    (transpose arr = .error .runtime_error ↔ arr.ndim ≠ 2) ∧
    transpose arr ≠ .error .out_of_range ∧
    ∀ (m n : Nat) (A : Nat → Nat → T), arr.shape_ = [m, n] → m * n < SIZE_T_MODULUS →
      (∀ i j, i < m → j < n → arr.at [i, j] = .ok (A i j)) →
      ∃ r, transpose arr = .ok r ∧ r.shape_ = [n, m] ∧
        ∀ i j, i < m → j < n → r.at [j, i] = .ok (A i j) := by
  refine ⟨transpose_throws_iff arr, transpose_ne_out_of_range arr, ?_⟩
  intro m n A hshape hprod hA
  obtain ⟨r, h1, h2, _, _, h5⟩ := transpose_ok arr m n A hshape hprod hA
  exact ⟨r, h1, h2.1, h5⟩

/-- Witness for C16: `transpose([[1,2,3],[4,5,6]])` has shape `(3, 2)` and holds
`a[0][2] = 3` at `(2, 0)` and `a[1][0] = 4` at `(0, 1)`. -/
theorem transpose_spec_witness :
    ∃ r : ndarray Int,
      transpose (⟨[2, 3], [3, 1], [1, 2, 3, 4, 5, 6], 6, true⟩ : ndarray Int) = .ok r ∧
      r.shape_ = [3, 2] ∧ r.at [2, 0] = .ok 3 ∧ r.at [0, 1] = .ok 4 := by
  obtain ⟨r, h1, h2, h3⟩ :=
    (transpose_spec (⟨[2, 3], [3, 1], [1, 2, 3, 4, 5, 6], 6, true⟩ : ndarray Int)).2.2 2 3
      (fun i j => ([1, 2, 3, 4, 5, 6] : List Int).getD (i * 3 + j) 0) rfl (by decide)
      (by intro i j hi hj; interval_cases i <;> interval_cases j <;> rfl)
  exact ⟨r, h1, h2, h3 0 2 (by decide) (by decide), h3 1 0 (by decide) (by decide)⟩

/-- Counterexample for C16 as stated: the rank-2 view of shape `(2^63, 2)` with
strides `(0, 0)` over a one-element buffer can be read at every index and is of
rank 2, but `transpose` of it returns no array of shape `(2, 2^63)`: the
`size_t` element count of the result wraps to 0 and the first write lands
outside the empty buffer. -/
theorem transpose_spec_counterexample :
    (ndarray.create_view [9223372036854775808, 2] [0, 0] [7] : ndarray Int).ndim = 2 ∧
    (ndarray.create_view [9223372036854775808, 2] [0, 0] [7] : ndarray Int).at [0, 0] =
      .ok 7 ∧
    transpose (ndarray.create_view [9223372036854775808, 2] [0, 0] [7] : ndarray Int) =
      .error .undefined := by
  refine ⟨rfl, by decide, ?_⟩
  rw [transpose_unfold _ 9223372036854775808 2 rfl]
  apply foldlM_range_error_first _ _ _ _ (by decide)
  unfold transpose_row
  apply foldlM_range_error_first _ _ _ _ (by decide)
  decide

theorem unravel_index_error (f : Nat) (shape : Shape) (strides : Strides) (e : Error)
    (h : unravel_index f shape strides = .error e) : e = .undefined := by
  induction shape generalizing f strides with
  | nil => simp [unravel_index] at h
  | cons d ds ih =>
    cases strides with
    | nil =>
      simp only [unravel_index] at h
      injection h with h
      exact h.symm
    | cons s ss =>
      simp only [unravel_index] at h
      split at h
      · injection h with h
        exact h.symm
      · split at h
        · cases h
        · rename_i e2 he
          injection h with h
          rw [h] at he
          exact ih _ _ he

theorem get_ne_runtime (a : ndarray T) (i : Nat) : a.get i ≠ .error .runtime_error := by
  intro h
  unfold ndarray.get at h
  split at h
  · cases h
  · cases readAt_error _ _ _ h

theorem set_ne_runtime (a : ndarray T) (i : Nat) (v : T) :
    a.set i v ≠ .error .runtime_error := by
  intro h
  unfold ndarray.set at h
  split at h
  · cases h
  · split at h
    · cases h
    · rename_i e he
      injection h with h
      rw [h] at he
      cases writeAt_error _ _ _ _ he

theorem stack_copy_step_ne (a : ndarray T) (axis k : Nat) (r : ndarray T) (i : Nat) :
    stack_copy_step a axis k r i ≠ .error .runtime_error := by
  intro h
  unfold stack_copy_step at h
  split at h
  · rename_i e he
    injection h with h
    rw [h] at he
    cases unravel_index_error _ _ _ _ he
  · split at h
    · cases h
    · simp only at h
      split at h
      · rename_i e he
        injection h with h
        rw [h] at he
        cases flatten_index_loop_error _ _ _ _ he
      · split at h
        · split at h
          · rename_i e he
            injection h with h
            rw [h] at he
            exact get_ne_runtime _ _ he
          · exact set_ne_runtime _ _ _ h
        · cases h

theorem stack_copy_ne (axis e : Nat) (st : ndarray T × Nat) (a : ndarray T) :
    stack_copy axis e st a ≠ .error .runtime_error := by
  intro h
  unfold stack_copy at h
  split at h
  · rename_i e2 he
    injection h with h
    rw [h] at he
    exact foldlM_ne_runtime _ (fun s i => stack_copy_step_ne a axis st.2 s i) _ _ he
  · cases h

/-- `stack` throws exactly when the list is empty or some array's shape differs
from the first array's shape; no value of `axis` makes it throw. -/
theorem stack_throws_iff [Zero T] (first : ndarray T) (rest : List (ndarray T)) (axis : Nat) :
    stack (first :: rest) axis = .error .runtime_error ↔
      ∃ a ∈ first :: rest, a.shape_ ≠ first.shape_ := by
  unfold stack
  simp only
  constructor
  · intro h
    by_contra hcon
    have hany : (first :: rest).any (fun arr => decide (arr.shape_ ≠ first.shape_)) = false := by
      rw [List.any_eq_false]
      intro a ha
      simp only [decide_eq_true_eq]
      intro hne
      exact hcon ⟨a, ha, hne⟩
    rw [hany] at h
    simp only [Bool.false_eq_true, if_false] at h
    split at h
    · cases h
    · split at h
      · rename_i e he
        injection h with h
        rw [h] at he
        exact foldlM_ne_runtime_inv (stack_copy axis first.size_) (fun _ => True)
          (fun _ _ _ _ _ => trivial) (fun s x _ => stack_copy_ne axis _ s x) _ _ trivial he
      · cases h
  · rintro ⟨a, ha, hne⟩
    have hany : (first :: rest).any (fun arr => decide (arr.shape_ ≠ first.shape_)) = true := by
      rw [List.any_eq_true]
      exact ⟨a, ha, by simpa using hne⟩
    rw [hany]
    rfl

theorem stack_nil [Zero T] (axis : Nat) :
    stack ([] : List (ndarray T)) axis = .error .runtime_error := rfl

theorem concatenate_axis_throws [Zero T] (first second : ndarray T) (rest : List (ndarray T))
    (axis : Nat) (hax : first.ndim ≤ axis) :
    concatenate (first :: second :: rest) axis = .error .runtime_error := by
  unfold concatenate
  simp only
  rw [if_pos hax]
  split <;> rfl

/-- C17 (amended): for a non-empty list of owning arrays with the row-major
strides of their shapes, all of the same rank and agreeing on every dimension
except `axis`, with `axis < rank`, whose element counts, total axis size and
result element count are below `2 ^ 64`: `concatenate(arrays, axis)` has the
shape of the first array with the `axis` dimension replaced by the sum of the
inputs' axis sizes; for every `k` and every in-range multi-index `p` of
`arrays[k]`, the result's element at `p` with `p[axis]` increased by the total
axis size of `arrays[0..k-1]` is the element of `arrays[k]` at `p`; and every
in-range multi-index of the result is such a destination for exactly one pair
`(k, p)`. -/
theorem concatenate_spec [Zero T] (first : ndarray T) (rest : List (ndarray T)) (axis : Nat)
    (hown : ∀ a ∈ first :: rest, a.IsRowMajorOwner ∧ a.shape_.prod < SIZE_T_MODULUS)
    (hrank : ∀ a ∈ first :: rest, a.ndim = first.ndim)
    (hax : axis < first.ndim)
    (hdims : ∀ a ∈ first :: rest, ∀ i, i < first.ndim → i ≠ axis →
      a.shape_.getD i 0 = first.shape_.getD i 0)
    (htot : axisOffset (first :: rest) axis (first :: rest).length < SIZE_T_MODULUS)
    (hprod : (first.shape_.set axis
      (axisOffset (first :: rest) axis (first :: rest).length)).prod < SIZE_T_MODULUS) :
    ∃ r, concatenate (first :: rest) axis = .ok r ∧
      r.shape_ = first.shape_.set axis
        (axisOffset (first :: rest) axis (first :: rest).length) ∧
      (∀ k (hk : k < (first :: rest).length) p,
        List.Forall₂ (fun i d => i < d) p ((first :: rest).get ⟨k, hk⟩).shape_ →
        ∃ v, ((first :: rest).get ⟨k, hk⟩).at p = .ok v ∧
          r.at (shiftAxis axis (axisOffset (first :: rest) axis k) p) = .ok v) ∧
      (∀ q, List.Forall₂ (fun i d => i < d) q r.shape_ →
        ∃ k, ∃ hk : k < (first :: rest).length, ∃ p,
          List.Forall₂ (fun i d => i < d) p ((first :: rest).get ⟨k, hk⟩).shape_ ∧
          q = shiftAxis axis (axisOffset (first :: rest) axis k) p ∧
          ∀ k2 (hk2 : k2 < (first :: rest).length) p2,
            List.Forall₂ (fun i d => i < d) p2 ((first :: rest).get ⟨k2, hk2⟩).shape_ →
            q = shiftAxis axis (axisOffset (first :: rest) axis k2) p2 → k2 = k ∧ p2 = p) := by
  have key : ∃ r, concatenate (first :: rest) axis = .ok r ∧
      r.shape_ = first.shape_.set axis
        (axisOffset (first :: rest) axis (first :: rest).length) ∧
      ∀ k (hk : k < (first :: rest).length) p,
        List.Forall₂ (fun i d => i < d) p ((first :: rest).get ⟨k, hk⟩).shape_ →
        r.at (shiftAxis axis (axisOffset (first :: rest) axis k) p) =
          ((first :: rest).get ⟨k, hk⟩).at p := by
    cases rest with
    | nil =>
      have hc : concatenate [first] axis = ndarray.ctor_copy first := rfl
      refine ⟨first, ?_, ?_, ?_⟩
      · rw [hc]
        exact ctor_copy_owner first (hown first (List.mem_cons_self _ _)).1
      · show first.shape_ = first.shape_.set axis (axisOffset [first] axis 1)
        rw [axisOffset_single, set_getD_self]
      · intro k hk p _
        have hk0 : k = 0 := by
          have : k < 1 := hk
          omega
        subst hk0
        rw [axisOffset_zero, shiftAxis_zero]
        rfl
    | cons second rest =>
      exact concatenate_many first second rest axis hown hrank hax hdims htot hprod
  obtain ⟨r, h1, h2, h3⟩ := key
  refine ⟨r, h1, h2, ?_, ?_⟩
  · intro k hk p hp
    have hm := List.get_mem (first :: rest) k hk
    have hd := (isDense_of_owner _ (hown _ hm).1 (hown _ hm).2).1
    exact ⟨_, isDense_at _ _ hd p hp, by rw [h3 k hk p hp]; exact isDense_at _ _ hd p hp⟩
  · intro q hq
    rw [h2] at hq
    obtain ⟨k, hk, p, hp, hqp⟩ := concatenate_cover (first :: rest) first.shape_ axis
      hrank hax hdims q hq
    refine ⟨k, hk, p, hp, hqp, ?_⟩
    intro k2 hk2 p2 hp2 hq2
    exact concatenate_index_inj (first :: rest) first.shape_ axis hrank hax k2 k hk2 hk p2 p
      hp2 hp (by rw [← hq2, ← hqp])

/-- Witness for C17: `[[1,2],[3,4]]` and `[[5,6]]` concatenated along axis 0 give
shape `(3, 2)`, and the element `(0, 1)` of the second array, 6, is found at
`(2, 1)`. -/
theorem concatenate_spec_witness :
    ∃ r : ndarray Int,
      concatenate [(⟨[2, 2], [2, 1], [1, 2, 3, 4], 4, true⟩ : ndarray Int),
        ⟨[1, 2], [2, 1], [5, 6], 2, true⟩] 0 = .ok r ∧
      r.shape_ = [3, 2] ∧
      (⟨[1, 2], [2, 1], [5, 6], 2, true⟩ : ndarray Int).at [0, 1] = .ok 6 ∧
      r.at [2, 1] = .ok 6 := by
  obtain ⟨r, h1, h2, h3, _⟩ := concatenate_spec
    (⟨[2, 2], [2, 1], [1, 2, 3, 4], 4, true⟩ : ndarray Int)
    [⟨[1, 2], [2, 1], [5, 6], 2, true⟩] 0
    (by
      intro a ha
      simp only [List.mem_cons, List.mem_singleton, List.not_mem_nil, or_false] at ha
      rcases ha with rfl | rfl <;>
        exact ⟨by unfold ndarray.IsRowMajorOwner; decide, by decide⟩)
    (by
      intro a ha
      simp only [List.mem_cons, List.mem_singleton, List.not_mem_nil, or_false] at ha
      rcases ha with rfl | rfl <;> rfl)
    (by decide)
    (by
      intro a ha i hi hne
      simp only [List.mem_cons, List.mem_singleton, List.not_mem_nil, or_false] at ha
      have hi2 : i < 2 := hi
      have hi1 : i = 1 := by omega
      subst hi1
      rcases ha with rfl | rfl <;> rfl)
    (by decide) (by decide)
  obtain ⟨v, hv, hr⟩ := h3 1 (by decide) [0, 1]
    (List.Forall₂.cons (by decide) (List.Forall₂.cons (by decide) List.Forall₂.nil))
  have hv6 : v = 6 := by
    have h6 : (⟨[1, 2], [2, 1], [5, 6], 2, true⟩ : ndarray Int).at [0, 1] = .ok 6 := by decide
    have hv2 : (⟨[1, 2], [2, 1], [5, 6], 2, true⟩ : ndarray Int).at [0, 1] = .ok v := hv
    rw [h6] at hv2
    injection hv2 with hv2
    exact hv2.symm
  subst hv6
  exact ⟨r, h1, h2, by decide, hr⟩

/-- Counterexample for C17 as stated: an owning copy `c` of a view with strides
`(1, 2)` holds 3 at `(0, 1)`; concatenated along axis 0 with an owning array of
the same shape, the result holds 0 at `(0, 1)`. -/
theorem concatenate_spec_counterexample :
    ∃ c r : ndarray Int,
      ndarray.ctor_copy (ndarray.create_view [2, 2] [1, 2] [1, 2, 3, 4]) = .ok c ∧
      c.owns_data_ = true ∧ c.shape_ = [2, 2] ∧
      concatenate [c, ⟨[2, 2], [2, 1], [5, 6, 7, 8], 4, true⟩] 0 = .ok r ∧
      r.shape_ = [4, 2] ∧
      List.Forall₂ (fun i d => i < d) [0, 1] c.shape_ ∧
      c.at [0, 1] = .ok 3 ∧
      r.at (shiftAxis 0 0 [0, 1]) = .ok 0 :=
  ⟨⟨[2, 2], [1, 2], [1, 2, 3, 4], 4, true⟩, ⟨[4, 2], [2, 1], [1, 0, 2, 0, 5, 6, 7, 8], 8, true⟩,
    by decide⟩

/-- C18: `concatenate(arrays, axis)` with `axis` greater than or equal to the rank
of the first array throws for every list of two or more arrays; for a list
holding a single array it is the copy constructor applied to that array,
whatever `axis` is, because the single-array shortcut returns before `axis` is
checked. -/
theorem concatenate_axis_check [Zero T] (first : ndarray T) (rest : List (ndarray T))
    (axis : Nat) (hax : first.ndim ≤ axis) :
    (rest ≠ [] → concatenate (first :: rest) axis = .error .runtime_error) ∧
    (rest = [] → concatenate (first :: rest) axis = ndarray.ctor_copy first) := by
  constructor
  · intro hne
    cases rest with
    | nil => exact absurd rfl hne
    | cons second rest => exact concatenate_axis_throws first second rest axis hax
  · intro h
    subst h
    rfl

/-- Witness for C18: `concatenate` of the single array `[1, 2, 3]` along axis 5
returns the array, while two such arrays along axis 5 throw. -/
theorem concatenate_axis_check_witness :
    concatenate [(⟨[3], [1], [1, 2, 3], 3, true⟩ : ndarray Int)] 5 =
      .ok ⟨[3], [1], [1, 2, 3], 3, true⟩ ∧
    concatenate [(⟨[3], [1], [1, 2, 3], 3, true⟩ : ndarray Int),
      ⟨[3], [1], [1, 2, 3], 3, true⟩] 5 = .error .runtime_error := by
  constructor
  · rw [(concatenate_axis_check (⟨[3], [1], [1, 2, 3], 3, true⟩ : ndarray Int) [] 5
      (by decide)).2 rfl]
    decide
  · exact (concatenate_axis_check (⟨[3], [1], [1, 2, 3], 3, true⟩ : ndarray Int)
      [⟨[3], [1], [1, 2, 3], 3, true⟩] 5 (by decide)).1 (by simp)

/-- C19 (amended): for a non-empty list of `n` owning arrays of one shape `s` with
the row-major strides of `s` and `n * prod(s) < 2 ^ 64`, `stack(arrays, axis)`
with `axis` equal to the rank of the inputs does not fail: it returns the array
of shape `s` followed by `n` whose element at `p` followed by `k` is the element
of `arrays[k]` at `p`. -/
theorem stack_axis_rank [Zero T] (first : ndarray T) (rest : List (ndarray T)) (s : Shape)
    (hown : ∀ a ∈ first :: rest, a.IsRowMajorOwner ∧ a.shape_ = s)
    (hprod : (first :: rest).length * s.prod < SIZE_T_MODULUS) :
    ∃ r, stack (first :: rest) s.length = .ok r ∧
      r.shape_ = s ++ [(first :: rest).length] ∧
      ∀ k (hk : k < (first :: rest).length) p,
        List.Forall₂ (fun i d => i < d) p s →
        ∃ v, ((first :: rest).get ⟨k, hk⟩).at p = .ok v ∧ r.at (p ++ [k]) = .ok v := by
  obtain ⟨r, h1, h2, h3⟩ := stack_ok first rest s s.length hown (Nat.le_refl _) hprod
  refine ⟨r, h1, by rw [h2]; simp, ?_⟩
  intro k hk p hp
  have hm := List.get_mem (first :: rest) k hk
  have hsp : s.prod < SIZE_T_MODULUS := by
    have : s.prod ≤ (first :: rest).length * s.prod := Nat.le_mul_of_pos_left _ (by simp)
    omega
  have hd := (isDense_of_owner _ (hown _ hm).1 (by rw [(hown _ hm).2]; exact hsp)).1
  have hp2 : List.Forall₂ (fun i d => i < d) p ((first :: rest).get ⟨k, hk⟩).shape_ := by
    rw [(hown _ hm).2]; exact hp
  have hat := h3 k hk p hp
  rw [← List.Forall₂.length_eq hp, List.insertIdx_length_self] at hat
  exact ⟨_, isDense_at _ _ hd p hp2, by rw [hat]; exact isDense_at _ _ hd p hp2⟩

/-- Witness for C19: the rank-1 arrays `[1, 2]` and `[3, 4]` stacked along axis 1
give shape `(2, 2)`, with the element 2 of the first array at `(1, 0)`. -/
theorem stack_axis_rank_witness :
    ∃ r : ndarray Int,
      stack [(⟨[2], [1], [1, 2], 2, true⟩ : ndarray Int), ⟨[2], [1], [3, 4], 2, true⟩] 1 =
        .ok r ∧
      r.shape_ = [2, 2] ∧ r.at [1, 0] = .ok 2 := by
  obtain ⟨r, h1, h2, h3⟩ := stack_axis_rank (⟨[2], [1], [1, 2], 2, true⟩ : ndarray Int)
    [⟨[2], [1], [3, 4], 2, true⟩] [2]
    (by
      intro a ha
      simp only [List.mem_cons, List.mem_singleton, List.not_mem_nil, or_false] at ha
      rcases ha with rfl | rfl <;>
        exact ⟨by unfold ndarray.IsRowMajorOwner; decide, rfl⟩)
    (by decide)
  obtain ⟨v, hv, hr⟩ := h3 0 (by decide) [1] (List.Forall₂.cons (by decide) List.Forall₂.nil)
  have hv2 : v = 2 := by
    have h6 : (⟨[2], [1], [1, 2], 2, true⟩ : ndarray Int).at [1] = .ok 2 := by decide
    have hv3 : (⟨[2], [1], [1, 2], 2, true⟩ : ndarray Int).at [1] = .ok v := hv
    rw [h6] at hv3
    injection hv3 with hv3
    exact hv3.symm
  subst hv2
  exact ⟨r, h1, h2, hr⟩

/-- Counterexample for C19 as stated: the rank-1 arrays `[1, 2]` and `[3, 4]`
stacked along axis 1, which equals their rank, do not fail: the result is
`[[1, 3], [2, 4]]`. -/
theorem stack_axis_rank_counterexample :
    (⟨[2], [1], [1, 2], 2, true⟩ : ndarray Int).ndim ≤ 1 ∧
    stack [(⟨[2], [1], [1, 2], 2, true⟩ : ndarray Int), ⟨[2], [1], [3, 4], 2, true⟩] 1 =
      .ok ⟨[2, 2], [2, 1], [1, 3, 2, 4], 4, true⟩ := by
  decide

/-- C20 (amended): `stack(arrays, axis)` throws if the list is empty or some
array's shape differs from the first array's shape; for `n >= 1` owning arrays
of one shape `s` with the row-major strides of `s`, `n * prod(s) < 2 ^ 64` and
`axis < rank`, the result has shape `s` with a new dimension of size `n`
inserted at position `axis`, and for every `k < n` and every in-range
multi-index `p` of `s` the result's element at `p` with the coordinate `k`
inserted at position `axis` is the element of `arrays[k]` at `p`. -/
theorem stack_spec [Zero T] (arrays : List (ndarray T)) (axis : Nat) :
    (arrays = [] → stack arrays axis = .error .runtime_error) ∧
    (∀ first rest, arrays = first :: rest → (∃ a ∈ arrays, a.shape_ ≠ first.shape_) →
      stack arrays axis = .error .runtime_error) ∧
    (∀ first rest s, arrays = first :: rest →
      (∀ a ∈ arrays, a.IsRowMajorOwner ∧ a.shape_ = s) →
      arrays.length * s.prod < SIZE_T_MODULUS → axis < s.length →
      ∃ r, stack arrays axis = .ok r ∧
        r.shape_ = s.take axis ++ [arrays.length] ++ s.drop axis ∧
        ∀ k (hk : k < arrays.length) p, List.Forall₂ (fun i d => i < d) p s →
          ∃ v, (arrays.get ⟨k, hk⟩).at p = .ok v ∧ r.at (p.insertIdx axis k) = .ok v) := by
  refine ⟨?_, ?_, ?_⟩
  · intro h
    rw [h]
    exact stack_nil axis
  · intro first rest h hne
    subst h
    exact (stack_throws_iff first rest axis).mpr hne
  · intro first rest s h hown hprod hax
    subst h
    obtain ⟨r, h1, h2, h3⟩ := stack_ok first rest s axis hown (Nat.le_of_lt hax) hprod
    refine ⟨r, h1, h2, ?_⟩
    intro k hk p hp
    have hm := List.get_mem (first :: rest) k hk
    have hsp : s.prod < SIZE_T_MODULUS := by
      have : s.prod ≤ (first :: rest).length * s.prod := Nat.le_mul_of_pos_left _ (by simp)
      omega
    have hd := (isDense_of_owner _ (hown _ hm).1 (by rw [(hown _ hm).2]; exact hsp)).1
    have hp2 : List.Forall₂ (fun i d => i < d) p ((first :: rest).get ⟨k, hk⟩).shape_ := by
      rw [(hown _ hm).2]; exact hp
    exact ⟨_, isDense_at _ _ hd p hp2, by rw [h3 k hk p hp]; exact isDense_at _ _ hd p hp2⟩

/-- Witness for C20: two 2x3 arrays stacked along axis 0 give shape `(2, 2, 3)`
with the first array's data at index 0 of the new axis: its element `(1, 2)`, 6,
is at `(0, 1, 2)`. -/
theorem stack_spec_witness :
    ∃ r : ndarray Int,
      stack [(⟨[2, 3], [3, 1], [1, 2, 3, 4, 5, 6], 6, true⟩ : ndarray Int),
        ⟨[2, 3], [3, 1], [7, 8, 9, 10, 11, 12], 6, true⟩] 0 = .ok r ∧
      r.shape_ = [2, 2, 3] ∧ r.at [0, 1, 2] = .ok 6 := by
  obtain ⟨r, h1, h2, h3⟩ := (stack_spec
    [(⟨[2, 3], [3, 1], [1, 2, 3, 4, 5, 6], 6, true⟩ : ndarray Int),
      ⟨[2, 3], [3, 1], [7, 8, 9, 10, 11, 12], 6, true⟩] 0).2.2 _ _ [2, 3] rfl
    (by
      intro a ha
      simp only [List.mem_cons, List.mem_singleton, List.not_mem_nil, or_false] at ha
      rcases ha with rfl | rfl <;>
        exact ⟨by unfold ndarray.IsRowMajorOwner; decide, rfl⟩)
    (by decide) (by decide)
  obtain ⟨v, hv, hr⟩ := h3 0 (by decide) [1, 2]
    (List.Forall₂.cons (by decide) (List.Forall₂.cons (by decide) List.Forall₂.nil))
  have hv2 : v = 6 := by
    have h6 : (⟨[2, 3], [3, 1], [1, 2, 3, 4, 5, 6], 6, true⟩ : ndarray Int).at [1, 2] =
        .ok 6 := by decide
    have hv3 : (⟨[2, 3], [3, 1], [1, 2, 3, 4, 5, 6], 6, true⟩ : ndarray Int).at [1, 2] =
        .ok v := hv
    rw [h6] at hv3
    injection hv3 with hv3
    exact hv3.symm
  subst hv2
  exact ⟨r, h1, h2, hr⟩

/-- Counterexample for C20 as stated: an owning copy `c` of a view with strides
`(1, 2)` holds 3 at `(0, 1)`; stacked along axis 0 with an owning array of the
same shape, the result holds 0 at `(0, 0, 1)`. -/
theorem stack_spec_counterexample :
    ∃ c r : ndarray Int,
      ndarray.ctor_copy (ndarray.create_view [2, 2] [1, 2] [1, 2, 3, 4]) = .ok c ∧
      c.owns_data_ = true ∧ c.shape_ = [2, 2] ∧
      stack [c, ⟨[2, 2], [2, 1], [5, 6, 7, 8], 4, true⟩] 0 = .ok r ∧
      r.shape_ = [2, 2, 2] ∧
      List.Forall₂ (fun i d => i < d) [0, 1] c.shape_ ∧
      c.at [0, 1] = .ok 3 ∧
      r.at (List.insertIdx 0 0 [0, 1]) = .ok 0 :=
  ⟨⟨[2, 2], [1, 2], [1, 2, 3, 4], 4, true⟩, ⟨[2, 2, 2], [4, 2, 1], [1, 0, 2, 0, 5, 6, 7, 8], 8, true⟩,
    by decide⟩

theorem inBounds_read [Zero T] (a : ndarray T) (ha : a.InBounds) (q : List Nat)
    (hq : List.Forall₂ (fun i d => i < d) q a.shape_) :
    ∃ f, flatten_index q a.strides_ = .ok f ∧ f < a.size_ ∧
      a.at q = .ok (a.data_.getD f 0) ∧ a.get f = .ok (a.data_.getD f 0) := by
  obtain ⟨f, h1, h2, h3⟩ := ha q hq
  refine ⟨f, h1, h2, ?_, ?_⟩
  · unfold ndarray.at
    rw [if_neg (by simp [List.Forall₂.length_eq hq]), any_ge_false hq]
    simp only [Bool.false_eq_true, if_false]
    rw [h1]
    exact readAt_of_lt _ _ h3
  · unfold ndarray.get
    rw [if_neg (by omega)]
    exact readAt_of_lt _ _ h3

theorem inBounds_of_isDense (a : ndarray T) (ha : a.IsDense a.shape_)
    (hsz : a.size_ = a.shape_.prod) : a.InBounds := by
  intro q hq
  obtain ⟨_, h2, h3, h4⟩ := ha
  have hlt := dotNat_lt a.shape_ q h4 hq
  exact ⟨_, by rw [h2]; exact flatten_index_in_range _ _ h4 hq, by omega, by omega⟩

theorem inBounds_of_owner (a : ndarray T) (h : a.IsRowMajorOwner)
    (hp : a.shape_.prod < SIZE_T_MODULUS) : a.InBounds :=
  inBounds_of_isDense a (isDense_of_owner a h hp).1 (isDense_of_owner a h hp).2

/-- A loop that writes, for every flat index `j` of a dense result of shape `rs`,
the value `src p` into `result[j]`, where `p` is the multi-index of `j`:
afterwards the result holds `src p` at every in-range `p`. -/
theorem gather_dense [Zero T] (rs : Shape) (src : List Nat → Except Error T)
    (step : ndarray T → Nat → Except Error (ndarray T))
    (hstep : ∀ r j, r.IsDense rs → r.size_ = rs.prod → j < rs.prod →
      ∃ p v, List.Forall₂ (fun i d => i < d) p rs ∧ dotNat p (compute_strides rs) = j ∧
        src p = .ok v ∧ step r j = r.set j v)
    (r0 : ndarray T) (hr0 : r0.IsDense rs) (hsz : r0.size_ = rs.prod) :
    ∃ r, (List.range rs.prod).foldlM step r0 = .ok r ∧ r.IsDense rs ∧ r.size_ = r0.size_ ∧
      r.owns_data_ = r0.owns_data_ ∧
      ∀ p, List.Forall₂ (fun i d => i < d) p rs → r.at p = src p := by
  obtain ⟨r, h1, h2, h3, h4, h5⟩ := foldlM_range_inv step
    (fun k s => s.IsDense rs ∧ s.size_ = r0.size_ ∧ s.owns_data_ = r0.owns_data_ ∧
      ∀ p, List.Forall₂ (fun i d => i < d) p rs → dotNat p (compute_strides rs) < k →
        s.at p = src p)
    rs.prod r0 ⟨hr0, rfl, rfl, fun p _ hp => absurd hp (Nat.not_lt_zero _)⟩
    (by
      intro k s hk ⟨hs, hssz, hown, hdone⟩
      obtain ⟨p, v, hp, hdot, hsrc, hst⟩ := hstep s k hs (by rw [hssz, hsz]) hk
      obtain ⟨s2, e1, e2, e3, e4, e5, e6⟩ := isDense_at_set s rs hs p hp v
      refine ⟨s2, ?_, e2, by rw [e3, hssz], by rw [e4, hown], ?_⟩
      · rw [hst, ← hdot, set_eq_at_set s rs hs (by rw [hssz, hsz]) p hp v]
        exact e1
      · intro q hq hlt
        by_cases hqk : dotNat q (compute_strides rs) = k
        · have hqp : q = p := dotNat_inj rs q p hs.2.2.2 hq hp (by rw [hqk, hdot])
          rw [hqp, e5, hsrc]
        · rw [e6 q hq (by
            intro h
            rw [h, hdot] at hqk
            exact hqk rfl)]
          exact hdone q hq (by omega))
  exact ⟨r, h1, h2, h3, h4, fun p hp => h5 p hp (dotNat_lt rs p h2.2.2.2 hp)⟩

/-- A loop of `n` passes over a dense source `a`, pass `k` writing every element
`a[i]` into the cell `φ k p` of a dense result (`p` the multi-index of `i`), the
destinations of different passes and elements being different: afterwards every
cell `φ k p` holds `a.at p`. -/
theorem scatter_blocks [Zero T] (rs : Shape) (a : ndarray T) (ha : a.IsDense a.shape_)
    (n : Nat) (φ : Nat → List Nat → List Nat)
    (hφ : ∀ k, k < n → ∀ p, List.Forall₂ (fun i d => i < d) p a.shape_ →
      List.Forall₂ (fun i d => i < d) (φ k p) rs)
    (hinj : ∀ k k2, k < n → k2 < n → ∀ p q,
      List.Forall₂ (fun i d => i < d) p a.shape_ →
      List.Forall₂ (fun i d => i < d) q a.shape_ → φ k p = φ k2 q → k = k2 ∧ p = q)
    (f : ndarray T → Nat → Except Error (ndarray T))
    (hf : ∀ k, k < n → ∀ r, r.IsDense rs → r.size_ = rs.prod →
      ∃ step : ndarray T → Nat → Except Error (ndarray T),
        (∀ r2 i, r2.IsDense rs → r2.size_ = rs.prod → i < a.shape_.prod →
          ∃ p, List.Forall₂ (fun i d => i < d) p a.shape_ ∧
            dotNat p (compute_strides a.shape_) = i ∧
            step r2 i = r2.at_set (φ k p) (a.data_.getD i 0)) ∧
        f r k = (List.range a.shape_.prod).foldlM step r)
    (r0 : ndarray T) (hr0 : r0.IsDense rs) (hr0sz : r0.size_ = rs.prod) :
    ∃ r, (List.range n).foldlM f r0 = .ok r ∧ r.IsDense rs ∧ r.size_ = r0.size_ ∧
      r.owns_data_ = r0.owns_data_ ∧
      ∀ k, k < n → ∀ p, List.Forall₂ (fun i d => i < d) p a.shape_ →
        r.at (φ k p) = a.at p := by
  obtain ⟨r, h1, h2, h3, h4, h5⟩ := foldlM_range_inv f
    (fun k s => s.IsDense rs ∧ s.size_ = r0.size_ ∧ s.owns_data_ = r0.owns_data_ ∧
      ∀ k2, k2 < n → k2 < k → ∀ p, List.Forall₂ (fun i d => i < d) p a.shape_ →
        s.at (φ k2 p) = a.at p)
    n r0 ⟨hr0, rfl, rfl, fun k2 _ hlt => absurd hlt (Nat.not_lt_zero _)⟩
    (by
      intro k s hk ⟨hd, hsz, hown, hprev⟩
      obtain ⟨step, hstep, hfeq⟩ := hf k hk s hd (by rw [hsz, hr0sz])
      obtain ⟨r2, e1, e2, e3, e4, e5, e6⟩ := scatter_loop rs a ha (φ k)
        (fun p q hp hq h => (hinj k k hk hk p q hp hq h).2)
        (fun p hp => hφ k hk p hp) step hstep s hd (by rw [hsz, hr0sz])
      refine ⟨r2, by rw [hfeq]; exact e1, e2, by rw [e3, hsz], by rw [e4, hown], ?_⟩
      intro k2 hk2 hlt p hp
      by_cases hkk : k2 = k
      · subst hkk
        exact e5 p hp
      · rw [e6 (φ k2 p) (hφ k2 hk2 p hp)
          (fun q hq h => hkk (hinj k2 k hk2 hk p q hp hq h).1)]
        exact hprev k2 hk2 (by omega) p hp)
  exact ⟨r, h1, h2, h3, h4, fun k hk p hp => h5 k hk hk p hp⟩

theorem subSz_of_le {a b : Nat} (hab : b ≤ a) (ha : a < SIZE_T_MODULUS) : subSz a b = a - b := by
  unfold subSz
  rw [Nat.mod_eq_of_lt (by omega : b < SIZE_T_MODULUS)]
  have : a + SIZE_T_MODULUS - b = (a - b) + SIZE_T_MODULUS := by omega
  rw [this, Nat.add_mod_right, Nat.mod_eq_of_lt (by omega)]

theorem prod_set_le (s : List Nat) (axis n : Nat) (h : n ≤ s.getD axis 0) :
    (s.set axis n).prod ≤ s.prod := by
  induction s generalizing axis with
  | nil => simp
  | cons x xs ih =>
    cases axis with
    | zero =>
      simp only [List.set_cons_zero, List.prod_cons]
      simp only [List.getD_cons_zero] at h
      exact Nat.mul_le_mul_right _ h
    | succ k =>
      simp only [List.set_cons_succ, List.prod_cons]
      simp only [List.getD_cons_succ] at h
      exact Nat.mul_le_mul_left _ (ih k h)

theorem getD_set_self (s : List Nat) (axis n : Nat) (h : axis < s.length) :
    (s.set axis n).getD axis 0 = n := by
  rw [List.getD_eq_getElem _ _ (by simpa using h), List.getElem_set_self]

theorem getD_set_ne (s : List Nat) (axis n i : Nat) (h : i ≠ axis) :
    (s.set axis n).getD i 0 = s.getD i 0 := by
  simp only [List.getD_eq_getElem?_getD]
  rw [List.getElem?_set_ne (fun e => h e.symm)]

theorem shiftAxis_back {p s : List Nat} {axis off n : Nat}
    (hp : List.Forall₂ (fun i d => i < d) p (s.set axis n)) (hax : axis < s.length)
    (hoff : off + n ≤ s.getD axis 0) :
    List.Forall₂ (fun i d => i < d) (shiftAxis axis off p) s := by
  have h : List.Forall₂ (fun i d => i < d) (shiftAxis axis off p)
      (s.set axis (s.getD axis 0)) :=
    shiftAxis_in_range hp (by simpa using hax)
      (by simp) (fun i _ hne => getD_set_ne s axis n i hne)
      (by rw [getD_set_self s axis n hax]; exact hoff)
  rw [set_getD_self] at h
  exact h

theorem splitBounds_step (cuts : List Nat) (d : Nat) (hs : cuts.Pairwise (fun x y => x ≤ y))
    (hc : ∀ c ∈ cuts, c ≤ d) (i : Nat) (hi : i < cuts.length + 1) :
    readAt ((0 :: cuts) ++ [d]) i = .ok (((0 :: cuts) ++ [d]).getD i 0) ∧
    readAt ((0 :: cuts) ++ [d]) (i + 1) = .ok (((0 :: cuts) ++ [d]).getD (i + 1) 0) ∧
    ((0 :: cuts) ++ [d]).getD i 0 ≤ ((0 :: cuts) ++ [d]).getD (i + 1) 0 ∧
    ((0 :: cuts) ++ [d]).getD (i + 1) 0 ≤ d := by
  have hlen : ((0 :: cuts) ++ [d]).length = cuts.length + 2 := by simp
  have hpw : ((0 :: cuts) ++ [d]).Pairwise (fun x y => x ≤ y) := by
    rw [List.pairwise_append]
    refine ⟨?_, List.pairwise_singleton _ _, ?_⟩
    · rw [List.pairwise_cons]
      exact ⟨fun _ _ => Nat.zero_le _, hs⟩
    · intro x hx y hy
      rw [List.mem_singleton] at hy
      rw [hy]
      rcases List.mem_cons.mp hx with h0 | hm
      · rw [h0]; exact Nat.zero_le _
      · exact hc x hm
  have hlast : ((0 :: cuts) ++ [d]).getD (cuts.length + 1) 0 = d := by
    have := List.getElem?_concat_length (0 :: cuts) d
    rw [List.length_cons] at this
    rw [List.getD_eq_getElem?_getD, this]
    rfl
  rw [List.pairwise_iff_getElem] at hpw
  have h1 : i < ((0 :: cuts) ++ [d]).length := by rw [hlen]; omega
  have h2 : i + 1 < ((0 :: cuts) ++ [d]).length := by rw [hlen]; omega
  have hl : cuts.length + 1 < ((0 :: cuts) ++ [d]).length := by rw [hlen]; omega
  refine ⟨readAt_of_lt _ _ h1, readAt_of_lt _ _ h2, ?_, ?_⟩
  · rw [List.getD_eq_getElem _ _ h1, List.getD_eq_getElem _ _ h2]
    exact hpw i (i + 1) h1 h2 (by omega)
  · by_cases hl2 : i + 1 = cuts.length + 1
    · rw [hl2, hlast]
    · have e := hpw (i + 1) (cuts.length + 1) h2 hl (by omega)
      rw [← List.getD_eq_getElem _ 0 h2, ← List.getD_eq_getElem _ 0 hl, hlast] at e
      exact e

theorem split_copy_step_eq [Zero T] (a r : ndarray T) (ha : a.InBounds) (axis start n : Nat)
    (hax : axis < a.shape_.length) (hoff : start + n ≤ a.shape_.getD axis 0)
    (hd : a.shape_.getD axis 0 < SIZE_T_MODULUS)
    (hprod : (a.shape_.set axis n).prod < SIZE_T_MODULUS)
    (hrsz : r.size_ = (a.shape_.set axis n).prod)
    (j : Nat) (hj : j < (a.shape_.set axis n).prod) :
    ∃ p v, List.Forall₂ (fun i d => i < d) p (a.shape_.set axis n) ∧
      dotNat p (compute_strides (a.shape_.set axis n)) = j ∧
      a.at (shiftAxis axis start p) = .ok v ∧
      split_copy_step a axis start (a.shape_.set axis n)
        (compute_strides (a.shape_.set axis n)) r j = r.set j v := by
  obtain ⟨p, hun, hp, hdot⟩ := unravel_index_spec (a.shape_.set axis n) j
    (by rw [compute_size_of_lt _ hprod]; exact hj)
  have hpl : axis < p.length := by rw [List.Forall₂.length_eq hp]; simpa using hax
  have hc := forall₂_getD_lt hp axis (by simpa using hax)
  rw [getD_set_self _ _ _ hax] at hc
  have hq : List.Forall₂ (fun i d => i < d) (p.set axis (p.getD axis 0 + start)) a.shape_ :=
    shiftAxis_back hp hax hoff
  obtain ⟨f, hf, hfs, hat, hget⟩ := inBounds_read a ha _ hq
  refine ⟨p, _, hp, hdot, hat, ?_⟩
  unfold split_copy_step
  rw [hun]
  simp only
  rw [readAt_of_lt p axis hpl]
  simp only
  rw [addSz_of_lt (by omega), hf]
  simp only
  rw [if_pos ⟨hfs, by rw [hrsz]; exact hj⟩, hget]

/-- One segment of `split`, from `start` to `stop`. -/
theorem split_segment_ok [Zero T] (a : ndarray T) (ha : a.InBounds) (axis : Nat)
    (hax : axis < a.shape_.length) (sp : List Nat) (i start stop : Nat)
    (h1 : readAt sp i = .ok start) (h2 : readAt sp (i + 1) = .ok stop)
    (hle : start ≤ stop) (hstop : stop ≤ a.shape_.getD axis 0)
    (hd : a.shape_.getD axis 0 < SIZE_T_MODULUS) (hprod : a.shape_.prod < SIZE_T_MODULUS)
    (results : List (ndarray T)) :
    ∃ r, split_segment a axis sp results i = .ok (results ++ [r]) ∧
      r.IsDense (a.shape_.set axis (stop - start)) ∧
      r.size_ = (a.shape_.set axis (stop - start)).prod ∧ r.owns_data_ = true ∧
      ∀ p, List.Forall₂ (fun i d => i < d) p (a.shape_.set axis (stop - start)) →
        r.at p = a.at (shiftAxis axis start p) := by
  have hp2 : (a.shape_.set axis (stop - start)).prod < SIZE_T_MODULUS :=
    Nat.lt_of_le_of_lt (prod_set_le _ _ _ (by omega)) hprod
  have hr0 := ctor_shape_isDense (T := T) _ hp2
  have hsz0 : (ndarray.ctor_shape (a.shape_.set axis (stop - start)) : ndarray T).size_ =
      (a.shape_.set axis (stop - start)).prod := compute_size_of_lt _ hp2
  obtain ⟨r, e1, e2, e3, e4, e5⟩ := gather_dense (a.shape_.set axis (stop - start))
    (fun p => a.at (shiftAxis axis start p))
    (split_copy_step a axis start (a.shape_.set axis (stop - start))
      (compute_strides (a.shape_.set axis (stop - start))))
    (fun r j _ hrsz hj => split_copy_step_eq a r ha axis start (stop - start) hax
      (by omega) hd hp2 hrsz j hj)
    _ hr0 hsz0
  refine ⟨r, ?_, e2, by rw [e3, hsz0], by rw [e4]; rfl, e5⟩
  unfold split_segment
  rw [h1]
  simp only
  rw [h2]
  simp only
  rw [subSz_of_le hle (by omega), compute_size_of_lt _ hp2, e1]
  rfl

/-- The segment loop of `split` on an array whose elements can all be read, for
non-decreasing cut points within the extent of `axis`. -/
theorem split_ok [Zero T] (a : ndarray T) (ha : a.InBounds) (axis : Nat) (cuts : List Nat)
    (hax : axis < a.ndim) (hs : cuts.Pairwise (fun x y => x ≤ y))
    (hc : ∀ c ∈ cuts, c ≤ a.shape_.getD axis 0)
    (hd : a.shape_.getD axis 0 < SIZE_T_MODULUS) (hprod : a.shape_.prod < SIZE_T_MODULUS) :
    ∃ parts, split a axis cuts = .ok parts ∧ parts.length = cuts.length + 1 ∧
      ∀ i r, parts[i]? = some r →
        r.IsDense (a.shape_.set axis
          ((splitBounds a axis cuts).getD (i + 1) 0 - (splitBounds a axis cuts).getD i 0)) ∧
        ∀ p, List.Forall₂ (fun i d => i < d) p (a.shape_.set axis
            ((splitBounds a axis cuts).getD (i + 1) 0 - (splitBounds a axis cuts).getD i 0)) →
          r.at p = a.at (shiftAxis axis ((splitBounds a axis cuts).getD i 0) p) := by
  obtain ⟨parts, h1, h2, h3⟩ := foldlM_range_inv
    (split_segment a axis (splitBounds a axis cuts))
    (fun k res => res.length = k ∧ ∀ i r, res[i]? = some r →
      r.IsDense (a.shape_.set axis
        ((splitBounds a axis cuts).getD (i + 1) 0 - (splitBounds a axis cuts).getD i 0)) ∧
      ∀ p, List.Forall₂ (fun i d => i < d) p (a.shape_.set axis
          ((splitBounds a axis cuts).getD (i + 1) 0 - (splitBounds a axis cuts).getD i 0)) →
        r.at p = a.at (shiftAxis axis ((splitBounds a axis cuts).getD i 0) p))
    (cuts.length + 1) []
    ⟨rfl, fun i r h => by simp at h⟩
    (by
      intro k res hk ⟨hlen, hprev⟩
      obtain ⟨b1, b2, b3, b4⟩ := splitBounds_step cuts (a.shape_.getD axis 0) hs hc k hk
      obtain ⟨r, e1, e2, _, _, e5⟩ := split_segment_ok a ha axis hax
        (splitBounds a axis cuts) k _ _ b1 b2 b3 b4 hd hprod res
      refine ⟨res ++ [r], e1, by simp [hlen], ?_⟩
      intro i r2 hi
      by_cases hik : i < res.length
      · rw [List.getElem?_append_left hik] at hi
        exact hprev i r2 hi
      · rw [List.getElem?_append_right (by omega)] at hi
        have hi0 : i - res.length = 0 := by
          by_contra hne
          have : ([r] : List (ndarray T))[i - res.length]? = none := by
            rw [List.getElem?_eq_none]
            simp; omega
          rw [this] at hi
          cases hi
        rw [hi0] at hi
        have hr2 : r = r2 := by simpa using hi
        have hik2 : i = k := by omega
        subst hr2
        subst hik2
        exact ⟨e2, e5⟩)
  refine ⟨parts, ?_, h2, h3⟩
  unfold split
  rw [if_neg (by omega)]
  have hl : ((0 :: cuts) ++ [a.shape_.getD axis 0]).length - 1 = cuts.length + 1 := by simp
  simp only
  rw [hl]
  exact h1

theorem forall₂_set {p s s2 : List Nat} {axis c : Nat}
    (hp : List.Forall₂ (fun i d => i < d) p s) (hlen : s.length = s2.length)
    (hag : ∀ i, i < s.length → i ≠ axis → s.getD i 0 = s2.getD i 0)
    (hc : c < s2.getD axis 0) :
    List.Forall₂ (fun i d => i < d) (p.set axis c) s2 := by
  rw [List.forall₂_iff_get] at hp ⊢
  refine ⟨by simp [hp.1, hlen], ?_⟩
  intro i h1 h2
  have h1p : i < p.length := by simpa using h1
  show (p.set axis c)[i] < s2[i]
  rw [List.getElem_set]
  by_cases hi : axis = i
  · rw [if_pos hi]
    subst hi
    rw [List.getD_eq_getElem _ _ h2] at hc
    exact hc
  · rw [if_neg hi]
    have hs : i < s.length := by omega
    have h3 : p[i] < s[i] := hp.2 i h1p hs
    have h4 := hag i (by omega) (fun h => hi h.symm)
    rw [List.getD_eq_getElem _ _ (by omega), List.getD_eq_getElem _ _ h2] at h4
    omega

theorem repeat_copy_step_eq_concatenate (a : ndarray T) (axis k d : Nat) (r : ndarray T)
    (i : Nat) :
    repeat_copy_step a axis k d r i = concatenate_copy_step a axis (mulSz k d) r i := by
  rfl

/-- `repeat` on a row-major owner when the repeated extent and the element count
of the result fit `size_t`: the element of the result at `p` is the element of
the source at `p` with the `axis` coordinate reduced modulo the source extent. -/
theorem repeat_ok [Zero T] (a : ndarray T) (hown : a.IsRowMajorOwner)
    (hap : a.shape_.prod < SIZE_T_MODULUS) (times axis : Nat) (hax : axis < a.ndim)
    (hmul : a.shape_.getD axis 0 * times < SIZE_T_MODULUS)
    (hprod : (a.shape_.set axis (a.shape_.getD axis 0 * times)).prod < SIZE_T_MODULUS) :
    ∃ r, «repeat» a times axis = .ok r ∧
      r.IsDense (a.shape_.set axis (a.shape_.getD axis 0 * times)) ∧
      ∀ p, List.Forall₂ (fun i d => i < d) p
          (a.shape_.set axis (a.shape_.getD axis 0 * times)) →
        r.at p = a.at (p.set axis (p.getD axis 0 % a.shape_.getD axis 0)) := by
  have hax2 : axis < a.shape_.length := hax
  obtain ⟨hd, hs⟩ := isDense_of_owner a hown hap
  have hr0 := ctor_shape_isDense (T := T) _ hprod
  have hsz0 : (ndarray.ctor_shape (a.shape_.set axis (a.shape_.getD axis 0 * times)) :
      ndarray T).size_ = (a.shape_.set axis (a.shape_.getD axis 0 * times)).prod :=
    compute_size_of_lt _ hprod
  have hkd : ∀ k, k < times → k * a.shape_.getD axis 0 + a.shape_.getD axis 0 ≤
      a.shape_.getD axis 0 * times := by
    intro k hk
    have : (k + 1) * a.shape_.getD axis 0 ≤ times * a.shape_.getD axis 0 :=
      Nat.mul_le_mul_right _ hk
    rw [Nat.mul_comm (a.shape_.getD axis 0) times]
    rw [Nat.add_mul, Nat.one_mul] at this
    exact this
  have hφ : ∀ k, k < times → ∀ p, List.Forall₂ (fun i d => i < d) p a.shape_ →
      List.Forall₂ (fun i d => i < d) (shiftAxis axis (k * a.shape_.getD axis 0) p)
        (a.shape_.set axis (a.shape_.getD axis 0 * times)) :=
    fun k hk p hp => shiftAxis_in_range hp hax2 rfl (fun _ _ _ => rfl) (hkd k hk)
  obtain ⟨r, h1, h2, _, _, h5⟩ := scatter_blocks
    (a.shape_.set axis (a.shape_.getD axis 0 * times)) a hd times
    (fun k p => shiftAxis axis (k * a.shape_.getD axis 0) p) hφ
    (by
      intro k k2 hk hk2 p q hp hq h
      have hpa : axis < p.length := by rw [List.Forall₂.length_eq hp]; exact hax2
      have hqa : axis < q.length := by rw [List.Forall₂.length_eq hq]; exact hax2
      have hpc := forall₂_getD_lt hp axis hax2
      have hqc := forall₂_getD_lt hq axis hax2
      have e := congrArg (fun x => x.getD axis 0) h
      simp only [shiftAxis_getD hpa, shiftAxis_getD hqa] at e
      have hdpos : 0 < a.shape_.getD axis 0 := by omega
      have e2 := congrArg (fun x => x / a.shape_.getD axis 0) e
      simp only [Nat.add_mul_div_right _ _ hdpos, Nat.div_eq_of_lt hpc,
        Nat.div_eq_of_lt hqc, Nat.zero_add] at e2
      subst e2
      exact ⟨rfl, shiftAxis_inj hpa hqa h⟩)
    (repeat_block a axis (a.shape_.getD axis 0))
    (by
      intro k hk r hr hrsz
      refine ⟨repeat_copy_step a axis k (a.shape_.getD axis 0), ?_, ?_⟩
      · intro r2 i hr2 hr2sz hi
        have hkM : k * a.shape_.getD axis 0 + a.shape_.getD axis 0 < SIZE_T_MODULUS :=
          Nat.lt_of_le_of_lt (hkd k hk) hmul
        have hmk : mulSz k (a.shape_.getD axis 0) = k * a.shape_.getD axis 0 :=
          Nat.mod_eq_of_lt (by omega)
        rw [repeat_copy_step_eq_concatenate, hmk]
        exact concatenate_copy_step_eq a r2 _ axis _ hd hs hr2 hr2sz hax2 hkM
          (fun p hp => hφ k hk p hp) i hi
      · unfold repeat_block
        rw [hs])
    _ hr0 hsz0
  refine ⟨r, ?_, h2, ?_⟩
  · unfold «repeat»
    rw [if_neg (by omega)]
    simp only
    have hm : mulSz (a.shape_.getD axis 0) times = a.shape_.getD axis 0 * times :=
      Nat.mod_eq_of_lt hmul
    rw [hm]
    exact h1
  · intro p hp
    have hpl : axis < p.length := by
      rw [List.Forall₂.length_eq hp]; simpa using hax2
    have hpc := forall₂_getD_lt hp axis (by simpa using hax2)
    rw [getD_set_self _ _ _ hax2] at hpc
    have hdpos : 0 < a.shape_.getD axis 0 := by
      rcases Nat.eq_zero_or_pos (a.shape_.getD axis 0) with h0 | h0
      · rw [h0, Nat.zero_mul] at hpc; omega
      · exact h0
    have hk : p.getD axis 0 / a.shape_.getD axis 0 < times :=
      Nat.div_lt_of_lt_mul hpc
    have hq : List.Forall₂ (fun i d => i < d)
        (p.set axis (p.getD axis 0 % a.shape_.getD axis 0)) a.shape_ :=
      forall₂_set hp (by simp) (fun i _ hne => getD_set_ne _ _ _ i hne)
        (Nat.mod_lt _ hdpos)
    have hback : shiftAxis axis (p.getD axis 0 / a.shape_.getD axis 0 * a.shape_.getD axis 0)
        (p.set axis (p.getD axis 0 % a.shape_.getD axis 0)) = p := by
      unfold shiftAxis
      rw [getD_set_self _ _ _ hpl, List.set_set, Nat.mod_add_div']
      exact set_getD_self p axis
    have := h5 _ hk _ hq
    rw [hback] at this
    exact this

theorem tile_mod_ok (s reps p : List Nat) (hlen : s.length = reps.length)
    (hp : List.Forall₂ (fun i d => i < d) p (List.zipWith (fun d r => d * r) s reps)) :
    tile_mod p s = .ok (List.zipWith (fun c d => c % d) p s) ∧
      List.Forall₂ (fun i d => i < d) (List.zipWith (fun c d => c % d) p s) s := by
  induction s generalizing reps p with
  | nil =>
    cases hp with
    | nil => exact ⟨rfl, List.Forall₂.nil⟩
  | cons d ds ih =>
    cases reps with
    | nil => simp at hlen
    | cons r rs =>
      simp only [List.zipWith_cons_cons] at hp
      cases hp with
      | @cons c _ cs _ hc hcs =>
        have hd : d ≠ 0 := by
          intro h0
          rw [h0, Nat.zero_mul] at hc
          omega
        obtain ⟨e1, e2⟩ := ih rs cs (by simpa using hlen) hcs
        constructor
        · simp only [tile_mod, List.zipWith_cons_cons]
          rw [if_neg hd, e1]
        · simp only [List.zipWith_cons_cons]
          exact List.Forall₂.cons (Nat.mod_lt _ (Nat.pos_of_ne_zero hd)) e2

theorem tile_mod_error (p s : List Nat) (e : Error) (h : tile_mod p s = .error e) :
    e = .undefined := by
  induction p generalizing s with
  | nil => simp [tile_mod] at h
  | cons c cs ih =>
    cases s with
    | nil =>
      simp only [tile_mod] at h
      injection h with h
      exact h.symm
    | cons d ds =>
      simp only [tile_mod] at h
      split at h
      · injection h with h
        exact h.symm
      · split at h
        · cases h
        · rename_i e2 he
          injection h with h
          rw [h] at he
          exact ih _ he

theorem zipWith_mulSz (s reps : List Nat)
    (h : List.Forall₂ (fun d r => d * r < SIZE_T_MODULUS) s reps) :
    List.zipWith mulSz s reps = List.zipWith (fun d r => d * r) s reps := by
  induction h with
  | nil => rfl
  | cons h1 _ ih =>
    simp only [List.zipWith_cons_cons, ih]
    rw [mulSz_of_lt h1]

theorem tile_copy_step_eq [Zero T] (a r : ndarray T) (ha : a.InBounds) (reps : List Nat)
    (hlen : a.shape_.length = reps.length)
    (hprod : (List.zipWith (fun d r => d * r) a.shape_ reps).prod < SIZE_T_MODULUS)
    (hr : r.IsDense (List.zipWith (fun d r => d * r) a.shape_ reps))
    (j : Nat) (hj : j < (List.zipWith (fun d r => d * r) a.shape_ reps).prod) :
    ∃ p v, List.Forall₂ (fun i d => i < d) p (List.zipWith (fun d r => d * r) a.shape_ reps) ∧
      dotNat p (compute_strides (List.zipWith (fun d r => d * r) a.shape_ reps)) = j ∧
      a.at (List.zipWith (fun c d => c % d) p a.shape_) = .ok v ∧
      tile_copy_step a (List.zipWith (fun d r => d * r) a.shape_ reps) r j = r.set j v := by
  obtain ⟨p, hun, hp, hdot⟩ := unravel_index_spec
    (List.zipWith (fun d r => d * r) a.shape_ reps) j
    (by rw [compute_size_of_lt _ hprod]; exact hj)
  obtain ⟨hm, hq⟩ := tile_mod_ok a.shape_ reps p hlen hp
  obtain ⟨f, hf, _, hat, hget⟩ := inBounds_read a ha _ hq
  refine ⟨p, _, hp, hdot, hat, ?_⟩
  unfold tile_copy_step
  rw [hr.2.1, hun]
  simp only
  rw [hm]
  simp only
  rw [hf]
  simp only
  rw [hget]

/-- `tile` on an array whose elements can all be read, when every scaled
dimension and the element count of the result fit `size_t`. -/
theorem tile_ok [Zero T] (a : ndarray T) (ha : a.InBounds) (reps : List Nat)
    (hreps : List.Forall₂ (fun d r => d * r < SIZE_T_MODULUS) a.shape_ reps)
    (hprod : (List.zipWith (fun d r => d * r) a.shape_ reps).prod < SIZE_T_MODULUS) :
    ∃ r, tile a reps = .ok r ∧
      r.IsDense (List.zipWith (fun d r => d * r) a.shape_ reps) ∧
      ∀ p, List.Forall₂ (fun i d => i < d) p (List.zipWith (fun d r => d * r) a.shape_ reps) →
        r.at p = a.at (List.zipWith (fun c d => c % d) p a.shape_) := by
  have hlen : a.shape_.length = reps.length := List.Forall₂.length_eq hreps
  have hr0 := ctor_shape_isDense (T := T) _ hprod
  have hsz0 : (ndarray.ctor_shape (List.zipWith (fun d r => d * r) a.shape_ reps) :
      ndarray T).size_ = (List.zipWith (fun d r => d * r) a.shape_ reps).prod :=
    compute_size_of_lt _ hprod
  obtain ⟨r, e1, e2, _, _, e5⟩ := gather_dense (List.zipWith (fun d r => d * r) a.shape_ reps)
    (fun p => a.at (List.zipWith (fun c d => c % d) p a.shape_))
    (tile_copy_step a (List.zipWith (fun d r => d * r) a.shape_ reps))
    (fun r j hr _ hj => tile_copy_step_eq a r ha reps hlen hprod hr j hj)
    _ hr0 hsz0
  refine ⟨r, ?_, e2, e5⟩
  unfold tile
  rw [if_neg (by simp [ndarray.ndim, hlen])]
  simp only
  rw [zipWith_mulSz _ _ hreps, hsz0]
  exact e1

theorem tile_copy_step_ne (a : ndarray T) (rs : Shape) (r : ndarray T) (i : Nat) :
    tile_copy_step a rs r i ≠ .error .runtime_error := by
  intro h
  unfold tile_copy_step at h
  split at h
  · rename_i e he
    injection h with h
    rw [h] at he
    cases unravel_index_error _ _ _ _ he
  · split at h
    · rename_i e he
      injection h with h
      rw [h] at he
      cases tile_mod_error _ _ _ he
    · split at h
      · rename_i e he
        injection h with h
        rw [h] at he
        cases flatten_index_loop_error _ _ _ _ he
      · split at h
        · rename_i e he
          injection h with h
          rw [h] at he
          exact get_ne_runtime _ _ he
        · exact set_ne_runtime _ _ _ h

/-- `tile` throws `std::runtime_error` exactly when the number of repetitions is
not the rank. -/
theorem tile_throws_iff [Zero T] (a : ndarray T) (reps : List Nat) :
    tile a reps = .error .runtime_error ↔ reps.length ≠ a.ndim := by
  constructor
  · intro h
    by_contra hc
    unfold tile at h
    rw [if_neg (fun hne => hne hc)] at h
    exact foldlM_ne_runtime _ (fun s i => tile_copy_step_ne a _ s i) _ _ h
  · intro h
    unfold tile
    rw [if_pos h]

theorem where_shape_mismatch [Zero T] (condition : ndarray Bool) (x y : ndarray T)
    (h : x.shape_ ≠ y.shape_) : «where» condition x y = .error .runtime_error := by
  unfold «where»
  rw [if_pos h]

theorem where_not_broadcastable [Zero T] (condition : ndarray Bool) (x y : ndarray T) (e : Error)
    (h : broadcast_shapes condition.shape_ x.shape_ = .error e) :
    «where» condition x y = .error .runtime_error := by
  unfold «where»
  split
  · rfl
  · rw [h]
    simp only
    rw [broadcast_shapes_error_kind _ _ _ h]

/-- `where` on row-major owning operands without zero-sized dimensions whose
resolved shape fits `size_t`. -/
theorem where_ok [Zero T] (condition : ndarray Bool) (x y : ndarray T) (r : Shape)
    (hc : condition.IsRowMajorOwner) (hx : x.IsRowMajorOwner) (hy : y.IsRowMajorOwner)
    (hzc : ∀ d ∈ condition.shape_, d ≠ 0) (hzx : ∀ d ∈ x.shape_, d ≠ 0)
    (hxy : x.shape_ = y.shape_)
    (h : broadcast_shapes condition.shape_ x.shape_ = .ok r) (hprod : r.prod < SIZE_T_MODULUS) :
    ∃ res, «where» condition x y = .ok res ∧ res.shape_ = r ∧
      ∀ p, List.Forall₂ (fun i d => i < d) p r →
        ∃ c xv yv, condition.at (projectIndex condition.shape_ p) = .ok c ∧
          x.at (projectIndex x.shape_ p) = .ok xv ∧
          y.at (projectIndex y.shape_ p) = .ok yv ∧
          res.at p = .ok (if c then xv else yv) := by
  have hzy : ∀ d ∈ y.shape_, d ≠ 0 := by rw [← hxy]; exact hzx
  have hrc := broadcast_shapes_absorb _ _ _ h
  have hrx := broadcast_shapes_absorb_right _ _ _ h
  have hry : broadcast_shapes y.shape_ r = .ok r := by rw [← hxy]; exact hrx
  have hr0 := ctor_shape_isDense (T := T) _ hprod
  have hsz0 : (ndarray.ctor_shape r : ndarray T).size_ = r.prod := compute_size_of_lt _ hprod
  obtain ⟨res, e1, e2, _, _, e5⟩ := gather_dense r
    (fun p => .ok (if srcVal condition r (dotNat p (compute_strides r)) then
      srcVal x r (dotNat p (compute_strides r)) else srcVal y r (dotNat p (compute_strides r))))
    (where_step
      { shape_ := r, strides_ := compute_strides r,
        data_ := (List.range r.prod).map (srcVal condition r), size_ := r.prod,
        owns_data_ := true }
      { shape_ := r, strides_ := compute_strides r,
        data_ := (List.range r.prod).map (srcVal x r), size_ := r.prod, owns_data_ := true }
      { shape_ := r, strides_ := compute_strides r,
        data_ := (List.range r.prod).map (srcVal y r), size_ := r.prod, owns_data_ := true })
    (by
      intro s j _ _ hj
      obtain ⟨p, _, hp, hdot⟩ := unravel_index_spec r j
        (by rw [compute_size_of_lt _ hprod]; exact hj)
      refine ⟨p, _, hp, hdot, rfl, ?_⟩
      unfold where_step
      rw [get_of_map r (srcVal condition r) j hj]
      simp only
      rw [get_of_map r (srcVal x r) j hj, get_of_map r (srcVal y r) j hj, hdot]
      cases srcVal condition r j <;> rfl)
    _ hr0 hsz0
  refine ⟨res, ?_, e2.1, ?_⟩
  · unfold «where»
    rw [if_neg (fun hne => hne hxy), h]
    simp only
    rw [broadcast_to_eq condition r (row_major_owner_len condition r hc hzc hrc hprod) hzc hrc
        hprod,
      broadcast_to_eq x r (row_major_owner_len x r hx hzx hrx hprod) hzx hrx hprod,
      broadcast_to_eq y r (row_major_owner_len y r hy hzy hry hprod) hzy hry hprod]
    simp only
    rw [hsz0]
    exact e1
  · intro p hp
    refine ⟨_, _, _, (broadcast_to_at condition r hc hzc hrc hprod p hp).1,
      (broadcast_to_at x r hx hzx hrx hprod p hp).1,
      (broadcast_to_at y r hy hzy hry hprod p hp).1, ?_⟩
    rw [e5 p hp]

theorem determinant_not_square [Ring T] (arr : ndarray T)
    (h : arr.ndim ≠ 2 ∨ arr.shape_.getD 0 0 ≠ arr.shape_.getD 1 0) :
    determinant arr = .error .runtime_error := by
  unfold determinant
  rw [determinant_fuel, if_pos h]

theorem trace_step_ne [Add T] (arr : ndarray T) (harr : arr.shape_.length = 2) (s : T) (i : Nat) :
    trace_step arr s i ≠ .error .runtime_error := by
  intro h
  unfold trace_step at h
  split at h
  · rename_i e he
    injection h with h
    rw [h] at he
    exact at_ne_runtime arr [i, i] (by simp [harr]) he
  · cases h

/-- `trace` throws `std::runtime_error` exactly when the array is not a square
matrix. -/
theorem trace_throws_iff [Zero T] [Add T] (arr : ndarray T) :
    trace arr = .error .runtime_error ↔
      (arr.ndim ≠ 2 ∨ arr.shape_.getD 0 0 ≠ arr.shape_.getD 1 0) := by
  constructor
  · intro h
    by_contra hc
    unfold trace at h
    rw [if_neg hc] at h
    have hnd : arr.shape_.length = 2 := by
      simp only [not_or, not_not, ndarray.ndim] at hc
      exact hc.1
    exact foldlM_ne_runtime _ (fun s i => trace_step_ne arr hnd s i) _ _ h
  · intro h
    unfold trace
    rw [if_pos h]

theorem trace_ne_out_of_range [Zero T] [Add T] (arr : ndarray T) :
    trace arr ≠ .error .out_of_range := by
  intro h
  by_cases hc : arr.ndim ≠ 2 ∨ arr.shape_.getD 0 0 ≠ arr.shape_.getD 1 0
  · rw [(trace_throws_iff arr).mpr hc] at h
    cases h
  · unfold trace at h
    rw [if_neg hc] at h
    simp only [not_or, not_not, ndarray.ndim] at hc
    obtain ⟨hl, hsq⟩ := hc
    obtain ⟨m, n, ha⟩ : ∃ m n, arr.shape_ = [m, n] := by
      match hsa : arr.shape_, hl with
      | [x, y], _ => exact ⟨x, y, rfl⟩
    have hmn : m = n := by
      rw [ha] at hsq
      simpa using hsq
    subst hmn
    rw [ha] at h
    simp only [List.getD_cons_zero] at h
    exact foldlM_ne_mem .out_of_range (trace_step arr) (fun _ => True) _
      (fun _ _ _ _ _ _ => trivial)
      (fun s i hi _ => by
        intro he
        unfold trace_step at he
        split at he
        · rename_i e h2
          injection he with he
          rw [he] at h2
          exact at_ne_out_of_range arr [i, i]
            (by rw [ha]; exact forall₂_pair (List.mem_range.mp hi) (List.mem_range.mp hi)) h2
        · cases he) _ trivial h

/-- `trace` of a square matrix whose diagonal can be read. -/
theorem trace_ok [AddCommMonoid T] (arr : ndarray T) (n : Nat) (A : Nat → T)
    (hshape : arr.shape_ = [n, n]) (hA : ∀ i, i < n → arr.at [i, i] = .ok (A i)) :
    trace arr = .ok (∑ i in Finset.range n, A i) := by
  obtain ⟨s, h1, h2⟩ := foldlM_range_inv (trace_step arr)
    (fun k s => s = ∑ i in Finset.range k, A i) n 0 (by simp)
    (by
      intro k s hk hs
      refine ⟨s + A k, ?_, ?_⟩
      · unfold trace_step
        rw [hA k hk]
      · show s + A k = ∑ i in Finset.range (k + 1), A i
        rw [Finset.sum_range_succ, hs])
  unfold trace
  rw [if_neg (by simp [ndarray.ndim, hshape])]
  simp only [hshape, List.getD_cons_zero]
  rw [h1, h2]

theorem ctor_list_single (x : T) :
    ndarray.ctor_list [x] = .ok ⟨[1], [1], [x], 1, true⟩ := by
  rfl

theorem ctor_data_single (x : T) :
    ndarray.ctor_data [1] [x] = .ok ⟨[1], [1], [x], 1, true⟩ := by
  rfl

/-- The vector branch of `dot`. -/
theorem dot_vector_ok [Semiring T] (a b : ndarray T) (n : Nat) (A B : Nat → T)
    (ha : a.ndim = 1) (hb : b.ndim = 1) (hsa : a.size_ = n) (hsb : b.size_ = n)
    (hA : ∀ i, i < n → a.get i = .ok (A i)) (hB : ∀ i, i < n → b.get i = .ok (B i)) :
    dot a b = .ok ⟨[1], [1], [∑ i in Finset.range n, A i * B i], 1, true⟩ := by
  obtain ⟨s, h1, h2⟩ := foldlM_range_inv (dot_vector_step a b)
    (fun k s => s = ∑ i in Finset.range k, A i * B i) n 0 (by simp)
    (by
      intro k s hk hs
      refine ⟨s + A k * B k, ?_, ?_⟩
      · unfold dot_vector_step
        rw [hA k hk, hB k hk]
      · show s + A k * B k = ∑ i in Finset.range (k + 1), A i * B i
        rw [Finset.sum_range_succ, hs])
  unfold dot
  rw [if_pos ⟨ha, hb⟩, if_neg (by rw [hsa, hsb]; exact fun h => h rfl), hsa, h1]
  simp only
  rw [h2, ctor_data_single]

theorem dot_matrix (a b : ndarray T) [Zero T] [Add T] [Mul T] [NatCast T] (ha : a.ndim = 2)
    (hb : b.ndim = 2) : dot a b = matmul a b := by
  unfold dot
  rw [if_neg (by rw [ha]; exact fun h => absurd h.1 (by decide)), if_pos ⟨ha, hb⟩]

theorem dot_unsupported [Zero T] [Add T] [Mul T] [NatCast T] (a b : ndarray T)
    (h11 : ¬ (a.ndim = 1 ∧ b.ndim = 1)) (h22 : ¬ (a.ndim = 2 ∧ b.ndim = 2))
    (h21 : ¬ (a.ndim = 2 ∧ b.ndim = 1)) : dot a b = .error .runtime_error := by
  unfold dot
  rw [if_neg h11, if_neg h22, if_neg h21]

theorem dot_vector_mismatch [Zero T] [Add T] [Mul T] [NatCast T] (a b : ndarray T)
    (ha : a.ndim = 1) (hb : b.ndim = 1) (h : a.size_ ≠ b.size_) :
    dot a b = .error .runtime_error := by
  unfold dot
  rw [if_pos ⟨ha, hb⟩, if_pos h]

theorem dot_matvec_mismatch [Zero T] [Add T] [Mul T] [NatCast T] (a b : ndarray T)
    (ha : a.ndim = 2) (hb : b.ndim = 1) (h : a.shape_.getD 1 0 ≠ b.size_) :
    dot a b = .error .runtime_error := by
  unfold dot
  rw [if_neg (by rw [ha]; exact fun h => absurd h.1 (by decide)),
    if_neg (by rw [hb]; exact fun h => absurd h.2 (by decide)), if_pos ⟨ha, hb⟩, if_pos h]

theorem dot_matvec_inner_ok [Zero T] [Add T] [Mul T] (a b : ndarray T) (n i : Nat)
    (hA : ∀ j, j < n → ∃ v, a.at [i, j] = .ok v) (hB : ∀ j, j < n → ∃ w, b.get j = .ok w) :
    ∃ s, (List.range n).foldlM (dot_matvec_inner a b i) 0 = .ok s := by
  obtain ⟨s, h1, _⟩ := foldlM_range_inv (dot_matvec_inner a b i) (fun _ _ => True) n 0 trivial
    (by
      intro k s hk _
      obtain ⟨v, hv⟩ := hA k hk
      obtain ⟨w, hw⟩ := hB k hk
      refine ⟨s + v * w, ?_, trivial⟩
      unfold dot_matvec_inner
      rw [hv, hw])
  exact ⟨s, h1⟩

/-- The matrix-vector branch of `dot` on a matrix with two or more rows: the
result holds one element, and the write of the second row is out of range. -/
theorem dot_matvec_throws [Zero T] [Add T] [Mul T] [NatCast T] (a b : ndarray T) (m n : Nat)
    (ha : a.shape_ = [m, n]) (hb : b.ndim = 1) (hsb : b.size_ = n) (hm : 2 ≤ m)
    (hA : ∀ i j, i < m → j < n → ∃ v, a.at [i, j] = .ok v)
    (hB : ∀ j, j < n → ∃ w, b.get j = .ok w) :
    dot a b = .error .out_of_range := by
  obtain ⟨s0, h0⟩ := dot_matvec_inner_ok a b n 0 (fun j hj => hA 0 j (by omega) hj) hB
  obtain ⟨s1, h1⟩ := dot_matvec_inner_ok a b n 1 (fun j hj => hA 1 j (by omega) hj) hB
  unfold dot
  rw [if_neg (by simp [ndarray.ndim, ha]),
    if_neg (by rw [hb]; exact fun h => absurd h.2 (by decide)),
    if_pos ⟨by simp [ndarray.ndim, ha], hb⟩]
  simp only [ha, List.getD_cons_zero, List.getD_cons_succ]
  rw [if_neg (by rw [hsb]; exact fun h => h rfl), ctor_list_single]
  simp only
  exact foldlM_range_error_second _ _ ⟨[1], [1], [s0], 1, true⟩ m _ hm
    (by unfold dot_matvec_row; rw [h0]; rfl)
    (by unfold dot_matvec_row; rw [h1]; rfl)

/-- `slice_1d` with `start` at or beyond the clamped `stop`: the result is the
one-element array holding 0, not an array of size 0. -/
theorem slice_1d_empty [NatCast T] (arr : ndarray T) (start stop step : Nat)
    (hnd : arr.ndim = 1) (h : min stop arr.size_ ≤ start) :
    slice_1d arr start stop step = .ok ⟨[1], [1], [((0 : Nat) : T)], 1, true⟩ := by
  have hmin : (if stop > arr.size_ then arr.size_ else stop) = min stop arr.size_ := by
    split <;> omega
  unfold slice_1d
  rw [if_neg (fun hne => hne hnd)]
  simp only
  rw [hmin, if_pos h, ctor_list_single]

/-- `slice_1d` when at least two elements are sampled: the result holds one
element, and the write of the second sample is out of range. -/
theorem slice_1d_throws [NatCast T] (arr : ndarray T) (start stop step : Nat) (v0 v1 : T)
    (hnd : arr.ndim = 1) (hstep : 1 ≤ step)
    (h2 : start + step < min stop arr.size_)
    (hM : min stop arr.size_ + step < SIZE_T_MODULUS)
    (hv0 : arr.get start = .ok v0) (hv1 : arr.get (start + step) = .ok v1) :
    slice_1d arr start stop step = .error .out_of_range := by
  have hmin : (if stop > arr.size_ then arr.size_ else stop) = min stop arr.size_ := by
    split <;> omega
  have hsize : subSz (addSz (subSz (min stop arr.size_) start) step) 1 =
      min stop arr.size_ - start + step - 1 := by
    have e1 : subSz (min stop arr.size_) start = min stop arr.size_ - start :=
      subSz_of_le (by omega) (by omega)
    have e2 : addSz (min stop arr.size_ - start) step = min stop arr.size_ - start + step :=
      addSz_of_lt (by omega)
    rw [e1, e2]
    exact subSz_of_le (by omega) (by omega)
  have hrs : 2 ≤ (min stop arr.size_ - start + step - 1) / step := by
    rw [Nat.le_div_iff_mul_le (by omega)]
    omega
  unfold slice_1d
  rw [if_neg (fun hne => hne hnd)]
  simp only
  rw [hmin, if_neg (by omega), if_neg (by omega), hsize, ctor_list_single]
  simp only
  rw [foldlM_range_error_second _ _ (⟨[1], [1], [v0], 1, true⟩, false) _ .out_of_range hrs
    (by
      unfold slice_1d_step
      simp only [Bool.false_eq_true, if_false]
      have h0 : addSz start (mulSz 0 step) = start := by
        unfold mulSz
        rw [Nat.zero_mul, Nat.zero_mod]
        exact addSz_of_lt (by omega)
      rw [h0, if_neg (by omega), hv0]
      rfl)
    (by
      unfold slice_1d_step
      simp only [Bool.false_eq_true, if_false]
      have h1 : addSz start (mulSz 1 step) = start + step := by
        unfold mulSz
        rw [Nat.one_mul, Nat.mod_eq_of_lt (by omega)]
        exact addSz_of_lt (by omega)
      rw [h1, if_neg (by omega), hv1]
      rfl)]

theorem advanced_indexing_coords_ok (indices : List (List Nat)) (i k : Nat)
    (h : ∀ l ∈ indices, l.length = k) (hi : i < k) :
    advanced_indexing_coords indices i = .ok (indices.map (fun l => l.getD i 0)) := by
  induction indices with
  | nil => rfl
  | cons l ls ih =>
    have hl : i < l.length := by rw [h l (List.mem_cons_self _ _)]; exact hi
    simp only [advanced_indexing_coords, List.map_cons]
    rw [readAt_of_lt l i hl, ih (fun x hx => h x (List.mem_cons_of_mem _ hx))]

theorem advanced_indexing_unfold [NatCast T] (arr : ndarray T) (first : List Nat)
    (rest : List (List Nat)) (hlen : (first :: rest).length = arr.ndim)
    (hsame : ∀ l ∈ first :: rest, l.length = first.length) :
    advanced_indexing arr (first :: rest) =
      (List.range first.length).foldlM (advanced_indexing_step arr (first :: rest))
        ⟨[1], [1], [((first.length : Nat) : T)], 1, true⟩ := by
  have hany : (first :: rest).any (fun idx_arr => decide (idx_arr.length ≠ first.length)) =
      false := by
    rw [List.any_eq_false]
    intro l hl
    simp only [decide_eq_true_eq, not_not]
    exact hsame l hl
  unfold advanced_indexing
  rw [if_neg (fun hne => hne hlen)]
  simp only
  rw [hany]
  simp only [Bool.false_eq_true, if_false]
  rw [ctor_list_single]

/-- `advanced_indexing` with index lists of two or more entries, all of which
address an element of the array: the result holds one element, and the write of
the second gathered element is out of range. -/
theorem advanced_indexing_throws [NatCast T] (arr : ndarray T) (first : List Nat)
    (rest : List (List Nat)) (hlen : (first :: rest).length = arr.ndim)
    (hsame : ∀ l ∈ first :: rest, l.length = first.length) (hk : 2 ≤ first.length)
    (hread : ∀ i, i < first.length →
      ∃ v, arr.at ((first :: rest).map (fun l => l.getD i 0)) = .ok v) :
    advanced_indexing arr (first :: rest) = .error .out_of_range := by
  obtain ⟨v0, hv0⟩ := hread 0 (by omega)
  obtain ⟨v1, hv1⟩ := hread 1 (by omega)
  rw [advanced_indexing_unfold arr first rest hlen hsame]
  exact foldlM_range_error_second _ _ ⟨[1], [1], [v0], 1, true⟩ _ _ hk
    (by
      unfold advanced_indexing_step
      rw [advanced_indexing_coords_ok _ 0 first.length hsame (by omega)]
      simp only
      rw [hv0]
      rfl)
    (by
      unfold advanced_indexing_step
      rw [advanced_indexing_coords_ok _ 1 first.length hsame (by omega)]
      simp only
      rw [hv1]
      rfl)

/-- `advanced_indexing` with empty index lists: the result is the one-element
array holding 0, not an array of size 0. -/
theorem advanced_indexing_zero [NatCast T] (arr : ndarray T) (first : List Nat)
    (rest : List (List Nat)) (hlen : (first :: rest).length = arr.ndim)
    (hsame : ∀ l ∈ first :: rest, l.length = first.length) (hk : first.length = 0) :
    advanced_indexing arr (first :: rest) = .ok ⟨[1], [1], [((0 : Nat) : T)], 1, true⟩ := by
  rw [advanced_indexing_unfold arr first rest hlen hsame, hk]
  rfl

/-- `advanced_indexing` with index lists of one entry gathers that one element. -/
theorem advanced_indexing_one [NatCast T] (arr : ndarray T) (first : List Nat)
    (rest : List (List Nat)) (hlen : (first :: rest).length = arr.ndim)
    (hsame : ∀ l ∈ first :: rest, l.length = first.length) (hk : first.length = 1) (v : T)
    (hread : arr.at ((first :: rest).map (fun l => l.getD 0 0)) = .ok v) :
    advanced_indexing arr (first :: rest) = .ok ⟨[1], [1], [v], 1, true⟩ := by
  rw [advanced_indexing_unfold arr first rest hlen hsame]
  have hr : List.range first.length = [0] := by rw [hk]; rfl
  rw [hr, List.foldlM_cons]
  unfold advanced_indexing_step
  rw [advanced_indexing_coords_ok _ 0 first.length hsame (by omega)]
  simp only
  rw [hread]
  rfl

theorem advanced_indexing_rank_mismatch [NatCast T] (arr : ndarray T)
    (indices : List (List Nat)) (h : indices.length ≠ arr.ndim) :
    advanced_indexing arr indices = .error .runtime_error := by
  unfold advanced_indexing
  rw [if_pos h]

theorem advanced_indexing_length_mismatch [NatCast T] (arr : ndarray T) (first : List Nat)
    (rest : List (List Nat)) (hlen : (first :: rest).length = arr.ndim)
    (h : ∃ l ∈ first :: rest, l.length ≠ first.length) :
    advanced_indexing arr (first :: rest) = .error .runtime_error := by
  obtain ⟨l, hl, hne⟩ := h
  have hany : (first :: rest).any (fun idx_arr => decide (idx_arr.length ≠ first.length)) =
      true := by
    rw [List.any_eq_true]
    exact ⟨l, hl, by simpa using hne⟩
  unfold advanced_indexing
  rw [if_neg (fun hne2 => hne2 hlen)]
  simp only
  rw [hany]
  rfl

/-- C21 (amended): for every array `a` whose elements can all be read (every
in-range multi-index flattens, with the strides of `a`, to a position below
`size()` inside the buffer) and whose element count and `axis` extent are below
`2 ^ 64`, `axis < rank(a)` and a non-decreasing list of cut points each at most
`a.shape[axis]`: `split(a, axis, cuts)` returns exactly `len(cuts) + 1` arrays;
with boundaries `b = [0] ++ cuts ++ [a.shape[axis]]`, the `i`-th returned array
has the shape of `a` with the `axis` dimension replaced by `b[i+1] - b[i]`, and
its element at every in-range multi-index `p` is the element of `a` at `p` with
`p[axis]` increased by `b[i]`. -/
theorem split_spec [Zero T] (a : ndarray T) (axis : Nat) (cuts : List Nat)
    (ha : a.InBounds) (hax : axis < a.ndim)
    (hs : cuts.Pairwise (fun x y => x ≤ y)) (hc : ∀ c ∈ cuts, c ≤ a.shape_.getD axis 0)
    (hd : a.shape_.getD axis 0 < SIZE_T_MODULUS) (hprod : a.shape_.prod < SIZE_T_MODULUS) :
    ∃ parts, split a axis cuts = .ok parts ∧ parts.length = cuts.length + 1 ∧
      ∀ i (hi : i < parts.length),
        (parts.get ⟨i, hi⟩).shape_ = a.shape_.set axis
          ((splitBounds a axis cuts).getD (i + 1) 0 - (splitBounds a axis cuts).getD i 0) ∧
        ∀ p, List.Forall₂ (fun i d => i < d) p (parts.get ⟨i, hi⟩).shape_ →
          ∃ v, a.at (shiftAxis axis ((splitBounds a axis cuts).getD i 0) p) = .ok v ∧
            (parts.get ⟨i, hi⟩).at p = .ok v := by
  obtain ⟨parts, h1, h2, h3⟩ := split_ok a ha axis cuts hax hs hc hd hprod
  refine ⟨parts, h1, h2, ?_⟩
  intro i hi
  obtain ⟨e1, e2⟩ := h3 i (parts.get ⟨i, hi⟩) (List.getElem?_eq_getElem hi)
  refine ⟨e1.1, ?_⟩
  intro p hp
  rw [e1.1] at hp
  obtain ⟨_, _, b3, b4⟩ := splitBounds_step cuts (a.shape_.getD axis 0) hs hc i
    (by rw [h2] at hi; exact hi)
  have hq : List.Forall₂ (fun i d => i < d)
      (shiftAxis axis ((splitBounds a axis cuts).getD i 0) p) a.shape_ :=
    shiftAxis_back hp hax (by
      have e3 : (splitBounds a axis cuts).getD i 0 ≤ (splitBounds a axis cuts).getD (i + 1) 0 :=
        b3
      have e4 : (splitBounds a axis cuts).getD (i + 1) 0 ≤ a.shape_.getD axis 0 := b4
      omega)
  obtain ⟨f, _, _, hat, _⟩ := inBounds_read a ha _ hq
  exact ⟨_, hat, by rw [e2 p hp]; exact hat⟩

/-- Witness for C21: `[[1,2],[3,4],[5,6],[7,8]]` split along axis 0 at the cut
points 1 and 3 gives three arrays; the second has shape `(2, 2)` and holds the
element `(2, 1)` of the source, 6, at `(1, 1)`. -/
theorem split_spec_witness :
    ∃ parts : List (ndarray Int),
      split (⟨[4, 2], [2, 1], [1, 2, 3, 4, 5, 6, 7, 8], 8, true⟩ : ndarray Int) 0 [1, 3] =
        .ok parts ∧
      parts.length = 3 ∧
      ∃ r, parts[1]? = some r ∧ r.shape_ = [2, 2] ∧ r.at [1, 1] = .ok 6 := by
  obtain ⟨parts, h1, h2, h3⟩ := split_spec
    (⟨[4, 2], [2, 1], [1, 2, 3, 4, 5, 6, 7, 8], 8, true⟩ : ndarray Int) 0 [1, 3]
    (inBounds_of_owner _ (by unfold ndarray.IsRowMajorOwner; decide) (by decide))
    (by decide) (by decide) (by decide) (by decide) (by decide)
  have hi : 1 < parts.length := by rw [h2]; decide
  obtain ⟨e1, e2⟩ := h3 1 hi
  have hsh : (parts.get ⟨1, hi⟩).shape_ = [2, 2] := by rw [e1]; rfl
  obtain ⟨v, hv, hr⟩ := e2 [1, 1] (by rw [hsh]; exact forall₂_pair (by decide) (by decide))
  have hv6 : v = 6 := by
    have h6 : (⟨[4, 2], [2, 1], [1, 2, 3, 4, 5, 6, 7, 8], 8, true⟩ : ndarray Int).at [2, 1] =
        .ok 6 := by decide
    have hv2 : (⟨[4, 2], [2, 1], [1, 2, 3, 4, 5, 6, 7, 8], 8, true⟩ : ndarray Int).at [2, 1] =
        .ok v := hv
    rw [h6] at hv2
    injection hv2 with hv2
    exact hv2.symm
  subst hv6
  exact ⟨parts, h1, h2, parts.get ⟨1, hi⟩, List.getElem?_eq_getElem hi, hsh, hr⟩

/-- Counterexample for C21 as stated: the owning copy `c` of the view of shape
`(2^63 + 1, 2)` with strides `(0, 0)` holds 7 at every index; its `size_t`
element count is 2, so the single array `split(c, 0, {})` returns has a buffer
of 2 elements and no element at the in-range multi-index `(1, 0)`. -/
theorem split_spec_counterexample :
    ∃ c r : ndarray Int,
      ndarray.ctor_copy (ndarray.create_view [9223372036854775809, 2] [0, 0] [7, 7]) = .ok c ∧
      c.owns_data_ = true ∧ c.ndim = 2 ∧
      split c 0 [] = .ok [r] ∧ r.shape_ = [9223372036854775809, 2] ∧
      List.Forall₂ (fun i d => i < d) [1, 0] r.shape_ ∧
      c.at (shiftAxis 0 0 [1, 0]) = .ok 7 ∧ r.at [1, 0] = .error .undefined :=
  ⟨⟨[9223372036854775809, 2], [0, 0], [7, 7], 2, true⟩,
    ⟨[9223372036854775809, 2], [2, 1], [7, 7], 2, true⟩, by decide⟩

/-- C22 (amended): for every owning array `a` with the row-major strides of its
shape, `axis < rank(a)` and a count `times`, where the element count of `a`,
`a.shape[axis] * times` and the element count of the result are below `2 ^ 64`:
`repeat(a, times, axis)` has the shape of `a` with the `axis` dimension
multiplied by `times`, and its element at every in-range multi-index `p` is the
element of `a` at `p` with `p[axis]` replaced by `p[axis] mod a.shape[axis]`
(whole copies laid end to end along `axis`). -/
theorem repeat_spec [Zero T] (a : ndarray T) (times axis : Nat)
    (hown : a.IsRowMajorOwner) (hap : a.shape_.prod < SIZE_T_MODULUS) (hax : axis < a.ndim)
    (hmul : a.shape_.getD axis 0 * times < SIZE_T_MODULUS)
    (hprod : (a.shape_.set axis (a.shape_.getD axis 0 * times)).prod < SIZE_T_MODULUS) :
    ∃ r, «repeat» a times axis = .ok r ∧
      r.shape_ = a.shape_.set axis (a.shape_.getD axis 0 * times) ∧
      ∀ p, List.Forall₂ (fun i d => i < d) p r.shape_ →
        ∃ v, a.at (p.set axis (p.getD axis 0 % a.shape_.getD axis 0)) = .ok v ∧
          r.at p = .ok v := by
  obtain ⟨r, h1, h2, h3⟩ := repeat_ok a hown hap times axis hax hmul hprod
  refine ⟨r, h1, h2.1, ?_⟩
  intro p hp
  rw [h2.1] at hp
  have hval := h3 p hp
  obtain ⟨v, hv⟩ : ∃ v, r.at p = .ok v := ⟨_, isDense_at r _ h2 p hp⟩
  exact ⟨v, by rw [← hval]; exact hv, hv⟩

/-- Witness for C22: `[[1,2],[3,4]]` repeated twice along axis 1 has shape
`(2, 4)` and holds the element `(1, 0)` of the source, 3, at `(1, 2)`. -/
theorem repeat_spec_witness :
    ∃ r : ndarray Int,
      «repeat» (⟨[2, 2], [2, 1], [1, 2, 3, 4], 4, true⟩ : ndarray Int) 2 1 = .ok r ∧
      r.shape_ = [2, 4] ∧ r.at [1, 2] = .ok 3 := by
  obtain ⟨r, h1, h2, h3⟩ := repeat_spec (⟨[2, 2], [2, 1], [1, 2, 3, 4], 4, true⟩ : ndarray Int)
    2 1 (by unfold ndarray.IsRowMajorOwner; decide) (by decide) (by decide) (by decide)
    (by decide)
  have hsh : r.shape_ = [2, 4] := by rw [h2]; rfl
  obtain ⟨v, hv, hr⟩ := h3 [1, 2] (by rw [hsh]; exact forall₂_pair (by decide) (by decide))
  have hv3 : v = 3 := by
    have h6 : (⟨[2, 2], [2, 1], [1, 2, 3, 4], 4, true⟩ : ndarray Int).at [1, 0] = .ok 3 := by
      decide
    have hv2 : (⟨[2, 2], [2, 1], [1, 2, 3, 4], 4, true⟩ : ndarray Int).at [1, 0] = .ok v := hv
    rw [h6] at hv2
    injection hv2 with hv2
    exact hv2.symm
  subst hv3
  exact ⟨r, h1, hsh, hr⟩

/-- Counterexample for C22 as stated: an owning copy `c` of a view with strides
`(1, 2)` holds 3 at `(0, 1)`; `repeat(c, 2, 0)` holds 0 at `(0, 1)`. -/
theorem repeat_spec_counterexample :
    ∃ c r : ndarray Int,
      ndarray.ctor_copy (ndarray.create_view [2, 2] [1, 2] [1, 2, 3, 4]) = .ok c ∧
      c.owns_data_ = true ∧ c.ndim = 2 ∧
      «repeat» c 2 0 = .ok r ∧ r.shape_ = [4, 2] ∧
      List.Forall₂ (fun i d => i < d) [0, 1] r.shape_ ∧
      c.at ([0, 1].set 0 (0 % 2)) = .ok 3 ∧ r.at [0, 1] = .ok 0 :=
  ⟨⟨[2, 2], [1, 2], [1, 2, 3, 4], 4, true⟩,
    ⟨[4, 2], [2, 1], [1, 0, 2, 0, 1, 0, 2, 0], 8, true⟩, by decide⟩

/-- C23 (amended): `tile(a, reps)` throws `std::runtime_error` if and only if
`len(reps) != rank(a)`; for an array `a` whose elements can all be read (every
in-range multi-index flattens, with the strides of `a`, to a position below
`size()` inside the buffer), when every product `a.shape[i] * reps[i]` and the
element count of the result are below `2 ^ 64`, the result has
`shape[i] = a.shape[i] * reps[i]` for every `i` and its element at every
in-range multi-index `p` is the element of `a` at the multi-index whose `i`-th
coordinate is `p[i] mod a.shape[i]`. -/
theorem tile_spec [Zero T] (a : ndarray T) (reps : List Nat) :
    (tile a reps = .error .runtime_error ↔ reps.length ≠ a.ndim) ∧
    (a.InBounds → List.Forall₂ (fun d r => d * r < SIZE_T_MODULUS) a.shape_ reps →
      (List.zipWith (fun d r => d * r) a.shape_ reps).prod < SIZE_T_MODULUS →
      ∃ r, tile a reps = .ok r ∧ r.shape_ = List.zipWith (fun d r => d * r) a.shape_ reps ∧
        ∀ p, List.Forall₂ (fun i d => i < d) p r.shape_ →
          ∃ v, a.at (List.zipWith (fun c d => c % d) p a.shape_) = .ok v ∧ r.at p = .ok v) := by
  refine ⟨tile_throws_iff a reps, ?_⟩
  intro ha hreps hprod
  obtain ⟨r, h1, h2, h3⟩ := tile_ok a ha reps hreps hprod
  refine ⟨r, h1, h2.1, ?_⟩
  intro p hp
  rw [h2.1] at hp
  have hval := h3 p hp
  obtain ⟨v, hv⟩ : ∃ v, r.at p = .ok v := ⟨_, isDense_at r _ h2 p hp⟩
  exact ⟨v, by rw [← hval]; exact hv, hv⟩

/-- Witness for C23: `tile([[1,2],[3,4]], (2, 2))` has shape `(4, 4)` and holds
the element `(1, 0)` of the source, 3, at `(3, 2)`. -/
theorem tile_spec_witness :
    ∃ r : ndarray Int,
      tile (⟨[2, 2], [2, 1], [1, 2, 3, 4], 4, true⟩ : ndarray Int) [2, 2] = .ok r ∧
      r.shape_ = [4, 4] ∧ r.at [3, 2] = .ok 3 := by
  obtain ⟨r, h1, h2, h3⟩ := (tile_spec (⟨[2, 2], [2, 1], [1, 2, 3, 4], 4, true⟩ : ndarray Int)
    [2, 2]).2 (inBounds_of_owner _ (by unfold ndarray.IsRowMajorOwner; decide) (by decide))
    (List.Forall₂.cons (by decide) (List.Forall₂.cons (by decide) List.Forall₂.nil))
    (by decide)
  have hsh : r.shape_ = [4, 4] := by rw [h2]; rfl
  obtain ⟨v, hv, hr⟩ := h3 [3, 2] (by rw [hsh]; exact forall₂_pair (by decide) (by decide))
  have hv3 : v = 3 := by
    have h6 : (⟨[2, 2], [2, 1], [1, 2, 3, 4], 4, true⟩ : ndarray Int).at [1, 0] = .ok 3 := by
      decide
    have hv2 : (⟨[2, 2], [2, 1], [1, 2, 3, 4], 4, true⟩ : ndarray Int).at [1, 0] = .ok v := hv
    rw [h6] at hv2
    injection hv2 with hv2
    exact hv2.symm
  subst hv3
  exact ⟨r, h1, hsh, hr⟩

/-- Counterexample for C23 as stated: (1) the view of shape `(2, 2)` with strides
`(4, 1)` over 8 elements (the left half of a 2x4 matrix) tiled with `reps` of
the right length `(1, 1)` fails with `std::out_of_range`, its element `(1, 0)`
lying at flat position 4, not below `size() = 4`; (2) `tile([[1,2],[3,4]],
(2^63, 1))` returns an array of shape `(0, 2)`, the product `2 * 2^63` wrapping
to 0. -/
theorem tile_spec_counterexample :
    ([1, 1] : List Nat).length =
      (ndarray.create_view [2, 2] [4, 1] [1, 2, 3, 4, 5, 6, 7, 8] : ndarray Int).ndim ∧
    (ndarray.create_view [2, 2] [4, 1] [1, 2, 3, 4, 5, 6, 7, 8] : ndarray Int).at [1, 0] =
      .ok 5 ∧
    tile (ndarray.create_view [2, 2] [4, 1] [1, 2, 3, 4, 5, 6, 7, 8] : ndarray Int) [1, 1] =
      .error .out_of_range ∧
    tile (⟨[2, 2], [2, 1], [1, 2, 3, 4], 4, true⟩ : ndarray Int) [9223372036854775808, 1] =
      .ok ⟨[0, 2], [2, 1], [], 0, true⟩ := by
  decide

/-- A loop that writes `n` consecutive flat positions of a dense result, starting
at `lo`, the positions below `lo` being already written. -/
theorem gather_segment [Zero T] (rs : Shape) (src : List Nat → Except Error T) (lo n : Nat)
    (step : ndarray T → Nat → Except Error (ndarray T))
    (hstep : ∀ r j, r.IsDense rs → r.size_ = rs.prod → j < n →
      ∃ p v, List.Forall₂ (fun i d => i < d) p rs ∧
        dotNat p (compute_strides rs) = lo + j ∧ src p = .ok v ∧ step r j = r.set (lo + j) v)
    (r0 : ndarray T) (hr0 : r0.IsDense rs) (hsz : r0.size_ = rs.prod)
    (hdone : ∀ p, List.Forall₂ (fun i d => i < d) p rs → dotNat p (compute_strides rs) < lo →
      r0.at p = src p) :
    ∃ r, (List.range n).foldlM step r0 = .ok r ∧ r.IsDense rs ∧ r.size_ = r0.size_ ∧
      r.owns_data_ = r0.owns_data_ ∧
      ∀ p, List.Forall₂ (fun i d => i < d) p rs → dotNat p (compute_strides rs) < lo + n →
        r.at p = src p := by
  exact foldlM_range_inv step
    (fun k s => s.IsDense rs ∧ s.size_ = r0.size_ ∧ s.owns_data_ = r0.owns_data_ ∧
      ∀ p, List.Forall₂ (fun i d => i < d) p rs → dotNat p (compute_strides rs) < lo + k →
        s.at p = src p)
    n r0 ⟨hr0, rfl, rfl, hdone⟩
    (by
      intro k s hk ⟨hs, hssz, hown, hprev⟩
      obtain ⟨p, v, hp, hdot, hsrc, hst⟩ := hstep s k hs (by rw [hssz, hsz]) hk
      obtain ⟨s2, e1, e2, e3, e4, e5, e6⟩ := isDense_at_set s rs hs p hp v
      refine ⟨s2, ?_, e2, by rw [e3, hssz], by rw [e4, hown], ?_⟩
      · rw [hst, ← hdot, set_eq_at_set s rs hs (by rw [hssz, hsz]) p hp v]
        exact e1
      · intro q hq hlt
        by_cases hqk : dotNat q (compute_strides rs) = lo + k
        · have hqp : q = p := dotNat_inj rs q p hs.2.2.2 hq hp (by rw [hqk, hdot])
          rw [hqp, e5, hsrc]
        · rw [e6 q hq (by
            intro h
            rw [h, hdot] at hqk
            exact hqk rfl)]
          exact hprev q hq (by omega))

theorem take_copy_step_eq [Zero T] (a r : ndarray T) (ha : a.InBounds) (d k : Nat)
    (rest : Shape) (hshape : a.shape_ = d :: rest) (idx i : Nat) (hidx : idx < d) (hi : i < k)
    (hprod : (k :: rest).prod < SIZE_T_MODULUS) (hr : r.IsDense (k :: rest))
    (j : Nat) (hj : j < rest.prod) :
    ∃ p v, List.Forall₂ (fun i d => i < d) p (k :: rest) ∧
      dotNat p (compute_strides (k :: rest)) = i * rest.prod + j ∧ p.getD 0 0 = i ∧
      a.at (p.set 0 idx) = .ok v ∧
      take_copy_step a 0 idx i rest.prod (k :: rest) r j = r.set (i * rest.prod + j) v := by
  have hlt : i * rest.prod + j < (k :: rest).prod := by
    rw [List.prod_cons]
    calc i * rest.prod + j < i * rest.prod + rest.prod := by omega
      _ = (i + 1) * rest.prod := by ring
      _ ≤ k * rest.prod := Nat.mul_le_mul_right _ hi
  obtain ⟨p, hun, hp, hdot⟩ := unravel_index_spec (k :: rest) (i * rest.prod + j)
    (by rw [compute_size_of_lt _ hprod]; exact hlt)
  have hp0 : p.getD 0 0 = i := by
    cases hp with
    | @cons c _ q _ hc hq =>
      have hkpos : 0 < k := by omega
      have hrest : rest.prod < SIZE_T_MODULUS :=
        Nat.lt_of_le_of_lt (prod_tail_le k rest hkpos) hprod
      have hql := dotNat_lt rest q hrest hq
      rw [compute_strides_cons, compute_size_of_lt _ hrest] at hdot
      simp only [dotNat] at hdot
      simp only [List.getD_cons_zero]
      have h1 : (c * rest.prod + dotNat q (compute_strides rest)) / rest.prod = c := by
        rw [Nat.add_comm, Nat.add_mul_div_right _ _ (by omega), Nat.div_eq_of_lt hql,
          Nat.zero_add]
      have h2 : (i * rest.prod + j) / rest.prod = i := by
        rw [Nat.add_comm, Nat.add_mul_div_right _ _ (by omega), Nat.div_eq_of_lt hj,
          Nat.zero_add]
      rw [hdot, h2] at h1
      exact h1.symm
  have hq : List.Forall₂ (fun i d => i < d) (p.set 0 idx) a.shape_ := by
    rw [hshape]
    exact forall₂_set hp rfl
      (fun x _ hne => by
        cases x with
        | zero => exact absurd rfl hne
        | succ y => rfl)
      (by simpa using hidx)
  have hpl : 0 < p.length := by rw [List.Forall₂.length_eq hp]; simp
  obtain ⟨f, hf, _, hat, hget⟩ := inBounds_read a ha _ hq
  refine ⟨p, _, hp, hdot, hp0, hat, ?_⟩
  unfold take_copy_step
  have hm : addSz (mulSz i rest.prod) j = i * rest.prod + j := by
    rw [mulSz_of_lt (by omega)]
    exact addSz_of_lt (by omega)
  rw [hm, hr.2.1, hun]
  simp only [writeAt]
  rw [if_pos hpl]
  simp only
  rw [hf]
  simp only
  rw [flatten_index_in_range _ _ hprod hp]
  simp only
  rw [hget, hdot]

/-- `take` along axis 0 on an array whose elements can all be read, with every
index below the extent of axis 0, when the element count of the result fits
`size_t`: the element of the result at `p` is the element of the source at `p`
with `p[0]` replaced by `indices[p[0]]`. -/
theorem take_axis_zero [Zero T] (a : ndarray T) (ha : a.InBounds) (d : Nat) (rest : Shape)
    (hshape : a.shape_ = d :: rest) (indices : List Nat) (hidx : ∀ x ∈ indices, x < d)
    (hprod : (indices.length :: rest).prod < SIZE_T_MODULUS) :
    ∃ r, take a indices 0 = .ok r ∧ r.IsDense (indices.length :: rest) ∧
      ∀ p, List.Forall₂ (fun i d => i < d) p (indices.length :: rest) →
        r.at p = a.at (p.set 0 (indices.getD (p.getD 0 0) 0)) := by
  have hr0 := ctor_shape_isDense (T := T) _ hprod
  have hsz0 : (ndarray.ctor_shape (indices.length :: rest) : ndarray T).size_ =
      (indices.length :: rest).prod := compute_size_of_lt _ hprod
  obtain ⟨r, h1, h2, h3, _, h5⟩ := foldlM_range_inv
    (take_index a indices 0 (indices.length :: rest))
    (fun i s => s.IsDense (indices.length :: rest) ∧
      s.size_ = (indices.length :: rest).prod ∧ s.owns_data_ = true ∧
      ∀ p, List.Forall₂ (fun i d => i < d) p (indices.length :: rest) →
        dotNat p (compute_strides (indices.length :: rest)) < i * rest.prod →
        s.at p = a.at (p.set 0 (indices.getD (p.getD 0 0) 0)))
    indices.length (ndarray.ctor_shape (indices.length :: rest))
    ⟨hr0, hsz0, rfl, fun p _ hlt => by rw [Nat.zero_mul] at hlt; omega⟩
    (by
      intro i s hi ⟨hs, hssz, hown, hprev⟩
      have hblock : s.size_ / indices.length = rest.prod := by
        rw [hssz, List.prod_cons, Nat.mul_div_cancel_left _ (by omega)]
      obtain ⟨s2, e1, e2, e3, e4, e5⟩ := gather_segment (indices.length :: rest)
        (fun p => a.at (p.set 0 (indices.getD (p.getD 0 0) 0))) (i * rest.prod) rest.prod
        (take_copy_step a 0 (indices.getD i 0) i rest.prod (indices.length :: rest))
        (by
          intro r2 j hr2 _ hj
          obtain ⟨p, v, hp, hdot, hp0, hat, hst⟩ := take_copy_step_eq a r2 ha d indices.length
            rest hshape (indices.getD i 0) i
            (hidx _ (by
              rw [List.getD_eq_getElem _ _ hi]
              exact List.getElem_mem _)) hi hprod hr2 j hj
          exact ⟨p, v, hp, hdot, by show a.at _ = _; rw [hp0]; exact hat, hst⟩)
        s hs hssz hprev
      refine ⟨s2, ?_, e2, by rw [e3, hssz], by rw [e4, hown], ?_⟩
      · unfold take_index
        rw [readAt_of_lt indices i hi]
        simp only
        rw [if_neg (by
          rw [hshape, List.getD_cons_zero]
          exact Nat.not_le.mpr (hidx _ (by
            rw [List.getD_eq_getElem _ _ hi]
            exact List.getElem_mem _))), hblock]
        exact e1
      · intro p hp hlt
        exact e5 p hp (by
          have : (i + 1) * rest.prod = i * rest.prod + rest.prod := by ring
          omega))
  refine ⟨r, ?_, h2, ?_⟩
  · unfold take
    rw [if_neg (by simp [ndarray.ndim, hshape])]
    simp only [hshape, List.set_cons_zero]
    exact h1
  · intro p hp
    exact h5 p hp (by
      have := dotNat_lt _ p hprod hp
      rw [List.prod_cons] at this
      exact this)

/-- `slice_1d` when exactly one element is sampled. -/
theorem slice_1d_one [NatCast T] (arr : ndarray T) (start stop step : Nat) (v0 : T)
    (hnd : arr.ndim = 1) (hstep : 1 ≤ step) (h1 : start < min stop arr.size_)
    (h2 : min stop arr.size_ ≤ start + step)
    (hM : min stop arr.size_ + step < SIZE_T_MODULUS) (hv0 : arr.get start = .ok v0) :
    slice_1d arr start stop step = .ok ⟨[1], [1], [v0], 1, true⟩ := by
  have hmin : (if stop > arr.size_ then arr.size_ else stop) = min stop arr.size_ := by
    split <;> omega
  have hsize : subSz (addSz (subSz (min stop arr.size_) start) step) 1 =
      min stop arr.size_ - start + step - 1 := by
    have e1 : subSz (min stop arr.size_) start = min stop arr.size_ - start :=
      subSz_of_le (by omega) (by omega)
    have e2 : addSz (min stop arr.size_ - start) step = min stop arr.size_ - start + step :=
      addSz_of_lt (by omega)
    rw [e1, e2]
    exact subSz_of_le (by omega) (by omega)
  have hrs : (min stop arr.size_ - start + step - 1) / step = 1 := by
    apply Nat.div_eq_of_lt_le
    · omega
    · omega
  unfold slice_1d
  rw [if_neg (fun hne => hne hnd)]
  simp only
  rw [hmin, if_neg (by omega), if_neg (by omega), hsize, ctor_list_single, hrs]
  simp only
  have hr : List.range 1 = [0] := rfl
  rw [hr, List.foldlM_cons]
  unfold slice_1d_step
  simp only [Bool.false_eq_true, if_false]
  have h0 : addSz start (mulSz 0 step) = start := by
    unfold mulSz
    rw [Nat.zero_mul, Nat.zero_mod]
    exact addSz_of_lt (by omega)
  rw [h0, if_neg (by omega), hv0]
  rfl

theorem slice_1d_rank [NatCast T] (arr : ndarray T) (start stop step : Nat)
    (hnd : arr.ndim ≠ 1) : slice_1d arr start stop step = .error .runtime_error := by
  unfold slice_1d
  rw [if_pos hnd]

/-- C24: `take(a, indices, 0)`, on an array `a` of rank at least 1 whose elements
can all be read, with every index below `a.shape[0]` and a result element count
below `2 ^ 64`, has the shape of `a` with dimension 0 replaced by
`len(indices)`, and its element at every in-range multi-index `p` is the element
of `a` at `p` with `p[0]` replaced by `indices[p[0]]`. For another axis the
function does not gather along that axis: the flat offset
`i * (result.size() / indices.size()) + j` addresses the `i`-th block along
axis 0 whatever `axis` is. -/
theorem take_axis_zero_spec [Zero T] (a : ndarray T) (d : Nat) (rest : Shape)
    (indices : List Nat) (ha : a.InBounds) (hshape : a.shape_ = d :: rest)
    (hidx : ∀ x ∈ indices, x < d)
    (hprod : (indices.length :: rest).prod < SIZE_T_MODULUS) :
    ∃ r, take a indices 0 = .ok r ∧ r.shape_ = a.shape_.set 0 indices.length ∧
      ∀ p, List.Forall₂ (fun i d => i < d) p r.shape_ →
        ∃ v, a.at (p.set 0 (indices.getD (p.getD 0 0) 0)) = .ok v ∧ r.at p = .ok v := by
  obtain ⟨r, h1, h2, h3⟩ := take_axis_zero a ha d rest hshape indices hidx hprod
  refine ⟨r, h1, by rw [h2.1, hshape]; rfl, ?_⟩
  intro p hp
  rw [h2.1] at hp
  have hval := h3 p hp
  obtain ⟨v, hv⟩ : ∃ v, r.at p = .ok v := ⟨_, isDense_at r _ h2 p hp⟩
  exact ⟨v, by rw [← hval]; exact hv, hv⟩

/-- Witness for C24: on `a = [[1,2],[3,4]]` with `indices = (1, 0)`, `take` along
axis 0 gives the rows in the order 1, 0, with `a[1][1] = 4` at `(0, 1)`; along
axis 1 it gives `[[2, 2], [3, 3]]`, whose element at `(0, 1)` is 2 although
`a[0][indices[1]] = a[0][0] = 1`. -/
theorem take_axis_zero_spec_witness :
    (∃ r : ndarray Int,
      take (⟨[2, 2], [2, 1], [1, 2, 3, 4], 4, true⟩ : ndarray Int) [1, 0] 0 = .ok r ∧
      r.shape_ = [2, 2] ∧ r.at [0, 1] = .ok 4) ∧
    (∃ r : ndarray Int,
      take (⟨[2, 2], [2, 1], [1, 2, 3, 4], 4, true⟩ : ndarray Int) [1, 0] 1 = .ok r ∧
      r.shape_ = [2, 2] ∧ r.at [0, 1] = .ok 2 ∧
      (⟨[2, 2], [2, 1], [1, 2, 3, 4], 4, true⟩ : ndarray Int).at
        ([0, 1].set 1 (([1, 0] : List Nat).getD (([0, 1] : List Nat).getD 1 0) 0)) = .ok 1) := by
  constructor
  · obtain ⟨r, h1, h2, h3⟩ := take_axis_zero_spec
      (⟨[2, 2], [2, 1], [1, 2, 3, 4], 4, true⟩ : ndarray Int) 2 [2] [1, 0]
      (inBounds_of_owner _ (by unfold ndarray.IsRowMajorOwner; decide) (by decide)) rfl
      (by decide) (by decide)
    have hsh : r.shape_ = [2, 2] := by rw [h2]; rfl
    obtain ⟨v, hv, hr⟩ := h3 [0, 1] (by rw [hsh]; exact forall₂_pair (by decide) (by decide))
    have hv4 : v = 4 := by
      have h6 : (⟨[2, 2], [2, 1], [1, 2, 3, 4], 4, true⟩ : ndarray Int).at [1, 1] = .ok 4 := by
        decide
      have hv2 : (⟨[2, 2], [2, 1], [1, 2, 3, 4], 4, true⟩ : ndarray Int).at [1, 1] = .ok v := hv
      rw [h6] at hv2
      injection hv2 with hv2
      exact hv2.symm
    subst hv4
    exact ⟨r, h1, hsh, hr⟩
  · exact ⟨⟨[2, 2], [2, 1], [2, 2, 3, 3], 4, true⟩, by decide⟩

/-- C25: `slice_1d(a, start, stop, step)` throws `std::runtime_error` if `a` is
not of rank 1. For a rank-1 `a`, with `stop' = min(stop, size)` and `step >= 1`:
if `start >= stop'` the result is the one-element array `[0]` (not an array of
size 0); if exactly one index is sampled the result is `[a[start]]`; if two or
more indices are sampled the call throws `std::out_of_range`. Both results are
built by the one-dimensional constructor from a single braced value. -/
theorem slice_1d_spec [NatCast T] (arr : ndarray T) (start stop step : Nat) :
    (arr.ndim ≠ 1 → slice_1d arr start stop step = .error .runtime_error) ∧
    (arr.ndim = 1 → min stop arr.size_ ≤ start →
      slice_1d arr start stop step = .ok ⟨[1], [1], [((0 : Nat) : T)], 1, true⟩) ∧
    (arr.ndim = 1 → 1 ≤ step → min stop arr.size_ + step < SIZE_T_MODULUS →
      start < min stop arr.size_ → min stop arr.size_ ≤ start + step →
      ∀ v0, arr.get start = .ok v0 →
        slice_1d arr start stop step = .ok ⟨[1], [1], [v0], 1, true⟩) ∧
    (arr.ndim = 1 → 1 ≤ step → min stop arr.size_ + step < SIZE_T_MODULUS →
      start + step < min stop arr.size_ →
      ∀ v0 v1, arr.get start = .ok v0 → arr.get (start + step) = .ok v1 →
        slice_1d arr start stop step = .error .out_of_range) :=
  ⟨slice_1d_rank arr start stop step,
    fun hnd h => slice_1d_empty arr start stop step hnd h,
    fun hnd hstep hM h1 h2 v0 hv0 => slice_1d_one arr start stop step v0 hnd hstep h1 h2 hM hv0,
    fun hnd hstep hM h2 v0 v1 hv0 hv1 =>
      slice_1d_throws arr start stop step v0 v1 hnd hstep h2 hM hv0 hv1⟩

/-- Witness for C25: `slice_1d([10,20,30,40,50], 1, 4, 1)`, which should be
`[20, 30, 40]`, throws `std::out_of_range`; `slice_1d([10,20,30,40,50], 3, 2, 1)`,
which should have size 0, is the one-element array `[0]`. -/
theorem slice_1d_spec_witness :
    slice_1d (⟨[5], [1], [10, 20, 30, 40, 50], 5, true⟩ : ndarray Int) 1 4 1 =
      .error .out_of_range ∧
    slice_1d (⟨[5], [1], [10, 20, 30, 40, 50], 5, true⟩ : ndarray Int) 3 2 1 =
      .ok ⟨[1], [1], [0], 1, true⟩ :=
  ⟨(slice_1d_spec (⟨[5], [1], [10, 20, 30, 40, 50], 5, true⟩ : ndarray Int) 1 4 1).2.2.2 rfl
      (by decide) (by decide) (by decide) 20 30 rfl rfl,
    (slice_1d_spec (⟨[5], [1], [10, 20, 30, 40, 50], 5, true⟩ : ndarray Int) 3 2 1).2.1 rfl
      (by decide)⟩

/-- C26 (amended): `where(condition, x, y)` throws if `x.shape != y.shape` or if
the shape of `condition` cannot be broadcast against the shape of `x`;
otherwise, for owning operands with the row-major strides of their shapes and
without zero-sized dimensions whose resolved shape
`r = broadcast_shapes(condition.shape, x.shape)` has an element count below
`2 ^ 64`, the result has shape `r` and its element at every multi-index `p` of
`r` is the element of `x` at `p` projected onto `x` when the element of
`condition` at `p` projected onto `condition` is true, and the element of `y` at
`p` projected onto `y` otherwise. -/
theorem where_spec [Zero T] (condition : ndarray Bool) (x y : ndarray T) :
    (x.shape_ ≠ y.shape_ → «where» condition x y = .error .runtime_error) ∧
    ((∃ e, broadcast_shapes condition.shape_ x.shape_ = .error e) →
      «where» condition x y = .error .runtime_error) ∧
    (condition.IsRowMajorOwner → x.IsRowMajorOwner → y.IsRowMajorOwner →
      (∀ d ∈ condition.shape_, d ≠ 0) → (∀ d ∈ x.shape_, d ≠ 0) → x.shape_ = y.shape_ →
      ∀ r, broadcast_shapes condition.shape_ x.shape_ = .ok r → r.prod < SIZE_T_MODULUS →
        ∃ res, «where» condition x y = .ok res ∧ res.shape_ = r ∧
          ∀ p, List.Forall₂ (fun i d => i < d) p r →
            ∃ c xv yv, condition.at (projectIndex condition.shape_ p) = .ok c ∧
              x.at (projectIndex x.shape_ p) = .ok xv ∧
              y.at (projectIndex y.shape_ p) = .ok yv ∧
              res.at p = .ok (if c then xv else yv)) := by
  refine ⟨where_shape_mismatch condition x y, ?_, ?_⟩
  · rintro ⟨e, he⟩
    exact where_not_broadcastable condition x y e he
  · intro hc hx hy hzc hzx hxy r h hprod
    exact where_ok condition x y r hc hx hy hzc hzx hxy h hprod

/-- Witness for C26: `where([true, false], [[1,2],[3,4]], [[5,6],[7,8]])` is
`[[1,6],[3,8]]`. -/
theorem where_spec_witness :
    ∃ res : ndarray Int,
      «where» (⟨[2], [1], [true, false], 2, true⟩ : ndarray Bool)
        (⟨[2, 2], [2, 1], [1, 2, 3, 4], 4, true⟩ : ndarray Int)
        ⟨[2, 2], [2, 1], [5, 6, 7, 8], 4, true⟩ = .ok res ∧
      res.shape_ = [2, 2] ∧ res.at [0, 0] = .ok 1 ∧ res.at [0, 1] = .ok 6 ∧
      res.at [1, 0] = .ok 3 ∧ res.at [1, 1] = .ok 8 := by
  obtain ⟨res, h1, h2, _⟩ := (where_spec (⟨[2], [1], [true, false], 2, true⟩ : ndarray Bool)
    (⟨[2, 2], [2, 1], [1, 2, 3, 4], 4, true⟩ : ndarray Int)
    ⟨[2, 2], [2, 1], [5, 6, 7, 8], 4, true⟩).2.2
    (by unfold ndarray.IsRowMajorOwner; decide) (by unfold ndarray.IsRowMajorOwner; decide)
    (by unfold ndarray.IsRowMajorOwner; decide) (by decide) (by decide) rfl [2, 2]
    (by decide) (by decide)
  have hres : res = ⟨[2, 2], [2, 1], [1, 6, 3, 8], 4, true⟩ := by
    have : «where» (⟨[2], [1], [true, false], 2, true⟩ : ndarray Bool)
        (⟨[2, 2], [2, 1], [1, 2, 3, 4], 4, true⟩ : ndarray Int)
        ⟨[2, 2], [2, 1], [5, 6, 7, 8], 4, true⟩ =
        .ok ⟨[2, 2], [2, 1], [1, 6, 3, 8], 4, true⟩ := by decide
    rw [this] at h1
    injection h1 with h1
    exact h1.symm
  refine ⟨res, h1, h2, ?_⟩
  rw [hres]
  decide

/-- Counterexample for C26 as stated: an owning copy `c` of a view with strides
`(1, 2)` holds 3 at `(0, 1)`; with an all-true condition of the same shape,
`where(condition, c, y)` holds 2 at `(0, 1)`. -/
theorem where_spec_counterexample :
    ∃ c res : ndarray Int,
      ndarray.ctor_copy (ndarray.create_view [2, 2] [1, 2] [1, 2, 3, 4]) = .ok c ∧
      c.owns_data_ = true ∧ (∀ d ∈ c.shape_, d ≠ 0) ∧
      broadcast_shapes [2, 2] c.shape_ = .ok [2, 2] ∧
      «where» (⟨[2, 2], [2, 1], [true, true, true, true], 4, true⟩ : ndarray Bool) c
        ⟨[2, 2], [2, 1], [5, 6, 7, 8], 4, true⟩ = .ok res ∧
      (⟨[2, 2], [2, 1], [true, true, true, true], 4, true⟩ : ndarray Bool).at
        (projectIndex [2, 2] [0, 1]) = .ok true ∧
      c.at (projectIndex c.shape_ [0, 1]) = .ok 3 ∧ res.at [0, 1] = .ok 2 :=
  ⟨⟨[2, 2], [1, 2], [1, 2, 3, 4], 4, true⟩, ⟨[2, 2], [2, 1], [1, 2, 3, 4], 4, true⟩, by decide⟩

/-- C27: `advanced_indexing(a, lists)` throws `std::runtime_error` when
`len(lists) != rank(a)` and when two lists have different lengths. With one
list per dimension, all of length `k`, every tuple addressing an element of `a`:
for `k = 1` the result is the one-element array holding the gathered element;
for `k = 0` it is the one-element array `[0]` (not an array of size 0); for
every `k >= 2` the call throws `std::out_of_range`, because the result is built
by the one-dimensional constructor from the single braced value `k` and holds
one element. -/
theorem advanced_indexing_spec [NatCast T] (arr : ndarray T) (first : List Nat)
    (rest : List (List Nat)) :
    ((first :: rest).length ≠ arr.ndim →
      advanced_indexing arr (first :: rest) = .error .runtime_error) ∧
    ((first :: rest).length = arr.ndim → (∃ l ∈ first :: rest, l.length ≠ first.length) →
      advanced_indexing arr (first :: rest) = .error .runtime_error) ∧
    ((first :: rest).length = arr.ndim → (∀ l ∈ first :: rest, l.length = first.length) →
      (∀ i, i < first.length →
        ∃ v, arr.at ((first :: rest).map (fun l => l.getD i 0)) = .ok v) →
      (first.length = 0 →
        advanced_indexing arr (first :: rest) =
          .ok ⟨[1], [1], [((0 : Nat) : T)], 1, true⟩) ∧
      (first.length = 1 → ∀ v, arr.at ((first :: rest).map (fun l => l.getD 0 0)) = .ok v →
        advanced_indexing arr (first :: rest) = .ok ⟨[1], [1], [v], 1, true⟩) ∧
      (2 ≤ first.length → advanced_indexing arr (first :: rest) = .error .out_of_range)) := by
  refine ⟨advanced_indexing_rank_mismatch arr _, ?_, ?_⟩
  · intro hlen h
    exact advanced_indexing_length_mismatch arr first rest hlen h
  · intro hlen hsame hread
    exact ⟨advanced_indexing_zero arr first rest hlen hsame,
      fun hk v hv => advanced_indexing_one arr first rest hlen hsame hk v hv,
      fun hk => advanced_indexing_throws arr first rest hlen hsame hk hread⟩

/-- Witness for C27: `advanced_indexing([10,20,30,40,50], {{0, 2}})`, which
should be `[10, 30]`, throws `std::out_of_range`. -/
theorem advanced_indexing_spec_witness :
    advanced_indexing (⟨[5], [1], [10, 20, 30, 40, 50], 5, true⟩ : ndarray Int) [[0, 2]] =
      .error .out_of_range ∧
    (⟨[5], [1], [10, 20, 30, 40, 50], 5, true⟩ : ndarray Int).at [0] = .ok 10 ∧
    (⟨[5], [1], [10, 20, 30, 40, 50], 5, true⟩ : ndarray Int).at [2] = .ok 30 :=
  ⟨((advanced_indexing_spec (⟨[5], [1], [10, 20, 30, 40, 50], 5, true⟩ : ndarray Int)
      [0, 2] []).2.2 rfl (by decide)
      (by
        intro i hi
        have hi2 : i < 2 := hi
        interval_cases i
        · exact ⟨10, rfl⟩
        · exact ⟨30, rfl⟩)).2.2 (by decide), by decide, by decide⟩

/-- C28: `dot(a, b)` returns, for rank-1 `a` and `b` of equal size whose elements
can be read, the one-element rank-1 array holding the sum over `i` of
`a[i] * b[i]`; for rank-2 `a` and `b`, exactly `matmul(a, b)`. It throws
`std::runtime_error` for every other rank combination except rank 2 with rank 1,
and whenever the contracted sizes of the vector or matrix-vector case differ.
For a readable matrix `a` of shape `(m, n)` with `m >= 2` and a readable vector
`b` of size `n` it throws `std::out_of_range` instead of returning the
matrix-vector product: the result is built by the one-dimensional constructor
from the single braced value `m` and holds one element. -/
theorem dot_spec [Semiring T] (a b : ndarray T) :
    (∀ n (A B : Nat → T), a.ndim = 1 → b.ndim = 1 → a.size_ = n → b.size_ = n →
      (∀ i, i < n → a.get i = .ok (A i)) → (∀ i, i < n → b.get i = .ok (B i)) →
      dot a b = .ok ⟨[1], [1], [∑ i in Finset.range n, A i * B i], 1, true⟩) ∧
    (a.ndim = 2 → b.ndim = 2 → dot a b = matmul a b) ∧
    (¬ (a.ndim = 1 ∧ b.ndim = 1) → ¬ (a.ndim = 2 ∧ b.ndim = 2) → ¬ (a.ndim = 2 ∧ b.ndim = 1) →
      dot a b = .error .runtime_error) ∧
    (a.ndim = 1 → b.ndim = 1 → a.size_ ≠ b.size_ → dot a b = .error .runtime_error) ∧
    (a.ndim = 2 → b.ndim = 1 → a.shape_.getD 1 0 ≠ b.size_ →
      dot a b = .error .runtime_error) ∧
    (∀ m n, a.shape_ = [m, n] → b.ndim = 1 → b.size_ = n → 2 ≤ m →
      (∀ i j, i < m → j < n → ∃ v, a.at [i, j] = .ok v) →
      (∀ j, j < n → ∃ w, b.get j = .ok w) → dot a b = .error .out_of_range) :=
  ⟨fun n A B ha hb hsa hsb hA hB => dot_vector_ok a b n A B ha hb hsa hsb hA hB,
    fun ha hb => dot_matrix a b ha hb,
    fun h11 h22 h21 => dot_unsupported a b h11 h22 h21,
    fun ha hb h => dot_vector_mismatch a b ha hb h,
    fun ha hb h => dot_matvec_mismatch a b ha hb h,
    fun m n ha hb hsb hm hA hB => dot_matvec_throws a b m n ha hb hsb hm hA hB⟩

/-- Witness for C28: `dot([[1,2],[3,4]], [1,1])`, which should be `[3, 7]`,
throws `std::out_of_range`, while `dot([1,2], [3,4])` is `[11]`. -/
theorem dot_spec_witness :
    dot (⟨[2, 2], [2, 1], [1, 2, 3, 4], 4, true⟩ : ndarray Int) ⟨[2], [1], [1, 1], 2, true⟩ =
      .error .out_of_range ∧
    dot (⟨[2], [1], [1, 2], 2, true⟩ : ndarray Int) ⟨[2], [1], [3, 4], 2, true⟩ =
      .ok ⟨[1], [1], [11], 1, true⟩ := by
  constructor
  · exact (dot_spec (⟨[2, 2], [2, 1], [1, 2, 3, 4], 4, true⟩ : ndarray Int)
      ⟨[2], [1], [1, 1], 2, true⟩).2.2.2.2.2 2 2 rfl rfl rfl (by decide)
      (by
        intro i j hi hj
        exact ⟨_, isDense_at (⟨[2, 2], [2, 1], [1, 2, 3, 4], 4, true⟩ : ndarray Int) [2, 2]
          ⟨rfl, rfl, rfl, by decide⟩ [i, j] (forall₂_pair hi hj)⟩)
      (by
        intro j hj
        interval_cases j
        · exact ⟨1, rfl⟩
        · exact ⟨1, rfl⟩)
  · have h := (dot_spec (⟨[2], [1], [1, 2], 2, true⟩ : ndarray Int)
      ⟨[2], [1], [3, 4], 2, true⟩).1 2
      (fun i => ([1, 2] : List Int).getD i 0) (fun i => ([3, 4] : List Int).getD i 0)
      rfl rfl rfl rfl
      (by intro i hi; interval_cases i <;> rfl) (by intro i hi; interval_cases i <;> rfl)
    rw [h]
    rfl

/-- C29: `determinant` of every 1x1 matrix `[[v]]` is `v`, `determinant` of every
2x2 matrix `[[a,b],[c,d]]` is `a*d - b*c`, and `determinant` throws for every
input that is not a square rank-2 matrix. -/
theorem determinant_closed_forms [Ring T] (arr : ndarray T) :
    (∀ v, arr.shape_ = [1, 1] → arr.at [0, 0] = .ok v → determinant arr = .ok v) ∧
    (∀ a b c d, arr.shape_ = [2, 2] → arr.at [0, 0] = .ok a → arr.at [0, 1] = .ok b →
      arr.at [1, 0] = .ok c → arr.at [1, 1] = .ok d → determinant arr = .ok (a * d - b * c)) ∧
    (arr.ndim ≠ 2 ∨ arr.shape_.getD 0 0 ≠ arr.shape_.getD 1 0 →
      determinant arr = .error .runtime_error) := by
  refine ⟨?_, ?_, determinant_not_square arr⟩
  · intro v hshape hv
    rw [determinant_one arr hshape, hv]
  · intro a b c d hshape h00 h01 h10 h11
    rw [determinant_two_eq arr hshape, determinant_two_ok arr a b c d h00 h01 h10 h11]

/-- Witness for C29: `determinant([[1,2],[3,4]]) = -2`. -/
theorem determinant_closed_forms_witness :
    determinant (⟨[2, 2], [2, 1], [1, 2, 3, 4], 4, true⟩ : ndarray Int) = .ok (-2) := by
  have h := (determinant_closed_forms
    (⟨[2, 2], [2, 1], [1, 2, 3, 4], 4, true⟩ : ndarray Int)).2.1 1 2 3 4 rfl rfl rfl rfl rfl
  rw [h]
  rfl

/-- C30: `trace(a)` throws if and only if `a` is not a square rank-2 matrix (a
`std::runtime_error`; it never throws `std::out_of_range`); for an `n`-by-`n`
matrix it returns the sum over `i < n` of `a[i][i]`. -/
theorem trace_spec [AddCommMonoid T] (arr : ndarray T) :
    (trace arr = .error .runtime_error ↔
      (arr.ndim ≠ 2 ∨ arr.shape_.getD 0 0 ≠ arr.shape_.getD 1 0)) ∧
    trace arr ≠ .error .out_of_range ∧
    ∀ (n : Nat) (A : Nat → T), arr.shape_ = [n, n] →
      (∀ i, i < n → arr.at [i, i] = .ok (A i)) →
      trace arr = .ok (∑ i in Finset.range n, A i) :=
  ⟨trace_throws_iff arr, trace_ne_out_of_range arr,
    fun n A hshape hA => trace_ok arr n A hshape hA⟩

/-- Witness for C30: `trace([[1,2,3],[4,5,6],[7,8,9]]) = 15`. -/
theorem trace_spec_witness :
    trace (⟨[3, 3], [3, 1], [1, 2, 3, 4, 5, 6, 7, 8, 9], 9, true⟩ : ndarray Int) = .ok 15 := by
  have h := (trace_spec
    (⟨[3, 3], [3, 1], [1, 2, 3, 4, 5, 6, 7, 8, 9], 9, true⟩ : ndarray Int)).2.2 3
    (fun i => ([1, 2, 3, 4, 5, 6, 7, 8, 9] : List Int).getD (i * 3 + i) 0) rfl
    (by intro i hi; interval_cases i <;> rfl)
  rw [h]
  rfl

theorem any_ge_iff (idx shape : List Nat) (hlen : idx.length = shape.length) :
    (idx.zip shape).any (fun p => decide (p.1 ≥ p.2)) = true ↔
      ∃ k, k < idx.length ∧ shape.getD k 0 ≤ idx.getD k 0 := by
  induction idx generalizing shape with
  | nil => simp
  | cons i is ih =>
    cases shape with
    | nil => simp at hlen
    | cons d ds =>
      simp only [List.length_cons, Nat.add_right_cancel_iff] at hlen
      rw [List.zip_cons_cons, List.any_cons, Bool.or_eq_true, ih ds hlen]
      constructor
      · rintro (h | ⟨k, hk, hle⟩)
        · exact ⟨0, by simp, by simpa using h⟩
        · exact ⟨k + 1, by simpa using hk, by simpa using hle⟩
      · rintro ⟨k, hk, hle⟩
        cases k with
        | zero => left; simpa using hle
        | succ k => right; exact ⟨k, by simpa using hk, by simpa using hle⟩

theorem forall₂_lt_iff (idx shape : List Nat) :
    List.Forall₂ (fun i d => i < d) idx shape ↔
      idx.length = shape.length ∧ ∀ k, k < idx.length → idx.getD k 0 < shape.getD k 0 := by
  induction idx generalizing shape with
  | nil =>
    cases shape with
    | nil => simp
    | cons d ds => simp
  | cons i is ih =>
    cases shape with
    | nil => simp
    | cons d ds =>
      rw [List.forall₂_cons, ih ds]
      simp only [List.length_cons, Nat.add_right_cancel_iff]
      constructor
      · rintro ⟨h0, hl, hr⟩
        refine ⟨hl, ?_⟩
        intro k hk
        cases k with
        | zero => simpa using h0
        | succ k => simpa using hr k (by omega)
      · rintro ⟨hl, hr⟩
        refine ⟨by simpa using hr 0 (by omega), hl, ?_⟩
        intro k hk
        simpa using hr (k + 1) (by omega)

theorem at_runtime_iff (a : ndarray T) (idx : List Nat) :
    a.at idx = .error .runtime_error ↔ idx.length ≠ a.ndim := by
  constructor
  · intro h hlen
    exact at_ne_runtime a idx hlen h
  · intro h
    unfold ndarray.at
    exact if_pos h

theorem at_out_of_range_iff (a : ndarray T) (idx : List Nat) :
    a.at idx = .error .out_of_range ↔
      idx.length = a.ndim ∧ ∃ k, k < idx.length ∧ a.shape_.getD k 0 ≤ idx.getD k 0 := by
  constructor
  · intro h
    have hlen : idx.length = a.ndim := by
      by_contra hne
      rw [(at_runtime_iff a idx).2 hne] at h
      cases h
    refine ⟨hlen, ?_⟩
    by_contra hno
    have hall : List.Forall₂ (fun i d => i < d) idx a.shape_ := by
      rw [forall₂_lt_iff]
      refine ⟨hlen, ?_⟩
      intro k hk
      by_contra hk2
      exact hno ⟨k, hk, by omega⟩
    exact at_ne_out_of_range a idx hall h
  · rintro ⟨hlen, hex⟩
    unfold ndarray.at
    rw [if_neg (fun hne => hne hlen), if_pos ((any_ge_iff idx a.shape_ hlen).2 hex)]

theorem get_out_of_range_iff (a : ndarray T) (i : Nat) :
    a.get i = .error .out_of_range ↔ a.size_ ≤ i := by
  constructor
  · intro h
    by_contra hlt
    unfold ndarray.get at h
    rw [if_neg hlt] at h
    unfold readAt at h
    split at h <;> cases h
  · intro h
    unfold ndarray.get
    rw [if_pos h]

theorem ctor_data_ok (s : Shape) (d : List T) (h : d.length = compute_size s) :
    ndarray.ctor_data s d =
      .ok ⟨s, compute_strides s, d, d.length, true⟩ := by
  unfold ndarray.ctor_data
  simp only
  rw [if_neg (fun hne => hne h)]
  by_cases hz : compute_size s > 0
  · rw [if_pos hz, h]
  · rw [if_neg hz]
    have h0 : d.length = 0 := by omega
    have hd : d = [] := List.length_eq_zero.mp h0
    rw [hd] at h ⊢
    rw [← h]

theorem ctor_data_throws_iff (s : Shape) (d : List T) :
    ndarray.ctor_data s d = .error .runtime_error ↔ d.length ≠ compute_size s := by
  constructor
  · intro h heq
    rw [ctor_data_ok s d heq] at h
    cases h
  · intro h
    unfold ndarray.ctor_data
    simp only
    rw [if_pos h]

theorem get_of_lt (a : ndarray T) (i : Nat) (hi : i < a.size_) (hl : i < a.data_.length) :
    a.get i = .ok (a.data_.get ⟨i, hl⟩) := by
  unfold ndarray.get
  rw [if_neg (by omega)]
  unfold readAt
  rw [List.getElem?_eq_getElem hl]
  rfl

theorem reshape_throws_iff (a : ndarray T) (s : Shape) :
    a.reshape s = .error .runtime_error ↔ compute_size s ≠ a.size_ := by
  unfold ndarray.reshape
  simp only
  constructor
  · intro h heq
    rw [if_neg (fun hne => hne heq)] at h
    split at h <;> cases h
  · intro h
    rw [if_pos h]

theorem reshape_ne_out_of_range (a : ndarray T) (s : Shape) :
    a.reshape s ≠ .error .out_of_range := by
  unfold ndarray.reshape
  simp only
  intro h
  split at h
  · cases h
  · split at h <;> cases h

theorem readable_length (a : ndarray T) (h : ∀ i, i < a.size_ → ∃ v, a.get i = .ok v) :
    a.size_ ≤ a.data_.length := by
  by_contra hlt
  have hpos : a.size_ - 1 < a.size_ := by omega
  obtain ⟨v, hv⟩ := h (a.size_ - 1) hpos
  unfold ndarray.get at hv
  rw [if_neg (by omega)] at hv
  unfold readAt at hv
  rw [List.getElem?_eq_none (by omega)] at hv
  cases hv

theorem reshape_ok (a : ndarray T) (s : Shape) (hs : compute_size s = a.size_)
    (hl : a.size_ ≤ a.data_.length) :
    a.reshape s = .ok ⟨s, compute_strides s, a.data_.take a.size_, a.size_, true⟩ := by
  unfold ndarray.reshape
  simp only
  rw [if_neg (fun hne => hne hs), if_neg (by omega), hs]

/-- C31 (amended): for an array `a` built from a shape `s` and flat data `d`:
`a[i]` throws `std::out_of_range` if and only if `i >= a.size()`, and otherwise
returns `d[i]`; `a.at(idx)` throws `std::runtime_error` if and only if
`len(idx) != rank(a)`, and `std::out_of_range` if and only if the lengths agree
and some `idx[k] >= a.shape[k]`; when the element count of `s` (the exact product
of its dimensions) is below `2 ^ 64`, `at` returns for every other `idx` the
element of `d` at the flat position `sum over k of idx[k] * strides[k]`, the
row-major element. -/
theorem element_access_spec (s : Shape) (d : List T) (a : ndarray T)
    (h : ndarray.ctor_data s d = .ok a) :
    (∀ i, a.get i = .error .out_of_range ↔ a.size_ ≤ i) ∧
    (∀ i, i < a.size_ → ∃ v, d[i]? = some v ∧ a.get i = .ok v) ∧
    (∀ idx, a.at idx = .error .runtime_error ↔ idx.length ≠ a.ndim) ∧
    (∀ idx, a.at idx = .error .out_of_range ↔
      idx.length = a.ndim ∧ ∃ k, k < idx.length ∧ a.shape_.getD k 0 ≤ idx.getD k 0) ∧
    (s.prod < SIZE_T_MODULUS → ∀ idx, idx.length = a.ndim →
      (∀ k, k < idx.length → idx.getD k 0 < a.shape_.getD k 0) →
      ∃ v, d[dotNat idx a.strides_]? = some v ∧ a.at idx = .ok v) := by
  have hlen : d.length = compute_size s := by
    by_contra hne
    rw [(ctor_data_throws_iff s d).2 hne] at h
    cases h
  rw [ctor_data_ok s d hlen] at h
  injection h with h
  subst h
  refine ⟨fun i => get_out_of_range_iff _ i, ?_, fun idx => at_runtime_iff _ idx,
    fun idx => at_out_of_range_iff _ idx, ?_⟩
  · intro i hi
    have hi2 : i < d.length := hi
    exact ⟨d.get ⟨i, hi2⟩, List.getElem?_eq_getElem hi2, get_of_lt _ i hi hi2⟩
  · intro hprod idx hl hk
    have hall : List.Forall₂ (fun i d => i < d) idx s := (forall₂_lt_iff idx s).2 ⟨hl, hk⟩
    have hdot := dotNat_lt s idx hprod hall
    have hd : dotNat idx (compute_strides s) < d.length := by
      rw [hlen, compute_size_of_lt s hprod]
      exact hdot
    refine ⟨d.get ⟨_, hd⟩, List.getElem?_eq_getElem hd, ?_⟩
    show ndarray.at ⟨s, compute_strides s, d, d.length, true⟩ idx = _
    unfold ndarray.at
    rw [if_neg (fun hne => hne hl), any_ge_false hall]
    simp only [Bool.false_eq_true, if_false]
    rw [flatten_index_in_range s idx hprod hall]
    simp only
    unfold readAt
    rw [List.getElem?_eq_getElem hd]
    rfl

/-- Witness for C31: the 2x2 array built from `[1, 2, 3, 4]` has `at(0,0) = 1`,
`at(0,1) = 2`, `at(1,0) = 3` and `at(1,1) = 4`; `at(2,0)` and `a[4]` throw
`std::out_of_range` and `at(0)` throws `std::runtime_error`. -/
theorem element_access_spec_witness :
    ∃ a : ndarray Int, ndarray.ctor_data [2, 2] [1, 2, 3, 4] = .ok a ∧
      a.at [0, 0] = .ok 1 ∧ a.at [0, 1] = .ok 2 ∧ a.at [1, 0] = .ok 3 ∧ a.at [1, 1] = .ok 4 ∧
      a.at [2, 0] = .error .out_of_range ∧ a.get 4 = .error .out_of_range ∧
      a.at [0] = .error .runtime_error := by
  have h := element_access_spec [2, 2] ([1, 2, 3, 4] : List Int)
    ⟨[2, 2], [2, 1], [1, 2, 3, 4], 4, true⟩ rfl
  obtain ⟨h1, _, h3, h4, h5⟩ := h
  have e : ∀ idx : List Nat, ∀ w : Int, idx.length = 2 →
      (∀ k, k < idx.length → idx.getD k 0 < ([2, 2] : List Nat).getD k 0) →
      ([1, 2, 3, 4] : List Int)[dotNat idx [2, 1]]? = some w →
      ndarray.at (⟨[2, 2], [2, 1], [1, 2, 3, 4], 4, true⟩ : ndarray Int) idx = .ok w := by
    intro idx w hl hk hw
    obtain ⟨v, hv, hat⟩ := h5 (by decide) idx hl hk
    have hv2 : ([1, 2, 3, 4] : List Int)[dotNat idx [2, 1]]? = some v := hv
    rw [hw] at hv2
    injection hv2 with hv2
    rw [hv2]
    exact hat
  have hr : ∀ k, k < 2 → k = 0 ∨ k = 1 := by
    intro k hk
    omega
  refine ⟨_, rfl, ?_, ?_, ?_, ?_, ?_, (h1 4).2 (by decide), (h3 [0]).2 (by decide)⟩
  · exact e [0, 0] 1 rfl (by intro k hk; rcases hr k hk with h | h <;> subst h <;> decide) rfl
  · exact e [0, 1] 2 rfl (by intro k hk; rcases hr k hk with h | h <;> subst h <;> decide) rfl
  · exact e [1, 0] 3 rfl (by intro k hk; rcases hr k hk with h | h <;> subst h <;> decide) rfl
  · exact e [1, 1] 4 rfl (by intro k hk; rcases hr k hk with h | h <;> subst h <;> decide) rfl
  · exact (h4 [2, 0]).2 ⟨rfl, 0, by decide, by decide⟩

/-- Counterexample for C31 as stated: the array built from the shape
`(2^63 + 1, 2)`, whose `size_t` element count is 2, and the two values `[7, 8]`
has strides `(2, 1)`; the multi-index `(1, 0)` has the right length and is in
range, yet `at` neither throws nor returns an element: the flat position 2 is
outside the buffer. -/
theorem element_access_counterexample :
    ∃ a : ndarray Int, ndarray.ctor_data [9223372036854775809, 2] [7, 8] = .ok a ∧
      a.strides_ = [2, 1] ∧ a.size_ = 2 ∧
      ([1, 0] : List Nat).length = a.ndim ∧
      (∀ k, k < ([1, 0] : List Nat).length →
        ([1, 0] : List Nat).getD k 0 < a.shape_.getD k 0) ∧
      a.at [1, 0] = .error .undefined := by
  refine ⟨⟨[9223372036854775809, 2], [2, 1], [7, 8], 2, true⟩, by decide, rfl, rfl, rfl, ?_,
    by decide⟩
  intro k hk
  have hk2 : k = 0 ∨ k = 1 := by
    have : k < 2 := hk
    omega
  rcases hk2 with h | h <;> subst h <;> decide

/-- C32: constructing an array from a shape `s` and a flat data vector `d`
throws (`std::runtime_error`, and nothing else) if and only if
`len(d) != compute_size(s)`; otherwise the array has shape `s`, the row-major
strides `compute_strides(s)`, size `len(d)`, owns its buffer, and its flat
element `i` is `d[i]` for every `i < len(d)`. -/
theorem ctor_data_spec (s : Shape) (d : List T) :
    (ndarray.ctor_data s d = .error .runtime_error ↔ d.length ≠ compute_size s) ∧
    (∀ e, ndarray.ctor_data s d = .error e → e = .runtime_error) ∧
    (d.length = compute_size s →
      ∃ a, ndarray.ctor_data s d = .ok a ∧ a.shape_ = s ∧ a.strides_ = compute_strides s ∧
        a.size_ = d.length ∧ a.owns_data_ = true ∧
        ∀ i (hi : i < d.length), a.get i = .ok (d.get ⟨i, hi⟩)) := by
  refine ⟨ctor_data_throws_iff s d, ?_, ?_⟩
  · intro e he
    by_cases hlen : d.length = compute_size s
    · rw [ctor_data_ok s d hlen] at he
      cases he
    · rw [(ctor_data_throws_iff s d).2 hlen] at he
      injection he with he
      exact he.symm
  · intro hlen
    refine ⟨_, ctor_data_ok s d hlen, rfl, rfl, rfl, rfl, ?_⟩
    intro i hi
    exact get_of_lt _ i hi hi

/-- Witness for C32: the array built from shape `(2, 2)` and `[1, 2, 3, 4]` has
the flat elements 1, 2, 3, 4; with three values the constructor throws. -/
theorem ctor_data_spec_witness :
    (∃ a : ndarray Int, ndarray.ctor_data [2, 2] [1, 2, 3, 4] = .ok a ∧ a.shape_ = [2, 2] ∧
      a.strides_ = [2, 1] ∧ a.size_ = 4 ∧
      a.get 0 = .ok 1 ∧ a.get 1 = .ok 2 ∧ a.get 2 = .ok 3 ∧ a.get 3 = .ok 4) ∧
    (ndarray.ctor_data [2, 2] [1, 2, 3] : Except Error (ndarray Int)) =
      .error .runtime_error := by
  obtain ⟨a, h1, h2, h3, h4, _, h6⟩ :=
    (ctor_data_spec [2, 2] ([1, 2, 3, 4] : List Int)).2.2 (by decide)
  exact ⟨⟨a, h1, h2, by rw [h3]; rfl, h4, h6 0 (by decide), h6 1 (by decide),
    h6 2 (by decide), h6 3 (by decide)⟩,
    (ctor_data_spec [2, 2] ([1, 2, 3] : List Int)).1.2 (by decide)⟩

/-- C33: `a.reshape(s)` throws (`std::runtime_error`, never `std::out_of_range`)
if and only if `compute_size(s) != a.size()`; otherwise, for an array `a` whose
flat elements can all be read, the result owns a buffer of `a.size()` elements,
has shape `s`, the row-major strides `compute_strides(s)`, the size of `a` and
the same element as `a` at every flat index. `reshape` is a function of `a`:
the array `a` itself is not modified. -/
theorem reshape_spec (a : ndarray T) (s : Shape) :
    (a.reshape s = .error .runtime_error ↔ compute_size s ≠ a.size_) ∧
    a.reshape s ≠ .error .out_of_range ∧
    (compute_size s = a.size_ → (∀ i, i < a.size_ → ∃ v, a.get i = .ok v) →
      ∃ r, a.reshape s = .ok r ∧ r.shape_ = s ∧ r.strides_ = compute_strides s ∧
        r.size_ = a.size_ ∧ r.owns_data_ = true ∧ r.data_.length = r.size_ ∧
        ∀ i, r.get i = a.get i) := by
  refine ⟨reshape_throws_iff a s, reshape_ne_out_of_range a s, ?_⟩
  intro hs hread
  have hl := readable_length a hread
  refine ⟨_, reshape_ok a s hs hl, rfl, rfl, rfl, rfl, ?_, ?_⟩
  · show (a.data_.take a.size_).length = a.size_
    rw [List.length_take]
    omega
  · intro i
    unfold ndarray.get
    by_cases hi : i ≥ a.size_
    · rw [if_pos hi, if_pos hi]
    · rw [if_neg hi, if_neg hi]
      exact readAt_take a.data_ a.size_ i (by omega)

/-- Witness for C33: the 2x3 array built from `[1, ..., 6]` reshaped to `(3, 2)`
has shape `(3, 2)`, strides `(2, 1)`, size 6 and the same flat elements;
reshaping it to `(4, 2)` throws. -/
theorem reshape_spec_witness :
    (∃ r : ndarray Int,
      (⟨[2, 3], [3, 1], [1, 2, 3, 4, 5, 6], 6, true⟩ : ndarray Int).reshape [3, 2] = .ok r ∧
      r.shape_ = [3, 2] ∧ r.strides_ = [2, 1] ∧ r.size_ = 6 ∧ r.get 4 = .ok 5) ∧
    (⟨[2, 3], [3, 1], [1, 2, 3, 4, 5, 6], 6, true⟩ : ndarray Int).reshape [4, 2] =
      .error .runtime_error := by
  obtain ⟨r, h1, h2, h3, h4, _, _, h7⟩ :=
    (reshape_spec (⟨[2, 3], [3, 1], [1, 2, 3, 4, 5, 6], 6, true⟩ : ndarray Int) [3, 2]).2.2
      (by decide) (by
        intro i hi
        have hi2 : i < 6 := hi
        interval_cases i <;> exact ⟨_, rfl⟩)
  exact ⟨⟨r, h1, h2, by rw [h3]; rfl, h4, by rw [h7 4]; rfl⟩,
    (reshape_spec (⟨[2, 3], [3, 1], [1, 2, 3, 4, 5, 6], 6, true⟩ : ndarray Int) [4, 2]).1.2
      (by decide)⟩

theorem foldlM_error_undefined {α β : Type} (f : α → β → Except Error α)
    (hf : ∀ s x e, f s x = .error e → e = .undefined) (l : List β) (init : α) (e : Error)
    (h : l.foldlM f init = .error e) : e = .undefined := by
  induction l generalizing init with
  | nil => cases h
  | cons x xs ih =>
    cases hx : f init x with
    | error e2 =>
      rw [foldlM_cons_error f init x xs e2 hx] at h
      injection h with h
      rw [← h]
      exact hf init x e2 hx
    | ok s =>
      rw [foldlM_cons_ok f init s x xs hx] at h
      exact ih s h

theorem take_succ_foldl {α β : Type} (g : β → α → β) (l : List α) (k : Nat) (hk : k < l.length)
    (init : β) :
    (l.take (k + 1)).foldl g init = g ((l.take k).foldl g init) (l.get ⟨k, hk⟩) := by
  rw [List.take_succ, List.foldl_append, List.getElem?_eq_getElem hk]
  rfl

theorem readAt_get {α : Type} (l : List α) (i : Nat) (h : i < l.length) :
    readAt l i = .ok (l.get ⟨i, h⟩) := by
  unfold readAt
  rw [List.getElem?_eq_getElem h]
  rfl

theorem sum_ok [Zero T] [Add T] (a : ndarray T) (hl : a.size_ ≤ a.data_.length) :
    reduction.sum a = .ok ((a.data_.take a.size_).foldl (fun acc v => acc + v) 0) := by
  obtain ⟨s, h1, h2⟩ := foldlM_range_inv (reduction.sum_step a)
    (fun k acc => acc = (a.data_.take k).foldl (fun acc v => acc + v) 0) a.size_ 0
    (by simp)
    (by
      intro k acc hk hacc
      have hkl : k < a.data_.length := by omega
      refine ⟨acc + a.data_.get ⟨k, hkl⟩, ?_, ?_⟩
      · unfold reduction.sum_step
        rw [readAt_get _ _ hkl]
      · show acc + _ = List.foldl (fun acc v => acc + v) 0 (List.take (k + 1) a.data_)
        rw [take_succ_foldl _ _ k hkl, hacc])
  unfold reduction.sum
  rw [h1, h2]

theorem mean_of_sum [Zero T] [Add T] [Div T] [NatCast T] (a : ndarray T) (s : T)
    (hs : reduction.sum a = .ok s) (hn : a.size_ ≠ 0) :
    reduction.mean a = .ok (s / ((a.size_ : Nat) : T)) := by
  unfold reduction.mean
  rw [if_neg hn, hs]

theorem min_element_step_error [LT T] [DecidableRel (fun x y : T => x < y)] (a : ndarray T)
    (s k : Nat) (e : Error) (h : reduction.min_element_step a s k = .error e) :
    e = .undefined := by
  unfold reduction.min_element_step at h
  cases h1 : readAt a.data_ k with
  | error e1 =>
    rw [h1] at h
    injection h with h
    rw [← h]
    exact readAt_error _ _ _ h1
  | ok f =>
    rw [h1] at h
    cases h2 : readAt a.data_ s with
    | error e2 =>
      rw [h2] at h
      injection h with h
      rw [← h]
      exact readAt_error _ _ _ h2
    | ok v =>
      rw [h2] at h
      cases h

theorem max_element_step_error [LT T] [DecidableRel (fun x y : T => x < y)] (a : ndarray T)
    (s k : Nat) (e : Error) (h : reduction.max_element_step a s k = .error e) :
    e = .undefined := by
  unfold reduction.max_element_step at h
  cases h1 : readAt a.data_ k with
  | error e1 =>
    rw [h1] at h
    injection h with h
    rw [← h]
    exact readAt_error _ _ _ h1
  | ok f =>
    rw [h1] at h
    cases h2 : readAt a.data_ s with
    | error e2 =>
      rw [h2] at h
      injection h with h
      rw [← h]
      exact readAt_error _ _ _ h2
    | ok v =>
      rw [h2] at h
      cases h

theorem min_error [LT T] [DecidableRel (fun x y : T => x < y)] (a : ndarray T) (e : Error)
    (hn : a.size_ ≠ 0) (h : reduction.min a = .error e) : e = .undefined := by
  unfold reduction.min at h
  rw [if_neg hn] at h
  cases h1 : reduction.min_element a with
  | error e1 =>
    rw [h1] at h
    injection h with h
    rw [← h]
    unfold reduction.min_element at h1
    rw [if_neg hn] at h1
    exact foldlM_error_undefined _
      (fun s k e he => min_element_step_error a s (k + 1) e he) _ _ _ h1
  | ok i =>
    rw [h1] at h
    exact readAt_error _ _ _ h

theorem max_error [LT T] [DecidableRel (fun x y : T => x < y)] (a : ndarray T) (e : Error)
    (hn : a.size_ ≠ 0) (h : reduction.max a = .error e) : e = .undefined := by
  unfold reduction.max at h
  rw [if_neg hn] at h
  cases h1 : reduction.max_element a with
  | error e1 =>
    rw [h1] at h
    injection h with h
    rw [← h]
    unfold reduction.max_element at h1
    rw [if_neg hn] at h1
    exact foldlM_error_undefined _
      (fun s k e he => max_element_step_error a s (k + 1) e he) _ _ _ h1
  | ok i =>
    rw [h1] at h
    exact readAt_error _ _ _ h

theorem min_throws_iff [LT T] [DecidableRel (fun x y : T => x < y)] (a : ndarray T) :
    reduction.min a = .error .runtime_error ↔ a.size_ = 0 := by
  constructor
  · intro h
    by_contra hn
    have := min_error a _ hn h
    cases this
  · intro h
    unfold reduction.min
    rw [if_pos h]

theorem max_throws_iff [LT T] [DecidableRel (fun x y : T => x < y)] (a : ndarray T) :
    reduction.max a = .error .runtime_error ↔ a.size_ = 0 := by
  constructor
  · intro h
    by_contra hn
    have := max_error a _ hn h
    cases this
  · intro h
    unfold reduction.max
    rw [if_pos h]

theorem min_element_ok [LinearOrder T] (a : ndarray T) (hn : a.size_ ≠ 0)
    (hl : a.size_ ≤ a.data_.length) :
    ∃ s, ∃ hs : s < a.data_.length, reduction.min_element a = .ok s ∧ s < a.size_ ∧
      ∀ j (hj : j < a.data_.length), j < a.size_ →
        a.data_.get ⟨s, hs⟩ ≤ a.data_.get ⟨j, hj⟩ := by
  obtain ⟨s, h1, hs, hsk, hmin⟩ := foldlM_range_inv
    (fun smallest k => reduction.min_element_step a smallest (k + 1))
    (fun k s => ∃ hs : s < a.data_.length, s ≤ k ∧
      ∀ j (hj : j < a.data_.length), j ≤ k → a.data_.get ⟨s, hs⟩ ≤ a.data_.get ⟨j, hj⟩)
    (a.size_ - 1) 0
    ⟨by omega, Nat.le_refl _, by
      intro j hj hj0
      have : j = 0 := by omega
      subst this
      exact le_refl _⟩
    (by
      intro k s hk ⟨hs, hsk, hmin⟩
      have hk1 : k + 1 < a.data_.length := by omega
      by_cases hlt : a.data_.get ⟨k + 1, hk1⟩ < a.data_.get ⟨s, hs⟩
      · refine ⟨k + 1, ?_, hk1, Nat.le_refl _, ?_⟩
        · show reduction.min_element_step a s (k + 1) = _
          unfold reduction.min_element_step
          rw [readAt_get _ _ hk1, readAt_get _ _ hs]
          exact congrArg Except.ok (if_pos hlt)
        · intro j hj hjk
          by_cases hjk2 : j = k + 1
          · subst hjk2
            exact le_refl _
          · exact le_trans (le_of_lt hlt) (hmin j hj (by omega))
      · refine ⟨s, ?_, hs, by omega, ?_⟩
        · show reduction.min_element_step a s (k + 1) = _
          unfold reduction.min_element_step
          rw [readAt_get _ _ hk1, readAt_get _ _ hs]
          exact congrArg Except.ok (if_neg hlt)
        · intro j hj hjk
          by_cases hjk2 : j = k + 1
          · subst hjk2
            exact not_lt.mp hlt
          · exact hmin j hj (by omega))
  refine ⟨s, hs, ?_, by omega, fun j hj hjn => hmin j hj (by omega)⟩
  unfold reduction.min_element
  rw [if_neg hn]
  exact h1

theorem max_element_ok [LinearOrder T] (a : ndarray T) (hn : a.size_ ≠ 0)
    (hl : a.size_ ≤ a.data_.length) :
    ∃ s, ∃ hs : s < a.data_.length, reduction.max_element a = .ok s ∧ s < a.size_ ∧
      ∀ j (hj : j < a.data_.length), j < a.size_ →
        a.data_.get ⟨j, hj⟩ ≤ a.data_.get ⟨s, hs⟩ := by
  obtain ⟨s, h1, hs, hsk, hmax⟩ := foldlM_range_inv
    (fun largest k => reduction.max_element_step a largest (k + 1))
    (fun k s => ∃ hs : s < a.data_.length, s ≤ k ∧
      ∀ j (hj : j < a.data_.length), j ≤ k → a.data_.get ⟨j, hj⟩ ≤ a.data_.get ⟨s, hs⟩)
    (a.size_ - 1) 0
    ⟨by omega, Nat.le_refl _, by
      intro j hj hj0
      have : j = 0 := by omega
      subst this
      exact le_refl _⟩
    (by
      intro k s hk ⟨hs, hsk, hmax⟩
      have hk1 : k + 1 < a.data_.length := by omega
      by_cases hlt : a.data_.get ⟨s, hs⟩ < a.data_.get ⟨k + 1, hk1⟩
      · refine ⟨k + 1, ?_, hk1, Nat.le_refl _, ?_⟩
        · show reduction.max_element_step a s (k + 1) = _
          unfold reduction.max_element_step
          rw [readAt_get _ _ hk1, readAt_get _ _ hs]
          exact congrArg Except.ok (if_pos hlt)
        · intro j hj hjk
          by_cases hjk2 : j = k + 1
          · subst hjk2
            exact le_refl _
          · exact le_trans (hmax j hj (by omega)) (le_of_lt hlt)
      · refine ⟨s, ?_, hs, by omega, ?_⟩
        · show reduction.max_element_step a s (k + 1) = _
          unfold reduction.max_element_step
          rw [readAt_get _ _ hk1, readAt_get _ _ hs]
          exact congrArg Except.ok (if_neg hlt)
        · intro j hj hjk
          by_cases hjk2 : j = k + 1
          · subst hjk2
            exact not_lt.mp hlt
          · exact hmax j hj (by omega))
  refine ⟨s, hs, ?_, by omega, fun j hj hjn => hmax j hj (by omega)⟩
  unfold reduction.max_element
  rw [if_neg hn]
  exact h1

theorem get_ok_inv (a : ndarray T) (i : Nat) (v : T) (h : a.get i = .ok v) :
    ∃ hi : i < a.data_.length, i < a.size_ ∧ v = a.data_.get ⟨i, hi⟩ := by
  unfold ndarray.get at h
  by_cases hi : i ≥ a.size_
  · rw [if_pos hi] at h
    cases h
  · rw [if_neg hi] at h
    unfold readAt at h
    by_cases hl : i < a.data_.length
    · rw [List.getElem?_eq_getElem hl] at h
      injection h with h
      exact ⟨hl, by omega, h.symm⟩
    · rw [List.getElem?_eq_none (by omega)] at h
      cases h

/-- C34: for an array `a` whose flat elements can all be read, `sum(a)` is the
left-to-right sum of the `a.size()` flat elements starting from the zero of the
element type (hence 0 for a zero-element array); `mean(a)` is the zero of the
element type when `a` has zero elements and otherwise `sum(a)` divided by
`a.size()` converted to the element type. -/
theorem sum_mean_spec [Zero T] [Add T] [Div T] [NatCast T] (a : ndarray T)
    (hread : ∀ i, i < a.size_ → ∃ v, a.get i = .ok v) :
    reduction.sum a = .ok ((a.data_.take a.size_).foldl (fun acc v => acc + v) 0) ∧
    (a.size_ = 0 → reduction.sum a = .ok 0 ∧ reduction.mean a = .ok 0) ∧
    (a.size_ ≠ 0 → reduction.mean a =
      .ok ((a.data_.take a.size_).foldl (fun acc v => acc + v) 0 / ((a.size_ : Nat) : T))) := by
  have hs := sum_ok a (readable_length a hread)
  refine ⟨hs, ?_, fun hn => mean_of_sum a _ hs hn⟩
  intro h0
  refine ⟨?_, ?_⟩
  · rw [hs, h0]
    rfl
  · unfold reduction.mean
    rw [if_pos h0]

/-- Witness for C34: the sum of `[1, 2, 3, 4]` is 10 and the mean of
`[2, 4, 6, 8]` is 5; the mean of a zero-element array is 0. -/
theorem sum_mean_spec_witness :
    reduction.sum (⟨[2, 2], [2, 1], [1, 2, 3, 4], 4, true⟩ : ndarray ℚ) = .ok 10 ∧
    reduction.mean (⟨[2, 2], [2, 1], [2, 4, 6, 8], 4, true⟩ : ndarray ℚ) = .ok 5 ∧
    reduction.mean (⟨[0], [1], [], 0, true⟩ : ndarray ℚ) = .ok 0 := by
  have h1 := (sum_mean_spec (⟨[2, 2], [2, 1], [1, 2, 3, 4], 4, true⟩ : ndarray ℚ)
    (by
      intro i hi
      have hi2 : i < 4 := hi
      interval_cases i <;> exact ⟨_, rfl⟩)).1
  have h2 := (sum_mean_spec (⟨[2, 2], [2, 1], [2, 4, 6, 8], 4, true⟩ : ndarray ℚ)
    (by
      intro i hi
      have hi2 : i < 4 := hi
      interval_cases i <;> exact ⟨_, rfl⟩)).2.2 (by decide)
  have h3 := ((sum_mean_spec (⟨[0], [1], [], 0, true⟩ : ndarray ℚ)
    (by
      intro i hi
      exact absurd hi (Nat.not_lt_zero i))).2.1 rfl).2
  refine ⟨?_, ?_, h3⟩
  · rw [h1]
    norm_num [List.take, List.foldl]
  · rw [h2]
    norm_num [List.take, List.foldl]

/-- C35: `min(a)` and `max(a)` throw (`std::runtime_error`, never
`std::out_of_range`) if and only if `a` has zero elements; otherwise, for an
array whose flat elements can all be read and a linearly ordered element type,
`min(a)` is an element of `a` below or equal to every element of `a` and
`max(a)` is an element of `a` above or equal to every element of `a`. -/
theorem min_max_spec [LinearOrder T] (a : ndarray T) :
    (reduction.min a = .error .runtime_error ↔ a.size_ = 0) ∧
    (reduction.max a = .error .runtime_error ↔ a.size_ = 0) ∧
    reduction.min a ≠ .error .out_of_range ∧ reduction.max a ≠ .error .out_of_range ∧
    (a.size_ ≠ 0 → (∀ i, i < a.size_ → ∃ v, a.get i = .ok v) →
      ∃ lo hi, reduction.min a = .ok lo ∧ reduction.max a = .ok hi ∧
        (∃ i, i < a.size_ ∧ a.get i = .ok lo) ∧ (∃ j, j < a.size_ ∧ a.get j = .ok hi) ∧
        ∀ i v, a.get i = .ok v → lo ≤ v ∧ v ≤ hi) := by
  refine ⟨min_throws_iff a, max_throws_iff a, ?_, ?_, ?_⟩
  · intro h
    by_cases hn : a.size_ = 0
    · rw [(min_throws_iff a).2 hn] at h
      cases h
    · have := min_error a _ hn h
      cases this
  · intro h
    by_cases hn : a.size_ = 0
    · rw [(max_throws_iff a).2 hn] at h
      cases h
    · have := max_error a _ hn h
      cases this
  · intro hn hread
    have hl := readable_length a hread
    obtain ⟨s, hs, e1, e2, e3⟩ := min_element_ok a hn hl
    obtain ⟨t, ht, f1, f2, f3⟩ := max_element_ok a hn hl
    refine ⟨a.data_.get ⟨s, hs⟩, a.data_.get ⟨t, ht⟩, ?_, ?_, ⟨s, e2, get_of_lt a s e2 hs⟩,
      ⟨t, f2, get_of_lt a t f2 ht⟩, ?_⟩
    · unfold reduction.min
      rw [if_neg hn, e1]
      exact readAt_get _ _ hs
    · unfold reduction.max
      rw [if_neg hn, f1]
      exact readAt_get _ _ ht
    · intro i v hv
      obtain ⟨hi, hin, hv2⟩ := get_ok_inv a i v hv
      rw [hv2]
      exact ⟨e3 i hi hin, f3 i hi hin⟩

/-- Witness for C35: the minimum of `[3, 1, 4, 1]` is 1 and its maximum is 4;
`min` and `max` of a zero-element array throw. -/
theorem min_max_spec_witness :
    reduction.min (⟨[4], [1], [3, 1, 4, 1], 4, true⟩ : ndarray Int) = .ok 1 ∧
    reduction.max (⟨[4], [1], [3, 1, 4, 1], 4, true⟩ : ndarray Int) = .ok 4 ∧
    reduction.min (⟨[0], [1], [], 0, true⟩ : ndarray Int) = .error .runtime_error ∧
    reduction.max (⟨[0], [1], [], 0, true⟩ : ndarray Int) = .error .runtime_error := by
  have h := min_max_spec (⟨[4], [1], [3, 1, 4, 1], 4, true⟩ : ndarray Int)
  have h0 := min_max_spec (⟨[0], [1], [], 0, true⟩ : ndarray Int)
  obtain ⟨lo, hi, e1, e2, _, _, _⟩ := h.2.2.2.2 (by decide) (by
    intro i hi
    have hi2 : i < 4 := hi
    interval_cases i <;> exact ⟨_, rfl⟩)
  refine ⟨?_, ?_, h0.1.2 rfl, h0.2.1.2 rfl⟩
  · rw [e1]
    have : reduction.min (⟨[4], [1], [3, 1, 4, 1], 4, true⟩ : ndarray Int) = .ok 1 := by decide
    rw [this] at e1
    exact e1.symm
  · rw [e2]
    have : reduction.max (⟨[4], [1], [3, 1, 4, 1], 4, true⟩ : ndarray Int) = .ok 4 := by decide
    rw [this] at e2
    exact e2.symm

theorem readOffset_eq (a : ndarray T) (r : Shape) (k : Nat) (hle : a.shape_.length ≤ r.length)
    (hcur : (increment^[k] (iteratorOf a r)).current_index_.length = r.length) :
    readOffset a r k = .ok
      (dotNat (maskIndex (List.replicate (r.length - a.shape_.length) 1 ++ a.shape_)
        (increment^[k] (iteratorOf a r)).current_index_)
        (compute_strides (List.replicate (r.length - a.shape_.length) 1 ++ a.shape_)) %
        SIZE_T_MODULUS) := by
  obtain ⟨_, f2, f3, f4⟩ := iterate_increment_fields (iteratorOf a r) k
  unfold readOffset
  rw [ctor_eq a r hle]
  simp only
  rw [f2, f3, f4]
  show get_value_loop 0 r _ (List.replicate (r.length - a.shape_.length) 1 ++ a.shape_)
    (compute_strides (List.replicate (r.length - a.shape_.length) 1 ++ a.shape_)) = _
  have hel : (List.replicate (r.length - a.shape_.length) 1 ++ a.shape_).length = r.length := by
    rw [List.length_append, List.length_replicate]
    omega
  rw [get_value_loop_eq r _ _ _ 0 hcur hel (by rw [compute_strides_length]; exact hel)
    SIZE_T_MODULUS_pos, Nat.zero_add]

theorem get_value_of_readOffset (a : ndarray T) (r : Shape) (k : Nat)
    (hle : a.shape_.length ≤ r.length) :
    (increment^[k] (iteratorOf a r)).get_value =
      (match readOffset a r k with
        | .ok f => readAt a.data_ f
        | .error e => .error e) := by
  obtain ⟨f1, _, _, _⟩ := iterate_increment_fields (iteratorOf a r) k
  unfold readOffset get_value
  rw [ctor_eq a r hle, f1]
  rfl

theorem broadcast_rank_le (s t r : Shape) (h : broadcast_shapes s t = .ok r) :
    s.length ≤ r.length := by
  obtain ⟨_, hres⟩ := broadcast_shapes_ok_inv s t r h
  rw [hres, bsResult_length]
  exact Nat.le_max_left _ _

theorem readOffset_in_bounds (a : ndarray T) (t r : Shape)
    (hsz : a.size_ = compute_size a.shape_) (h : broadcast_shapes a.shape_ t = .ok r)
    (hz : ∀ d ∈ a.shape_, d ≠ 0) (hprod : r.prod < SIZE_T_MODULUS) (k : Nat)
    (hk : k < compute_size r) :
    ∃ f, readOffset a r k = .ok f ∧ f < a.size_ := by
  have habs := broadcast_shapes_absorb a.shape_ t r h
  obtain ⟨hle, hexp⟩ := resolved_expandsTo a.shape_ r habs hz
  rw [compute_size_of_lt r hprod] at hk
  obtain ⟨hc1, _⟩ := cursor_spec a r hprod (expandsTo_pos hexp) k hk
  have hmask := maskIndex_in_range hexp _ hc1
  have hep : (List.replicate (r.length - a.shape_.length) 1 ++ a.shape_).prod < SIZE_T_MODULUS :=
    Nat.lt_of_le_of_lt (expandsTo_prod_le hexp) hprod
  have hdot := dotNat_lt _ _ hep hmask
  refine ⟨_, readOffset_eq a r k hle (List.Forall₂.length_eq hc1), ?_⟩
  rw [Nat.mod_eq_of_lt (Nat.lt_trans hdot hep)]
  rw [prod_pad] at hdot hep
  rw [hsz, compute_size_of_lt _ hep]
  exact hdot

theorem iteratorOf_current_length (a : ndarray T) (r : Shape) :
    (increment^[0] (iteratorOf a r)).current_index_.length = r.length := by
  show (List.replicate r.length 0).length = r.length
  exact List.length_replicate _ _

theorem broadcast_to_empty_source [Zero T] (a : ndarray T) (t r : Shape)
    (h : broadcast_shapes a.shape_ t = .ok r) (hd : a.data_ = []) (hr : 0 < compute_size r) :
    broadcast_to a t = .error .undefined := by
  have hle := broadcast_rank_le a.shape_ t r h
  unfold broadcast_to
  rw [h]
  simp only
  rw [ctor_eq a r hle]
  simp only
  have hfirst : broadcast_to_step ((ndarray.ctor_shape r : ndarray T), iteratorOf a r) 0 =
      .error .undefined := by
    unfold broadcast_to_step
    have hg := get_value_of_readOffset a r 0 hle
    rw [readOffset_eq a r 0 hle (iteratorOf_current_length a r)] at hg
    simp only [Function.iterate_zero, id_eq] at hg
    rw [hg, hd]
    rfl
  have hsize : (ndarray.ctor_shape r : ndarray T).size_ = compute_size r := rfl
  rw [hsize, foldlM_range_error_first broadcast_to_step _ _ .undefined hr hfirst]

theorem prod_eq_zero_of_mem (s : Shape) (h : ∃ d ∈ s, d = 0) : s.prod = 0 := by
  obtain ⟨d, hd, h0⟩ := h
  subst h0
  exact List.prod_eq_zero hd

/-- C37: for an array `a` with `size() == compute_size(shape())` and a target
shape `t` that `broadcast_shapes` resolves against the shape of `a` to `r`:
when no dimension of `a` is zero and the element count of `r` is below `2 ^ 64`,
every source offset `get_value` computes during `broadcast_to(a, t)` is below
`a.size()`; when `a` has a zero-sized dimension and `r` has elements (the zero
dimensions of `a` are aligned with dimensions of size 1), the first offset
`get_value` computes is not below `a.size() = 0`, and for an owning `a`, whose
buffer is empty, the read is outside the buffer. -/
theorem broadcast_to_reads [Zero T] (a : ndarray T) (t r : Shape)
    (hsz : a.size_ = compute_size a.shape_)
    (h : broadcast_shapes a.shape_ t = .ok r) :
    ((∀ d ∈ a.shape_, d ≠ 0) → r.prod < SIZE_T_MODULUS →
      ∀ k, k < compute_size r → ∃ f, readOffset a r k = .ok f ∧ f < a.size_) ∧
    ((∃ d ∈ a.shape_, d = 0) → 0 < compute_size r →
      a.size_ = 0 ∧ (∃ f, readOffset a r 0 = .ok f ∧ a.size_ ≤ f) ∧
      (a.data_ = [] → broadcast_to a t = .error .undefined)) := by
  refine ⟨fun hz hprod k hk => readOffset_in_bounds a t r hsz h hz hprod k hk, ?_⟩
  intro hzero hr
  have hs0 : a.size_ = 0 := by
    rw [hsz, compute_size_eq, prod_eq_zero_of_mem _ hzero]
    rfl
  refine ⟨hs0, ⟨_, readOffset_eq a r 0 (broadcast_rank_le _ _ _ h)
    (iteratorOf_current_length a r), by rw [hs0]; exact Nat.zero_le _⟩,
    fun hd => broadcast_to_empty_source a t r h hd hr⟩

/-- Witness for C37: the zero-filled array of shape `(0)` broadcast to the target
`(1)`: the resolved shape is `(1)`, the one step of the loop reads the source
offset 0 while the array has size 0 and an empty buffer. The array `[1, 2, 3]`
broadcast to `(2, 3)` is read at the offsets 0, 1, 2, 0, 1, 2. -/
theorem broadcast_to_reads_witness :
    broadcast_shapes (ndarray.ctor_shape [0] : ndarray Int).shape_ [1] = .ok [1] ∧
    (ndarray.ctor_shape [0] : ndarray Int).size_ = 0 ∧
    readOffset (ndarray.ctor_shape [0] : ndarray Int) [1] 0 = .ok 0 ∧
    broadcast_to (ndarray.ctor_shape [0] : ndarray Int) [1] = .error .undefined ∧
    (∀ k, k < 6 → ∃ f,
      readOffset (⟨[3], [1], [1, 2, 3], 3, true⟩ : ndarray Int) [2, 3] k = .ok f ∧ f < 3) := by
  have h := (broadcast_to_reads (ndarray.ctor_shape [0] : ndarray Int) [1] [1] rfl (by decide)).2
    ⟨0, by decide, rfl⟩ (by decide)
  have h2 := (broadcast_to_reads (⟨[3], [1], [1, 2, 3], 3, true⟩ : ndarray Int) [2, 3] [2, 3]
    rfl (by decide)).1 (by decide) (by decide)
  exact ⟨by decide, h.1, by decide, h.2.2 rfl, h2⟩

theorem list_eq_range_map [Zero T] (l : List T) :
    l = (List.range l.length).map (fun i => l.getD i 0) := by
  apply List.ext_getElem
  · simp
  · intro i h1 h2
    rw [List.getElem_map, List.getElem_range, List.getD_eq_getElem _ _ h1]

theorem transform2_dense [Zero T] (op : T → T → U) (xa xb : List T) (out : List U) (n : Nat)
    (ha : xa.length = n) (hb : xb.length = n) (hout : out.length = n) :
    transform2 op xa n xb out =
      .ok ((List.range n).map (fun i => op (xa.getD i 0) (xb.getD i 0))) := by
  have ea := list_eq_range_map xa
  have eb := list_eq_range_map xb
  rw [ha] at ea
  rw [hb] at eb
  have h := transform2_eq op (fun i => xa.getD i 0) (fun i => xb.getD i 0) n out hout
  rw [← ea, ← eb] at h
  exact h

theorem binary_elementwise_of_operands [Zero T] [Zero U] (op : T → T → U) (a b : ndarray T)
    (r : Shape) (h : broadcast_shapes a.shape_ b.shape_ = .ok r) (xa xb : ndarray T)
    (ha : broadcast_to a r = .ok xa) (hb : broadcast_to b r = .ok xb) :
    xa.shape_ = r ∧ xb.shape_ = r ∧ xa.size_ = compute_size r ∧ xb.size_ = compute_size r ∧
      xa.data_.length = xa.size_ ∧ xb.data_.length = xb.size_ ∧
      binary_elementwise op a b =
        .ok { shape_ := r, strides_ := compute_strides r,
              data_ := (List.range (compute_size r)).map
                (fun i => op (xa.data_.getD i 0) (xb.data_.getD i 0)),
              size_ := compute_size r, owns_data_ := true } := by
  obtain ⟨a1, _, _, a3, a4⟩ := broadcast_to_ok_inv a r xa ha
  obtain ⟨b1, _, _, b3, b4⟩ := broadcast_to_ok_inv b r xb hb
  rw [broadcast_shapes_absorb _ _ _ h] at a1
  rw [broadcast_shapes_absorb_right _ _ _ h] at b1
  injection a1 with a1
  injection b1 with b1
  rw [← a1] at a3
  rw [← b1] at b3
  refine ⟨a1.symm, b1.symm, a3, b3, a4, b4, ?_⟩
  unfold binary_elementwise
  rw [h]
  simp only []
  rw [ha, hb]
  simp only []
  rw [a3, transform2_dense op xa.data_ xb.data_ _ (compute_size r) (by rw [a4, a3])
    (by rw [b4, b3]) (by rw [ctor_shape_data]; simp)]
  rfl

/-- C38: for all shapes `s1` and `s2` that `broadcast_shapes` resolves to `r`,
`broadcast_shapes(s1, r)` and `broadcast_shapes(s2, r)` both succeed and both
equal `r`; consequently, in a binary element-wise operation on arrays of shapes
`s1` and `s2`, the two densified operands `broadcast_to(a, r)` and
`broadcast_to(b, r)` and the result array all have shape `r` and the element
count `compute_size(r)`, their buffers hold that many elements, and the
position-wise transform reads and writes inside them: the operation returns the
array of shape `r` whose flat element `i` is the operator applied to the flat
elements `i` of the two densified operands. -/
theorem broadcast_operands_resolved [Zero T] [Zero U] (op : T → T → U) (s1 s2 r : Shape)
    (h : broadcast_shapes s1 s2 = .ok r) :
    broadcast_shapes s1 r = .ok r ∧ broadcast_shapes s2 r = .ok r ∧
    ∀ a b xa xb : ndarray T, a.shape_ = s1 → b.shape_ = s2 →
      broadcast_to a r = .ok xa → broadcast_to b r = .ok xb →
      xa.shape_ = r ∧ xb.shape_ = r ∧
      xa.size_ = compute_size r ∧ xb.size_ = compute_size r ∧
      xa.data_.length = xa.size_ ∧ xb.data_.length = xb.size_ ∧
      ∃ c, binary_elementwise op a b = .ok c ∧ c.shape_ = r ∧ c.size_ = compute_size r ∧
        c.data_.length = c.size_ ∧
        ∀ i, i < c.size_ →
          ∃ u v, xa.get i = .ok u ∧ xb.get i = .ok v ∧ c.get i = .ok (op u v) := by
  refine ⟨broadcast_shapes_absorb _ _ _ h, broadcast_shapes_absorb_right _ _ _ h, ?_⟩
  intro a b xa xb hsa hsb ha hb
  subst hsa
  subst hsb
  obtain ⟨e1, e2, e3, e4, e5, e6, e7⟩ := binary_elementwise_of_operands op a b r h xa xb ha hb
  refine ⟨e1, e2, e3, e4, e5, e6, _, e7, rfl, rfl, by simp, ?_⟩
  intro i hi
  have hi2 : i < compute_size r := hi
  refine ⟨xa.data_.getD i 0, xb.data_.getD i 0, ?_, ?_, ?_⟩
  · unfold ndarray.get
    rw [if_neg (by omega)]
    exact readAt_of_lt _ _ (by omega)
  · unfold ndarray.get
    rw [if_neg (by omega)]
    exact readAt_of_lt _ _ (by omega)
  · unfold ndarray.get readAt
    simp only []
    rw [if_neg (by omega), List.getElem?_map, List.getElem?_range hi2]
    rfl

/-- Witness for C38: the shapes `(2, 3)` and `(3)` resolve to `(2, 3)`, which is
resolved against both; `[[1,2,3],[4,5,6]] + [10,20,30]` has shape `(2, 3)` and
six elements, the flat element 4 being `5 + 20`. -/
theorem broadcast_operands_resolved_witness :
    broadcast_shapes [2, 3] [3] = .ok [2, 3] ∧
    broadcast_shapes [2, 3] [2, 3] = .ok [2, 3] ∧ broadcast_shapes [3] [2, 3] = .ok [2, 3] ∧
    ∃ c : ndarray Int,
      add (⟨[2, 3], [3, 1], [1, 2, 3, 4, 5, 6], 6, true⟩ : ndarray Int)
        ⟨[3], [1], [10, 20, 30], 3, true⟩ = .ok c ∧
      c.shape_ = [2, 3] ∧ c.size_ = 6 ∧ c.data_.length = 6 ∧ c.get 4 = .ok 25 := by
  have h := broadcast_operands_resolved (fun x y : Int => x + y) [2, 3] [3] [2, 3] (by decide)
  obtain ⟨h1, h2, h3⟩ := h
  obtain ⟨_, _, _, _, _, _, c, c1, c2, c3, c4, c5⟩ := h3
    (⟨[2, 3], [3, 1], [1, 2, 3, 4, 5, 6], 6, true⟩ : ndarray Int)
    ⟨[3], [1], [10, 20, 30], 3, true⟩
    ⟨[2, 3], [3, 1], [1, 2, 3, 4, 5, 6], 6, true⟩
    ⟨[2, 3], [3, 1], [10, 20, 30, 10, 20, 30], 6, true⟩ rfl rfl (by decide) (by decide)
  refine ⟨by decide, h1, h2, c, c1, c2, by rw [c3]; rfl, by rw [c4, c3]; rfl, ?_⟩
  obtain ⟨u, v, hu, hv, hc⟩ := c5 4 (by rw [c3]; decide)
  have hu2 : u = 5 := by
    have : (⟨[2, 3], [3, 1], [1, 2, 3, 4, 5, 6], 6, true⟩ : ndarray Int).get 4 = .ok 5 := rfl
    rw [this] at hu
    injection hu with hu
    exact hu.symm
  have hv2 : v = 20 := by
    have : (⟨[2, 3], [3, 1], [10, 20, 30, 10, 20, 30], 6, true⟩ : ndarray Int).get 4 =
        .ok 20 := rfl
    rw [this] at hv
    injection hv with hv
    exact hv.symm
  rw [hc, hu2, hv2]
  rfl

theorem splitBounds_last (a : ndarray T) (axis : Nat) (cuts : List Nat) :
    (splitBounds a axis cuts).getD (cuts.length + 1) 0 = a.shape_.getD axis 0 := by
  unfold splitBounds
  have := List.getElem?_concat_length (0 :: cuts) (a.shape_.getD axis 0)
  rw [List.length_cons] at this
  rw [List.getD_eq_getElem?_getD, this]
  rfl

theorem splitBounds_zero (a : ndarray T) (axis : Nat) (cuts : List Nat) :
    (splitBounds a axis cuts).getD 0 0 = 0 := rfl

theorem set_set_self (s : List Nat) (axis x y : Nat) : (s.set axis x).set axis y = s.set axis y := by
  apply List.ext_getElem
  · simp
  · intro i h1 h2
    simp only [List.getElem_set]
    split <;> rfl

/-- The arrays `split` returns are row-major owners. -/
theorem split_owner_parts [Zero T] (a : ndarray T) (ha : a.InBounds) (axis : Nat)
    (cuts : List Nat) (hax : axis < a.ndim) (hs : cuts.Pairwise (fun x y => x ≤ y))
    (hc : ∀ c ∈ cuts, c ≤ a.shape_.getD axis 0)
    (hd : a.shape_.getD axis 0 < SIZE_T_MODULUS) (hprod : a.shape_.prod < SIZE_T_MODULUS) :
    ∃ parts, split a axis cuts = .ok parts ∧ parts.length = cuts.length + 1 ∧
      ∀ i r, parts[i]? = some r →
        r.IsRowMajorOwner ∧ r.shape_.prod < SIZE_T_MODULUS ∧
        r.shape_ = a.shape_.set axis
          ((splitBounds a axis cuts).getD (i + 1) 0 - (splitBounds a axis cuts).getD i 0) ∧
        (splitBounds a axis cuts).getD i 0 ≤ (splitBounds a axis cuts).getD (i + 1) 0 ∧
        ∀ p, List.Forall₂ (fun i d => i < d) p r.shape_ →
          r.at p = a.at (shiftAxis axis ((splitBounds a axis cuts).getD i 0) p) := by
  obtain ⟨parts, h1, h2, h3⟩ := foldlM_range_inv
    (split_segment a axis (splitBounds a axis cuts))
    (fun k res => res.length = k ∧ ∀ i r, res[i]? = some r →
      r.IsRowMajorOwner ∧ r.shape_.prod < SIZE_T_MODULUS ∧
      r.shape_ = a.shape_.set axis
        ((splitBounds a axis cuts).getD (i + 1) 0 - (splitBounds a axis cuts).getD i 0) ∧
      (splitBounds a axis cuts).getD i 0 ≤ (splitBounds a axis cuts).getD (i + 1) 0 ∧
      ∀ p, List.Forall₂ (fun i d => i < d) p r.shape_ →
        r.at p = a.at (shiftAxis axis ((splitBounds a axis cuts).getD i 0) p))
    (cuts.length + 1) []
    ⟨rfl, fun i r h => by simp at h⟩
    (by
      intro k res hk ⟨hlen, hprev⟩
      obtain ⟨b1, b2, b3, b4⟩ := splitBounds_step cuts (a.shape_.getD axis 0) hs hc k hk
      obtain ⟨r, e1, e2, e3, e4, e5⟩ := split_segment_ok a ha axis hax
        (splitBounds a axis cuts) k _ _ b1 b2 b3 b4 hd hprod res
      refine ⟨res ++ [r], e1, by simp [hlen], ?_⟩
      intro i r2 hi
      by_cases hik : i < res.length
      · rw [List.getElem?_append_left hik] at hi
        exact hprev i r2 hi
      · rw [List.getElem?_append_right (by omega)] at hi
        have hi0 : i - res.length = 0 := by
          by_contra hne
          have : ([r] : List (ndarray T))[i - res.length]? = none := by
            rw [List.getElem?_eq_none]
            simp; omega
          rw [this] at hi
          cases hi
        rw [hi0] at hi
        have hr2 : r = r2 := by simpa using hi
        have hik2 : i = k := by omega
        subst hr2
        subst hik2
        obtain ⟨d1, d2, d3, d4⟩ := e2
        refine ⟨⟨e4, by rw [d2, d1], by rw [e3, d1, compute_size_of_lt _ d4], by rw [d3, e3]⟩,
          by rw [d1]; exact d4, d1, b3, ?_⟩
        intro p hp
        rw [d1] at hp
        exact e5 p hp)
  refine ⟨parts, ?_, h2, h3⟩
  unfold split
  rw [if_neg (by omega)]
  have hl : ((0 :: cuts) ++ [a.shape_.getD axis 0]).length - 1 = cuts.length + 1 := by simp
  simp only
  rw [hl]
  exact h1

/-- The axis sizes of the first `k` parts add up to the `k`-th boundary. -/
theorem axisOffset_parts (parts : List (ndarray T)) (s : Shape) (b : List Nat) (axis : Nat)
    (hax : axis < s.length) (hb0 : b.getD 0 0 = 0)
    (hparts : ∀ i r, parts[i]? = some r →
      r.shape_ = s.set axis (b.getD (i + 1) 0 - b.getD i 0) ∧ b.getD i 0 ≤ b.getD (i + 1) 0)
    (k : Nat) (hk : k ≤ parts.length) : axisOffset parts axis k = b.getD k 0 := by
  induction k with
  | zero => rw [axisOffset_zero, hb0]
  | succ k ih =>
    have hk2 : k < parts.length := by omega
    obtain ⟨e1, e2⟩ := hparts k (parts.get ⟨k, hk2⟩) (List.getElem?_eq_getElem hk2)
    rw [axisOffset_succ parts axis k hk2, ih (by omega), e1, getD_set_self _ _ _ hax]
    omega

/-- `concatenate` of the arrays `split` returns, along the same axis, is the
array that was split. -/
theorem split_concatenate_ok [Zero T] (a : ndarray T) (ha : a.InBounds) (axis : Nat)
    (cuts : List Nat) (hax : axis < a.ndim) (hs : cuts.Pairwise (fun x y => x ≤ y))
    (hc : ∀ c ∈ cuts, c ≤ a.shape_.getD axis 0)
    (hd : a.shape_.getD axis 0 < SIZE_T_MODULUS) (hprod : a.shape_.prod < SIZE_T_MODULUS) :
    ∃ parts r, split a axis cuts = .ok parts ∧ parts.length = cuts.length + 1 ∧
      concatenate parts axis = .ok r ∧ r.shape_ = a.shape_ ∧
      ∀ p, List.Forall₂ (fun i d => i < d) p a.shape_ → r.at p = a.at p := by
  obtain ⟨parts, h1, h2, h3⟩ := split_owner_parts a ha axis cuts hax hs hc hd hprod
  have hoff : ∀ k, k ≤ parts.length →
      axisOffset parts axis k = (splitBounds a axis cuts).getD k 0 :=
    fun k hk => axisOffset_parts parts a.shape_ (splitBounds a axis cuts) axis hax
      (splitBounds_zero a axis cuts) (fun i r hi => ⟨(h3 i r hi).2.2.1, (h3 i r hi).2.2.2.1⟩) k hk
  have htotal : axisOffset parts axis parts.length = a.shape_.getD axis 0 := by
    rw [hoff _ (Nat.le_refl _), h2, splitBounds_last]
  have hmem : ∀ x ∈ parts, ∃ i : Nat, parts[i]? = some x := by
    intro x hx
    obtain ⟨i, hi, he⟩ := List.mem_iff_getElem.mp hx
    exact ⟨i, by rw [List.getElem?_eq_getElem hi, he]⟩
  have hlenx : ∀ x ∈ parts, x.shape_.length = a.shape_.length := by
    intro x hx
    obtain ⟨i, hi⟩ := hmem x hx
    rw [(h3 i x hi).2.2.1, List.length_set]
  have hdimx : ∀ x ∈ parts, ∀ i, i < a.shape_.length → i ≠ axis →
      x.shape_.getD i 0 = a.shape_.getD i 0 := by
    intro x hx i _ hne
    obtain ⟨j, hj⟩ := hmem x hx
    rw [(h3 j x hj).2.2.1, getD_set_ne _ _ _ _ hne]
  cases hparts : parts with
  | nil =>
    rw [hparts] at h2
    simp at h2
  | cons first tail =>
    have hfirst := h3 0 first (by rw [hparts]; exact List.getElem?_cons_zero)
    cases htail : tail with
    | nil =>
      rw [htail] at hparts
      have hcuts : cuts.length = 0 := by
        rw [hparts] at h2
        simpa using h2.symm
      have hb1 : (splitBounds a axis cuts).getD (0 + 1) 0 = a.shape_.getD axis 0 := by
        have := splitBounds_last a axis cuts
        rw [hcuts] at this
        exact this
      have hshape : first.shape_ = a.shape_ := by
        rw [hfirst.2.2.1, hb1, splitBounds_zero, Nat.sub_zero, set_getD_self]
      refine ⟨[first], first, by rw [← hparts]; exact h1, by rw [hcuts]; rfl, ?_, hshape, ?_⟩
      · show ndarray.ctor_copy first = .ok first
        exact ctor_copy_owner first hfirst.1
      · intro p hp
        rw [hfirst.2.2.2.2 p (by rw [hshape]; exact hp), splitBounds_zero, shiftAxis_zero]
    | cons second rest =>
      rw [htail] at hparts
      have hfl : first.shape_.length = a.shape_.length :=
        hlenx first (by rw [hparts]; exact List.mem_cons_self _ _)
      have hown : ∀ x ∈ first :: second :: rest,
          x.IsRowMajorOwner ∧ x.shape_.prod < SIZE_T_MODULUS := by
        intro x hx
        rw [← hparts] at hx
        obtain ⟨i, hi⟩ := hmem x hx
        exact ⟨(h3 i x hi).1, (h3 i x hi).2.1⟩
      have hrank : ∀ x ∈ first :: second :: rest, x.ndim = first.ndim := by
        intro x hx
        rw [← hparts] at hx
        show x.shape_.length = first.shape_.length
        rw [hlenx x hx, hfl]
      have hdims : ∀ x ∈ first :: second :: rest, ∀ i, i < first.ndim → i ≠ axis →
          x.shape_.getD i 0 = first.shape_.getD i 0 := by
        intro x hx i hi hne
        rw [← hparts] at hx
        have hi2 : i < a.shape_.length := by
          have : i < first.shape_.length := hi
          omega
        rw [hdimx x hx i hi2 hne,
          hdimx first (by rw [hparts]; exact List.mem_cons_self _ _) i hi2 hne]
      have hset : first.shape_.set axis (a.shape_.getD axis 0) = a.shape_ := by
        rw [hfirst.2.2.1, set_set_self, set_getD_self]
      rw [hparts] at htotal
      obtain ⟨r, c1, c2, c3⟩ := concatenate_many first second rest axis hown hrank
        (by show axis < first.shape_.length; rw [hfl]; exact hax) hdims
        (by rw [htotal]; exact hd) (by rw [htotal, hset]; exact hprod)
      rw [htotal, hset] at c2
      refine ⟨first :: second :: rest, r, by rw [← hparts]; exact h1,
        by rw [← hparts]; exact h2, c1, c2, ?_⟩
      intro q hq
      have hq2 : List.Forall₂ (fun i d => i < d) q
          (a.shape_.set axis (axisOffset (first :: second :: rest) axis
            (first :: second :: rest).length)) := by
        rw [htotal, set_getD_self]
        exact hq
      obtain ⟨k, hk, p, hp, hqp⟩ := concatenate_cover (first :: second :: rest) a.shape_ axis
        (by intro x hx; rw [← hparts] at hx; exact hlenx x hx) hax
        (by intro x hx i hi hne; rw [← hparts] at hx; exact hdimx x hx i hi hne) q hq2
      have hget : parts[k]? = some ((first :: second :: rest).get ⟨k, hk⟩) := by
        rw [hparts]
        exact List.getElem?_eq_getElem hk
      rw [hqp, c3 k hk p hp, (h3 k _ hget).2.2.2.2 p hp,
        ← hoff k (by rw [hparts]; exact Nat.le_of_lt hk), hparts]

/-- C39 (amended): for every array `a` whose elements can all be read (every
in-range multi-index flattens, with the strides of `a`, to a position below
`size()` inside the buffer) and whose element count and `axis` extent are below
`2 ^ 64`, `axis < rank(a)` and a non-decreasing list of cut points each at most
`a.shape[axis]`: `split(a, axis, cuts)` returns `len(cuts) + 1` arrays and
`concatenate` of them along `axis` has the shape of `a` and the element of `a`
at every in-range multi-index. -/
theorem split_concatenate_identity [Zero T] (a : ndarray T) (axis : Nat) (cuts : List Nat)
    (ha : a.InBounds) (hax : axis < a.ndim)
    (hs : cuts.Pairwise (fun x y => x ≤ y)) (hc : ∀ c ∈ cuts, c ≤ a.shape_.getD axis 0)
    (hd : a.shape_.getD axis 0 < SIZE_T_MODULUS) (hprod : a.shape_.prod < SIZE_T_MODULUS) :
    ∃ parts r, split a axis cuts = .ok parts ∧ parts.length = cuts.length + 1 ∧
      concatenate parts axis = .ok r ∧ r.shape_ = a.shape_ ∧
      ∀ p, List.Forall₂ (fun i d => i < d) p a.shape_ →
        ∃ v, a.at p = .ok v ∧ r.at p = .ok v := by
  obtain ⟨parts, r, h1, h2, h3, h4, h5⟩ :=
    split_concatenate_ok a ha axis cuts hax hs hc hd hprod
  refine ⟨parts, r, h1, h2, h3, h4, ?_⟩
  intro p hp
  obtain ⟨f, _, _, hat, _⟩ := inBounds_read a ha p hp
  exact ⟨_, hat, by rw [h5 p hp]; exact hat⟩

/-- Witness for C39: `[[1,2],[3,4],[5,6],[7,8]]` split along axis 0 at the cut
points 1, 1 and 3 (the second segment is empty) and concatenated along axis 0
is `[[1,2],[3,4],[5,6],[7,8]]` again; so is the array split with no cut point. -/
theorem split_concatenate_identity_witness :
    (∃ parts : List (ndarray Int),
      split (⟨[4, 2], [2, 1], [1, 2, 3, 4, 5, 6, 7, 8], 8, true⟩ : ndarray Int) 0 [1, 1, 3] =
        .ok parts ∧ parts.length = 4 ∧
      concatenate parts 0 = .ok ⟨[4, 2], [2, 1], [1, 2, 3, 4, 5, 6, 7, 8], 8, true⟩) ∧
    (∃ parts : List (ndarray Int),
      split (⟨[4, 2], [2, 1], [1, 2, 3, 4, 5, 6, 7, 8], 8, true⟩ : ndarray Int) 0 [] =
        .ok parts ∧ parts.length = 1 ∧
      concatenate parts 0 = .ok ⟨[4, 2], [2, 1], [1, 2, 3, 4, 5, 6, 7, 8], 8, true⟩) := by
  have hin : (⟨[4, 2], [2, 1], [1, 2, 3, 4, 5, 6, 7, 8], 8, true⟩ : ndarray Int).InBounds :=
    inBounds_of_owner _ (by unfold ndarray.IsRowMajorOwner; decide) (by decide)
  obtain ⟨parts, r, h1, h2, h3, _, _⟩ := split_concatenate_identity
    (⟨[4, 2], [2, 1], [1, 2, 3, 4, 5, 6, 7, 8], 8, true⟩ : ndarray Int) 0 [1, 1, 3] hin
    (by decide) (by decide) (by decide) (by decide) (by decide)
  obtain ⟨parts0, r0, g1, g2, g3, _, _⟩ := split_concatenate_identity
    (⟨[4, 2], [2, 1], [1, 2, 3, 4, 5, 6, 7, 8], 8, true⟩ : ndarray Int) 0 [] hin
    (by decide) (by decide) (by decide) (by decide) (by decide)
  have e1 : split (⟨[4, 2], [2, 1], [1, 2, 3, 4, 5, 6, 7, 8], 8, true⟩ : ndarray Int) 0
      [1, 1, 3] = .ok [⟨[1, 2], [2, 1], [1, 2], 2, true⟩, ⟨[0, 2], [2, 1], [], 0, true⟩,
        ⟨[2, 2], [2, 1], [3, 4, 5, 6], 4, true⟩, ⟨[1, 2], [2, 1], [7, 8], 2, true⟩] := by
    decide
  have e0 : split (⟨[4, 2], [2, 1], [1, 2, 3, 4, 5, 6, 7, 8], 8, true⟩ : ndarray Int) 0
      [] = .ok [⟨[4, 2], [2, 1], [1, 2, 3, 4, 5, 6, 7, 8], 8, true⟩] := by
    decide
  rw [e1] at h1
  injection h1 with h1
  rw [e0] at g1
  injection g1 with g1
  subst h1
  subst g1
  exact ⟨⟨_, e1, h2, by decide⟩, ⟨_, e0, g2, by decide⟩⟩

/-- Counterexample for C39 as stated: the owning copy `c` of the view of shape
`(2^63 + 1, 2)` with strides `(0, 0)` holds 7 at every index and its `size_t`
element count is 2; `concatenate(split(c, 0, {1}), 0)` has the shape of `c` and
a buffer of 2 elements, so it has no element at the in-range multi-index
`(1, 0)`, where `c` holds 7. -/
theorem split_concatenate_identity_counterexample :
    ∃ c r : ndarray Int, ∃ parts : List (ndarray Int),
      ndarray.ctor_copy (ndarray.create_view [9223372036854775809, 2] [0, 0] [7, 7]) = .ok c ∧
      c.owns_data_ = true ∧ (0 : Nat) < c.ndim ∧ 1 ≤ c.shape_.getD 0 0 ∧
      split c 0 [1] = .ok parts ∧ concatenate parts 0 = .ok r ∧ r.shape_ = c.shape_ ∧
      List.Forall₂ (fun i d => i < d) [1, 0] c.shape_ ∧
      c.at [1, 0] = .ok 7 ∧ r.at [1, 0] = .error .undefined :=
  ⟨⟨[9223372036854775809, 2], [0, 0], [7, 7], 2, true⟩,
    ⟨[9223372036854775809, 2], [2, 1], [7, 7], 2, true⟩,
    [⟨[1, 2], [2, 1], [7, 7], 2, true⟩, ⟨[9223372036854775808, 2], [2, 1], [], 0, true⟩],
    by decide⟩

theorem at_eq_readAt (a : ndarray T) (idx : List Nat) (f : Nat)
    (hidx : List.Forall₂ (fun i d => i < d) idx a.shape_)
    (hf : flatten_index idx a.strides_ = .ok f) : a.at idx = readAt a.data_ f := by
  unfold ndarray.at
  rw [if_neg (fun hne => hne (List.Forall₂.length_eq hidx)), any_ge_false hidx]
  simp only [Bool.false_eq_true, if_false]
  rw [hf]

/-- C40 (amended): for every shape whose element count (the exact product of
its dimensions) is below `2 ^ 64` and every multi-index `idx` of the same length
with `idx[i] < shape[i]` for all `i`, `flatten_index(idx, compute_strides(shape))`
is below `compute_size(shape)`; hence, for an array with that shape, its
row-major strides and `size() == compute_size(shape)`, the offset `at` reads
after its checks is below `size()`, and `at` returns an element when the buffer
holds `size()` elements. -/
theorem flatten_index_in_bounds (shape : Shape) (idx : List Nat)
    (hprod : shape.prod < SIZE_T_MODULUS)
    (hidx : List.Forall₂ (fun i d => i < d) idx shape) :
    ∃ f, flatten_index idx (compute_strides shape) = .ok f ∧ f < compute_size shape ∧
      ∀ a : ndarray T, a.shape_ = shape → a.strides_ = compute_strides shape →
        a.size_ = compute_size shape →
        f < a.size_ ∧ a.at idx = readAt a.data_ f ∧
        (a.size_ ≤ a.data_.length → ∃ v, a.at idx = .ok v) := by
  have hf := flatten_index_in_range shape idx hprod hidx
  have hlt : dotNat idx (compute_strides shape) < compute_size shape := by
    rw [compute_size_of_lt shape hprod]
    exact dotNat_lt shape idx hprod hidx
  refine ⟨_, hf, hlt, ?_⟩
  intro a hs hst hsz
  have hat : a.at idx = readAt a.data_ (dotNat idx (compute_strides shape)) :=
    at_eq_readAt a idx _ (by rw [hs]; exact hidx) (by rw [hst]; exact hf)
  refine ⟨by rw [hsz]; exact hlt, hat, ?_⟩
  intro hl
  have hlen : dotNat idx (compute_strides shape) < a.data_.length := by omega
  exact ⟨_, by rw [hat]; exact readAt_get _ _ hlen⟩

/-- Witness for C40: in the shape `(2, 3)` the multi-index `(1, 2)` flattens to
5, below the element count 6, and `at(1, 2)` of `[[1,2,3],[4,5,6]]` is 6. -/
theorem flatten_index_in_bounds_witness :
    flatten_index [1, 2] (compute_strides [2, 3]) = .ok 5 ∧ 5 < compute_size [2, 3] ∧
    (⟨[2, 3], [3, 1], [1, 2, 3, 4, 5, 6], 6, true⟩ : ndarray Int).at [1, 2] = .ok 6 := by
  obtain ⟨f, h1, h2, h3⟩ := flatten_index_in_bounds (T := Int) [2, 3] [1, 2] (by decide)
    (by decide)
  have h5 : flatten_index [1, 2] (compute_strides [2, 3]) = .ok 5 := by decide
  rw [h5] at h1
  injection h1 with h1
  subst h1
  obtain ⟨_, h4, _⟩ := h3 ⟨[2, 3], [3, 1], [1, 2, 3, 4, 5, 6], 6, true⟩ rfl (by decide) (by decide)
  exact ⟨h5, h2, by rw [h4]; decide⟩

/-- Counterexample for C40 as stated: the shape `(2^63 + 1, 2)` has the
`size_t` element count 2 and the strides `(2, 1)`; the multi-index `(1, 0)` is
in range and flattens to 2, which is not below 2, and `at(1, 0)` of the
zero-filled array of that shape reads outside its two-element buffer. -/
theorem flatten_index_in_bounds_counterexample :
    List.Forall₂ (fun i d => i < d) [1, 0] [9223372036854775809, 2] ∧
    compute_strides [9223372036854775809, 2] = [2, 1] ∧
    flatten_index [1, 0] (compute_strides [9223372036854775809, 2]) = .ok 2 ∧
    compute_size [9223372036854775809, 2] = 2 ∧
    (ndarray.ctor_shape [9223372036854775809, 2] : ndarray Int).size_ = 2 ∧
    (ndarray.ctor_shape [9223372036854775809, 2] : ndarray Int).at [1, 0] =
      .error .undefined := by
  decide

end numbits

namespace catplot

/-! ## The plotting boundary: lemmas and the settled claim -/

variable {T D : Type}

theorem convert_loop (cast : T → D) (x_data y_data : List T) (n : Nat)
    (hx : n ≤ x_data.length) (hy : n ≤ y_data.length) (k : Nat) (hk : k ≤ n) :
    (List.range k).foldlM (Axes.convert_step cast x_data y_data) ([], []) =
      .ok ((x_data.take k).map cast, (y_data.take k).map cast) := by
  induction k with
  | zero => rfl
  | succ k ih =>
    have hkx : k < x_data.length := by omega
    have hky : k < y_data.length := by omega
    rw [List.range_succ, List.foldlM_append, ih (by omega)]
    show (Axes.convert_step cast x_data y_data
      ((x_data.take k).map cast, (y_data.take k).map cast) k >>= fun s =>
        List.foldlM (Axes.convert_step cast x_data y_data) s []) = _
    have ex : (x_data.take (k + 1)).map cast =
        (x_data.take k).map cast ++ [cast (x_data.get ⟨k, hkx⟩)] := by
      rw [List.take_succ, List.map_append, List.getElem?_eq_getElem hkx]
      rfl
    have ey : (y_data.take (k + 1)).map cast =
        (y_data.take k).map cast ++ [cast (y_data.get ⟨k, hky⟩)] := by
      rw [List.take_succ, List.map_append, List.getElem?_eq_getElem hky]
      rfl
    rw [ex, ey]
    unfold Axes.convert_step
    rw [List.getElem?_eq_getElem hkx, List.getElem?_eq_getElem hky]
    rfl

theorem convert_step_error (cast : T → D) (x_data y_data : List T) (st : List D × List D)
    (i : Nat) (e : Failure) (h : Axes.convert_step cast x_data y_data st i = .error e) :
    e = .undefined := by
  unfold Axes.convert_step at h
  split at h
  · injection h with h
    exact h.symm
  · split at h
    · injection h with h
      exact h.symm
    · cases h

theorem convert_step_length (cast : T → D) (x_data y_data : List T) (st st2 : List D × List D)
    (i : Nat) (hst : st.1.length = st.2.length)
    (h : Axes.convert_step cast x_data y_data st i = .ok st2) :
    st2.1.length = st2.2.length := by
  unfold Axes.convert_step at h
  split at h
  · cases h
  · split at h
    · cases h
    · injection h with h
      rw [← h]
      simp [hst]

theorem convert_fold (cast : T → D) (x_data y_data : List T) (l : List Nat)
    (st : List D × List D) (hst : st.1.length = st.2.length) :
    (l.foldlM (Axes.convert_step cast x_data y_data) st = .error .undefined) ∨
    ∃ st2, l.foldlM (Axes.convert_step cast x_data y_data) st = .ok st2 ∧
      st2.1.length = st2.2.length := by
  induction l generalizing st with
  | nil => exact Or.inr ⟨st, rfl, hst⟩
  | cons i is ih =>
    cases hi : Axes.convert_step cast x_data y_data st i with
    | error e =>
      left
      have he := convert_step_error cast x_data y_data st i e hi
      subst he
      show (Axes.convert_step cast x_data y_data st i >>= fun s =>
        List.foldlM (Axes.convert_step cast x_data y_data) s is) = _
      rw [hi]
      rfl
    | ok st1 =>
      have h1 := convert_step_length cast x_data y_data st st1 i hst hi
      have hstep : (i :: is).foldlM (Axes.convert_step cast x_data y_data) st =
          is.foldlM (Axes.convert_step cast x_data y_data) st1 := by
        show (Axes.convert_step cast x_data y_data st i >>= fun s =>
          List.foldlM (Axes.convert_step cast x_data y_data) s is) = _
        rw [hi]
        rfl
      rw [hstep]
      exact ih st1 h1

theorem plot_throws_iff (cast : T → D) (ax : Axes D) (x y : numbits.ndarray T)
    (color : Rgba D) (lineWidthPx : D) (label : String) :
    Axes.plot cast ax x y color lineWidthPx label = .error .invalid_argument ↔
      (x.ndim ≠ 1 ∨ y.ndim ≠ 1 ∨ x.size ≠ y.size ∨ x.size = 0) := by
  unfold Axes.plot
  by_cases h1 : x.ndim ≠ 1
  · rw [if_pos h1]
    exact ⟨fun _ => Or.inl h1, fun _ => rfl⟩
  rw [if_neg h1]
  by_cases h2 : y.ndim ≠ 1
  · rw [if_pos h2]
    exact ⟨fun _ => Or.inr (Or.inl h2), fun _ => rfl⟩
  rw [if_neg h2]
  by_cases h3 : x.size ≠ y.size
  · rw [if_pos h3]
    exact ⟨fun _ => Or.inr (Or.inr (Or.inl h3)), fun _ => rfl⟩
  rw [if_neg h3]
  by_cases h4 : x.size = 0
  · rw [if_pos h4]
    exact ⟨fun _ => Or.inr (Or.inr (Or.inr h4)), fun _ => rfl⟩
  rw [if_neg h4]
  constructor
  · intro h
    exfalso
    rcases convert_fold cast x.data y.data (List.range x.size) ([], []) rfl with he | ⟨st, hs, hl⟩
    · simp only [he] at h
      cases h
    · simp only [hs] at h
      unfold Axes.plot_vector at h
      rw [if_neg (fun hne => hne hl)] at h
      cases h
  · rintro (h | h | h | h)
    · exact absurd h h1
    · exact absurd h h2
    · exact absurd h h3
    · exact absurd h h4

theorem scatter_throws_iff (cast : T → D) (ax : Axes D) (x y : numbits.ndarray T)
    (radiusPx : D) (color : Rgba D) (label : String) :
    Axes.scatter cast ax x y radiusPx color label = .error .invalid_argument ↔
      (x.ndim ≠ 1 ∨ y.ndim ≠ 1 ∨ x.size ≠ y.size ∨ x.size = 0) := by
  unfold Axes.scatter
  by_cases h1 : x.ndim ≠ 1
  · rw [if_pos h1]
    exact ⟨fun _ => Or.inl h1, fun _ => rfl⟩
  rw [if_neg h1]
  by_cases h2 : y.ndim ≠ 1
  · rw [if_pos h2]
    exact ⟨fun _ => Or.inr (Or.inl h2), fun _ => rfl⟩
  rw [if_neg h2]
  by_cases h3 : x.size ≠ y.size
  · rw [if_pos h3]
    exact ⟨fun _ => Or.inr (Or.inr (Or.inl h3)), fun _ => rfl⟩
  rw [if_neg h3]
  by_cases h4 : x.size = 0
  · rw [if_pos h4]
    exact ⟨fun _ => Or.inr (Or.inr (Or.inr h4)), fun _ => rfl⟩
  rw [if_neg h4]
  constructor
  · intro h
    exfalso
    rcases convert_fold cast x.data y.data (List.range x.size) ([], []) rfl with he | ⟨st, hs, hl⟩
    · simp only [he] at h
      cases h
    · simp only [hs] at h
      unfold Axes.scatter_vector at h
      rw [if_neg (fun hne => hne hl)] at h
      cases h
  · rintro (h | h | h | h)
    · exact absurd h h1
    · exact absurd h h2
    · exact absurd h h3
    · exact absurd h h4

theorem plot_ok (cast : T → D) (ax : Axes D) (x y : numbits.ndarray T)
    (color : Rgba D) (lineWidthPx : D) (label : String)
    (h1 : x.ndim = 1) (h2 : y.ndim = 1) (h3 : x.size = y.size) (h4 : x.size ≠ 0)
    (hx : x.size ≤ x.data.length) (hy : y.size ≤ y.data.length) :
    Axes.plot cast ax x y color lineWidthPx label =
      .ok { ax with lines := ax.lines ++
        [⟨(x.data.take x.size).map cast, (y.data.take y.size).map cast, color, lineWidthPx,
          label⟩] } := by
  unfold Axes.plot
  rw [if_neg (fun h => h h1), if_neg (fun h => h h2), if_neg (fun h => h h3), if_neg h4]
  simp only
  rw [convert_loop cast x.data y.data x.size hx (by omega) x.size (Nat.le_refl _)]
  simp only
  unfold Axes.plot_vector
  rw [if_neg (by simp [List.length_take]; omega), h3]

theorem scatter_ok (cast : T → D) (ax : Axes D) (x y : numbits.ndarray T)
    (radiusPx : D) (color : Rgba D) (label : String)
    (h1 : x.ndim = 1) (h2 : y.ndim = 1) (h3 : x.size = y.size) (h4 : x.size ≠ 0)
    (hx : x.size ≤ x.data.length) (hy : y.size ≤ y.data.length) :
    Axes.scatter cast ax x y radiusPx color label =
      .ok { ax with scatters := ax.scatters ++
        [⟨(x.data.take x.size).map cast, (y.data.take y.size).map cast, radiusPx, color,
          label⟩] } := by
  unfold Axes.scatter
  rw [if_neg (fun h => h h1), if_neg (fun h => h h2), if_neg (fun h => h h3), if_neg h4]
  simp only
  rw [convert_loop cast x.data y.data x.size hx (by omega) x.size (Nat.le_refl _)]
  simp only
  unfold Axes.scatter_vector
  rw [if_neg (by simp [List.length_take]; omega), h3]

/-- C36: `Axes::plot` and `Axes::scatter` on two arrays `x`, `y` throw
`std::invalid_argument` if and only if `x.ndim() != 1`, or `y.ndim() != 1`, or
`x.size() != y.size()`, or `x.size() == 0`; otherwise, the buffers of `x` and `y`
holding their `size()` elements, `plot` appends to the line series exactly one
series whose `x` and `y` sequences are the elements of `x` and `y` in order
(converted to `double`), `scatter` appends one such series to the scatter series,
and every other member of the axes, the series added before included, is left
unchanged. -/
theorem plot_scatter_spec (cast : T → D) (ax : Axes D) (x y : numbits.ndarray T)
    (color : Rgba D) (width : D) (label : String) :
    (Axes.plot cast ax x y color width label = .error .invalid_argument ↔
      (x.ndim ≠ 1 ∨ y.ndim ≠ 1 ∨ x.size ≠ y.size ∨ x.size = 0)) ∧
    (Axes.scatter cast ax x y width color label = .error .invalid_argument ↔
      (x.ndim ≠ 1 ∨ y.ndim ≠ 1 ∨ x.size ≠ y.size ∨ x.size = 0)) ∧
    (x.ndim = 1 → y.ndim = 1 → x.size = y.size → x.size ≠ 0 →
      x.size ≤ x.data.length → y.size ≤ y.data.length →
      Axes.plot cast ax x y color width label =
        .ok { ax with lines := ax.lines ++
          [⟨(x.data.take x.size).map cast, (y.data.take y.size).map cast, color, width,
            label⟩] } ∧
      Axes.scatter cast ax x y width color label =
        .ok { ax with scatters := ax.scatters ++
          [⟨(x.data.take x.size).map cast, (y.data.take y.size).map cast, width, color,
            label⟩] }) :=
  ⟨plot_throws_iff cast ax x y color width label,
    scatter_throws_iff cast ax x y width color label,
    fun h1 h2 h3 h4 hx hy =>
      ⟨plot_ok cast ax x y color width label h1 h2 h3 h4 hx hy,
        scatter_ok cast ax x y width color label h1 h2 h3 h4 hx hy⟩⟩

/-- Witness for C36: on axes that already hold a line series, plotting
`x = [1, 2]` against `y = [5, 6]` appends the series `([1, 2], [5, 6])` after
it; a rank-2 `y`, a `y` of another size and two empty arrays are rejected. -/
theorem plot_scatter_spec_witness :
    Axes.plot (fun v : Int => v)
      { (Axes.ctor 800 600 : Axes Int) with lines := [⟨[0], [9], ⟨0, 0, 1, 1⟩, 2, "old"⟩] }
      ⟨[2], [1], [1, 2], 2, true⟩ ⟨[2], [1], [5, 6], 2, true⟩ ⟨1, 0, 0, 1⟩ 3 "new" =
      .ok { (Axes.ctor 800 600 : Axes Int) with
        lines := [⟨[0], [9], ⟨0, 0, 1, 1⟩, 2, "old"⟩, ⟨[1, 2], [5, 6], ⟨1, 0, 0, 1⟩, 3, "new"⟩] } ∧
    Axes.plot (fun v : Int => v) (Axes.ctor 800 600 : Axes Int)
      ⟨[5], [1], [0, 0, 0, 0, 0], 5, true⟩ ⟨[2, 3], [3, 1], [0, 0, 0, 0, 0, 0], 6, true⟩
      ⟨0, 0, 1, 1⟩ 2 "" = .error .invalid_argument ∧
    Axes.plot (fun v : Int => v) (Axes.ctor 800 600 : Axes Int)
      ⟨[5], [1], [0, 0, 0, 0, 0], 5, true⟩ ⟨[3], [1], [0, 0, 0], 3, true⟩
      ⟨0, 0, 1, 1⟩ 2 "" = .error .invalid_argument ∧
    Axes.scatter (fun v : Int => v) (Axes.ctor 800 600 : Axes Int)
      ⟨[0], [1], [], 0, true⟩ ⟨[0], [1], [], 0, true⟩
      2 ⟨0, 0, 1, 1⟩ "" = .error .invalid_argument :=
  ⟨((plot_scatter_spec (fun v : Int => v)
      { (Axes.ctor 800 600 : Axes Int) with lines := [⟨[0], [9], ⟨0, 0, 1, 1⟩, 2, "old"⟩] }
      ⟨[2], [1], [1, 2], 2, true⟩ ⟨[2], [1], [5, 6], 2, true⟩ ⟨1, 0, 0, 1⟩ 3 "new").2.2
      rfl rfl rfl (by decide) (by decide) (by decide)).1,
    (plot_scatter_spec (fun v : Int => v) (Axes.ctor 800 600 : Axes Int)
      ⟨[5], [1], [0, 0, 0, 0, 0], 5, true⟩ ⟨[2, 3], [3, 1], [0, 0, 0, 0, 0, 0], 6, true⟩
      ⟨0, 0, 1, 1⟩ 2 "").1.2 (Or.inr (Or.inl (by decide))),
    (plot_scatter_spec (fun v : Int => v) (Axes.ctor 800 600 : Axes Int)
      ⟨[5], [1], [0, 0, 0, 0, 0], 5, true⟩ ⟨[3], [1], [0, 0, 0], 3, true⟩
      ⟨0, 0, 1, 1⟩ 2 "").1.2 (Or.inr (Or.inr (Or.inl (by decide)))),
    (plot_scatter_spec (fun v : Int => v) (Axes.ctor 800 600 : Axes Int)
      ⟨[0], [1], [], 0, true⟩ ⟨[0], [1], [], 0, true⟩
      ⟨0, 0, 1, 1⟩ 2 "").2.1.2 (Or.inr (Or.inr (Or.inr rfl)))⟩

end catplot
